import Mathlib

/-!
Lifecycle and phase state machines of the juju state package.

A shallow embedding of `state/machine.go`, `state/modelmigration.go`,
`state/annotator.go` (the op that removes annotations) and
`payload/persistence/mongo_txn.go`.

* Calls that reach the document store (`st.containerRefs.FindId`, `st.Machine`,
  `st.runner.Run`, ...) are the nodes of a program tree `Prog`; the code between two
  calls is ordinary Lean.  A program is run against any handler of the requests
  (`Prog.exec`), which covers every behaviour of the store, and against the document
  store of the specification (`Store.handle`).
* Go `error` values are the type `Error`; a `nil` error is `none`.
-/

namespace Juju

/-! ## Values, documents and errors -/

/-- Modelled from the spec: the `Life` type of state/life.go, which is not among the
sources: the enumeration Alive, Dying, Dead, totally ordered. -/
inductive Life where
  | Alive
  | Dying
  | Dead
  deriving DecidableEq, Repr, Inhabited

/-- The integer stored for a `Life` value (`Alive Life = iota`). -/
def Life.toInt : Life → Int
  | .Alive => 0
  | .Dying => 1
  | .Dead => 2

/-- Reading a stored integer back as a `Life`. -/
def Life.ofInt (i : Int) : Option Life :=
  if i = 0 then some .Alive else if i = 1 then some .Dying else if i = 2 then some .Dead else none

instance : LT Life := ⟨fun a b => a.toInt < b.toInt⟩
instance : LE Life := ⟨fun a b => a.toInt ≤ b.toInt⟩
instance (a b : Life) : Decidable (a < b) := inferInstanceAs (Decidable (a.toInt < b.toInt))
instance (a b : Life) : Decidable (a ≤ b) := inferInstanceAs (Decidable (a.toInt ≤ b.toInt))

/-- The type `MachineJob` (`type MachineJob int`). -/
abbrev MachineJob := Int

def JobHostUnits : MachineJob := 1
def JobManageEnviron : MachineJob := 2
def JobServeAPI : MachineJob := 3

/-- The type `InstanceId` (`type InstanceId string`). -/
abbrev InstanceId := String

/-- Modelled from the spec: the `Tools` type of state/tools.go, which is not among the
sources: an agent binary version reference. -/
structure Tools where
  Number : String
  Series : String
  Arch : String
  URL : String
  deriving DecidableEq, Repr

/-- A field value of a stored document. -/
inductive Value where
  | str (s : String)
  | int (i : Int)
  | bool (b : Bool)
  | strs (l : List String)
  | ints (l : List Int)
  | tools (t : Tools)
  deriving DecidableEq, Repr

/-- The elements of an array value, `none` for a scalar. -/
def Value.elems : Value → Option (List Value)
  | .strs l => some (l.map Value.str)
  | .ints l => some (l.map Value.int)
  | _ => none

/-- A stored document: its fields in order. -/
abbrev Doc := List (String × Value)

/-- The value of field `k`. -/
def Doc.get (d : Doc) (k : String) : Option Value :=
  match d with
  | [] => none
  | (k', v) :: rest => if k' = k then some v else Doc.get rest k

/-- The document with field `k` set to `v` (one field of a `$set`). -/
def Doc.set (d : Doc) (k : String) (v : Value) : Doc :=
  match d with
  | [] => [(k, v)]
  | (k', v') :: rest => if k' = k then (k, v) :: rest else (k', v') :: Doc.set rest k v

/-- All fields of a `$set` update applied in turn. -/
def Doc.setAll (d : Doc) (fields : List (String × Value)) : Doc :=
  fields.foldl (fun acc kv => Doc.set acc kv.1 kv.2) d

/-- Go `error` values. -/
inductive Error where
  /-- The sentinel txn.ErrAborted: the store rejected the op set. -/
  | ErrAborted
  /-- The sentinel mgo.ErrNotFound. -/
  | ErrNotFound
  /-- The sentinel ErrExcessiveContention of the state package. -/
  | ErrExcessiveContention
  /-- The sentinel errNotAlive of the state package. -/
  | errNotAlive
  /-- The sentinel errDead of the state package. -/
  | errDead
  /-- Any other error value produced by the store or its driver, e.g. a lost connection. -/
  | store (msg : String)
  /-- The error `errors.New(msg)`. -/
  | New (msg : String)
  /-- The error `fmt.Errorf(format, args...)`; an error argument is given by its text. -/
  | Errorf (format : String) (args : List String)
  /-- The error `errors.NotFoundf(format, args...)`. -/
  | NotFoundf (format : String) (args : List String)
  /-- The error `errors.NotValidf(format, args...)`. -/
  | NotValidf (format : String) (args : List String)
  | HasAssignedUnitsError (MachineId : String) (UnitNames : List String)
  | HasContainersError (MachineId : String) (ContainerIds : List String)
  /-- The error `errors.Annotate(cause, msg)`. -/
  | Annotate (cause : Error) (msg : String)
  /-- The error `errors.Trace(cause)`. -/
  | Trace (cause : Error)
  /-- What `utils.ErrorContextf(&err, format, args...)` leaves in `err` when it held `cause`. -/
  | ErrorContextf (format : String) (args : List String) (cause : Error)
  deriving DecidableEq, Repr

/-- Modelled from the spec: the text of the sentinel ErrExcessiveContention, whose
declaration is not among the sources. -/
def ErrExcessiveContentionText : String := "state changing too quickly; try again soon"

/-- Modelled from the spec: `errors.IsNotFoundError`, which is not among the sources:
it recognises the errors made by `errors.NotFoundf`. -/
def IsNotFoundError : Option Error → Bool
  | some (.NotFoundf _ _) => true
  | _ => false

/-- The function `IsHasAssignedUnitsError`. -/
def IsHasAssignedUnitsError : Option Error → Bool
  | some (.HasAssignedUnitsError _ _) => true
  | _ => false

/-- The function `IsHasContainersError`. -/
def IsHasContainersError : Option Error → Bool
  | some (.HasContainersError _ _) => true
  | _ => false

/-- Modelled from the spec: `utils.ErrorContextf`, which is not among the sources: a
non-nil error is given the formatted context, a nil error stays nil. -/
def ErrorContextf (err : Option Error) (format : String) (args : List String) : Option Error :=
  match err with
  | none => none
  | some e => some (.ErrorContextf format args e)

/-- Modelled from the spec: `onAbort`, which is not among the sources: the rejection
txn.ErrAborted is replaced by `abortErr`, any other result is kept. -/
def onAbort (txnErr : Option Error) (abortErr : Option Error) : Option Error :=
  if txnErr = some .ErrAborted then abortErr else txnErr

/-! ## Queries, assertions and ops of the document store -/

/-- A condition on one field of a document, as written in a query document. -/
inductive Cond where
  /-- The element `{field, v}`: the field equals `v`, or is an array holding `v`. -/
  | eq (v : Value)
  /-- The element `{field, {"$ne", v}}`. -/
  | ne (v : Value)
  /-- The element `{field, {"$nin", vs}}`. -/
  | nin (vs : List Value)
  /-- The element `{field, {"$size", n}}`. -/
  | size (n : Nat)
  /-- The element `{field, {"$exists", b}}`. -/
  | exist (b : Bool)
  deriving DecidableEq, Repr

/-- One element of a query document `D`. -/
inductive Elem where
  | field (name : String) (c : Cond)
  /-- The element `{"$or", alts}`, each alternative a document of field conditions. -/
  | or (alts : List (List (String × Cond)))
  deriving DecidableEq, Repr

/-- The type `D` of query documents: every element has to hold. -/
abbrev D := List Elem

/-- Modelled from the spec: the predicates of the Document Store on a field.  Whether a
field with value `x` (`none` when the field is absent) meets a condition. -/
def Cond.holds (c : Cond) (x : Option Value) : Bool :=
  match c, x with
  | .eq _, none => false
  | .eq v, some w =>
    w == v || (match w.elems with
      | some l => l.contains v
      | none => false)
  | .ne _, none => true
  | .ne v, some w =>
    !(w == v || (match w.elems with
      | some l => l.contains v
      | none => false))
  | .nin _, none => true
  | .nin vs, some w =>
    (match w.elems with
      | some l => l.all (fun e => !vs.contains e)
      | none => !vs.contains w)
  | .size _, none => false
  | .size n, some w =>
    (match w.elems with
      | some l => l.length == n
      | none => false)
  | .exist b, x => x.isSome == b

/-- Whether a document meets one element of a query document. -/
def Elem.holds (e : Elem) (d : Doc) : Bool :=
  match e with
  | .field name c => c.holds (d.get name)
  | .or alts => alts.any (fun alt => alt.all (fun fc => fc.2.holds (d.get fc.1)))

/-- Whether a document meets a query document. -/
def D.holds (q : D) (d : Doc) : Bool :=
  q.all (fun e => e.holds d)

/-- The `Assert` field of a `txn.Op`. -/
inductive Assert where
  /-- No assertion (the field is left nil). -/
  | nothing
  /-- The assertion txn.DocExists. -/
  | DocExists
  /-- The assertion txn.DocMissing. -/
  | DocMissing
  /-- A query document the current document has to meet. -/
  | query (q : D)
  deriving DecidableEq, Repr

/-- Modelled from the spec: the assertions of the Document Store.  Whether the assertion
holds of the current document (`none` when there is none). -/
def Assert.holds (a : Assert) (cur : Option Doc) : Bool :=
  match a, cur with
  | .nothing, _ => true
  | .DocExists, cur => cur.isSome
  | .DocMissing, cur => cur.isNone
  | .query _, none => false
  | .query q, some d => D.holds q d

/-- The `Update` field of a `txn.Op`. -/
inductive Update where
  /-- The update `{"$set", fields}`. -/
  | set (fields : List (String × Value))
  deriving DecidableEq, Repr

/-- The type `txn.Op`: one operation on the document `Id` of collection `C`. -/
structure Op where
  C : String
  Id : String
  Assert : Assert := .nothing
  Insert : Option Doc := none
  Update : Option Update := none
  Remove : Bool := false
  deriving DecidableEq, Repr

/-- Modelled from the spec: the query document isAliveDoc of state/life.go, which is
not among the sources: "currently Alive". -/
def isAliveDoc : D := [.field "life" (.eq (.int Life.Alive.toInt))]

/-- Modelled from the spec: the query document notDeadDoc of state/life.go, which is
not among the sources: "not already Dead". -/
def notDeadDoc : D := [.field "life" (.ne (.int Life.Dead.toInt))]

/-- Modelled from the spec: the name of the collection `st.machines`, whose declaration
is not among the sources. -/
def machinesC : String := "machines"

/-- Modelled from the spec: the name of the collection `st.containerRefs`, whose
declaration is not among the sources. -/
def containerRefsC : String := "containerRefs"

/-! ## Machines -/

/-- The type `machineDoc`: the internal state of a machine in the store. -/
structure machineDoc where
  Id : String
  Nonce : String
  Series : String
  ContainerType : String
  InstanceId : InstanceId
  Principals : List String
  Life : Life
  Tools : Option Tools
  TxnRevno : Int
  Jobs : List MachineJob
  PasswordHash : String
  Clean : Bool
  deriving DecidableEq, Repr

/-- The type `annotator`, as `newMachine` fills it. -/
structure annotator where
  globalKey : String
  tag : String
  deriving DecidableEq, Repr

/-- The type `Machine`; its field `st` is the store the requests of a program go to. -/
structure Machine where
  doc : machineDoc
  annotator : annotator
  deriving DecidableEq, Repr

/-- The function `machineGlobalKey`. -/
def machineGlobalKey (id : String) : String := "m#" ++ id

/-- The function `MachineTag`. -/
def MachineTag (id : String) : String := "machine-" ++ id

/-- The function `newMachine`. -/
def newMachine (doc : machineDoc) : Machine :=
  { doc := doc
    annotator := { globalKey := machineGlobalKey doc.Id, tag := MachineTag doc.Id } }

/-- The method `Machine.Id`. -/
def Machine.Id (m : Machine) : String := m.doc.Id

/-- The method `Machine.Jobs`. -/
def Machine.Jobs (m : Machine) : List MachineJob := m.doc.Jobs

/-- The method `Machine.String` (lower case here, next to the type `String`). -/
def Machine.string (m : Machine) : String := m.doc.Id

/-- The method `Machine.globalKey`. -/
def Machine.globalKey (m : Machine) : String := machineGlobalKey m.doc.Id

/-- The method `Machine.InstanceId` (lower case here, next to the type `InstanceId`). -/
def Machine.instanceId (m : Machine) : InstanceId × Bool :=
  (m.doc.InstanceId, m.doc.InstanceId != "")

/-- The method `Machine.CheckProvisioned`. -/
def Machine.CheckProvisioned (m : Machine) (nonce : String) : Bool :=
  m.doc.Nonce == nonce && m.doc.InstanceId != ""

/-- The stored form of a `machineDoc`: one field per struct field, under its bson key;
`tools` is left out when nil (`omitempty`). -/
def machineDoc.toDoc (d : machineDoc) : Doc :=
  [("_id", .str d.Id), ("nonce", .str d.Nonce), ("series", .str d.Series),
   ("containertype", .str d.ContainerType), ("instanceid", .str d.InstanceId),
   ("principals", .strs d.Principals), ("life", .int d.Life.toInt)]
  ++ (match d.Tools with
      | some t => [("tools", .tools t)]
      | none => [])
  ++ [("txn-revno", .int d.TxnRevno), ("jobs", .ints d.Jobs),
      ("passwordhash", .str d.PasswordHash), ("clean", .bool d.Clean)]

/-- The string held by field `k`, the zero value when absent or of another type. -/
def Doc.getStr (d : Doc) (k : String) : String :=
  match d.get k with
  | some (.str s) => s
  | _ => ""

/-- The strings held by field `k`, nil when absent or of another type. -/
def Doc.getStrs (d : Doc) (k : String) : List String :=
  match d.get k with
  | some (.strs l) => l
  | _ => []

/-- The integer held by field `k`, zero when absent or of another type. -/
def Doc.getInt (d : Doc) (k : String) : Int :=
  match d.get k with
  | some (.int i) => i
  | _ => 0

/-- The integers held by field `k`, nil when absent or of another type. -/
def Doc.getInts (d : Doc) (k : String) : List Int :=
  match d.get k with
  | some (.ints l) => l
  | _ => []

/-- The boolean held by field `k`, false when absent or of another type. -/
def Doc.getBool (d : Doc) (k : String) : Bool :=
  match d.get k with
  | some (.bool b) => b
  | _ => false

/-- The tools held by field `k`, nil when absent or of another type. -/
def Doc.getTools (d : Doc) (k : String) : Option Tools :=
  match d.get k with
  | some (.tools t) => some t
  | _ => none

/-- The life a stored document records: the value of its `life` field, Alive (the zero
value) when the field is absent, nothing when it holds no `Life`. -/
def Doc.life (d : Doc) : Option Life :=
  match d.get "life" with
  | none => some .Alive
  | some (.int i) => Life.ofInt i
  | some _ => none

/-- Reading a stored document into a `machineDoc` (what `One(&doc)` does): absent
fields take their zero value; a `life` field that holds no `Life` is refused. -/
def machineDoc.ofDoc (d : Doc) : Option machineDoc :=
  match d.life with
  | none => none
  | some life =>
    some { Id := d.getStr "_id", Nonce := d.getStr "nonce", Series := d.getStr "series",
           ContainerType := d.getStr "containertype", InstanceId := d.getStr "instanceid",
           Principals := d.getStrs "principals", Life := life, Tools := d.getTools "tools",
           TxnRevno := d.getInt "txn-revno", Jobs := d.getInts "jobs",
           PasswordHash := d.getStr "passwordhash", Clean := d.getBool "clean" }

/-- Modelled from the spec: the type `machineContainers` of state/container.go, which is
not among the sources: the recorded child containers of a machine. -/
structure machineContainers where
  Id : String
  Children : List String
  deriving DecidableEq, Repr

/-- The stored form of a `machineContainers`; `children` is left out when empty. -/
def machineContainers.toDoc (mc : machineContainers) : Doc :=
  ("_id", .str mc.Id) :: (if mc.Children = [] then [] else [("children", .strs mc.Children)])

/-- Reading a stored document into a `machineContainers`. -/
def machineContainers.ofDoc (d : Doc) : machineContainers :=
  { Id := d.getStr "_id", Children := d.getStrs "children" }

/-! ## Programs over the store -/

/-- Modelled from the spec: the type `Model` of state/model.go, which is not among the
sources: the owning model of a `State`, with its UUID and its life. -/
structure Model where
  UUID : String
  Life : Life
  deriving DecidableEq, Repr

/-- The calls a method makes on the store, the clock and the unlisted helpers. -/
inductive Req where
  /-- The read `coll.FindId(id).One(&doc)` on the collection named `C`. -/
  | FindId (C : String) (id : String)
  /-- The call `st.Machine(id)`. -/
  | StMachine (id : String)
  /-- The submission of an op set: `st.runner.Run(ops, "", nil)`, `st.runTransaction(ops)`. -/
  | Run (ops : List Op)
  /-- The call `isAlive(coll, id)` on the collection named `C`. -/
  | IsAlive (C : String) (id : String)
  /-- The clock reading `GetClock().Now().UnixNano()`. -/
  | Now
  /-- The count `coll.FindId(id).Count()` on the collection named `C`. -/
  | CountId (C : String) (id : String)
  /-- The read `coll.Find(q).Sort("-_id").Limit(1).One(&doc)` on the collection named `C`. -/
  | FindTopId (C : String) (q : D)
  /-- The call `st.Model()` on the state of the model `uuid`. -/
  | StModel (uuid : String)
  /-- The call `st.ControllerModel()`. -/
  | StControllerModel
  /-- The call `st.sequence(name)` on the state of the model `uuid`. -/
  | Sequence (uuid : String) (name : String)
  deriving DecidableEq, Repr

/-- What each call returns. -/
def Req.Resp : Req → Type
  | .FindId _ _ => Except Error Doc
  | .StMachine _ => Except Error Machine
  | .Run _ => Option Error
  | .IsAlive _ _ => Bool × Option Error
  | .Now => Int
  | .CountId _ _ => Int × Option Error
  | .FindTopId _ _ => Except Error Doc
  | .StModel _ => Except Error Model
  | .StControllerModel => Except Error Model
  | .Sequence _ _ => Except Error Int

/-- A method as a tree: it returns, or makes a call and goes on with the answer. -/
inductive Prog (α : Type) where
  | ret (a : α)
  | call (r : Req) (k : Req.Resp r → Prog α)

/-- Sequencing of programs. -/
def Prog.bind {α β : Type} : Prog α → (α → Prog β) → Prog β
  | .ret a, f => f a
  | .call r k, f => .call r (fun x => (k x).bind f)

/-- One call of a run together with its answer. -/
inductive Event where
  | FindId (C : String) (id : String) (r : Except Error Doc)
  | StMachine (id : String) (r : Except Error Machine)
  | Run (ops : List Op) (r : Option Error)
  | IsAlive (C : String) (id : String) (r : Bool × Option Error)
  | Now (t : Int)
  | CountId (C : String) (id : String) (r : Int × Option Error)
  | FindTopId (C : String) (q : D) (r : Except Error Doc)
  | StModel (uuid : String) (r : Except Error Model)
  | StControllerModel (r : Except Error Model)
  | Sequence (uuid : String) (name : String) (r : Except Error Int)

/-- The event of a call and its answer. -/
def Event.of : (r : Req) → Req.Resp r → Event
  | .FindId C id, x => .FindId C id x
  | .StMachine id, x => .StMachine id x
  | .Run ops, x => .Run ops x
  | .IsAlive C id, x => .IsAlive C id x
  | .Now, x => .Now x
  | .CountId C id, x => .CountId C id x
  | .FindTopId C q, x => .FindTopId C q x
  | .StModel uuid, x => .StModel uuid x
  | .StControllerModel, x => .StControllerModel x
  | .Sequence uuid name, x => .Sequence uuid name x

/-- The outcome of running a program: its value, the final state of the store and the
calls made, in order. -/
structure Trace (σ α : Type) where
  val : α
  store : σ
  log : List Event

/-- Running a program against a handler of its calls, from the state `s`. -/
def Prog.exec {σ α : Type} (h : (r : Req) → σ → Req.Resp r × σ) : Prog α → σ → Trace σ α
  | .ret a, s => { val := a, store := s, log := [] }
  | .call r k, s =>
    let t := Prog.exec h (k (h r s).1) (h r s).2
    { val := t.val, store := t.store, log := Event.of r (h r s).1 :: t.log }

/-- The op sets submitted to the store in a run, in order. -/
def submitted : List Event → List (List Op)
  | [] => []
  | .Run ops _ :: rest => ops :: submitted rest
  | _ :: rest => submitted rest

/-- The answers of the store to the op sets submitted in a run, in order. -/
def runResults : List Event → List (Option Error)
  | [] => []
  | .Run _ x :: rest => x :: runResults rest
  | _ :: rest => runResults rest

/-- The sequences a run allocates a number from, in order. -/
def allocated : List Event → List String
  | [] => []
  | .Sequence _ name _ :: rest => name :: allocated rest
  | _ :: rest => allocated rest

/-- The answers to the refetches through `st.Machine` in a run, in order. -/
def refetches : List Event → List (Except Error Machine)
  | [] => []
  | .StMachine _ x :: rest => x :: refetches rest
  | _ :: rest => refetches rest

/-- A property of every run of a program, whatever the answers to its calls: `P` holds
of the calls made and of the value returned. -/
def Prog.Always {α : Type} (P : List Event → α → Prop) : Prog α → Prop
  | .ret a => P [] a
  | .call r k => ∀ x : Req.Resp r, Prog.Always (fun log a => P (Event.of r x :: log) a) (k x)

/-! ## Machine.advanceLifecycle -/

/-- The method `Machine.Containers`: the container ids belonging to a parent machine. -/
def Machine.Containers (m : Machine) : Prog (Except Error (List String)) :=
  .call (.FindId containerRefsC m.Id) fun (r : Except Error Doc) =>
    match r with
    | .ok mc => .ret (.ok (machineContainers.ofDoc mc).Children)
    | .error err =>
      if err = .ErrNotFound then
        .ret (.error (.NotFoundf "container info for machine %v" [m.Id]))
      else .ret (.error err)

/-- How a call ends: it returns its error result (`none` for nil), or it panics. -/
inductive Outcome where
  | returned (err : Option Error)
  | panicked (v : Error)
  deriving DecidableEq, Repr

/-- How the body of `advanceLifecycle` is left, as its deferred function sees it: the
variable `m` (`none` for nil), the named result `err`, and the panic under way if any. -/
structure Exit where
  m : Option Machine
  err : Option Error
  panicking : Option Error
  deriving DecidableEq, Repr

/-- What the caller gets from a call left in this way. -/
def Exit.outcome (x : Exit) : Outcome :=
  match x.panicking with
  | some v => .panicked v
  | none => .returned x.err

/-- Modelled from the spec: the text `%v` prints for a `Life`, whose `String` method is
not among the sources. -/
def Life.text : Life → String
  | .Alive => "alive"
  | .Dying => "dying"
  | .Dead => "dead"

/-- The variable `op` of `advanceLifecycle` as built before the loop. -/
def advanceOp (original : Machine) (life : Life) : Op :=
  { C := machinesC
    Id := original.doc.Id
    Update := some (.set [("life", .int life.toInt)]) }

/-- The variable `advanceAsserts` of `advanceLifecycle`. -/
def advanceAsserts : D :=
  [ .field "jobs" (.nin [.int JobManageEnviron]),
    .or [[("principals", .size 0)], [("principals", .exist false)]] ]

/-- The end of a pass of the loop of `advanceLifecycle`, from the check of the jobs on:
`some x` when the method is left, `none` when the transaction was aborted and the loop
goes on. -/
def advanceChecked (op : Op) (m : Machine) : Prog (Option Exit) :=
  if m.doc.Jobs.any (fun j => j == JobManageEnviron) then
    .ret (some ⟨some m, some (.Errorf "machine %s is required by the environment" [m.doc.Id]),
      none⟩)
  else if m.doc.Principals.length ≠ 0 then
    .ret (some ⟨some m, some (.HasAssignedUnitsError m.doc.Id m.doc.Principals), none⟩)
  else
    .call (.Run [op]) fun (err : Option Error) =>
      if err ≠ some .ErrAborted then .ret (some ⟨some m, err, none⟩)
      else .ret none

/-- A pass of the loop of `advanceLifecycle` after the refetch: the switch on `life`,
then `advanceChecked` with the assertion the switch gave the op. -/
def advanceAttempt (op : Op) (life : Life) (m : Machine) : Prog (Option Exit) :=
  match life with
  | .Dying =>
    if m.doc.Life ≠ .Alive then .ret (some ⟨some m, none, none⟩)
    else advanceChecked { op with Assert := .query (advanceAsserts ++ isAliveDoc) } m
  | .Dead =>
    if m.doc.Life = .Dead then .ret (some ⟨some m, none, none⟩)
    else advanceChecked { op with Assert := .query (advanceAsserts ++ notDeadDoc) } m
  | .Alive =>
    .ret (some ⟨some m, none, some (.Errorf "cannot advance lifecycle to %v" [life.text])⟩)

/-- The start of a pass of the loop of `advanceLifecycle`: on passes after the first a
fresh copy of the machine is fetched; a machine that is gone ends the method. -/
def advanceRefetch (i : Nat) (m : Machine) : Prog (Exit ⊕ Machine) :=
  if i ≠ 0 then
    .call (.StMachine m.doc.Id) fun (r : Except Error Machine) =>
      match r with
      | .error err =>
        if IsNotFoundError (some err) then .ret (.inl ⟨none, none, none⟩)
        else .ret (.inl ⟨none, some err, none⟩)
      | .ok fresh => .ret (.inr fresh)
  else .ret (.inr m)

/-- The loop `for i := 0; i < 3; i++` of `advanceLifecycle` and the return after it;
the first argument counts the passes left, `3 - i`. -/
def advanceLoop (op : Op) (life : Life) : Nat → Nat → Machine → Prog Exit
  | 0, _, m =>
    .ret ⟨some m, some (.Errorf "machine %s cannot advance lifecycle: %v"
      [m.string, ErrExcessiveContentionText]), none⟩
  | left + 1, i, m =>
    (advanceRefetch i m).bind fun r =>
      match r with
      | .inl x => .ret x
      | .inr m =>
        (advanceAttempt op life m).bind fun a =>
          match a with
          | some x => .ret x
          | none => advanceLoop op life left (i + 1) m

/-- The deferred function of `advanceLifecycle`: the receiver after the call. -/
def advanceDeferred (original : Machine) (life : Life) (x : Exit) : Machine :=
  if x.err = none then
    let life :=
      match x.m with
      | none => Life.Dead
      | some m => if m.doc.Life > life then m.doc.Life else life
    { original with doc := { original.doc with Life := life } }
  else original

/-- The method `Machine.advanceLifecycle`: the outcome and the receiver after the call. -/
def Machine.advanceLifecycle (original : Machine) (life : Life) : Prog (Outcome × Machine) :=
  original.Containers.bind fun r =>
    match r with
    | .error err => .ret (.returned (some err), original)
    | .ok containers =>
      if containers.length > 0 then
        .ret (.returned (some (.HasContainersError original.doc.Id containers)), original)
      else
        (advanceLoop (advanceOp original life) life 3 0 original).bind fun x =>
          .ret (x.outcome, advanceDeferred original life x)

/-- The method `Machine.Destroy`. -/
def Machine.Destroy (m : Machine) : Prog (Outcome × Machine) :=
  m.advanceLifecycle .Dying

/-- The method `Machine.EnsureDead`. -/
def Machine.EnsureDead (m : Machine) : Prog (Outcome × Machine) :=
  m.advanceLifecycle .Dead

/-! ## Machine.SetProvisioned -/

/-- The variable `notSetYet` of `SetProvisioned`. -/
def notSetYet : D := [.field "instanceid" (.eq (.str "")), .field "nonce" (.eq (.str ""))]

/-- The variable `ops` of `SetProvisioned`. -/
def setProvisionedOps (m : Machine) (id : InstanceId) (nonce : String) : List Op :=
  [{ C := machinesC
     Id := m.doc.Id
     Assert := .query (isAliveDoc ++ notSetYet)
     Update := some (.set [("instanceid", .str id), ("nonce", .str nonce)]) }]

/-- The method `Machine.SetProvisioned`: the error returned, after the deferred
`utils.ErrorContextf`, and the receiver after the call. -/
def Machine.SetProvisioned (m : Machine) (id : InstanceId) (nonce : String) :
    Prog (Option Error × Machine) :=
  let deferred := fun (err : Option Error) =>
    ErrorContextf err "cannot set instance id of machine %q" [m.string]
  if id = "" ∨ nonce = "" then
    .ret (deferred (some (.Errorf "instance id and nonce cannot be empty" [])), m)
  else
    .call (.Run (setProvisionedOps m id nonce)) fun (err : Option Error) =>
      if err = none then
        .ret (deferred none, { m with doc := { m.doc with InstanceId := id, Nonce := nonce } })
      else if err ≠ some .ErrAborted then .ret (deferred err, m)
      else
        .call (.IsAlive machinesC m.doc.Id) fun (r : Bool × Option Error) =>
          if r.2 ≠ none then .ret (deferred r.2, m)
          else if !r.1 then .ret (deferred (some .errNotAlive), m)
          else .ret (deferred (some (.Errorf "already set" [])), m)

/-! ## Model migrations: modelMigration.SetPhase -/

/-- The type `migration.Phase` (`type Phase int`). -/
abbrev migration.Phase := Int

/-- Modelled from the spec: the phases of core/migration, which is not among the
sources: a finite set of named phases with a static transition table.  The table is a
parameter of the methods that use it. -/
structure migration.Table where
  /-- The function `migration.ParsePhase`. -/
  ParsePhase : String → migration.Phase × Bool
  /-- The method `Phase.String`. -/
  PhaseString : migration.Phase → String
  /-- The method `Phase.CanTransitionTo`. -/
  CanTransitionTo : migration.Phase → migration.Phase → Bool
  /-- The method `Phase.IsTerminal`. -/
  IsTerminal : migration.Phase → Bool
  /-- The phase `migration.SUCCESS`. -/
  SUCCESS : migration.Phase
  /-- The phase `migration.QUIESCE`. -/
  QUIESCE : migration.Phase

/-- The type `modelMigDoc`: the parameters of a migration attempt. -/
structure modelMigDoc where
  Id : String
  ModelUUID : String
  InitiatedBy : String
  TargetController : String
  TargetAddrs : List String
  TargetCACert : String
  TargetAuthTag : String
  TargetPassword : String
  deriving DecidableEq, Repr

/-- The type `modelMigStatusDoc`: the progress of a migration attempt. -/
structure modelMigStatusDoc where
  Id : String
  StartTime : Int
  SuccessTime : Int
  EndTime : Int
  Phase : String
  PhaseChangedTime : Int
  StatusMessage : String
  deriving DecidableEq, Repr

/-- The type `modelMigration`. -/
structure modelMigration where
  doc : modelMigDoc
  statusDoc : modelMigStatusDoc
  deriving DecidableEq, Repr

/-- Modelled from the spec: the name of the collection of migration descriptors, whose
declaration is not among the sources. -/
def migrationsC : String := "migrations"

/-- Modelled from the spec: the name of the collection of migration status documents,
whose declaration is not among the sources. -/
def migrationsStatusC : String := "migrations.status"

/-- Modelled from the spec: the name of the collection of active-migration markers,
whose declaration is not among the sources. -/
def migrationsActiveC : String := "migrations.active"

/-- The method `modelMigration.Phase`. -/
def modelMigration.Phase (P : migration.Table) (mig : modelMigration) :
    migration.Phase × Option Error :=
  let r := P.ParsePhase mig.statusDoc.Phase
  if !r.2 then (r.1, some (.Errorf "invalid phase in DB: %v" [mig.statusDoc.Phase]))
  else (r.1, none)

/-- The variables `nextDoc` and `update` of `SetPhase` once all stamps are in. -/
def setPhaseNext (P : migration.Table) (mig : modelMigration) (nextPhase : migration.Phase)
    (now : Int) : modelMigStatusDoc × List (String × Value) :=
  let nextDoc := { mig.statusDoc with Phase := P.PhaseString nextPhase, PhaseChangedTime := now }
  let update := [("phase", Value.str nextDoc.Phase), ("phase-changed-time", Value.int now)]
  let p1 :=
    if nextPhase = P.SUCCESS then
      ({ nextDoc with SuccessTime := now }, update ++ [("success-time", Value.int now)])
    else (nextDoc, update)
  if P.IsTerminal nextPhase then
    ({ p1.1 with EndTime := now }, p1.2 ++ [("end-time", Value.int now)])
  else p1

/-- The variable `ops` of `SetPhase` as submitted. -/
def setPhaseOps (P : migration.Table) (mig : modelMigration) (nextPhase : migration.Phase)
    (now : Int) : List Op :=
  (if P.IsTerminal nextPhase then
    [{ C := migrationsActiveC, Id := mig.doc.ModelUUID, Assert := .DocExists, Remove := true }]
   else [])
  ++ [{ C := migrationsStatusC
        Id := mig.statusDoc.Id
        Update := some (.set (setPhaseNext P mig nextPhase now).2)
        Assert := .query [.field "phase" (.eq (.str mig.statusDoc.Phase))] }]

/-- The method `modelMigration.SetPhase`: the error returned and the receiver after the
call. -/
def modelMigration.SetPhase (P : migration.Table) (mig : modelMigration)
    (nextPhase : migration.Phase) : Prog (Option Error × modelMigration) :=
  .call .Now fun (now : Int) =>
    match mig.Phase P with
    | (_, some err) => .ret (some (.Trace err), mig)
    | (phase, none) =>
      if nextPhase = phase then .ret (none, mig)
      else if !P.CanTransitionTo phase nextPhase then
        .ret (some (.Errorf "illegal phase change: %s -> %s"
          [P.PhaseString phase, P.PhaseString nextPhase]), mig)
      else
        .call (.Run (setPhaseOps P mig nextPhase now)) fun (err : Option Error) =>
          match err with
          | some .ErrAborted => .ret (some (.New "phase already changed"), mig)
          | some e => .ret (some (.Annotate e "failed to update phase"), mig)
          | none => .ret (none, { mig with statusDoc := (setPhaseNext P mig nextPhase now).1 })

/-! ## Model migrations: the documents, SetStatusMessage and Refresh -/

/-- The stored form of a `modelMigDoc`: one field per struct field, under its bson key. -/
def modelMigDoc.toDoc (d : modelMigDoc) : Doc :=
  [("_id", .str d.Id), ("model-uuid", .str d.ModelUUID), ("initiated-by", .str d.InitiatedBy),
   ("target-controller", .str d.TargetController), ("target-addrs", .strs d.TargetAddrs),
   ("target-cacert", .str d.TargetCACert), ("target-entity", .str d.TargetAuthTag),
   ("target-password", .str d.TargetPassword)]

/-- Reading a stored document into a `modelMigDoc` (what `One(&doc)` does). -/
def modelMigDoc.ofDoc (d : Doc) : modelMigDoc :=
  { Id := d.getStr "_id", ModelUUID := d.getStr "model-uuid",
    InitiatedBy := d.getStr "initiated-by", TargetController := d.getStr "target-controller",
    TargetAddrs := d.getStrs "target-addrs", TargetCACert := d.getStr "target-cacert",
    TargetAuthTag := d.getStr "target-entity", TargetPassword := d.getStr "target-password" }

/-- The stored form of a `modelMigStatusDoc`: one field per struct field, under its bson
key. -/
def modelMigStatusDoc.toDoc (d : modelMigStatusDoc) : Doc :=
  [("_id", .str d.Id), ("start-time", .int d.StartTime), ("success-time", .int d.SuccessTime),
   ("end-time", .int d.EndTime), ("phase", .str d.Phase),
   ("phase-changed-time", .int d.PhaseChangedTime), ("status-message", .str d.StatusMessage)]

/-- Reading a stored document into a `modelMigStatusDoc` (what `One(&statusDoc)` does). -/
def modelMigStatusDoc.ofDoc (d : Doc) : modelMigStatusDoc :=
  { Id := d.getStr "_id", StartTime := d.getInt "start-time",
    SuccessTime := d.getInt "success-time", EndTime := d.getInt "end-time",
    Phase := d.getStr "phase", PhaseChangedTime := d.getInt "phase-changed-time",
    StatusMessage := d.getStr "status-message" }

/-- The method `modelMigration.Id`. -/
def modelMigration.Id (mig : modelMigration) : String := mig.doc.Id

/-- The method `modelMigration.ModelUUID`. -/
def modelMigration.ModelUUID (mig : modelMigration) : String := mig.doc.ModelUUID

/-- The method `modelMigration.StatusMessage`. -/
def modelMigration.StatusMessage (mig : modelMigration) : String := mig.statusDoc.StatusMessage

/-- The method `modelMigration.InitiatedBy`. -/
def modelMigration.InitiatedBy (mig : modelMigration) : String := mig.doc.InitiatedBy

/-- The variable `ops` of `SetStatusMessage`. -/
def setStatusMessageOps (mig : modelMigration) (text : String) : List Op :=
  [{ C := migrationsStatusC
     Id := mig.statusDoc.Id
     Update := some (.set [("status-message", .str text)])
     Assert := .DocExists }]

/-- The method `modelMigration.SetStatusMessage`: the error returned and the receiver
after the call. -/
def modelMigration.SetStatusMessage (mig : modelMigration) (text : String) :
    Prog (Option Error × modelMigration) :=
  .call (.Run (setStatusMessageOps mig text)) fun (err : Option Error) =>
    match err with
    | some e => .ret (some (.Annotate e "failed to set migration status"), mig)
    | none => .ret (none, { mig with statusDoc := { mig.statusDoc with StatusMessage := text } })

/-- The method `modelMigration.Refresh`: the error returned and the receiver after the
call. -/
def modelMigration.Refresh (mig : modelMigration) : Prog (Option Error × modelMigration) :=
  .call (.FindId migrationsStatusC mig.doc.Id) fun (r : Except Error Doc) =>
    match r with
    | .error err =>
      if err = .ErrNotFound then .ret (some (.NotFoundf "migration status" []), mig)
      else .ret (some (.Annotate err "migration status lookup failed"), mig)
    | .ok statusDoc => .ret (none, { mig with statusDoc := modelMigStatusDoc.ofDoc statusDoc })

/-! ## Model migrations: creation and lookup -/

/-- Modelled from the spec: the name of the collection of models, whose declaration is
not among the sources. -/
def modelsC : String := "models"

/-- Modelled from the spec: the name of the collection that records the controller
model, whose declaration is not among the sources. -/
def controllersC : String := "controllers"

/-- Modelled from the spec: the name of the collection of the sequence allocator, whose
declaration is not among the sources. -/
def sequenceC : String := "sequence"

/-- Modelled from the spec: the type `names.ModelTag` of the package names, which is
not among the sources: the tag of a model, made of its UUID. -/
structure names.ModelTag where
  uuid : String
  deriving DecidableEq, Repr

/-- Modelled from the spec: the function `names.NewModelTag`. -/
def names.NewModelTag (uuid : String) : names.ModelTag := { uuid := uuid }

/-- Modelled from the spec: the method `ModelTag.Id`. -/
def names.ModelTag.Id (t : names.ModelTag) : String := t.uuid

/-- Modelled from the spec: the type `names.UserTag` of the package names, which is not
among the sources: the tag of a user, made of a name and a domain. -/
structure names.UserTag where
  name : String
  domain : String
  deriving DecidableEq, Repr

/-- Modelled from the spec: the type `migration.TargetInfo` of core/migration, which is
not among the sources: the target-controller connection info (controller identity,
network addresses, CA certificate, authentication identity, credential). -/
structure migration.TargetInfo where
  ControllerTag : names.ModelTag
  Addrs : List String
  CACert : String
  AuthTag : names.UserTag
  Password : String
  deriving DecidableEq, Repr

/-- Modelled from the spec: what the methods use of the packages names and
core/migration, which are not among the sources: the functions on user tags and the
validation of a target.  They are a parameter of the methods that use them. -/
structure Lib where
  /-- The function `names.IsValidUser`. -/
  IsValidUser : String → Bool
  /-- The method `UserTag.Id`. -/
  UserTagId : names.UserTag → String
  /-- The method `UserTag.String`. -/
  UserTagString : names.UserTag → String
  /-- The function `names.ParseUserTag`. -/
  ParseUserTag : String → Except Error names.UserTag
  /-- The method `TargetInfo.Validate`. -/
  TargetInfoValidate : migration.TargetInfo → Option Error

/-- Modelled from the spec: the type `State` of state/state.go, which is not among the
sources: the handle on the store for one model: the UUID of the model, whether it is
the controller model, and the number of attempts `st.run` makes. -/
structure State where
  ModelUUID : String
  IsController : Bool
  attempts : Nat
  deriving DecidableEq, Repr

/-- Modelled from the spec: the method `Model.ModelTag`. -/
def Model.ModelTag (m : Model) : names.ModelTag := names.NewModelTag m.UUID

/-- Modelled from the spec: the method `Model.assertActiveOp`, which is not among the
sources: the op that asserts that the model stays Alive. -/
def Model.assertActiveOp (m : Model) : Op :=
  { C := modelsC, Id := m.UUID, Assert := .query isAliveDoc }

/-- Modelled from the spec: the method `st.localID`, which is not among the sources:
the part of a document id after the UUID of the model and the colon. -/
def localID (id : String) : String :=
  String.mk ((id.data.dropWhile (fun c => c != ':')).drop 1)

/-- The value of a list of decimal digits, read after the digits worth `acc`. -/
def digitsValue : List Char → Nat → Option Nat
  | [], acc => some acc
  | c :: rest, acc =>
    if c.isDigit then digitsValue rest (acc * 10 + (c.toNat - '0'.toNat)) else none

/-- Modelled from the spec: `strconv.Atoi` on the ids this package makes: the integer
written by a string of decimal digits, with an optional sign. -/
def Atoi (s : String) : Option Int :=
  match s.data with
  | [] => none
  | '-' :: c :: rest => (digitsValue (c :: rest) 0).map (fun n => - (n : Int))
  | '+' :: c :: rest => (digitsValue (c :: rest) 0).map (fun n => (n : Int))
  | cs => (digitsValue cs 0).map (fun n => (n : Int))

/-- The method `modelMigration.Attempt`. -/
def modelMigration.Attempt (mig : modelMigration) : Int × Option Error :=
  match Atoi (localID mig.doc.Id) with
  | none => (-1, some (.Errorf "invalid migration id: %v" [mig.doc.Id]))
  | some attempt => (attempt, none)

/-- The method `modelMigration.TargetInfo`. -/
def modelMigration.TargetInfo (L : Lib) (mig : modelMigration) :
    Except Error migration.TargetInfo :=
  match L.ParseUserTag mig.doc.TargetAuthTag with
  | .error err => .error (.Trace err)
  | .ok authTag =>
    .ok { ControllerTag := names.NewModelTag mig.doc.TargetController
          Addrs := mig.doc.TargetAddrs
          CACert := mig.doc.TargetCACert
          AuthTag := authTag
          Password := mig.doc.TargetPassword }

/-- The type `ModelMigrationSpec`. -/
structure ModelMigrationSpec where
  InitiatedBy : names.UserTag
  TargetInfo : migration.TargetInfo
  deriving DecidableEq, Repr

/-- The method `ModelMigrationSpec.Validate`. -/
def ModelMigrationSpec.Validate (L : Lib) (spec : ModelMigrationSpec) : Option Error :=
  if !L.IsValidUser (L.UserTagId spec.InitiatedBy) then some (.NotValidf "InitiatedBy" [])
  else L.TargetInfoValidate spec.TargetInfo

/-- The method `State.IsModelMigrationActive`. -/
def State.IsModelMigrationActive (st : State) : Prog (Bool × Option Error) :=
  .call (.CountId migrationsActiveC st.ModelUUID) fun (r : Int × Option Error) =>
    match r.2 with
    | some err => .ret (false, some (.Trace err))
    | none => .ret (decide (r.1 > 0), none)

/-- The function `checkTargetController`. -/
def checkTargetController (targetControllerTag : names.ModelTag) : Prog (Option Error) :=
  .call .StControllerModel fun (r : Except Error Model) =>
    match r with
    | .error err => .ret (some (.Annotate err "failed to load existing controller model"))
    | .ok currentController =>
      if targetControllerTag = currentController.ModelTag then
        .ret (some (.New "model already attached to target controller"))
      else .ret none

/-- The variables `doc` and `statusDoc` of `CreateModelMigration` as `buildTxn` fills
them for the sequence number `seq`. -/
def createDocs (L : Lib) (P : migration.Table) (st : State) (spec : ModelMigrationSpec)
    (now : Int) (seq : Int) : modelMigDoc × modelMigStatusDoc :=
  let id := st.ModelUUID ++ ":" ++ toString seq
  ({ Id := id
     ModelUUID := st.ModelUUID
     InitiatedBy := L.UserTagId spec.InitiatedBy
     TargetController := spec.TargetInfo.ControllerTag.Id
     TargetAddrs := spec.TargetInfo.Addrs
     TargetCACert := spec.TargetInfo.CACert
     TargetAuthTag := L.UserTagString spec.TargetInfo.AuthTag
     TargetPassword := spec.TargetInfo.Password },
   { Id := id
     StartTime := now
     SuccessTime := 0
     EndTime := 0
     Phase := P.PhaseString P.QUIESCE
     PhaseChangedTime := now
     StatusMessage := "" })

/-- The op set `buildTxn` of `CreateModelMigration` returns. -/
def createOps (st : State) (model : Model) (docs : modelMigDoc × modelMigStatusDoc) :
    List Op :=
  [{ C := migrationsC, Id := docs.1.Id, Assert := .DocMissing, Insert := some docs.1.toDoc },
   { C := migrationsStatusC, Id := docs.2.Id, Assert := .DocMissing,
     Insert := some docs.2.toDoc },
   { C := migrationsActiveC, Id := st.ModelUUID, Assert := .DocMissing,
     Insert := some [("id", .str docs.1.Id)] },
   model.assertActiveOp]

/-- The closure `buildTxn` of `CreateModelMigration`: the documents it leaves in `doc`
and `statusDoc` and the op set, or the error. -/
def createBuildTxn (L : Lib) (P : migration.Table) (st : State) (spec : ModelMigrationSpec)
    (now : Int) (_attempt : Nat) :
    Prog (Except Error ((modelMigDoc × modelMigStatusDoc) × List Op)) :=
  .call (.StModel st.ModelUUID) fun (r : Except Error Model) =>
    match r with
    | .error err => .ret (.error (.Annotate err "failed to load model"))
    | .ok model =>
      if model.Life ≠ .Alive then .ret (.error (.New "model is not alive"))
      else
        st.IsModelMigrationActive.bind fun active =>
          match active with
          | (_, some err) => .ret (.error (.Trace err))
          | (isActive, none) =>
            if isActive then .ret (.error (.New "already in progress"))
            else
              .call (.Sequence st.ModelUUID "modelmigration") fun (sq : Except Error Int) =>
                match sq with
                | .error err => .ret (.error (.Trace err))
                | .ok seq =>
                  .ret (.ok (createDocs L P st spec now seq,
                    createOps st model (createDocs L P st spec now seq)))

/-- Modelled from the spec: the method `st.run`, which is not among the sources: the
optimistic transaction engine.  It asks `buildTxn` for the op set and submits it; an
error of `buildTxn` or of the store other than the rejection is returned; on rejection
it asks again, up to the bound chosen for it, and past the bound it returns the
excessive-contention error.  The first argument counts the attempts left. -/
def stRun {α : Type} (buildTxn : Nat → Prog (Except Error (α × List Op))) :
    Nat → Nat → Prog (Except Error α)
  | 0, _ => .ret (.error .ErrExcessiveContention)
  | left + 1, attempt =>
    (buildTxn attempt).bind fun r =>
      match r with
      | .error err => .ret (.error err)
      | .ok (a, ops) =>
        .call (.Run ops) fun (err : Option Error) =>
          match err with
          | none => .ret (.ok a)
          | some e => if e = .ErrAborted then stRun buildTxn left (attempt + 1)
            else .ret (.error e)

/-- The method `State.CreateModelMigration`: the migration and the error returned. -/
def State.CreateModelMigration (L : Lib) (P : migration.Table) (st : State)
    (spec : ModelMigrationSpec) : Prog (Option modelMigration × Option Error) :=
  if st.IsController then .ret (none, some (.New "controllers can't be migrated"))
  else
    match spec.Validate L with
    | some err => .ret (none, some (.Trace err))
    | none =>
      (checkTargetController spec.TargetInfo.ControllerTag).bind fun checked =>
        match checked with
        | some err => .ret (none, some (.Trace err))
        | none =>
          .call .Now fun (now : Int) =>
            (stRun (createBuildTxn L P st spec now) st.attempts 0).bind fun r =>
              match r with
              | .error err => .ret (none, some (.Annotate err "failed to create migration"))
              | .ok docs => .ret (some { doc := docs.1, statusDoc := docs.2 }, none)

/-- The method `State.GetModelMigration`: the migration and the error returned. -/
def State.GetModelMigration (st : State) : Prog (Option modelMigration × Option Error) :=
  .call (.FindTopId migrationsC [.field "model-uuid" (.eq (.str st.ModelUUID))])
    fun (r : Except Error Doc) =>
      match r with
      | .error err =>
        if err = .ErrNotFound then .ret (none, some (.NotFoundf "migration" []))
        else .ret (none, some (.Annotate err "migration lookup failed"))
      | .ok doc =>
        .call (.FindId migrationsStatusC (modelMigDoc.ofDoc doc).Id)
          fun (r2 : Except Error Doc) =>
            match r2 with
            | .error err => .ret (none, some (.Annotate err "failed to find status document"))
            | .ok statusDoc =>
              .ret (some { doc := modelMigDoc.ofDoc doc
                           statusDoc := modelMigStatusDoc.ofDoc statusDoc }, none)

/-! ## The document store -/

/-- A document of a collection. -/
structure Entry where
  C : String
  Id : String
  doc : Doc
  deriving DecidableEq, Repr

/-- Modelled from the spec: the Document Store collaborator: collections of documents
keyed by id, and the reading of the clock. -/
structure Store where
  docs : List Entry
  clock : Int
  deriving DecidableEq, Repr

/-- The document `id` of collection `C`, in a list of entries. -/
def findEntry (C id : String) : List Entry → Option Doc
  | [] => none
  | e :: rest => if e.C = C ∧ e.Id = id then some e.doc else findEntry C id rest

/-- The entries with the document `id` of collection `C` replaced by `d`, or added. -/
def putEntry (C id : String) (d : Doc) : List Entry → List Entry
  | [] => [⟨C, id, d⟩]
  | e :: rest =>
    if e.C = C ∧ e.Id = id then ⟨C, id, d⟩ :: rest else e :: putEntry C id d rest

/-- The entries without the document `id` of collection `C`. -/
def removeEntry (C id : String) : List Entry → List Entry
  | [] => []
  | e :: rest =>
    if e.C = C ∧ e.Id = id then removeEntry C id rest else e :: removeEntry C id rest

/-- The order of the store on strings, character by character. -/
def charsLt : List Char → List Char → Bool
  | _, [] => false
  | [], _ :: _ => true
  | a :: as, b :: bs => a.toNat < b.toNat || (a.toNat == b.toNat && charsLt as bs)

/-- The entry of collection `C` that meets `q` with the greatest id in the order of
strings, the first document of a find sorted by `-_id`. -/
def topEntry (C : String) (q : D) : List Entry → Option Entry
  | [] => none
  | e :: rest =>
    match topEntry C q rest with
    | none => if e.C = C ∧ D.holds q e.doc = true then some e else none
    | some best =>
      if e.C = C ∧ D.holds q e.doc = true ∧ charsLt best.Id.data e.Id.data = true then some e
      else some best

/-- Reading a stored document of the collection of models into a `Model`. -/
def Model.ofDoc (d : Doc) : Option Model :=
  match d.life with
  | none => none
  | some life => some { UUID := d.getStr "_id", Life := life }

/-- The find of the store: `find(collection, id)`. -/
def Store.find (s : Store) (C id : String) : Option Doc := findEntry C id s.docs

/-- Whether the assertion of an op holds on the current state. -/
def Op.check (op : Op) (s : Store) : Bool := op.Assert.holds (s.find op.C op.Id)

/-- The mutation of an op: an insert acts on a missing document, an update or a remove
on an existing one. -/
def Op.apply (op : Op) (s : Store) : Store :=
  match s.find op.C op.Id with
  | none =>
    (match op.Insert with
      | some d => { s with docs := putEntry op.C op.Id d s.docs }
      | none => s)
  | some cur =>
    if op.Remove then { s with docs := removeEntry op.C op.Id s.docs }
    else
      (match op.Update with
        | some (.set fields) => { s with docs := putEntry op.C op.Id (cur.setAll fields) s.docs }
        | none => s)

/-- Modelled from the spec: `applyAtomic(ops)`: the whole op set is applied when every
assertion holds on the current state, and is rejected as a whole (`none`) otherwise. -/
def Store.applyAtomic (s : Store) (ops : List Op) : Option Store :=
  if ops.all (fun op => op.check s) then some (ops.foldl (fun acc op => op.apply acc) s)
  else none

/-- Modelled from the spec: the answers of the Document Store to the calls of a program,
when no other writer and no failure of the store comes in between. -/
def Store.handle : (r : Req) → Store → Req.Resp r × Store
  | .FindId C id, s =>
    ((match s.find C id with
      | some d => Except.ok d
      | none => Except.error Error.ErrNotFound), s)
  | .StMachine id, s =>
    ((match s.find machinesC id with
      | none => Except.error (Error.NotFoundf "machine %s" [id])
      | some d =>
        (match machineDoc.ofDoc d with
          | some doc => Except.ok (newMachine doc)
          | none => Except.error (Error.Errorf "cannot get machine %s: %v" [id, "bad document"]))), s)
  | .Run ops, s =>
    (match s.applyAtomic ops with
      | some s' => ((none : Option Error), s')
      | none => (some Error.ErrAborted, s))
  | .IsAlive C id, s =>
    (((match s.find C id with
      | some d => D.holds isAliveDoc d
      | none => false), (none : Option Error)), s)
  | .Now, s => (s.clock, s)
  | .CountId C id, s => (((if (s.find C id).isSome then 1 else 0), (none : Option Error)), s)
  | .FindTopId C q, s =>
    ((match topEntry C q s.docs with
      | some e => Except.ok e.doc
      | none => Except.error Error.ErrNotFound), s)
  | .StModel uuid, s =>
    ((match (s.find modelsC uuid).bind Model.ofDoc with
      | some m => Except.ok m
      | none => Except.error (Error.NotFoundf "model" [])), s)
  | .StControllerModel, s =>
    ((match s.find controllersC "e" with
      | none => Except.error (Error.NotFoundf "controller model" [])
      | some c =>
        (match (s.find modelsC (c.getStr "model-uuid")).bind Model.ofDoc with
          | some m => Except.ok m
          | none => Except.error (Error.NotFoundf "model" []))), s)
  | .Sequence uuid name, s =>
    let id := uuid ++ ":" ++ name
    let counter :=
      match s.find sequenceC id with
      | some d => d.getInt "counter"
      | none => 0
    (Except.ok counter,
      { s with docs := putEntry sequenceC id [("_id", .str id), ("counter", .int (counter + 1))]
                         s.docs })

/-! ## The runs of advanceLifecycle -/

/-- The query document the switch on `life` appends to `advanceAsserts`. -/
def lifeAssert : Life → D
  | .Dying => isAliveDoc
  | _ => notDeadDoc

/-- The op `advanceLifecycle` submits: `op` with the assertion the switch gave it. -/
def assertedOp (op : Op) (life : Life) : Op :=
  { op with Assert := .query (advanceAsserts ++ lifeAssert life) }

/-- The error returned after the loop of `advanceLifecycle`. -/
def contentionError (m : Machine) : Error :=
  .Errorf "machine %s cannot advance lifecycle: %v" [m.string, ErrExcessiveContentionText]

/-- The runs of `advanceRefetch`: the calls made, and the exit or the copy to examine. -/
inductive RefetchRun (i : Nat) (m : Machine) : List Event → Exit ⊕ Machine → Prop
  | first : i = 0 → RefetchRun i m [] (.inr m)
  | fresh (copy : Machine) : i ≠ 0 →
      RefetchRun i m [.StMachine m.doc.Id (.ok copy)] (.inr copy)
  | gone (err : Error) : i ≠ 0 → IsNotFoundError (some err) = true →
      RefetchRun i m [.StMachine m.doc.Id (.error err)] (.inl ⟨none, none, none⟩)
  | failed (err : Error) : i ≠ 0 → IsNotFoundError (some err) = false →
      RefetchRun i m [.StMachine m.doc.Id (.error err)] (.inl ⟨none, some err, none⟩)

/-- The runs of `advanceAttempt` on the copy `m`: the calls made, and the exit (`none`
when the transaction was aborted). -/
inductive AttemptRun (op : Op) (life : Life) (m : Machine) : List Event → Option Exit → Prop
  | unknownLife : life = .Alive →
      AttemptRun op life m []
        (some ⟨some m, none, some (.Errorf "cannot advance lifecycle to %v" [life.text])⟩)
  | alreadyThere : life ≠ .Alive → life ≤ m.doc.Life →
      AttemptRun op life m [] (some ⟨some m, none, none⟩)
  | required : life ≠ .Alive → m.doc.Life < life → JobManageEnviron ∈ m.doc.Jobs →
      AttemptRun op life m []
        (some ⟨some m, some (.Errorf "machine %s is required by the environment" [m.doc.Id]),
          none⟩)
  | hasUnits : life ≠ .Alive → m.doc.Life < life → JobManageEnviron ∉ m.doc.Jobs →
      m.doc.Principals ≠ [] →
      AttemptRun op life m []
        (some ⟨some m, some (.HasAssignedUnitsError m.doc.Id m.doc.Principals), none⟩)
  | ran (err : Option Error) : life ≠ .Alive → m.doc.Life < life →
      JobManageEnviron ∉ m.doc.Jobs → m.doc.Principals = [] → err ≠ some .ErrAborted →
      AttemptRun op life m [.Run [assertedOp op life] err] (some ⟨some m, err, none⟩)
  | aborted : life ≠ .Alive → m.doc.Life < life →
      JobManageEnviron ∉ m.doc.Jobs → m.doc.Principals = [] →
      AttemptRun op life m [.Run [assertedOp op life] (some .ErrAborted)] none

/-- The runs of `advanceLoop`. -/
inductive LoopRun (op : Op) (life : Life) : Nat → Nat → Machine → List Event → Exit → Prop
  | exhausted (i : Nat) (m : Machine) :
      LoopRun op life 0 i m [] ⟨some m, some (contentionError m), none⟩
  | left (n i : Nat) (m : Machine) (pre : List Event) (x : Exit) :
      RefetchRun i m pre (.inl x) → LoopRun op life (n + 1) i m pre x
  | done (n i : Nat) (m cur : Machine) (pre mid : List Event) (x : Exit) :
      RefetchRun i m pre (.inr cur) → AttemptRun op life cur mid (some x) →
      LoopRun op life (n + 1) i m (pre ++ mid) x
  | retry (n i : Nat) (m cur : Machine) (pre mid rest : List Event) (x : Exit) :
      RefetchRun i m pre (.inr cur) → AttemptRun op life cur mid none →
      LoopRun op life n (i + 1) cur rest x →
      LoopRun op life (n + 1) i m (pre ++ (mid ++ rest)) x

/-- The runs of `advanceLifecycle`. -/
inductive AdvanceRun (original : Machine) (life : Life) :
    List Event → Outcome × Machine → Prop
  | readFailed (err : Error) :
      AdvanceRun original life [.FindId containerRefsC original.doc.Id (.error err)]
        (.returned (some (if err = .ErrNotFound then
            .NotFoundf "container info for machine %v" [original.doc.Id] else err)), original)
  | hosting (mc : Doc) : (machineContainers.ofDoc mc).Children ≠ [] →
      AdvanceRun original life [.FindId containerRefsC original.doc.Id (.ok mc)]
        (.returned (some (.HasContainersError original.doc.Id
            (machineContainers.ofDoc mc).Children)), original)
  | looped (mc : Doc) (rest : List Event) (x : Exit) :
      (machineContainers.ofDoc mc).Children = [] →
      LoopRun (advanceOp original life) life 3 0 original rest x →
      AdvanceRun original life (.FindId containerRefsC original.doc.Id (.ok mc) :: rest)
        (x.outcome, advanceDeferred original life x)

/-! ## The runs of SetPhase and SetProvisioned -/

/-- The runs of `modelMigration.SetPhase`: the calls made, the error returned and the
receiver after the call. -/
inductive SetPhaseRun (P : migration.Table) (mig : modelMigration)
    (nextPhase : migration.Phase) : List Event → Option Error × modelMigration → Prop
  | invalid (now : Int) (err : Error) : (mig.Phase P).2 = some err →
      SetPhaseRun P mig nextPhase [.Now now] (some (.Trace err), mig)
  | same (now : Int) : (mig.Phase P).2 = none → nextPhase = (mig.Phase P).1 →
      SetPhaseRun P mig nextPhase [.Now now] (none, mig)
  | illegal (now : Int) : (mig.Phase P).2 = none → nextPhase ≠ (mig.Phase P).1 →
      P.CanTransitionTo (mig.Phase P).1 nextPhase = false →
      SetPhaseRun P mig nextPhase [.Now now]
        (some (.Errorf "illegal phase change: %s -> %s"
          [P.PhaseString (mig.Phase P).1, P.PhaseString nextPhase]), mig)
  | changed (now : Int) : (mig.Phase P).2 = none → nextPhase ≠ (mig.Phase P).1 →
      P.CanTransitionTo (mig.Phase P).1 nextPhase = true →
      SetPhaseRun P mig nextPhase [.Now now, .Run (setPhaseOps P mig nextPhase now) none]
        (none, { mig with statusDoc := (setPhaseNext P mig nextPhase now).1 })
  | aborted (now : Int) : (mig.Phase P).2 = none → nextPhase ≠ (mig.Phase P).1 →
      P.CanTransitionTo (mig.Phase P).1 nextPhase = true →
      SetPhaseRun P mig nextPhase
        [.Now now, .Run (setPhaseOps P mig nextPhase now) (some .ErrAborted)]
        (some (.New "phase already changed"), mig)
  | failed (now : Int) (err : Error) : (mig.Phase P).2 = none →
      nextPhase ≠ (mig.Phase P).1 → P.CanTransitionTo (mig.Phase P).1 nextPhase = true →
      err ≠ .ErrAborted →
      SetPhaseRun P mig nextPhase [.Now now, .Run (setPhaseOps P mig nextPhase now) (some err)]
        (some (.Annotate err "failed to update phase"), mig)

/-- The runs of `Machine.SetProvisioned`: the calls made, the error returned and the
receiver after the call. -/
inductive SetProvisionedRun (m : Machine) (id : InstanceId) (nonce : String) :
    List Event → Option Error × Machine → Prop
  | empty : id = "" ∨ nonce = "" →
      SetProvisionedRun m id nonce []
        (some (.ErrorContextf "cannot set instance id of machine %q" [m.string]
          (.Errorf "instance id and nonce cannot be empty" [])), m)
  | set : id ≠ "" → nonce ≠ "" →
      SetProvisionedRun m id nonce [.Run (setProvisionedOps m id nonce) none]
        (none, { m with doc := { m.doc with InstanceId := id, Nonce := nonce } })
  | failed (err : Error) : id ≠ "" → nonce ≠ "" → err ≠ .ErrAborted →
      SetProvisionedRun m id nonce [.Run (setProvisionedOps m id nonce) (some err)]
        (some (.ErrorContextf "cannot set instance id of machine %q" [m.string] err), m)
  | unknown (alive : Bool) (err : Error) : id ≠ "" → nonce ≠ "" →
      SetProvisionedRun m id nonce
        [.Run (setProvisionedOps m id nonce) (some .ErrAborted),
         .IsAlive machinesC m.doc.Id (alive, some err)]
        (some (.ErrorContextf "cannot set instance id of machine %q" [m.string] err), m)
  | notAlive : id ≠ "" → nonce ≠ "" →
      SetProvisionedRun m id nonce
        [.Run (setProvisionedOps m id nonce) (some .ErrAborted),
         .IsAlive machinesC m.doc.Id (false, none)]
        (some (.ErrorContextf "cannot set instance id of machine %q" [m.string]
          .errNotAlive), m)
  | alreadySet : id ≠ "" → nonce ≠ "" →
      SetProvisionedRun m id nonce
        [.Run (setProvisionedOps m id nonce) (some .ErrAborted),
         .IsAlive machinesC m.doc.Id (true, none)]
        (some (.ErrorContextf "cannot set instance id of machine %q" [m.string]
          (.Errorf "already set" [])), m)

/-- The runs of `modelMigration.SetStatusMessage`: the calls made, the error returned
and the receiver after the call. -/
inductive SetStatusMessageRun (mig : modelMigration) (text : String) :
    List Event → Option Error × modelMigration → Prop
  | set :
      SetStatusMessageRun mig text [.Run (setStatusMessageOps mig text) none]
        (none, { mig with statusDoc := { mig.statusDoc with StatusMessage := text } })
  | failed (err : Error) :
      SetStatusMessageRun mig text [.Run (setStatusMessageOps mig text) (some err)]
        (some (.Annotate err "failed to set migration status"), mig)

/-- The runs of `modelMigration.Refresh`: the calls made, the error returned and the
receiver after the call. -/
inductive RefreshRun (mig : modelMigration) : List Event → Option Error × modelMigration → Prop
  | notFound :
      RefreshRun mig [.FindId migrationsStatusC mig.doc.Id (.error .ErrNotFound)]
        (some (.NotFoundf "migration status" []), mig)
  | failed (err : Error) : err ≠ .ErrNotFound →
      RefreshRun mig [.FindId migrationsStatusC mig.doc.Id (.error err)]
        (some (.Annotate err "migration status lookup failed"), mig)
  | read (statusDoc : Doc) :
      RefreshRun mig [.FindId migrationsStatusC mig.doc.Id (.ok statusDoc)]
        (none, { mig with statusDoc := modelMigStatusDoc.ofDoc statusDoc })

/-! ## What advanceLifecycle examined and was answered -/

/-- The variable `m` of `advanceLifecycle` after the calls of a run: the last copy of
the machine it examined, the receiver when there was no refetch, and `none` (nil) when
the last refetch gave an error. -/
def lastExamined (original : Machine) (log : List Event) : Option Machine :=
  match (refetches log).getLast? with
  | none => some original
  | some (.ok copy) => some copy
  | some (.error _) => none

/-- The errors the store answered in a run, in order. -/
def answeredErrors : List Event → List Error
  | [] => []
  | .FindId _ _ (.error e) :: rest => e :: answeredErrors rest
  | .StMachine _ (.error e) :: rest => e :: answeredErrors rest
  | .Run _ (some e) :: rest => e :: answeredErrors rest
  | .IsAlive _ _ (_, some e) :: rest => e :: answeredErrors rest
  | .CountId _ _ (_, some e) :: rest => e :: answeredErrors rest
  | .FindTopId _ _ (.error e) :: rest => e :: answeredErrors rest
  | .StModel _ (.error e) :: rest => e :: answeredErrors rest
  | .StControllerModel (.error e) :: rest => e :: answeredErrors rest
  | .Sequence _ _ (.error e) :: rest => e :: answeredErrors rest
  | _ :: rest => answeredErrors rest

/-- The method `HasAssignedUnitsError.Error` (lower case here, next to the type `Error`):
the format and the arguments of the message, or `none` when `e.UnitNames[0]` is out of
range and the call panics. -/
def HasAssignedUnitsError.error (MachineId : String) (UnitNames : List String) :
    Option (String × List String) :=
  match UnitNames with
  | [] => none
  | first :: _ => some ("machine %s has unit %q assigned", [MachineId, first])

/-! ## Machine.Remove, Machine.SetConstraints and Machine.WaitAgentAlive -/

/-- Modelled from the spec: the name of the collection `st.annotations`, whose
declaration is not among the sources. -/
def annotationsC : String := "annotations"

/-- The function `annotationRemoveOp`. -/
def annotationRemoveOp (id : String) : Op :=
  { C := annotationsC, Id := id, Remove := true }

/-- Modelled from the spec: the functions of the state package that make the ops on the
dependent documents of a machine and are not among the sources; `κ` is the type
`constraints.Value`.  They are a parameter of the methods that use them. -/
structure StateOps (κ : Type) where
  /-- The function `removeStatusOp`, given the global key. -/
  removeStatusOp : String → Op
  /-- The function `removeConstraintsOp`, given the global key. -/
  removeConstraintsOp : String → Op
  /-- The function `removeContainerRefOps`, given the machine id. -/
  removeContainerRefOps : String → List Op
  /-- The function `setConstraintsOp`, given the global key and the constraints. -/
  setConstraintsOp : String → κ → Op

/-- The variable `ops` of `Remove` as submitted. -/
def removeOps {κ : Type} (H : StateOps κ) (m : Machine) : List Op :=
  [{ C := machinesC, Id := m.doc.Id, Assert := .DocExists, Remove := true },
   H.removeStatusOp m.globalKey,
   H.removeConstraintsOp m.globalKey,
   annotationRemoveOp m.globalKey]
  ++ H.removeContainerRefOps m.Id

/-- The method `Machine.Remove`: the error returned, after the deferred
`utils.ErrorContextf`, and the receiver after the call. -/
def Machine.Remove {κ : Type} (H : StateOps κ) (m : Machine) : Prog (Option Error × Machine) :=
  let deferred := fun (err : Option Error) =>
    ErrorContextf err "cannot remove machine %s" [m.doc.Id]
  if m.doc.Life ≠ .Dead then
    .ret (deferred (some (.Errorf "machine is not dead" [])), m)
  else
    .call (.Run (removeOps H m)) fun (err : Option Error) =>
      .ret (deferred (onAbort err none), m)

/-- The variable `notProvisioned` of `SetConstraints`. -/
def notProvisioned : D := [.field "instanceid" (.eq (.str ""))]

/-- The variable `ops` of `SetConstraints`. -/
def setConstraintsOps {κ : Type} (H : StateOps κ) (m : Machine) (cons : κ) : List Op :=
  [{ C := machinesC, Id := m.doc.Id, Assert := .query (isAliveDoc ++ notProvisioned) },
   H.setConstraintsOp m.globalKey cons]

/-- The loop `for i := 0; i < 3; i++` of `SetConstraints` and the return after it, on
the copy `m`; the first argument counts the passes left. -/
def setConstraintsLoop (ops : List Op) : Nat → Machine → Prog (Option Error)
  | 0, _ => .ret (some .ErrExcessiveContention)
  | left + 1, m =>
    if m.doc.Life ≠ .Alive then .ret (some .errNotAlive)
    else if m.doc.InstanceId ≠ "" then
      .ret (some (.Errorf "machine is already provisioned" []))
    else
      .call (.Run ops) fun (err : Option Error) =>
        if err ≠ some .ErrAborted then .ret err
        else
          .call (.StMachine m.doc.Id) fun (r : Except Error Machine) =>
            match r with
            | .error e => .ret (some e)
            | .ok fresh => setConstraintsLoop ops left fresh

/-- The method `Machine.SetConstraints`: the error returned, after the deferred
`utils.ErrorContextf`, and the receiver after the call (the copies fetched are held in
the local variable `m` only). -/
def Machine.SetConstraints {κ : Type} (H : StateOps κ) (m : Machine) (cons : κ) :
    Prog (Option Error × Machine) :=
  (setConstraintsLoop (setConstraintsOps H m cons) 3 m).bind fun err =>
    .ret (ErrorContextf err "cannot set constraints" [], m)

/-- What a `select` of `WaitAgentAlive` receives. -/
inductive Observed where
  /-- A change from the channel `ch` of the watch, with its field `Alive`. -/
  | change (alive : Bool)
  /-- The firing of `time.After(timeout)`. -/
  | timeout
  /-- The closing of `pwatcher.Dead()`, with what `pwatcher.Err()` then returns. -/
  | dead (err : Option Error)
  deriving DecidableEq, Repr

/-- A call of `WaitAgentAlive` as far as the events received take it: how it ended
(`none` while it is still waiting in a `select`) and how many events it received. -/
structure Waited where
  outcome : Option Outcome
  received : Nat
  deriving DecidableEq, Repr

/-- The loop `for i := 0; i < 2; i++` of `WaitAgentAlive` and the panic after it, on the
events its selects receive, in order; the first argument counts the passes left.  The
value of the panic, a string, is given as the error with that text. -/
def waitLoop (m : Machine) : Nat → List Observed → Waited
  | 0, _ =>
    ⟨some (.panicked (.Errorf "presence reported dead status twice in a row for machine %v"
      [m.string])), 0⟩
  | _ + 1, [] => ⟨none, 0⟩
  | left + 1, .change alive :: rest =>
    if alive then ⟨some (.returned none), 1⟩
    else
      let w := waitLoop m left rest
      ⟨w.outcome, w.received + 1⟩
  | _ + 1, .timeout :: _ => ⟨some (.returned (some (.Errorf "still not alive after timeout" []))), 1⟩
  | _ + 1, .dead err :: _ => ⟨some (.returned err), 1⟩

/-- The method `Machine.WaitAgentAlive` as a function of the events its selects receive:
the outcome after the deferred `utils.ErrorContextf`.  The watch is registered before
the loop and withdrawn by a deferred call, which changes none of this. -/
def Machine.WaitAgentAlive (m : Machine) (events : List Observed) : Waited :=
  let w := waitLoop m 2 events
  { w with outcome := w.outcome.map fun o =>
      match o with
      | .returned err => .returned (ErrorContextf err "waiting for agent of machine %v" [m.string])
      | .panicked v => .panicked v }

/-- The runs of the loop of `SetConstraints`: the calls made and the error returned. -/
inductive ConstraintsRun (ops : List Op) : Nat → Machine → List Event → Option Error → Prop
  | exhausted (m : Machine) : ConstraintsRun ops 0 m [] (some .ErrExcessiveContention)
  | notAlive (n : Nat) (m : Machine) : m.doc.Life ≠ .Alive →
      ConstraintsRun ops (n + 1) m [] (some .errNotAlive)
  | provisioned (n : Nat) (m : Machine) : m.doc.Life = .Alive → m.doc.InstanceId ≠ "" →
      ConstraintsRun ops (n + 1) m [] (some (.Errorf "machine is already provisioned" []))
  | ran (n : Nat) (m : Machine) (err : Option Error) : m.doc.Life = .Alive →
      m.doc.InstanceId = "" → err ≠ some .ErrAborted →
      ConstraintsRun ops (n + 1) m [.Run ops err] err
  | lost (n : Nat) (m : Machine) (e : Error) : m.doc.Life = .Alive → m.doc.InstanceId = "" →
      ConstraintsRun ops (n + 1) m
        [.Run ops (some .ErrAborted), .StMachine m.doc.Id (.error e)] (some e)
  | retry (n : Nat) (m copy : Machine) (rest : List Event) (r : Option Error) :
      m.doc.Life = .Alive → m.doc.InstanceId = "" → ConstraintsRun ops n copy rest r →
      ConstraintsRun ops (n + 1) m
        (.Run ops (some .ErrAborted) :: .StMachine m.doc.Id (.ok copy) :: rest) r

/-! ## The times of a migration -/

/-- The type `time.Time` of the Go library as an instant: the seconds since January 1
of the year 1, 00:00:00 UTC, and the nanoseconds within the second.  The location of a
time does not take part in what follows. -/
structure time.Time where
  sec : Int
  nsec : Int
  deriving DecidableEq, Repr

/-- The zero value `time.Time{}`. -/
def time.Time.zero : time.Time := { sec := 0, nsec := 0 }

/-- The constant `unixToInternal` of the Go library: the seconds from January 1 of the
year 1 to January 1, 1970. -/
def time.unixToInternal : Int := (1969 * 365 + 1969 / 4 - 1969 / 100 + 1969 / 400) * 86400

/-- The function `time.Unix` of the Go library: the time `sec` seconds and `nsec`
nanoseconds after January 1, 1970 UTC; the division is the one of Go, rounding
towards zero. -/
def time.Unix (sec nsec : Int) : time.Time :=
  let p :=
    if nsec < 0 ∨ nsec ≥ 1000000000 then
      let n := Int.tdiv nsec 1000000000
      let sec1 := sec + n
      let nsec1 := nsec - n * 1000000000
      if nsec1 < 0 then (sec1 - 1, nsec1 + 1000000000) else (sec1, nsec1)
    else (sec, nsec)
  { sec := p.1 + time.unixToInternal, nsec := p.2 }

/-- The method `Time.IsZero` of the Go library. -/
def time.Time.IsZero (t : time.Time) : Bool := t.sec == 0 && t.nsec == 0

/-- The method `Time.UnixNano` of the Go library: the nanoseconds from January 1, 1970
UTC to the time. -/
def time.Time.UnixNano (t : time.Time) : Int :=
  (t.sec - time.unixToInternal) * 1000000000 + t.nsec

/-- The values of the Go type `int64`. -/
def isInt64 (i : Int) : Prop := -9223372036854775808 ≤ i ∧ i ≤ 9223372036854775807

instance (i : Int) : Decidable (isInt64 i) := by
  unfold isInt64
  exact inferInstance

/-- The function `unixNanoToTime0`. -/
def unixNanoToTime0 (i : Int) : time.Time :=
  if i = 0 then time.Time.zero else time.Unix 0 i

/-- The method `modelMigration.StartTime`. -/
def modelMigration.StartTime (mig : modelMigration) : time.Time :=
  unixNanoToTime0 mig.statusDoc.StartTime

/-- The method `modelMigration.SuccessTime`. -/
def modelMigration.SuccessTime (mig : modelMigration) : time.Time :=
  unixNanoToTime0 mig.statusDoc.SuccessTime

/-- The method `modelMigration.EndTime`. -/
def modelMigration.EndTime (mig : modelMigration) : time.Time :=
  unixNanoToTime0 mig.statusDoc.EndTime

/-- The method `modelMigration.PhaseChangedTime`. -/
def modelMigration.PhaseChangedTime (mig : modelMigration) : time.Time :=
  unixNanoToTime0 mig.statusDoc.PhaseChangedTime

/-! ## The payload transactions -/

/-- The methods of the interface `payloadsTransaction`. -/
inductive PtxnCall where
  | checkAssertsAndUpdate
  | ops
  deriving DecidableEq, Repr

/-- What each method of `payloadsTransaction` returns. -/
def PtxnCall.Resp : PtxnCall → Type
  | .checkAssertsAndUpdate => Option Error
  | .ops => List Op

/-- Code that calls the methods of a `payloadsTransaction`: it returns, or calls a
method and goes on with what the method returned. -/
inductive PtxnProg (α : Type) where
  | ret (a : α)
  | call (c : PtxnCall) (k : c.Resp → PtxnProg α)

/-- One call of a method of a `payloadsTransaction` together with what it returned. -/
inductive PtxnEvent where
  | checkAssertsAndUpdate (err : Option Error)
  | ops (built : List Op)
  deriving DecidableEq, Repr

/-- The event of a call and its result. -/
def PtxnEvent.of : (c : PtxnCall) → c.Resp → PtxnEvent
  | .checkAssertsAndUpdate, x => .checkAssertsAndUpdate x
  | .ops, x => .ops x

/-- The outcome of code run on a `payloadsTransaction`: its value, the state the
transaction and what it queries are left in, and the calls made, in order. -/
structure PtxnTrace (σ α : Type) where
  val : α
  state : σ
  calls : List PtxnEvent

/-- Running code on any implementation of `payloadsTransaction`, given as what each
method returns and does from a state. -/
def PtxnProg.exec {σ α : Type} (o : (c : PtxnCall) → σ → c.Resp × σ) :
    PtxnProg α → σ → PtxnTrace σ α
  | .ret a, s => { val := a, state := s, calls := [] }
  | .call c k, s =>
    let t := PtxnProg.exec o (k (o c s).1) (o c s).2
    { val := t.val, state := t.state, calls := PtxnEvent.of c (o c s).1 :: t.calls }

/-- The function the method `payloadsTransactions.newTxnSource` returns, applied to
`attempt`: the ops and the error. -/
def newTxnSource (_attempt : Nat) : PtxnProg (List Op × Option Error) :=
  .call .checkAssertsAndUpdate fun (err : Option Error) =>
    match err with
    | some e => .ret ([], some (.Trace e))
    | none => .call .ops fun (built : List Op) => .ret (built, none)

/-- An implementation of the interface `payloadsTransaction` on values of `τ`:
`checkAssertsAndUpdate` queries the store and may change the value, `ops` reads it. -/
structure payloadsTransaction (τ : Type) where
  checkAssertsAndUpdate : τ → Prog (Option Error × τ)
  ops : τ → List Op

/-- Code on a `payloadsTransaction` as a program over the store, for an implementation
of the interface: each call is the method of the implementation. -/
def PtxnProg.on {τ α : Type} (T : payloadsTransaction τ) : PtxnProg α → τ → Prog (α × τ)
  | .ret a, t => .ret (a, t)
  | .call .checkAssertsAndUpdate k, t =>
    (T.checkAssertsAndUpdate t).bind fun r => PtxnProg.on T (k r.1) r.2
  | .call .ops k, t => PtxnProg.on T (k (T.ops t)) t

/-- Modelled from the spec: the runner behind the interface `payloadsTxnRunner`, which
is not among the sources: it asks the source for the ops and submits them; an error of
the source or of the store other than the rejection is returned; on rejection it asks
the source again, up to its bound, past which it returns the excessive-contention error.
The first argument counts the attempts left; `τ` is the state of the transaction the
source works on. -/
def payloadsTxnRunner.Run {τ : Type}
    (transactions : Nat → τ → Prog ((List Op × Option Error) × τ)) :
    Nat → Nat → τ → Prog (Option Error × τ)
  | 0, _, t => .ret (some .ErrExcessiveContention, t)
  | left + 1, attempt, t =>
    (transactions attempt t).bind fun r =>
      match r.1.2 with
      | some err => .ret (some err, r.2)
      | none =>
        .call (.Run r.1.1) fun (err : Option Error) =>
          match err with
          | none => .ret (none, r.2)
          | some e =>
            if e = .ErrAborted then payloadsTxnRunner.Run transactions left (attempt + 1) r.2
            else .ret (some e, r.2)

/-- The method `payloadsTransactions.run`, for a runner that makes `attempts` attempts:
the error returned and the transaction after the call. -/
def payloadsTransactions.run {τ : Type} (attempts : Nat) (T : payloadsTransaction τ)
    (ptxn : τ) : Prog (Option Error × τ) :=
  (payloadsTxnRunner.Run (fun attempt t => (newTxnSource attempt).on T t) attempts 0 ptxn).bind
    fun r =>
      match r.1 with
      | some err => .ret (some (.Trace err), r.2)
      | none => .ret (none, r.2)

/-- Modelled from the spec: the name of the collection of payloads, whose declaration is
not among the sources. -/
def payloadsC : String := "payloads"

/-- Modelled from the spec: the function `payloadID`, which is not among the sources:
the id of the document of the payload `name` of the unit `unit`. -/
def payloadID (unit name : String) : String := "payload#" ++ unit ++ "#" ++ name

/-- Modelled from the spec: the error `payload.ErrNotFound`, whose declaration is not
among the sources. -/
def payload.ErrNotFound : Error := .NotFoundf "payload" []

/-- Modelled from the spec: the method `payloadsQueries.one` on the query
`payloadIDQuery(unit, name)`, which are not among the sources: the document with the id
of the payload, or a not-found error when there is none. -/
def payloadsQueries.one (unit name : String) : Prog (Except Error Doc) :=
  .call (.FindId payloadsC (payloadID unit name)) fun (r : Except Error Doc) =>
    match r with
    | .ok d => .ret (.ok d)
    | .error e =>
      if e = .ErrNotFound then .ret (.error (.NotFoundf "payload %q" [name]))
      else .ret (.error e)

/-- Modelled from the spec: the type `payload.FullPayloadInfo`, which is not among the
sources: the unit and the name of a payload and the other fields of its document. -/
structure payload.FullPayloadInfo where
  Unit : String
  Name : String
  fields : Doc
  deriving DecidableEq, Repr

/-- Modelled from the spec: the function `newPayloadDoc`, which is not among the
sources: the document of a payload, under the id of the payload. -/
def newPayloadDoc (p : payload.FullPayloadInfo) : Doc :=
  ("_id", .str (payloadID p.Unit p.Name)) :: p.fields

/-- The type `upsertPayloadTxn`; its field `exists` is `exist` here, next to the
keyword. -/
structure upsertPayloadTxn where
  payload : payload.FullPayloadInfo
  exist : Bool
  deriving DecidableEq, Repr

/-- The method `upsertPayloadTxn.checkAssertsAndUpdate`. -/
def upsertPayloadTxn.checkAssertsAndUpdate (utxn : upsertPayloadTxn) :
    Prog (Option Error × upsertPayloadTxn) :=
  (payloadsQueries.one utxn.payload.Unit utxn.payload.Name).bind fun r =>
    match r with
    | .ok _ => .ret (none, { utxn with exist := true })
    | .error err =>
      if !IsNotFoundError (some err) then .ret (some (.Trace err), { utxn with exist := false })
      else .ret (none, { utxn with exist := false })

/-- The method `upsertPayloadTxn.ops`. -/
def upsertPayloadTxn.ops (utxn : upsertPayloadTxn) : List Op :=
  (if utxn.exist then
    [{ C := payloadsC, Id := payloadID utxn.payload.Unit utxn.payload.Name,
       Assert := .DocExists, Remove := true }]
   else [])
  ++ [{ C := payloadsC, Id := payloadID utxn.payload.Unit utxn.payload.Name,
        Assert := .DocMissing, Insert := some (newPayloadDoc utxn.payload) }]

/-- The type `setPayloadStatusTxn`. -/
structure setPayloadStatusTxn where
  unit : String
  name : String
  status : String
  deriving DecidableEq, Repr

/-- The method `setPayloadStatusTxn.checkAssertsAndUpdate`; the message of
`errors.Annotatef(payload.ErrNotFound, "(%s)", name)` is written out. -/
def setPayloadStatusTxn.checkAssertsAndUpdate (stxn : setPayloadStatusTxn) :
    Prog (Option Error × setPayloadStatusTxn) :=
  (payloadsQueries.one stxn.unit stxn.name).bind fun r =>
    match r with
    | .ok _ => .ret (none, stxn)
    | .error err =>
      if IsNotFoundError (some err) then
        .ret (some (.Annotate payload.ErrNotFound ("(" ++ stxn.name ++ ")")), stxn)
      else .ret (some (.Trace err), stxn)

/-- The method `setPayloadStatusTxn.ops`. -/
def setPayloadStatusTxn.ops (stxn : setPayloadStatusTxn) : List Op :=
  [{ C := payloadsC, Id := payloadID stxn.unit stxn.name, Assert := .DocExists,
     Update := some (.set [("state", .str stxn.status)]) }]

/-- The type `removePayloadTxn`. -/
structure removePayloadTxn where
  unit : String
  name : String
  deriving DecidableEq, Repr

/-- The method `removePayloadTxn.checkAssertsAndUpdate`; the message of
`errors.Annotatef(payload.ErrNotFound, "(%s)", name)` is written out. -/
def removePayloadTxn.checkAssertsAndUpdate (rtxn : removePayloadTxn) :
    Prog (Option Error × removePayloadTxn) :=
  (payloadsQueries.one rtxn.unit rtxn.name).bind fun r =>
    match r with
    | .ok _ => .ret (none, rtxn)
    | .error err =>
      if IsNotFoundError (some err) then
        .ret (some (.Annotate payload.ErrNotFound ("(" ++ rtxn.name ++ ")")), rtxn)
      else .ret (some (.Trace err), rtxn)

/-- The method `removePayloadTxn.ops`. -/
def removePayloadTxn.ops (rtxn : removePayloadTxn) : List Op :=
  [{ C := payloadsC, Id := payloadID rtxn.unit rtxn.name, Assert := .DocExists,
     Remove := true }]

/-- The type `upsertPayloadTxn` as an implementation of `payloadsTransaction`. -/
def upsertPayloadTxn.impl : payloadsTransaction upsertPayloadTxn :=
  { checkAssertsAndUpdate := upsertPayloadTxn.checkAssertsAndUpdate
    ops := upsertPayloadTxn.ops }

/-- The type `setPayloadStatusTxn` as an implementation of `payloadsTransaction`. -/
def setPayloadStatusTxn.impl : payloadsTransaction setPayloadStatusTxn :=
  { checkAssertsAndUpdate := setPayloadStatusTxn.checkAssertsAndUpdate
    ops := setPayloadStatusTxn.ops }

/-- The type `removePayloadTxn` as an implementation of `payloadsTransaction`. -/
def removePayloadTxn.impl : payloadsTransaction removePayloadTxn :=
  { checkAssertsAndUpdate := removePayloadTxn.checkAssertsAndUpdate
    ops := removePayloadTxn.ops }

/-- An implementation of `payloadsTransaction` over the document store, as what each
method returns and does from the state of the store and the transaction. -/
def payloadsTransaction.onStore {τ : Type} (T : payloadsTransaction τ) :
    (c : PtxnCall) → Store × τ → c.Resp × (Store × τ)
  | .checkAssertsAndUpdate, (s, t) =>
    (((T.checkAssertsAndUpdate t).exec Store.handle s).val.1,
      (((T.checkAssertsAndUpdate t).exec Store.handle s).store,
        ((T.checkAssertsAndUpdate t).exec Store.handle s).val.2))
  | .ops, (s, t) => (T.ops t, (s, t))

/-! ## Two calls at once -/

/-- The outcome of two programs run at once against one store: the value and the calls
of each, and the final state of the store. -/
structure Traces (σ α β : Type) where
  left : α
  right : β
  store : σ
  leftLog : List Event
  rightLog : List Event

/-- Two programs run at once against one handler of their calls: each call is answered
as a whole, and the schedule tells which program makes the next call (`true` for the
left one); when one program has returned, or the schedule has run out (then the left one
first), the calls left are made in the order of the programs. -/
def Prog.par {σ α β : Type} (h : (r : Req) → σ → Req.Resp r × σ) :
    List Bool → Prog α → Prog β → σ → Traces σ α β
  | _, .ret a, q, s =>
    let t := q.exec h s
    { left := a, right := t.val, store := t.store, leftLog := [], rightLog := t.log }
  | _, .call r k, .ret b, s =>
    let t := (Prog.call r k).exec h s
    { left := t.val, right := b, store := t.store, leftLog := t.log, rightLog := [] }
  | [], .call r k, .call r2 k2, s =>
    let t := (Prog.call r k).exec h s
    let u := (Prog.call r2 k2).exec h t.store
    { left := t.val, right := u.val, store := u.store, leftLog := t.log, rightLog := u.log }
  | true :: sched, .call r k, .call r2 k2, s =>
    let w := Prog.par h sched (k (h r s).1) (.call r2 k2) (h r s).2
    { w with leftLog := Event.of r (h r s).1 :: w.leftLog }
  | false :: sched, .call r k, .call r2 k2, s =>
    let w := Prog.par h sched (.call r k) (k2 (h r2 s).1) (h r2 s).2
    { w with rightLog := Event.of r2 (h r2 s).1 :: w.rightLog }

/-- What is left of `advanceLifecycle` after the read of the containers found none: the
loop and the deferred function. -/
def advanceFromLoop (original : Machine) (life : Life) (left i : Nat) :
    Prog (Outcome × Machine) :=
  (advanceLoop (advanceOp original life) life left i original).bind fun x =>
    .ret (x.outcome, advanceDeferred original life x)

/-- A handle on the machine `id` that shows it Alive, without the job JobManageEnviron
and without principals. -/
def freeHandle (id : String) (m : Machine) : Prop :=
  m.doc.Id = id ∧ m.doc.Life = .Alive ∧ JobManageEnviron ∉ m.doc.Jobs ∧ m.doc.Principals = []

/-- A store that records no container of the machine `id`. -/
def noContainers (id : String) (s : Store) : Prop :=
  ∃ mc, s.find containerRefsC id = some mc ∧ (machineContainers.ofDoc mc).Children = []

/-- A store in which the machine `id` is Alive, without the job JobManageEnviron and
without principals, and has no containers: its document meets the assertion of the op
of `advanceLifecycle` to Dying. -/
def freeStore (id : String) (s : Store) : Prop :=
  noContainers id s ∧
  ∃ pd, s.find machinesC id = some pd ∧ D.holds (advanceAsserts ++ isAliveDoc) pd = true

/-- The receiver `m` with its life set to Dying. -/
def Machine.dying (m : Machine) : Machine :=
  { m with doc := { m.doc with Life := .Dying } }

/-- The op of `advanceLifecycle` to Dying on the machine `id` as submitted. -/
def dyingOp (id : String) : Op :=
  { C := machinesC
    Id := id
    Update := some (.set [("life", .int Life.Dying.toInt)])
    Assert := .query (advanceAsserts ++ isAliveDoc) }

/-- A store in which the machine `id` is Dying and has no containers. -/
def dyingStore (id : String) (s : Store) : Prop :=
  noContainers id s ∧
  ∃ pd, s.find machinesC id = some pd ∧ pd.get "life" = some (.int Life.Dying.toInt)

/-- The outcome of two calls of `advanceLifecycle` to Dying of which one had its op set
applied: both return success with their receiver Dying; one submitted its op set once
and it was applied, with no refetch; the other submitted its op set once and it was
rejected, refetched once, found the machine Dying and submitted nothing more; the
machine is Dying in the store. -/
def oneApplied (id : String) (a b : Machine)
    (w : Traces Store (Outcome × Machine) (Outcome × Machine)) : Prop :=
  w.left = (.returned none, a.dying) ∧ w.right = (.returned none, b.dying) ∧
  ((runResults w.leftLog = [none] ∧ refetches w.leftLog = [] ∧
      runResults w.rightLog = [some .ErrAborted] ∧
      ∃ copy, refetches w.rightLog = [.ok copy] ∧ copy.doc.Life = .Dying) ∨
   (runResults w.rightLog = [none] ∧ refetches w.rightLog = [] ∧
      runResults w.leftLog = [some .ErrAborted] ∧
      ∃ copy, refetches w.leftLog = [.ok copy] ∧ copy.doc.Life = .Dying)) ∧
  dyingStore id w.store

/-! ## The stamps of a migration -/

/-- The four times the status document of a migration keeps. -/
inductive TimeField where
  | start
  | success
  | ended
  | phaseChanged
  deriving DecidableEq, Repr

/-- The bson key of a time of the status document. -/
def TimeField.key : TimeField → String
  | .start => "start-time"
  | .success => "success-time"
  | .ended => "end-time"
  | .phaseChanged => "phase-changed-time"

/-- The field of a `modelMigStatusDoc` that holds a time. -/
def TimeField.stored : TimeField → modelMigStatusDoc → Int
  | .start, d => d.StartTime
  | .success, d => d.SuccessTime
  | .ended, d => d.EndTime
  | .phaseChanged, d => d.PhaseChangedTime

/-- The method of `modelMigration` that reports a time: StartTime, SuccessTime, EndTime
or PhaseChangedTime. -/
def TimeField.read : TimeField → modelMigration → time.Time
  | .start, mig => mig.StartTime
  | .success, mig => mig.SuccessTime
  | .ended, mig => mig.EndTime
  | .phaseChanged, mig => mig.PhaseChangedTime

/-- The readings of the clock in a run, in order. -/
def clockReadings : List Event → List Int
  | [] => []
  | .Now t :: rest => t :: clockReadings rest
  | _ :: rest => clockReadings rest

/-- The integer the `$set` of an op gives the field `key`, if the op sets it. -/
def Op.sets (op : Op) (key : String) : Option Int :=
  match op.Update with
  | some (.set fields) =>
    (match Doc.get fields key with
      | some (.int t) => some t
      | _ => none)
  | none => none

/-- The integer the op sets submitted in a run give the field `key`, if one of them sets
it: the last one set. -/
def stampIn (key : String) (log : List Event) : Option Int :=
  ((submitted log).flatten.filterMap (fun op => op.sets key)).getLast?

/-- The times of a migration that have been stamped, each with the reading of the clock
it was last stamped with. -/
abbrev Stamps := TimeField → Option Int

/-- The migrations a caller can hold, with the stamps their times were given:
a migration returned by `CreateModelMigration`, whose literal of the status document
gives the reading of the clock to StartTime and PhaseChangedTime and nothing to the two
other times; the receiver after a call of `SetPhase` that returned nil, stamped with what
the op set submitted in the call sets; the receiver after a call of `SetStatusMessage`
that returned nil.  The readings of the clock are values of an int64. -/
inductive Stamped (L : Lib) (P : migration.Table) : modelMigration → Stamps → Prop
  | created {σ : Type} (h : (r : Req) → σ → Req.Resp r × σ) (s : σ) (st : State)
      (spec : ModelMigrationSpec) (mig : modelMigration) (now : Int) :
      ((st.CreateModelMigration L P spec).exec h s).val = (some mig, none) →
      clockReadings ((st.CreateModelMigration L P spec).exec h s).log = [now] →
      isInt64 now →
      Stamped L P mig (fun f => if f = .start ∨ f = .phaseChanged then some now else none)
  | phase {σ : Type} (h : (r : Req) → σ → Req.Resp r × σ) (s : σ) (mig : modelMigration)
      (stamps : Stamps) (nextPhase : migration.Phase) :
      Stamped L P mig stamps →
      ((mig.SetPhase P nextPhase).exec h s).val.1 = none →
      (∀ t ∈ clockReadings ((mig.SetPhase P nextPhase).exec h s).log, isInt64 t) →
      Stamped L P ((mig.SetPhase P nextPhase).exec h s).val.2
        (fun f =>
          match stampIn f.key ((mig.SetPhase P nextPhase).exec h s).log with
          | some t => some t
          | none => stamps f)
  | message {σ : Type} (h : (r : Req) → σ → Req.Resp r × σ) (s : σ) (mig : modelMigration)
      (stamps : Stamps) (text : String) :
      Stamped L P mig stamps →
      ((mig.SetStatusMessage text).exec h s).val.1 = none →
      Stamped L P ((mig.SetStatusMessage text).exec h s).val.2 stamps

/-! ## Example inputs -/

/-- A machine document: machine "0", Alive, hosting units, not provisioned. -/
def exampleDoc : machineDoc :=
  { Id := "0", Nonce := "", Series := "precise", ContainerType := "", InstanceId := "",
    Principals := [], Life := .Alive, Tools := none, TxnRevno := 0, Jobs := [JobHostUnits],
    PasswordHash := "", Clean := true }

/-- A store holding the machine document `d` and its record of child containers. -/
def exampleStore (d : machineDoc) (children : List String) : Store :=
  { docs := [⟨machinesC, d.Id, d.toDoc⟩,
             ⟨containerRefsC, d.Id, (machineContainers.mk d.Id children).toDoc⟩]
    clock := 0 }

/-- The machine "0" holding the job JobManageEnviron, with life Dead. -/
def deadManager : machineDoc := { exampleDoc with Jobs := [JobManageEnviron], Life := .Dead }

/-- The machine "0" holding the job JobManageEnviron, Alive. -/
def aliveManager : machineDoc := { exampleDoc with Jobs := [JobManageEnviron] }

/-- The machine "0" holding JobHostUnits and JobManageEnviron, Alive, with one unit. -/
def managerWithUnit : machineDoc :=
  { exampleDoc with Jobs := [JobHostUnits, JobManageEnviron], Principals := ["wordpress/0"] }

/-- The machine "0", Alive, with two units assigned. -/
def hostWithUnits : machineDoc := { exampleDoc with Principals := ["wordpress/0", "mysql/0"] }

/-- The machine "0" with life Dead. -/
def deadHost : machineDoc := { exampleDoc with Life := .Dead }

/-- A store whose connection is lost: reads are answered as by the document store, an
op set is not applied and its submission fails with an error of the driver. -/
def Store.handleOffline : (r : Req) → Store → Req.Resp r × Store
  | .Run _, s => (some (Error.store "connection lost"), s)
  | .FindId C id, s => Store.handle (.FindId C id) s
  | .StMachine id, s => Store.handle (.StMachine id) s
  | .IsAlive C id, s => Store.handle (.IsAlive C id) s
  | .Now, s => Store.handle .Now s
  | .CountId C id, s => Store.handle (.CountId C id) s
  | .FindTopId C q, s => Store.handle (.FindTopId C q) s
  | .StModel uuid, s => Store.handle (.StModel uuid) s
  | .StControllerModel, s => Store.handle .StControllerModel s
  | .Sequence _ _, s => (Except.error (Error.store "connection lost"), s)

/-- A store under contention: reads are answered as by the document store, every op set
is rejected. -/
def Store.handleContended : (r : Req) → Store → Req.Resp r × Store
  | .Run _, s => (some Error.ErrAborted, s)
  | .FindId C id, s => Store.handle (.FindId C id) s
  | .StMachine id, s => Store.handle (.StMachine id) s
  | .IsAlive C id, s => Store.handle (.IsAlive C id) s
  | .Now, s => Store.handle .Now s
  | .CountId C id, s => Store.handle (.CountId C id) s
  | .FindTopId C q, s => Store.handle (.FindTopId C q) s
  | .StModel uuid, s => Store.handle (.StModel uuid) s
  | .StControllerModel, s => Store.handle .StControllerModel s
  | .Sequence uuid name, s => Store.handle (.Sequence uuid name) s

/-- A store with a second writer that records a child container of a machine right
after the record of its containers was read; all else as the document store. -/
def Store.handleRacing : (r : Req) → Store → Req.Resp r × Store
  | .FindId C id, s =>
    let child := (machineContainers.mk id [id ++ "/lxc/0"]).toDoc
    ((Store.handle (.FindId C id) s).1,
      if C = containerRefsC then { s with docs := putEntry containerRefsC id child s.docs }
      else s)
  | .Run ops, s => Store.handle (.Run ops) s
  | .StMachine id, s => Store.handle (.StMachine id) s
  | .IsAlive C id, s => Store.handle (.IsAlive C id) s
  | .Now, s => Store.handle .Now s
  | .CountId C id, s => Store.handle (.CountId C id) s
  | .FindTopId C q, s => Store.handle (.FindTopId C q) s
  | .StModel uuid, s => Store.handle (.StModel uuid) s
  | .StControllerModel, s => Store.handle .StControllerModel s
  | .Sequence uuid name, s => Store.handle (.Sequence uuid name) s

/-- A phase table with three phases for examples: QUIESCE (1), from which SUCCESS (2)
and ABORT (3) can be reached, both terminal; 0 is the unknown phase. -/
def exampleTable : migration.Table :=
  { ParsePhase := fun s =>
      if s = "QUIESCE" then (1, true) else if s = "SUCCESS" then (2, true)
      else if s = "ABORT" then (3, true) else (0, false)
    PhaseString := fun p =>
      if p = 1 then "QUIESCE" else if p = 2 then "SUCCESS" else if p = 3 then "ABORT"
      else "UNKNOWN"
    CanTransitionTo := fun p q => p == 1 && (q == 2 || q == 3)
    IsTerminal := fun p => p == 2 || p == 3
    SUCCESS := 2
    QUIESCE := 1 }

/-- A migration of the model "uuid" in the phase QUIESCE. -/
def exampleMigration : modelMigration :=
  { doc := { Id := "uuid:0", ModelUUID := "uuid", InitiatedBy := "admin@local",
             TargetController := "target", TargetAddrs := ["1.2.3.4:5"], TargetCACert := "cert",
             TargetAuthTag := "user-admin", TargetPassword := "secret" }
    statusDoc := { Id := "uuid:0", StartTime := 7, SuccessTime := 0, EndTime := 0,
                   Phase := "QUIESCE", PhaseChangedTime := 7, StatusMessage := "" } }

/-- The machine "0" already provisioned. -/
def provisionedHost : machineDoc := { exampleDoc with InstanceId := "i-0", Nonce := "fake" }

/-- A store in which the machine "0" is gone, the record of its containers still there. -/
def goneStore : Store :=
  { docs := [⟨containerRefsC, "0", (machineContainers.mk "0" []).toDoc⟩], clock := 0 }

/-- Functions on user tags for examples: the id of a tag is its name, its string is
"user-" and the name; only the strings of the users admin and bob are parsed. -/
def exampleLib : Lib :=
  { IsValidUser := fun s => s != ""
    UserTagId := fun t => t.name
    UserTagString := fun t => "user-" ++ t.name
    ParseUserTag := fun s =>
      if s = "user-admin" then .ok { name := "admin", domain := "" }
      else if s = "user-bob" then .ok { name := "bob", domain := "" }
      else .error (.Errorf "%q is not a valid user tag" [s])
    TargetInfoValidate := fun info =>
      if info.Addrs = [] then some (.NotValidf "empty Addrs" [])
      else if info.CACert = "" then some (.NotValidf "empty CACert" [])
      else if info.Password = "" then some (.NotValidf "empty Password" [])
      else none }

/-- The state of the model "uuid", not the controller model, with three attempts for
`st.run`. -/
def exampleState : State := { ModelUUID := "uuid", IsController := false, attempts := 3 }

/-- A request for a migration of the model to the controller "target". -/
def exampleSpec : ModelMigrationSpec :=
  { InitiatedBy := { name := "admin", domain := "" }
    TargetInfo :=
      { ControllerTag := names.NewModelTag "target", Addrs := ["1.2.3.4:5"], CACert := "cert",
        AuthTag := { name := "bob", domain := "" }, Password := "secret" } }

/-- The stored document of the model `uuid` with the life `life`. -/
def modelEntry (uuid : String) (life : Life) : Entry :=
  ⟨modelsC, uuid, [("_id", .str uuid), ("life", .int life.toInt)]⟩

/-- A store with the controller model "ctrl" and the model "uuid" with the life `life`,
without migrations. -/
def modelStore (life : Life) : Store :=
  { docs := [⟨controllersC, "e", [("_id", .str "e"), ("model-uuid", .str "ctrl")]⟩,
             modelEntry "ctrl" .Alive, modelEntry "uuid" life]
    clock := 100 }

/-- The documents of an earlier attempt `seq` at migrating the model "uuid" to the
controller "old-target", ended in the phase ABORT. -/
def pastAttempt (seq : Int) : List Entry :=
  let id := "uuid:" ++ toString seq
  [⟨migrationsC, id,
      (modelMigDoc.mk id "uuid" "admin" "old-target" ["9.9.9.9:1"] "old-cert" "user-admin"
        "old-secret").toDoc⟩,
   ⟨migrationsStatusC, id, (modelMigStatusDoc.mk id 1 0 2 "ABORT" 2 "").toDoc⟩]

/-- A store in which the model "uuid", Alive, has had the attempts 0 to `n - 1`, all
ended, and the sequence allocator stands at `n`. -/
def historyStore (n : Nat) : Store :=
  { docs := (modelStore .Alive).docs
      ++ ((List.range n).map (fun i => pastAttempt i)).flatten
      ++ [⟨sequenceC, "uuid:modelmigration",
            [("_id", .str "uuid:modelmigration"), ("counter", .int n)]⟩]
    clock := 100 }

/-- The marker of an active migration of the model "uuid". -/
def activeMarker : Entry := ⟨migrationsActiveC, "uuid", [("id", .str "uuid:0")]⟩

/-- A store with the model "uuid", Alive, in which the example migration is under way:
its descriptor, its status document and the marker of the active migration. -/
def migrationStore : Store :=
  { docs := (modelStore .Alive).docs ++
      [⟨migrationsC, "uuid:0", exampleMigration.doc.toDoc⟩,
       ⟨migrationsStatusC, "uuid:0", exampleMigration.statusDoc.toDoc⟩, activeMarker]
    clock := 100 }

/-- The example migration after it has ended in the phase ABORT. -/
def abortedMigration : modelMigration :=
  let sd := exampleMigration.statusDoc
  { exampleMigration with statusDoc := { sd with Phase := "ABORT", EndTime := 9 } }

/-- A store with the model "uuid", Alive, in which the example migration has ended in the
phase ABORT: its descriptor and its status document, and no marker. -/
def endedStore : Store :=
  { docs := (modelStore .Alive).docs ++
      [⟨migrationsC, "uuid:0", abortedMigration.doc.toDoc⟩,
       ⟨migrationsStatusC, "uuid:0", abortedMigration.statusDoc.toDoc⟩]
    clock := 100 }

/-- A request like `exampleSpec` with no name of the initiating user. -/
def anonymousSpec : ModelMigrationSpec :=
  { exampleSpec with InitiatedBy := { name := "", domain := "" } }

/-- A store in which the model "uuid" is Dying and the marker of an active migration of
the model is there. -/
def dyingMigrationStore : Store :=
  { docs := (modelStore .Dying).docs ++ [activeMarker], clock := 100 }

/-- A request like `exampleSpec` whose target is "ctrl", the controller the model is
attached to in the example stores. -/
def sameControllerSpec : ModelMigrationSpec :=
  let target := exampleSpec.TargetInfo
  { exampleSpec with TargetInfo := { target with ControllerTag := names.NewModelTag "ctrl" } }

/-- Ops on the dependent documents of a machine for examples, with constraints given as
a string: the status and the constraints are removed by their global key, the record of
the containers by the machine id, and the constraints are set in their document. -/
def exampleOps : StateOps String :=
  { removeStatusOp := fun key => { C := "statuses", Id := key, Remove := true }
    removeConstraintsOp := fun key => { C := "constraints", Id := key, Remove := true }
    removeContainerRefOps := fun id =>
      [{ C := containerRefsC, Id := id, Assert := .DocExists, Remove := true }]
    setConstraintsOp := fun key cons =>
      { C := "constraints", Id := key, Assert := .DocExists,
        Update := some (.set [("mem", .str cons)]) } }

/-- A store with the machine document `d`, the record of its containers and its
constraints document. -/
def constraintsStore (d : machineDoc) : Store :=
  { docs := (exampleStore d []).docs ++
      [⟨"constraints", machineGlobalKey d.Id, [("_id", .str (machineGlobalKey d.Id))]⟩]
    clock := 0 }

/-- A store under contention in which the machine vanishes: every op set is rejected,
the first two refetches are answered as by the document store, and from the third on
the machine is not found; the state counts the refetches. -/
def Store.handleVanishing : (r : Req) → Nat × Store → Req.Resp r × (Nat × Store)
  | .Run _, s => (some Error.ErrAborted, s)
  | .StMachine id, (n, s) =>
    if n < 2 then ((Store.handle (.StMachine id) s).1, (n + 1, s))
    else (Except.error (Error.NotFoundf "machine %s" [id]), (n + 1, s))
  | .FindId C id, (n, s) => ((Store.handle (.FindId C id) s).1, (n, s))
  | .IsAlive C id, (n, s) => ((Store.handle (.IsAlive C id) s).1, (n, s))
  | .Now, (n, s) => ((Store.handle .Now s).1, (n, s))
  | .CountId C id, (n, s) => ((Store.handle (.CountId C id) s).1, (n, s))
  | .FindTopId C q, (n, s) => ((Store.handle (.FindTopId C q) s).1, (n, s))
  | .StModel uuid, (n, s) => ((Store.handle (.StModel uuid) s).1, (n, s))
  | .StControllerModel, (n, s) => ((Store.handle .StControllerModel s).1, (n, s))
  | .Sequence uuid name, (n, s) => ((Store.handle (.Sequence uuid name) s).1, (n, s))

/-- The payload "db" of the unit "wordpress/0" for examples. -/
def examplePayload : payload.FullPayloadInfo :=
  { Unit := "wordpress/0", Name := "db", fields := [("state", .str "running")] }

/-- A store that holds the document of the example payload. -/
def payloadStore : Store :=
  { docs := [⟨payloadsC, payloadID "wordpress/0" "db", newPayloadDoc examplePayload⟩]
    clock := 0 }

/-- A store without payloads. -/
def emptyStore : Store := { docs := [], clock := 0 }

/-- A store that cannot be reached: every read and every submission fails with an error
of the driver; only the clock answers. -/
def Store.handleDown : (r : Req) → Store → Req.Resp r × Store
  | .Run _, s => (some (Error.store "connection lost"), s)
  | .FindId _ _, s => (Except.error (Error.store "connection lost"), s)
  | .StMachine _, s => (Except.error (Error.store "connection lost"), s)
  | .IsAlive _ _, s => ((false, some (Error.store "connection lost")), s)
  | .Now, s => (s.clock, s)
  | .CountId _ _, s => ((0, some (Error.store "connection lost")), s)
  | .FindTopId _ _, s => (Except.error (Error.store "connection lost"), s)
  | .StModel _, s => (Except.error (Error.store "connection lost"), s)
  | .StControllerModel, s => (Except.error (Error.store "connection lost"), s)
  | .Sequence _ _, s => (Except.error (Error.store "connection lost"), s)

/-- A store under contention whose connection is lost after the first submission: every
op set is rejected and every refetch fails with an error of the driver; the other reads
are answered as by the document store. -/
def Store.handleDropping : (r : Req) → Store → Req.Resp r × Store
  | .Run _, s => (some Error.ErrAborted, s)
  | .StMachine _, s => (Except.error (Error.store "connection lost"), s)
  | .FindId C id, s => Store.handle (.FindId C id) s
  | .IsAlive C id, s => Store.handle (.IsAlive C id) s
  | .Now, s => Store.handle .Now s
  | .CountId C id, s => Store.handle (.CountId C id) s
  | .FindTopId C q, s => Store.handle (.FindTopId C q) s
  | .StModel uuid, s => Store.handle (.StModel uuid) s
  | .StControllerModel, s => Store.handle .StControllerModel s
  | .Sequence uuid name, s => Store.handle (.Sequence uuid name) s

/-- The store `migrationStore` at the instant the clock reads 0, the Unix epoch. -/
def epochStore : Store := { migrationStore with clock := 0 }

/-- The migration `CreateModelMigration` returns for the example request on the store
`modelStore .Alive`, whose clock reads 100. -/
def createdMigration : modelMigration :=
  { doc := { Id := "uuid:0", ModelUUID := "uuid", InitiatedBy := "admin",
             TargetController := "target", TargetAddrs := ["1.2.3.4:5"], TargetCACert := "cert",
             TargetAuthTag := "user-bob", TargetPassword := "secret" }
    statusDoc := { Id := "uuid:0", StartTime := 100, SuccessTime := 0, EndTime := 0,
                   Phase := "QUIESCE", PhaseChangedTime := 100, StatusMessage := "" } }

/-- A store with the document of the Dead machine "0" and its dependent documents: the
record of its containers, its status, its constraints and its annotations. -/
def removalStore : Store :=
  { docs := (exampleStore deadHost []).docs ++
      [⟨"statuses", "m#0", [("_id", .str "m#0"), ("status", .str "stopped")]⟩,
       ⟨"constraints", "m#0", [("_id", .str "m#0")]⟩,
       ⟨annotationsC, "m#0", [("_id", .str "m#0"), ("owner", .str "ops")]⟩]
    clock := 0 }

/-! # Theorems -/

/-! ## Running programs -/

theorem Prog.exec_ret {σ α : Type} (h : (r : Req) → σ → Req.Resp r × σ) (a : α) (s : σ) :
    (Prog.ret a).exec h s = { val := a, store := s, log := [] } := rfl

theorem Prog.exec_call {σ α : Type} (h : (r : Req) → σ → Req.Resp r × σ) (r : Req)
    (k : Req.Resp r → Prog α) (s : σ) :
    (Prog.call r k).exec h s =
      { val := ((k (h r s).1).exec h (h r s).2).val
        store := ((k (h r s).1).exec h (h r s).2).store
        log := Event.of r (h r s).1 :: ((k (h r s).1).exec h (h r s).2).log } := rfl

/-- What holds of every run of a program holds of its run against any handler. -/
theorem Prog.always_exec {σ α : Type} (h : (r : Req) → σ → Req.Resp r × σ) (p : Prog α) :
    ∀ (P : List Event → α → Prop), p.Always P → ∀ s, P (p.exec h s).log (p.exec h s).val := by
  induction p with
  | ret a => intro P hP s; exact hP
  | call r k ih =>
    intro P hP s
    rw [Prog.exec_call]
    exact ih (h r s).1 _ (hP (h r s).1) (h r s).2

theorem Prog.always_mono {α : Type} (p : Prog α) :
    ∀ (P Q : List Event → α → Prop), (∀ log a, P log a → Q log a) → p.Always P → p.Always Q := by
  induction p with
  | ret a => intro P Q hPQ hP; exact hPQ _ _ hP
  | call r k ih =>
    intro P Q hPQ hP x
    exact ih x _ _ (fun log a hh => hPQ _ _ hh) (hP x)

theorem Prog.always_bind {α β : Type} (p : Prog α) (f : α → Prog β) :
    ∀ (P : List Event → β → Prop),
      p.Always (fun log a => (f a).Always (fun log' b => P (log ++ log') b)) →
      (p.bind f).Always P := by
  induction p with
  | ret a => intro P hP; exact hP
  | call r k ih =>
    intro P hP x
    exact ih x _ (hP x)

/-- On the document store, a run that submits no op set leaves the store as it was. -/
theorem Store.exec_store_eq {α : Type} (p : Prog α) :
    ∀ s : Store, submitted (p.exec Store.handle s).log = [] →
      allocated (p.exec Store.handle s).log = [] →
      (p.exec Store.handle s).store = s := by
  induction p with
  | ret a => intro s _ _; rfl
  | call r k ih =>
    intro s hs ha
    rw [Prog.exec_call] at hs ha ⊢
    cases r with
    | Run ops => simp [Event.of, submitted] at hs
    | Sequence uuid name => simp [Event.of, allocated] at ha
    | FindId C id =>
      exact ih _ s (by simpa [Event.of, submitted] using hs) (by simpa [Event.of, allocated] using ha)
    | StMachine id =>
      exact ih _ s (by simpa [Event.of, submitted] using hs) (by simpa [Event.of, allocated] using ha)
    | IsAlive C id =>
      exact ih _ s (by simpa [Event.of, submitted] using hs) (by simpa [Event.of, allocated] using ha)
    | Now =>
      exact ih _ s (by simpa [Event.of, submitted] using hs) (by simpa [Event.of, allocated] using ha)
    | CountId C id =>
      exact ih _ s (by simpa [Event.of, submitted] using hs) (by simpa [Event.of, allocated] using ha)
    | FindTopId C q =>
      exact ih _ s (by simpa [Event.of, submitted] using hs) (by simpa [Event.of, allocated] using ha)
    | StModel uuid =>
      exact ih _ s (by simpa [Event.of, submitted] using hs) (by simpa [Event.of, allocated] using ha)
    | StControllerModel =>
      exact ih _ s (by simpa [Event.of, submitted] using hs) (by simpa [Event.of, allocated] using ha)

theorem submitted_append (a b : List Event) : submitted (a ++ b) = submitted a ++ submitted b := by
  induction a with
  | nil => rfl
  | cons e a ih => cases e <;> simp [submitted, ih]

theorem runResults_append (a b : List Event) :
    runResults (a ++ b) = runResults a ++ runResults b := by
  induction a with
  | nil => rfl
  | cons e a ih => cases e <;> simp [runResults, ih]

theorem allocated_append (a b : List Event) :
    allocated (a ++ b) = allocated a ++ allocated b := by
  induction a with
  | nil => rfl
  | cons e a ih => cases e <;> simp [allocated, ih]

theorem refetches_append (a b : List Event) :
    refetches (a ++ b) = refetches a ++ refetches b := by
  induction a with
  | nil => rfl
  | cons e a ih => cases e <;> simp [refetches, ih]

/-! ## The order of lives -/

theorem Life.dying_le_iff (l : Life) : Life.Dying ≤ l ↔ l ≠ Life.Alive := by
  cases l <;> decide

theorem Life.dead_le_iff (l : Life) : Life.Dead ≤ l ↔ l = Life.Dead := by
  cases l <;> decide

theorem Life.not_le_iff (a b : Life) : ¬ a ≤ b ↔ b < a := by
  cases a <;> cases b <;> decide

theorem Life.le_antisymm_of_not_gt (a b : Life) (h : a ≤ b) :
    (if b > a then b else a) = b := by
  cases a <;> cases b <;> revert h <;> decide

theorem Life.ofInt_toInt (l : Life) : Life.ofInt l.toInt = some l := by
  cases l <;> rfl

/-! ## Documents and the store -/

theorem Doc.get_set_same (d : Doc) (k : String) (v : Value) : (Doc.set d k v).get k = some v := by
  induction d with
  | nil => simp [Doc.set, Doc.get]
  | cons kv d ih =>
    obtain ⟨k', v'⟩ := kv
    by_cases hk : k' = k
    · simp [Doc.set, Doc.get, hk]
    · simp [Doc.set, Doc.get, hk, ih]

theorem Doc.get_set_other (d : Doc) (k k' : String) (v : Value) (h : k ≠ k') :
    (Doc.set d k v).get k' = d.get k' := by
  induction d with
  | nil => simp [Doc.set, Doc.get, h]
  | cons kv d ih =>
    obtain ⟨k0, v0⟩ := kv
    by_cases hk : k0 = k
    · subst hk
      simp [Doc.set, Doc.get, h]
    · by_cases hk' : k0 = k'
      · subst hk'
        simp [Doc.set, Doc.get, hk]
      · simp [Doc.set, Doc.get, hk, hk', ih]

theorem Doc.getStr_set_same (d : Doc) (k v : String) : (Doc.set d k (.str v)).getStr k = v := by
  simp [Doc.getStr, Doc.get_set_same]

theorem Doc.getStr_set_other (d : Doc) (k k' : String) (v : Value) (h : k ≠ k') :
    (Doc.set d k v).getStr k' = d.getStr k' := by
  simp [Doc.getStr, Doc.get_set_other d k k' v h]

theorem Doc.life_set (d : Doc) (l : Life) : Doc.life (Doc.set d "life" (.int l.toInt)) = some l := by
  unfold Doc.life
  rw [Doc.get_set_same]
  exact Life.ofInt_toInt l

theorem findEntry_putEntry_same (C id : String) (d : Doc) (docs : List Entry) :
    findEntry C id (putEntry C id d docs) = some d := by
  induction docs with
  | nil => simp [putEntry, findEntry]
  | cons e docs ih =>
    by_cases he : e.C = C ∧ e.Id = id
    · simp [putEntry, findEntry, he]
    · simp [putEntry, findEntry, he, ih]

/-- The store applies a single op set only when the assertion holds of the current
document, and then the document is the current one with the fields of `$set` set. -/
theorem Store.applyAtomic_update {s s' : Store} {C id : String} {q : D}
    {fields : List (String × Value)}
    (h : s.applyAtomic
      [{ C := C, Id := id, Assert := .query q, Update := some (.set fields) }] = some s') :
    ∃ d, s.find C id = some d ∧ D.holds q d = true ∧ s'.find C id = some (d.setAll fields) := by
  unfold Store.applyAtomic at h
  simp only [List.all_cons, List.all_nil, Bool.and_true, Op.check] at h
  cases hd : s.find C id with
  | none => simp [hd, Assert.holds] at h
  | some d =>
    simp only [hd, Assert.holds] at h
    by_cases hq : D.holds q d = true
    · simp only [hq, if_true, Option.some.injEq, List.foldl_cons, List.foldl_nil, Op.apply, hd,
        Bool.false_eq_true, if_false] at h
      subst h
      exact ⟨d, rfl, hq, findEntry_putEntry_same C id _ _⟩
    · simp [hq] at h

theorem D.holds_append (a b : D) (d : Doc) :
    D.holds (a ++ b) d = (D.holds a d && D.holds b d) := by
  simp [D.holds, List.all_append]

/-- A document that meets `advanceAsserts` records neither the job JobManageEnviron nor
a principal. -/
theorem advanceAsserts_holds {d : Doc} (h : D.holds advanceAsserts d = true) :
    JobManageEnviron ∉ d.getInts "jobs" ∧ d.getStrs "principals" = [] := by
  simp only [D.holds, advanceAsserts, List.all_cons, List.all_nil, Bool.and_true,
    Bool.and_eq_true, Elem.holds, List.any_cons, List.any_nil, Bool.or_false,
    Bool.or_eq_true] at h
  obtain ⟨hj, hp⟩ := h
  constructor
  · unfold Doc.getInts
    cases hg : d.get "jobs" with
    | none => simp
    | some v =>
      cases v with
      | ints l =>
        simp only [hg, Cond.holds, Value.elems, List.all_eq_true, List.mem_map,
          forall_exists_index, and_imp, forall_apply_eq_imp_iff₂] at hj
        intro hmem
        have := hj JobManageEnviron hmem
        simp at this
      | _ => simp
  · unfold Doc.getStrs
    cases hg : d.get "principals" with
    | none => simp
    | some v =>
      cases v with
      | strs l =>
        simp only [hg, Cond.holds, Value.elems, List.length_map, beq_iff_eq,
          List.length_eq_zero, Option.isSome_some, Bool.true_eq_false, or_false] at hp
        simpa using hp
      | _ => simp

/-- What the assertion on the life says of the life a document records. -/
theorem lifeAssert_holds {d : Doc} {life old : Life} (hl : life ≠ .Alive)
    (h : D.holds (lifeAssert life) d = true) (hold : d.life = some old) :
    (life = .Dying → old = .Alive) ∧ (life = .Dead → old ≠ .Dead) ∧ old < life := by
  unfold Doc.life at hold
  cases life with
  | Alive => exact absurd rfl hl
  | Dying =>
    simp only [lifeAssert, isAliveDoc, D.holds, List.all_cons, List.all_nil, Bool.and_true,
      Elem.holds] at h
    cases hg : d.get "life" with
    | none => simp [hg, Cond.holds] at h
    | some v =>
      cases v with
      | int i =>
        simp only [hg, Cond.holds, Value.elems, Bool.or_false, beq_iff_eq, Value.int.injEq,
          Life.toInt] at h
        subst h
        simp only [hg, Life.ofInt, if_true, Option.some.injEq] at hold
        subst hold
        exact ⟨fun _ => rfl, fun hd => absurd hd (by decide), by decide⟩
      | _ => simp [hg] at hold
  | Dead =>
    simp only [lifeAssert, notDeadDoc, D.holds, List.all_cons, List.all_nil, Bool.and_true,
      Elem.holds] at h
    cases hg : d.get "life" with
    | none =>
      simp only [hg, Option.some.injEq] at hold
      subst hold
      exact ⟨fun hd => absurd hd (by decide), fun _ => by decide, by decide⟩
    | some v =>
      cases v with
      | int i =>
        simp only [hg, Cond.holds, Value.elems, Bool.or_false, Bool.not_eq_true',
          beq_eq_false_iff_ne, ne_eq, Value.int.injEq, Life.toInt] at h
        simp only [hg, Life.ofInt] at hold
        have hne : old ≠ .Dead := by
          intro hd
          subst hd
          by_cases h0 : i = 0
          · simp [h0] at hold
          · by_cases h1 : i = 1
            · simp [h1] at hold
            · exact h (by
                by_cases h2 : i = 2
                · exact h2
                · simp [h0, h1, h2] at hold)
        refine ⟨fun hd => absurd hd (by decide), fun _ => hne, ?_⟩
        revert hne
        cases old <;> decide
      | _ => simp [hg] at hold

/-- A document whose instance id or nonce is set does not meet `notSetYet`. -/
theorem notSetYet_holds {d : Doc} (h : D.holds notSetYet d = true) :
    d.getStr "instanceid" = "" ∧ d.getStr "nonce" = "" := by
  simp only [D.holds, notSetYet, List.all_cons, List.all_nil, Bool.and_true,
    Bool.and_eq_true, Elem.holds] at h
  obtain ⟨hi, hn⟩ := h
  constructor
  · unfold Doc.getStr
    cases hg : d.get "instanceid" with
    | none => rfl
    | some v =>
      cases v with
      | str x => simpa [hg, Cond.holds, Value.elems] using hi
      | _ => rfl
  · unfold Doc.getStr
    cases hg : d.get "nonce" with
    | none => rfl
    | some v =>
      cases v with
      | str x => simpa [hg, Cond.holds, Value.elems] using hn
      | _ => rfl

theorem machineDoc.ofDoc_fields {d : Doc} {md : machineDoc} (h : machineDoc.ofDoc d = some md) :
    md.Jobs = d.getInts "jobs" ∧ md.Principals = d.getStrs "principals" ∧
    d.life = some md.Life ∧ md.InstanceId = d.getStr "instanceid" ∧
    md.Nonce = d.getStr "nonce" := by
  unfold machineDoc.ofDoc at h
  cases hl : d.life with
  | none => simp [hl] at h
  | some l =>
    simp only [hl, Option.some.injEq] at h
    subst h
    exact ⟨rfl, rfl, rfl, rfl, rfl⟩

/-! ## Every run of advanceLifecycle is one of its runs -/

theorem advanceRefetch_runs (i : Nat) (m : Machine) :
    (advanceRefetch i m).Always (RefetchRun i m) := by
  unfold advanceRefetch
  by_cases hi : i = 0
  · subst hi
    exact RefetchRun.first rfl
  · simp only [ne_eq, hi, not_false_eq_true, if_true]
    intro x
    cases x with
    | ok copy => exact RefetchRun.fresh copy hi
    | error err =>
      by_cases hnf : IsNotFoundError (some err) = true
      · simp only [hnf, if_true]
        exact RefetchRun.gone err hi hnf
      · simp only [hnf]
        exact RefetchRun.failed err hi (by simpa using hnf)

theorem advanceChecked_runs (op : Op) (life : Life) (m : Machine) (hl : life ≠ .Alive)
    (hlt : m.doc.Life < life) :
    (advanceChecked (assertedOp op life) m).Always (AttemptRun op life m) := by
  unfold advanceChecked
  by_cases hj : JobManageEnviron ∈ m.doc.Jobs
  · have : (m.doc.Jobs.any fun j => j == JobManageEnviron) = true := by
      simpa using hj
    simp only [this, if_true]
    exact AttemptRun.required hl hlt hj
  · have : (m.doc.Jobs.any fun j => j == JobManageEnviron) = false := by
      rw [List.any_eq_false]
      intro x hx
      simp only [beq_iff_eq]
      intro hxe
      exact hj (hxe ▸ hx)
    simp only [this, Bool.false_eq_true, if_false]
    by_cases hp : m.doc.Principals = []
    · simp only [hp, List.length_nil, ne_eq, not_true_eq_false, if_false]
      intro x
      by_cases hx : x = some Error.ErrAborted
      · subst hx
        simp only [ne_eq, not_true_eq_false, if_false]
        exact AttemptRun.aborted hl hlt hj hp
      · simp only [ne_eq, hx, not_false_eq_true, if_true]
        exact AttemptRun.ran x hl hlt hj hp hx
    · have : m.doc.Principals.length ≠ 0 := by
        simpa using hp
      simp only [this, ne_eq, not_false_eq_true, if_true]
      exact AttemptRun.hasUnits hl hlt hj hp

theorem advanceAttempt_runs (op : Op) (life : Life) (m : Machine) :
    (advanceAttempt op life m).Always (AttemptRun op life m) := by
  cases life with
  | Alive => exact AttemptRun.unknownLife rfl
  | Dying =>
    unfold advanceAttempt
    by_cases h : m.doc.Life = .Alive
    · simp only [h, ne_eq, not_true_eq_false, if_false]
      exact advanceChecked_runs op .Dying m (by decide) (by rw [h]; decide)
    · simp only [ne_eq, h, not_false_eq_true, if_true]
      exact AttemptRun.alreadyThere (by decide) ((Life.dying_le_iff _).2 h)
  | Dead =>
    unfold advanceAttempt
    by_cases h : m.doc.Life = .Dead
    · simp only [h, if_true]
      exact AttemptRun.alreadyThere (by decide) ((Life.dead_le_iff _).2 h)
    · simp only [h, if_false]
      refine advanceChecked_runs op .Dead m (by decide) ?_
      rw [← Life.not_le_iff, Life.dead_le_iff]
      exact h

theorem advanceLoop_runs (op : Op) (life : Life) (n : Nat) :
    ∀ (i : Nat) (m : Machine), (advanceLoop op life n i m).Always (LoopRun op life n i m) := by
  induction n with
  | zero => intro i m; exact LoopRun.exhausted i m
  | succ n ih =>
    intro i m
    unfold advanceLoop
    apply Prog.always_bind
    refine Prog.always_mono _ _ _ ?_ (advanceRefetch_runs i m)
    intro pre r hr
    cases r with
    | inl x =>
      have := @LoopRun.left op life n i m pre x hr
      simpa [Prog.Always] using this
    | inr cur =>
      apply Prog.always_bind
      refine Prog.always_mono _ _ _ ?_ (advanceAttempt_runs op life cur)
      intro mid a ha
      cases a with
      | some x =>
        have := @LoopRun.done op life n i m cur pre mid x hr ha
        simpa [Prog.Always] using this
      | none =>
        refine Prog.always_mono _ _ _ ?_ (ih (i + 1) cur)
        intro rest x hx
        exact LoopRun.retry n i m cur pre mid rest x hr ha hx

theorem advanceLifecycle_runs (original : Machine) (life : Life) :
    (original.advanceLifecycle life).Always (AdvanceRun original life) := by
  unfold Machine.advanceLifecycle Machine.Containers
  intro x
  cases x with
  | error err =>
    by_cases he : err = .ErrNotFound
    · subst he
      exact AdvanceRun.readFailed .ErrNotFound
    · have := @AdvanceRun.readFailed original life err
      simp only [he, if_false] at this
      simpa [Prog.bind, Prog.Always, he, Machine.Id, Event.of] using this
  | ok mc =>
    by_cases hc : (machineContainers.ofDoc mc).Children = []
    · simp only [Prog.bind, hc, List.length_nil, gt_iff_lt, lt_self_iff_false, if_false]
      apply Prog.always_bind
      refine Prog.always_mono _ _ _ ?_ (advanceLoop_runs _ life 3 0 original)
      intro rest x hx
      have := @AdvanceRun.looped original life mc rest x hc hx
      simpa [Prog.Always, Machine.Id, Event.of] using this
    · have hpos : (machineContainers.ofDoc mc).Children.length > 0 :=
        List.length_pos.2 hc
      simp only [Prog.bind, hpos, if_true]
      have := @AdvanceRun.hosting original life mc hc
      simpa [Prog.Always, Machine.Id, Event.of] using this

theorem advanceLifecycle_log_head {σ : Type} (h : (r : Req) → σ → Req.Resp r × σ) (s : σ)
    (original : Machine) (life : Life) :
    ((original.advanceLifecycle life).exec h s).log.head? =
      some (Event.FindId containerRefsC original.doc.Id
        (h (.FindId containerRefsC original.doc.Id) s).1) := rfl

/-! ## The runs of the loop of advanceLifecycle -/

theorem RefetchRun.submitted_eq {i : Nat} {m : Machine} {log : List Event} {r : Exit ⊕ Machine}
    (hr : RefetchRun i m log r) : submitted log = [] ∧ runResults log = [] := by
  cases hr <;> exact ⟨rfl, rfl⟩

theorem RefetchRun.refetches_length {i : Nat} {m : Machine} {log : List Event}
    {r : Exit ⊕ Machine} (hr : RefetchRun i m log r) :
    (refetches log).length ≤ (if i = 0 then 0 else 1) := by
  cases hr with
  | first h0 => simp [refetches]
  | fresh copy hi => simp [refetches, hi]
  | gone err hi _ => simp [refetches, hi]
  | failed err hi _ => simp [refetches, hi]

theorem AttemptRun.refetches_eq {op : Op} {life : Life} {m : Machine} {log : List Event}
    {a : Option Exit} (hr : AttemptRun op life m log a) : refetches log = [] := by
  cases hr <;> rfl

theorem AttemptRun.submitted_length {op : Op} {life : Life} {m : Machine} {log : List Event}
    {a : Option Exit} (hr : AttemptRun op life m log a) : (submitted log).length ≤ 1 := by
  cases hr <;> simp [submitted]

/-- The first pass of the loop examines the receiver itself, without a refetch. -/
theorem LoopRun.first_pass {op : Op} {life : Life} {n : Nat} {m : Machine}
    {log : List Event} {x : Exit} (hr : LoopRun op life (n + 1) 0 m log x) :
    (∃ y, AttemptRun op life m log (some y) ∧ x = y) ∨
    (∃ mid rest, AttemptRun op life m mid none ∧ LoopRun op life n 1 m rest x ∧
      log = mid ++ rest) := by
  cases hr with
  | left _ _ _ _ _ hf => cases hf <;> contradiction
  | done _ _ _ cur pre mid _ hf ha =>
    cases hf with
    | first _ => exact Or.inl ⟨x, ha, rfl⟩
    | fresh _ hi => exact absurd rfl hi
  | retry _ _ _ cur pre mid rest _ hf ha hrest =>
    cases hf with
    | first _ => exact Or.inr ⟨mid, rest, ha, hrest, rfl⟩
    | fresh _ hi => exact absurd rfl hi

/-- Every op set a run of the loop submits is the single op with the assertion of the
switch, and none is submitted for the target Alive. -/
theorem LoopRun.submitted_mem {op : Op} {life : Life} {n i : Nat} {m : Machine}
    {log : List Event} {x : Exit} (hr : LoopRun op life n i m log x) :
    ∀ ops ∈ submitted log, ops = [assertedOp op life] ∧ life ≠ .Alive := by
  induction hr with
  | exhausted i m => intro ops hops; simp [submitted] at hops
  | left n i m pre x hf =>
    intro ops hops
    rw [hf.submitted_eq.1] at hops
    simp at hops
  | done n i m cur pre mid x hf ha =>
    intro ops hops
    rw [submitted_append, hf.submitted_eq.1, List.nil_append] at hops
    cases ha with
    | ran err hl _ _ _ _ =>
      simp only [submitted, List.mem_singleton] at hops
      exact ⟨hops, hl⟩
    | _ => simp [submitted] at hops
  | retry n i m cur pre mid rest x hf ha _ ih =>
    intro ops hops
    rw [submitted_append, submitted_append, hf.submitted_eq.1, List.nil_append,
      List.mem_append] at hops
    rcases hops with hops | hops
    · cases ha with
      | aborted hl _ _ _ =>
        simp only [submitted, List.mem_singleton] at hops
        exact ⟨hops, hl⟩
    · exact ih ops hops

theorem AdvanceRun.submitted_ops {original : Machine} {life : Life} {log : List Event}
    {val : Outcome × Machine} (hr : AdvanceRun original life log val) :
    ∀ ops ∈ submitted log, ops = [assertedOp (advanceOp original life) life] ∧ life ≠ .Alive := by
  cases hr with
  | readFailed err => intro ops hops; simp [submitted] at hops
  | hosting mc _ => intro ops hops; simp [submitted] at hops
  | looped mc rest x _ hloop =>
    intro ops hops
    exact hloop.submitted_mem ops (by simpa [submitted] using hops)

/-- A run of advanceLifecycle allocates no sequence number. -/
theorem LoopRun.allocated_nil {op : Op} {life : Life} {n i : Nat} {m : Machine}
    {log : List Event} {x : Exit} (hr : LoopRun op life n i m log x) : allocated log = [] := by
  induction hr with
  | exhausted i m => rfl
  | left n i m pre x hf => cases hf <;> rfl
  | done n i m cur pre mid x hf ha =>
    rw [allocated_append]
    cases hf <;> cases ha <;> rfl
  | retry n i m cur pre mid rest x hf ha _ ih =>
    rw [allocated_append, allocated_append, ih]
    cases hf <;> cases ha <;> rfl

theorem AdvanceRun.allocated_eq {original : Machine} {life : Life} {log : List Event}
    {val : Outcome × Machine} (hr : AdvanceRun original life log val) : allocated log = [] := by
  cases hr with
  | readFailed err => rfl
  | hosting mc _ => rfl
  | looped mc rest x _ hloop => simpa [allocated] using hloop.allocated_nil

/-- A run of the loop with `n` passes left submits at most `n` op sets and refetches at
most `n` times, and not on the first pass. -/
theorem LoopRun.bounds {op : Op} {life : Life} {n i : Nat} {m : Machine}
    {log : List Event} {x : Exit} (hr : LoopRun op life n i m log x) :
    (submitted log).length ≤ n ∧
    (refetches log).length ≤ (if i = 0 then n - 1 else n) := by
  induction hr with
  | exhausted i m => simp [submitted, refetches]
  | left n i m pre x hf =>
    have h1 := hf.refetches_length
    rw [hf.submitted_eq.1]
    refine ⟨by simp, ?_⟩
    by_cases hi : i = 0
    · simp only [hi, if_true] at h1 ⊢
      omega
    · simp only [hi, if_false] at h1 ⊢
      omega
  | done n i m cur pre mid x hf ha =>
    have h1 := hf.refetches_length
    have h2 := ha.submitted_length
    rw [submitted_append, refetches_append, hf.submitted_eq.1, ha.refetches_eq]
    refine ⟨by simp only [List.nil_append]; omega, ?_⟩
    by_cases hi : i = 0
    · simp only [hi, if_true, List.append_nil] at h1 ⊢
      omega
    · simp only [hi, if_false, List.append_nil] at h1 ⊢
      omega
  | retry n i m cur pre mid rest x hf ha _ ih =>
    have h1 := hf.refetches_length
    have h2 := ha.submitted_length
    obtain ⟨ih1, ih2⟩ := ih
    rw [submitted_append, submitted_append, refetches_append, refetches_append,
      hf.submitted_eq.1, ha.refetches_eq]
    simp only [Nat.add_eq_zero, one_ne_zero, and_false, if_false] at ih2
    simp only [List.nil_append, List.length_append]
    refine ⟨by omega, ?_⟩
    by_cases hi : i = 0
    · simp only [hi, if_true] at h1 ⊢
      omega
    · simp only [hi, if_false] at h1 ⊢
      omega

/-- When every one of the `n` passes left has its op set rejected, the loop ends in the
return after it. -/
theorem LoopRun.exhausted_of_aborts {op : Op} {life : Life} {n i : Nat} {m : Machine}
    {log : List Event} {x : Exit} (hr : LoopRun op life n i m log x)
    (hab : runResults log = List.replicate n (some Error.ErrAborted)) :
    ∃ last : Machine, x = ⟨some last, some (contentionError last), none⟩ := by
  induction hr with
  | exhausted i m => exact ⟨m, rfl⟩
  | left n i m pre x hf =>
    rw [hf.submitted_eq.2] at hab
    simp [List.replicate_succ] at hab
  | done n i m cur pre mid x hf ha =>
    rw [runResults_append, hf.submitted_eq.2, List.nil_append] at hab
    cases ha with
    | ran err _ _ _ _ hne =>
      simp only [runResults, List.replicate_succ, List.cons.injEq] at hab
      exact absurd hab.1 hne
    | _ => simp [runResults, List.replicate_succ] at hab
  | retry n i m cur pre mid rest x hf ha _ ih =>
    rw [runResults_append, runResults_append, hf.submitted_eq.2, List.nil_append] at hab
    cases ha with
    | aborted _ _ _ _ =>
      simp only [runResults, List.replicate_succ, List.singleton_append,
        List.cons.injEq, true_and] at hab
      exact ih hab

/-- A refetch that reports the machine gone is the last call of the loop, which is left
with a nil `m` and a nil error. -/
theorem LoopRun.gone_is_last {op : Op} {life : Life} {n i : Nat} {m : Machine}
    {log : List Event} {x : Exit} (hr : LoopRun op life n i m log x) {err : Error}
    (hmem : Except.error err ∈ refetches log) (hnf : IsNotFoundError (some err) = true) :
    x = ⟨none, none, none⟩ ∧ ∃ front id, log = front ++ [Event.StMachine id (.error err)] := by
  induction hr with
  | exhausted i m => simp [refetches] at hmem
  | left n i m pre x hf =>
    cases hf with
    | gone e _ _ =>
      simp only [refetches, List.mem_singleton, Except.error.injEq] at hmem
      subst hmem
      exact ⟨rfl, [], _, rfl⟩
    | failed e _ he =>
      simp only [refetches, List.mem_singleton, Except.error.injEq] at hmem
      subst hmem
      rw [hnf] at he
      exact absurd he (by decide)
  | done n i m cur pre mid x hf ha =>
    rw [refetches_append, ha.refetches_eq, List.append_nil] at hmem
    cases hf with
    | first _ => simp [refetches] at hmem
    | fresh copy _ => simp [refetches] at hmem
  | retry n i m cur pre mid rest x hf ha _ ih =>
    rw [refetches_append, refetches_append, ha.refetches_eq, List.nil_append,
      List.mem_append] at hmem
    rcases hmem with hmem | hmem
    · cases hf with
      | first _ => simp [refetches] at hmem
      | fresh copy _ => simp [refetches] at hmem
    · obtain ⟨hx, front, id, hlog⟩ := ih hmem
      refine ⟨hx, pre ++ (mid ++ front), id, ?_⟩
      rw [hlog]
      simp

/-- An error of the store other than the rejection ends the loop at once, with that
error as the result. -/
theorem LoopRun.store_error {op : Op} {life : Life} {n i : Nat} {m : Machine}
    {log : List Event} {x : Exit} (hr : LoopRun op life n i m log x) {err : Error}
    (hmem : some err ∈ runResults log) (hne : err ≠ .ErrAborted) :
    (∃ cur, x = ⟨some cur, some err, none⟩) ∧
    ∃ front ops, log = front ++ [Event.Run ops (some err)] := by
  induction hr with
  | exhausted i m => simp [runResults] at hmem
  | left n i m pre x hf =>
    rw [hf.submitted_eq.2] at hmem
    simp at hmem
  | done n i m cur pre mid x hf ha =>
    rw [runResults_append, hf.submitted_eq.2, List.nil_append] at hmem
    cases ha with
    | ran e _ _ _ _ _ =>
      simp only [runResults, List.mem_singleton] at hmem
      subst hmem
      exact ⟨⟨cur, rfl⟩, pre, _, rfl⟩
    | _ => simp [runResults] at hmem
  | retry n i m cur pre mid rest x hf ha _ ih =>
    rw [runResults_append, runResults_append, hf.submitted_eq.2, List.nil_append,
      List.mem_append] at hmem
    rcases hmem with hmem | hmem
    · cases ha with
      | aborted _ _ _ _ =>
        simp only [runResults, List.mem_singleton, Option.some.injEq] at hmem
        exact absurd hmem hne
    · obtain ⟨hx, front, ops, hlog⟩ := ih hmem
      refine ⟨hx, pre ++ (mid ++ front), ops, ?_⟩
      rw [hlog]
      simp

theorem advanceDeferred_alreadyThere (original : Machine) (life : Life)
    (hle : life ≤ original.doc.Life) :
    advanceDeferred original life ⟨some original, none, none⟩ = original := by
  simp only [advanceDeferred, if_true, Life.le_antisymm_of_not_gt life original.doc.Life hle]

/-! ## The runs of SetPhase and SetProvisioned -/

theorem SetPhase_runs (P : migration.Table) (mig : modelMigration)
    (nextPhase : migration.Phase) :
    (mig.SetPhase P nextPhase).Always (SetPhaseRun P mig nextPhase) := by
  unfold modelMigration.SetPhase
  intro now
  rcases hph : mig.Phase P with ⟨phase, e⟩
  cases e with
  | some err =>
    have := @SetPhaseRun.invalid P mig nextPhase now err (by rw [hph])
    simpa [Prog.Always, Event.of] using this
  | none =>
    simp only []
    by_cases hsame : nextPhase = phase
    · have := @SetPhaseRun.same P mig nextPhase now
        (by rw [hph]) (by rw [hph]; exact hsame)
      simpa [Prog.Always, Event.of, hsame] using this
    · by_cases hcan : P.CanTransitionTo phase nextPhase = true
      · simp only [hsame, if_false, hcan, Bool.not_true, Bool.false_eq_true]
        intro x
        cases x with
        | none =>
          have := @SetPhaseRun.changed P mig nextPhase now
            (by rw [hph]) (by rw [hph]; exact hsame) (by rw [hph]; exact hcan)
          simpa [Prog.Always, Event.of] using this
        | some err =>
          by_cases hab : err = .ErrAborted
          · subst hab
            have := @SetPhaseRun.aborted P mig nextPhase now
              (by rw [hph]) (by rw [hph]; exact hsame) (by rw [hph]; exact hcan)
            simpa [Prog.Always, Event.of] using this
          · have := @SetPhaseRun.failed P mig nextPhase now err
              (by rw [hph]) (by rw [hph]; exact hsame) (by rw [hph]; exact hcan) hab
            cases err <;> first | exact absurd rfl hab | simpa [Prog.Always, Event.of] using this
      · have hcan' : P.CanTransitionTo phase nextPhase = false := by simpa using hcan
        have := @SetPhaseRun.illegal P mig nextPhase now
          (by rw [hph]) (by rw [hph]; exact hsame) (by rw [hph]; exact hcan')
        simpa [Prog.Always, Event.of, hsame, hcan', hph] using this

theorem SetProvisioned_runs (m : Machine) (id : InstanceId) (nonce : String) :
    (m.SetProvisioned id nonce).Always (SetProvisionedRun m id nonce) := by
  unfold Machine.SetProvisioned
  by_cases hempty : id = "" ∨ nonce = ""
  · simp only [hempty, if_true]
    exact SetProvisionedRun.empty hempty
  · simp only [hempty, if_false]
    have hid : id ≠ "" := fun hh => hempty (Or.inl hh)
    have hn : nonce ≠ "" := fun hh => hempty (Or.inr hh)
    intro x
    cases x with
    | none =>
      simp only [if_true]
      exact SetProvisionedRun.set hid hn
    | some err =>
      by_cases hab : err = .ErrAborted
      · subst hab
        simp only [reduceCtorEq, if_false, ne_eq, not_true_eq_false]
        intro r
        obtain ⟨alive, e⟩ := r
        cases e with
        | some e' =>
          simp only [ne_eq, reduceCtorEq, not_false_eq_true, if_true]
          exact SetProvisionedRun.unknown alive e' hid hn
        | none =>
          cases alive with
          | true => exact SetProvisionedRun.alreadySet hid hn
          | false => exact SetProvisionedRun.notAlive hid hn
      · have hne : some err ≠ some Error.ErrAborted := by simpa using hab
        simp only [reduceCtorEq, if_false, ne_eq, hne, not_false_eq_true, if_true]
        exact SetProvisionedRun.failed err hid hn hab

/-- On the document store `SetProvisioned` with a non-empty id and nonce ends with the
store its op set gives when it is applied, and fails with the store as it was when the
op set is rejected. -/
theorem SetProvisioned_on_store (st : Store) (m : Machine) (id : InstanceId) (nonce : String)
    (hid : id ≠ "") (hn : nonce ≠ "") :
    (∀ st', st.applyAtomic (setProvisionedOps m id nonce) = some st' →
      ((m.SetProvisioned id nonce).exec Store.handle st).store = st' ∧
      ((m.SetProvisioned id nonce).exec Store.handle st).val.1 = none) ∧
    (st.applyAtomic (setProvisionedOps m id nonce) = none →
      ((m.SetProvisioned id nonce).exec Store.handle st).store = st ∧
      ((m.SetProvisioned id nonce).exec Store.handle st).val.1 ≠ none) := by
  have hempty : ¬ (id = "" ∨ nonce = "") := by
    rintro (hh | hh)
    · exact hid hh
    · exact hn hh
  constructor
  · intro st' happ
    simp [Machine.SetProvisioned, hempty, Prog.exec, Store.handle, happ, ErrorContextf]
  · intro happ
    simp only [Machine.SetProvisioned, hempty, if_false, Prog.exec, Store.handle, happ]
    simp only [reduceCtorEq, if_false, ne_eq, not_true_eq_false, not_false_eq_true, if_true]
    constructor <;> split <;> simp [Prog.exec, ErrorContextf]

/-! ## The runs of SetPhase on a handle -/

theorem SetPhaseRun.no_allocation {P : migration.Table} {mig : modelMigration}
    {nextPhase : migration.Phase} {log : List Event} {val : Option Error × modelMigration}
    (hr : SetPhaseRun P mig nextPhase log val) : allocated log = [] := by
  cases hr <;> rfl

theorem modelMigration.Phase_fst_of_ok {P : migration.Table} {mig : modelMigration}
    {c : migration.Phase} (h : mig.Phase P = (c, none)) :
    (mig.Phase P).1 = c ∧ (mig.Phase P).2 = none := by
  rw [h]
  exact ⟨rfl, rfl⟩

/-- The phase string the new status document of `SetPhase` holds. -/
theorem setPhaseNext_Phase (P : migration.Table) (mig : modelMigration)
    (nextPhase : migration.Phase) (now : Int) :
    (setPhaseNext P mig nextPhase now).1.Phase = P.PhaseString nextPhase := by
  unfold setPhaseNext
  dsimp only
  split <;> split <;> rfl

/-- The phase of a handle whose phase string is the name of a phase that parses back. -/
theorem modelMigration.Phase_of_name {P : migration.Table} {mig : modelMigration}
    {p : migration.Phase} (hname : P.ParsePhase (P.PhaseString p) = (p, true))
    (hphase : mig.statusDoc.Phase = P.PhaseString p) : mig.Phase P = (p, none) := by
  simp [modelMigration.Phase, hphase, hname]

/-- On a handle already in the phase asked for, `SetPhase` reads the clock and returns. -/
theorem SetPhaseRun.of_same {P : migration.Table} {mig : modelMigration}
    {p : migration.Phase} {log : List Event} {val : Option Error × modelMigration}
    (hcur : mig.Phase P = (p, none)) (hr : SetPhaseRun P mig p log val) :
    val = (none, mig) ∧ submitted log = [] := by
  obtain ⟨h1, h2⟩ := modelMigration.Phase_fst_of_ok hcur
  cases hr with
  | invalid now err he => rw [h2] at he; exact absurd he (by simp)
  | same now _ _ => exact ⟨rfl, rfl⟩
  | illegal now _ hne _ => exact absurd h1.symm hne
  | changed now _ hne _ => exact absurd h1.symm hne
  | aborted now _ hne _ => exact absurd h1.symm hne
  | failed now err _ hne _ _ => exact absurd h1.symm hne

/-! ## The update of SetPhase -/

/-- The new status document of `SetPhase`, field by field. -/
theorem setPhaseNext_fst (P : migration.Table) (mig : modelMigration)
    (nextPhase : migration.Phase) (now : Int) :
    (setPhaseNext P mig nextPhase now).1 =
      { mig.statusDoc with
        Phase := P.PhaseString nextPhase
        PhaseChangedTime := now
        SuccessTime := if nextPhase = P.SUCCESS then now else mig.statusDoc.SuccessTime
        EndTime := if P.IsTerminal nextPhase = true then now else mig.statusDoc.EndTime } := by
  unfold setPhaseNext
  dsimp only
  split <;> split <;> rfl

/-- The fields of the `$set` update of `SetPhase`. -/
theorem setPhaseNext_snd (P : migration.Table) (mig : modelMigration)
    (nextPhase : migration.Phase) (now : Int) :
    (setPhaseNext P mig nextPhase now).2 =
      [("phase", Value.str (P.PhaseString nextPhase)), ("phase-changed-time", Value.int now)]
      ++ (if nextPhase = P.SUCCESS then [("success-time", Value.int now)] else [])
      ++ (if P.IsTerminal nextPhase = true then [("end-time", Value.int now)] else []) := by
  unfold setPhaseNext
  dsimp only
  split <;> split <;> rfl

/-- The update of `SetPhase` gives the stored status document the very values the
status document in memory receives. -/
theorem setPhaseNext_toDoc (P : migration.Table) (mig : modelMigration)
    (nextPhase : migration.Phase) (now : Int) :
    Doc.setAll mig.statusDoc.toDoc (setPhaseNext P mig nextPhase now).2 =
      (setPhaseNext P mig nextPhase now).1.toDoc := by
  unfold setPhaseNext
  dsimp only
  split <;> split <;>
    simp [Doc.setAll, Doc.set, modelMigStatusDoc.toDoc]

theorem setPhaseOps_status_mem (P : migration.Table) (mig : modelMigration)
    (nextPhase : migration.Phase) (now : Int) :
    ({ C := migrationsStatusC, Id := mig.statusDoc.Id,
       Update := some (.set (setPhaseNext P mig nextPhase now).2),
       Assert := .query [.field "phase" (.eq (.str mig.statusDoc.Phase))] } : Op)
      ∈ setPhaseOps P mig nextPhase now := by
  unfold setPhaseOps
  exact List.mem_append_right _ (List.mem_singleton.2 rfl)

/-! ## What an op set leaves in the other collections -/

theorem findEntry_putEntry_other (C id C0 id0 : String) (d : Doc) (docs : List Entry)
    (h : ¬ (C = C0 ∧ id = id0)) :
    findEntry C0 id0 (putEntry C id d docs) = findEntry C0 id0 docs := by
  induction docs with
  | nil => simp only [putEntry, findEntry, if_neg h]
  | cons e docs ih =>
    by_cases he : e.C = C ∧ e.Id = id
    · have he0 : ¬ (e.C = C0 ∧ e.Id = id0) := by
        rw [he.1, he.2]
        exact h
      simp only [putEntry, findEntry, if_pos he, if_neg he0, if_neg h]
    · by_cases he0 : e.C = C0 ∧ e.Id = id0
      · simp only [putEntry, findEntry, if_neg he, if_pos he0]
      · simp only [putEntry, findEntry, if_neg he, if_neg he0, ih]

theorem findEntry_removeEntry_same (C id : String) (docs : List Entry) :
    findEntry C id (removeEntry C id docs) = none := by
  induction docs with
  | nil => rfl
  | cons e docs ih =>
    by_cases he : e.C = C ∧ e.Id = id
    · simp only [removeEntry, if_pos he, ih]
    · simp only [removeEntry, findEntry, if_neg he, ih]

theorem findEntry_removeEntry_other (C id C0 id0 : String) (docs : List Entry)
    (h : ¬ (C = C0 ∧ id = id0)) :
    findEntry C0 id0 (removeEntry C id docs) = findEntry C0 id0 docs := by
  induction docs with
  | nil => rfl
  | cons e docs ih =>
    by_cases he : e.C = C ∧ e.Id = id
    · have he0 : ¬ (e.C = C0 ∧ e.Id = id0) := by
        rw [he.1, he.2]
        exact h
      simp only [removeEntry, findEntry, if_pos he, if_neg he0, ih]
    · by_cases he0 : e.C = C0 ∧ e.Id = id0
      · simp only [removeEntry, findEntry, if_neg he, if_pos he0]
      · simp only [removeEntry, findEntry, if_neg he, if_neg he0, ih]

/-- An op leaves every document but its own as it was. -/
theorem Op.apply_find_other (op : Op) (s : Store) (C0 id0 : String)
    (h : ¬ (op.C = C0 ∧ op.Id = id0)) : (op.apply s).find C0 id0 = s.find C0 id0 := by
  unfold Op.apply
  cases s.find op.C op.Id with
  | none =>
    cases op.Insert with
    | none => rfl
    | some d => exact findEntry_putEntry_other _ _ _ _ _ _ h
  | some cur =>
    by_cases hr : op.Remove = true
    · simp only [hr, if_true]
      exact findEntry_removeEntry_other _ _ _ _ _ h
    · simp only [hr, if_false]
      cases op.Update with
      | none => rfl
      | some u =>
        cases u with
        | set fields => exact findEntry_putEntry_other _ _ _ _ _ _ h

theorem foldl_apply_find_other (ops : List Op) (C0 id0 : String)
    (h : ∀ op ∈ ops, ¬ (op.C = C0 ∧ op.Id = id0)) :
    ∀ s : Store, (ops.foldl (fun acc op => op.apply acc) s).find C0 id0 = s.find C0 id0 := by
  induction ops with
  | nil => intro s; rfl
  | cons op ops ih =>
    intro s
    rw [List.foldl_cons, ih (fun o ho => h o (List.mem_cons_of_mem _ ho))]
    exact Op.apply_find_other op s C0 id0 (h op (List.mem_cons_self _ _))

/-- An op set that is applied leaves every document none of its ops is about as it
was. -/
theorem Store.applyAtomic_find_other {s s' : Store} {ops : List Op} {C0 id0 : String}
    (happ : s.applyAtomic ops = some s') (h : ∀ op ∈ ops, ¬ (op.C = C0 ∧ op.Id = id0)) :
    s'.find C0 id0 = s.find C0 id0 := by
  unfold Store.applyAtomic at happ
  split at happ
  · simp only [Option.some.injEq] at happ
    subst happ
    exact foldl_apply_find_other ops C0 id0 h s
  · exact absurd happ (by simp)

theorem Store.applyAtomic_check {s s' : Store} {ops : List Op}
    (happ : s.applyAtomic ops = some s') : ∀ op ∈ ops, op.check s = true := by
  unfold Store.applyAtomic at happ
  split at happ
  · rename_i hall
    exact List.all_eq_true.1 hall
  · exact absurd happ (by simp)

theorem Store.applyAtomic_eq {s s' : Store} {ops : List Op}
    (happ : s.applyAtomic ops = some s') :
    s' = ops.foldl (fun acc op => op.apply acc) s := by
  unfold Store.applyAtomic at happ
  split at happ
  · simp only [Option.some.injEq] at happ
    exact happ.symm
  · exact absurd happ (by simp)

/-- On the document store a run leaves a document as it was when no op it submits is
about that document and the document is not a counter of the sequence allocator. -/
theorem Store.exec_find_other {α : Type} (p : Prog α) (C0 id0 : String)
    (hseq : C0 ≠ sequenceC) :
    ∀ s : Store,
      (∀ ops ∈ submitted (p.exec Store.handle s).log, ∀ op ∈ ops,
        ¬ (op.C = C0 ∧ op.Id = id0)) →
      (p.exec Store.handle s).store.find C0 id0 = s.find C0 id0 := by
  induction p with
  | ret a => intro s _; rfl
  | call r k ih =>
    intro s hs
    rw [Prog.exec_call] at hs ⊢
    cases r with
    | Run ops =>
      simp only [Event.of, submitted, List.mem_cons, forall_eq_or_imp] at hs
      rw [ih _ _ hs.2]
      simp only [Store.handle]
      cases happ : s.applyAtomic ops with
      | none => rfl
      | some s' => exact Store.applyAtomic_find_other happ hs.1
    | Sequence uuid name =>
      rw [ih _ _ (by simpa [Event.of, submitted] using hs)]
      exact findEntry_putEntry_other _ _ _ _ _ _ (fun hh => hseq hh.1.symm)
    | FindId C id => exact ih _ s (by simpa [Event.of, submitted] using hs)
    | StMachine id => exact ih _ s (by simpa [Event.of, submitted] using hs)
    | IsAlive C id => exact ih _ s (by simpa [Event.of, submitted] using hs)
    | Now => exact ih _ s (by simpa [Event.of, submitted] using hs)
    | CountId C id => exact ih _ s (by simpa [Event.of, submitted] using hs)
    | FindTopId C q => exact ih _ s (by simpa [Event.of, submitted] using hs)
    | StModel uuid => exact ih _ s (by simpa [Event.of, submitted] using hs)
    | StControllerModel => exact ih _ s (by simpa [Event.of, submitted] using hs)

/-! ## SetPhase and IsModelMigrationActive on the document store -/

/-- On the document store `IsModelMigrationActive` tells whether the marker of the model
is there, and changes nothing. -/
theorem IsModelMigrationActive_on_store (st : State) (s : Store) :
    (st.IsModelMigrationActive.exec Store.handle s).val =
      ((s.find migrationsActiveC st.ModelUUID).isSome, none) ∧
    (st.IsModelMigrationActive.exec Store.handle s).store = s := by
  cases hf : s.find migrationsActiveC st.ModelUUID <;>
    simp [State.IsModelMigrationActive, Prog.exec, Store.handle, hf]

/-- On the document store a successful `SetPhase` to another phase ends with the store
its op set gives, read at the clock of the store. -/
theorem SetPhase_on_store (P : migration.Table) (mig : modelMigration)
    (next : migration.Phase) (s : Store)
    (hok : ((mig.SetPhase P next).exec Store.handle s).val.1 = none)
    (hne : next ≠ (mig.Phase P).1) :
    s.applyAtomic (setPhaseOps P mig next s.clock) =
      some ((mig.SetPhase P next).exec Store.handle s).store := by
  unfold modelMigration.SetPhase at hok ⊢
  rcases hph : mig.Phase P with ⟨phase, e⟩
  rw [hph] at hne
  simp only [Prog.exec, Store.handle, hph] at hok ⊢
  cases e with
  | some err => simp [Prog.exec] at hok
  | none =>
    simp only [] at hok ⊢
    have hne' : ¬ next = phase := hne
    simp only [hne', if_false] at hok ⊢
    by_cases hcan : P.CanTransitionTo phase next = true
    · simp only [hcan, Bool.not_true, Bool.false_eq_true, if_false, Prog.exec,
        Store.handle] at hok ⊢
      cases happ : s.applyAtomic (setPhaseOps P mig next s.clock) with
      | none => simp [happ, Prog.exec] at hok
      | some s' => simp [Prog.exec]
    · simp [hcan, Prog.exec] at hok

/-! ## The marker in the op set of SetPhase -/

/-- The op set of `SetPhase` holds the removal of the marker of the active migration
exactly when the next phase is terminal. -/
theorem setPhaseOps_marker_mem (P : migration.Table) (mig : modelMigration)
    (next : migration.Phase) (now : Int) :
    ({ C := migrationsActiveC, Id := mig.doc.ModelUUID, Assert := .DocExists,
       Remove := true } : Op) ∈ setPhaseOps P mig next now ↔ P.IsTerminal next = true := by
  unfold setPhaseOps
  by_cases ht : P.IsTerminal next = true
  · simp [ht]
  · simp [ht, migrationsActiveC, migrationsStatusC]

/-- The ops of `SetPhase` are about the status document and the marker only. -/
theorem setPhaseOps_collections (P : migration.Table) (mig : modelMigration)
    (next : migration.Phase) (now : Int) :
    ∀ op ∈ setPhaseOps P mig next now,
      (op.C = migrationsStatusC ∧ op.Id = mig.statusDoc.Id) ∨
      (op.C = migrationsActiveC ∧ op.Id = mig.doc.ModelUUID ∧ P.IsTerminal next = true) := by
  intro op hop
  unfold setPhaseOps at hop
  by_cases ht : P.IsTerminal next = true
  · simp only [ht, if_true, List.cons_append, List.nil_append, List.mem_cons,
      List.mem_singleton, List.not_mem_nil, or_false] at hop
    rcases hop with rfl | rfl
    · exact Or.inr ⟨rfl, rfl, ht⟩
    · exact Or.inl ⟨rfl, rfl⟩
  · simp only [ht, if_false, List.nil_append, List.mem_singleton, Bool.false_eq_true] at hop
    subst hop
    exact Or.inl ⟨rfl, rfl⟩

/-- When the store applies the op set of a `SetPhase` to a terminal phase, the marker
of the active migration was there and is gone afterwards. -/
theorem Store.applyAtomic_setPhaseOps_terminal {P : migration.Table} {mig : modelMigration}
    {next : migration.Phase} {now : Int} {s s' : Store}
    (ht : P.IsTerminal next = true)
    (happ : s.applyAtomic (setPhaseOps P mig next now) = some s') :
    (s.find migrationsActiveC mig.doc.ModelUUID).isSome = true ∧
    s'.find migrationsActiveC mig.doc.ModelUUID = none := by
  have hcheck := Store.applyAtomic_check happ _ ((setPhaseOps_marker_mem P mig next now).2 ht)
  have hsome : (s.find migrationsActiveC mig.doc.ModelUUID).isSome = true := by
    simpa [Op.check, Assert.holds] using hcheck
  refine ⟨hsome, ?_⟩
  rw [Store.applyAtomic_eq happ]
  unfold setPhaseOps
  simp only [ht, if_true, List.cons_append, List.nil_append, List.foldl_cons, List.foldl_nil]
  rw [Op.apply_find_other _ _ _ _ (by simp [migrationsActiveC, migrationsStatusC])]
  obtain ⟨cur, hcur⟩ := Option.isSome_iff_exists.1 hsome
  simp only [Op.apply, hcur, if_true]
  exact findEntry_removeEntry_same _ _ _

/-! ## The runs of SetStatusMessage and Refresh -/

theorem SetStatusMessage_runs (mig : modelMigration) (text : String) :
    (mig.SetStatusMessage text).Always (SetStatusMessageRun mig text) := by
  unfold modelMigration.SetStatusMessage
  intro x
  cases x with
  | none => exact SetStatusMessageRun.set
  | some err => exact SetStatusMessageRun.failed err

theorem Refresh_runs (mig : modelMigration) : mig.Refresh.Always (RefreshRun mig) := by
  unfold modelMigration.Refresh
  intro x
  cases x with
  | ok statusDoc => exact RefreshRun.read statusDoc
  | error err =>
    by_cases hnf : err = .ErrNotFound
    · subst hnf
      exact RefreshRun.notFound
    · have := @RefreshRun.failed mig err hnf
      simpa [Prog.Always, Event.of, hnf] using this

/-- The receiver after a `SetPhase` has the descriptor it had. -/
theorem SetPhaseRun.doc_eq {P : migration.Table} {mig : modelMigration}
    {next : migration.Phase} {log : List Event} {val : Option Error × modelMigration}
    (hrun : SetPhaseRun P mig next log val) : val.2.doc = mig.doc := by
  cases hrun <;> rfl

/-- The ops of a run of `SetPhase` are about the status document and the marker only. -/
theorem SetPhaseRun.ops_about {P : migration.Table} {mig : modelMigration}
    {next : migration.Phase} {log : List Event} {val : Option Error × modelMigration}
    (hrun : SetPhaseRun P mig next log val) :
    ∀ ops ∈ submitted log, ∀ op ∈ ops,
      (op.C = migrationsStatusC ∧ op.Id = mig.statusDoc.Id) ∨
      (op.C = migrationsActiveC ∧ op.Id = mig.doc.ModelUUID ∧ P.IsTerminal next = true) := by
  intro ops hops
  have hshape : ∃ now, ops = setPhaseOps P mig next now := by
    cases hrun with
    | invalid now err _ => simp [submitted] at hops
    | same now _ _ => simp [submitted] at hops
    | illegal now _ _ _ => simp [submitted] at hops
    | changed now _ _ _ => exact ⟨now, by simpa [submitted] using hops⟩
    | aborted now _ _ _ => exact ⟨now, by simpa [submitted] using hops⟩
    | failed now err _ _ _ _ => exact ⟨now, by simpa [submitted] using hops⟩
  obtain ⟨now, rfl⟩ := hshape
  exact setPhaseOps_collections P mig next now

/-- Every run of `SetStatusMessage` submits its op set once and nothing else. -/
theorem SetStatusMessageRun.one_op_set {mig : modelMigration} {text : String}
    {log : List Event} {val : Option Error × modelMigration}
    (hrun : SetStatusMessageRun mig text log val) :
    submitted log = [setStatusMessageOps mig text] ∧ val.2.doc = mig.doc := by
  cases hrun <;> exact ⟨rfl, rfl⟩

/-- Every run of `Refresh` submits nothing and keeps the descriptor. -/
theorem RefreshRun.submits_nothing {mig : modelMigration}
    {log : List Event} {val : Option Error × modelMigration}
    (hrun : RefreshRun mig log val) : submitted log = [] ∧ val.2.doc = mig.doc := by
  cases hrun <;> exact ⟨rfl, rfl⟩

/-! ## Updates of distinct fields -/

/-- Setting two distinct fields of a document, one of which it has, gives the same
document in either order. -/
theorem Doc.set_comm (d : Doc) (k k2 : String) (v v2 : Value) (h : k ≠ k2)
    (hk : Doc.get d k ≠ none) :
    Doc.set (Doc.set d k v) k2 v2 = Doc.set (Doc.set d k2 v2) k v := by
  induction d with
  | nil => exact absurd rfl hk
  | cons kv rest ih =>
    obtain ⟨k1, v1⟩ := kv
    by_cases h1 : k1 = k
    · subst h1
      have h2 : ¬ k1 = k2 := h
      simp [Doc.set, h2]
    · by_cases h2 : k1 = k2
      · subst h2
        simp [Doc.set, h1]
      · have hk2 : Doc.get rest k ≠ none := by
          simpa [Doc.get, h1] using hk
        simp [Doc.set, h1, h2, ih hk2]

/-- A set of fields other than `k` and a set of the field `k`, on a document that has
the field `k`, give the same document in either order. -/
theorem Doc.setAll_set_comm (fields : List (String × Value)) (k : String) (v : Value)
    (hfields : ∀ kv ∈ fields, kv.1 ≠ k) :
    ∀ d : Doc, Doc.get d k ≠ none →
      Doc.set (Doc.setAll d fields) k v = Doc.setAll (Doc.set d k v) fields := by
  induction fields with
  | nil => intro d _; rfl
  | cons kv fields ih =>
    intro d hk
    have hne : kv.1 ≠ k := hfields kv (List.mem_cons_self _ _)
    have hk2 : Doc.get (Doc.set d kv.1 kv.2) k ≠ none := by
      rw [Doc.get_set_other d kv.1 k kv.2 hne]
      exact hk
    simp only [Doc.setAll, List.foldl_cons]
    have := ih (fun x hx => hfields x (List.mem_cons_of_mem _ hx)) (Doc.set d kv.1 kv.2) hk2
    simp only [Doc.setAll] at this
    rw [this, Doc.set_comm d k kv.1 v kv.2 hne.symm hk]

theorem setPhaseNext_keys (P : migration.Table) (mig : modelMigration)
    (next : migration.Phase) (now : Int) :
    (setPhaseNext P mig next now).2.all (fun kv => kv.1 != "status-message") = true := by
  unfold setPhaseNext
  dsimp only
  split <;> split <;> rfl

/-- The update of `SetPhase` never sets the status message. -/
theorem setPhaseNext_no_message (P : migration.Table) (mig : modelMigration)
    (next : migration.Phase) (now : Int) :
    ∀ kv ∈ (setPhaseNext P mig next now).2, kv.1 ≠ "status-message" := by
  intro kv hkv
  have := List.all_eq_true.1 (setPhaseNext_keys P mig next now) kv hkv
  simpa using this

/-! ## The runs of CreateModelMigration -/

theorem Prog.bind_ret {α β : Type} (a : α) (f : α → Prog β) : (Prog.ret a).bind f = f a := rfl

theorem Prog.bind_call {α β : Type} (r : Req) (k : Req.Resp r → Prog α) (f : α → Prog β) :
    (Prog.call r k).bind f = .call r (fun x => (k x).bind f) := rfl

/-- Every run of `buildTxn` of `CreateModelMigration` submits nothing itself, and the op
set it returns is the one of `createOps` for the model it read and the number it was
given. -/
theorem createBuildTxn_runs (L : Lib) (P : migration.Table) (st : State)
    (spec : ModelMigrationSpec) (now : Int) (attempt : Nat) :
    (createBuildTxn L P st spec now attempt).Always (fun log r =>
      submitted log = [] ∧
      ∀ docs ops, r = .ok (docs, ops) →
        ∃ model seq, ops = createOps st model (createDocs L P st spec now seq)) := by
  unfold createBuildTxn
  intro r
  cases r with
  | error err => exact ⟨rfl, fun _ _ hh => by cases hh⟩
  | ok model =>
    by_cases hlife : model.Life = .Alive
    · simp only [hlife, ne_eq, not_true_eq_false, if_false, State.IsModelMigrationActive,
        Prog.bind_call]
      intro c
      obtain ⟨n, e⟩ := c
      cases e with
      | some err => exact ⟨rfl, fun _ _ hh => by cases hh⟩
      | none =>
        simp only [Prog.bind_ret]
        by_cases hact : decide (n > 0) = true
        · simp only [hact, if_true]
          exact ⟨rfl, fun _ _ hh => by cases hh⟩
        · simp only [hact, if_false, Bool.false_eq_true]
          intro sq
          cases sq with
          | error err => exact ⟨rfl, fun _ _ hh => by cases hh⟩
          | ok seq =>
            refine ⟨rfl, fun docs ops hh => ?_⟩
            simp only [Except.ok.injEq, Prod.mk.injEq] at hh
            exact ⟨model, seq, hh.2.symm⟩
    · simp only [ne_eq, hlife, not_false_eq_true, if_true]
      exact ⟨rfl, fun _ _ hh => by cases hh⟩

/-- Every op set `st.run` submits is one its `buildTxn` returned. -/
theorem stRun_runs {α : Type} (buildTxn : Nat → Prog (Except Error (α × List Op)))
    (R : List Op → Prop)
    (hB : ∀ attempt, (buildTxn attempt).Always (fun log r =>
      submitted log = [] ∧ ∀ a ops, r = .ok (a, ops) → R ops)) :
    ∀ left attempt,
      (stRun buildTxn left attempt).Always (fun log _ => ∀ ops ∈ submitted log, R ops) := by
  intro left
  induction left with
  | zero =>
    intro attempt ops hops
    exact absurd hops (List.not_mem_nil _)
  | succ left ih =>
    intro attempt
    unfold stRun
    refine Prog.always_bind _ _ _ (Prog.always_mono _ _ _ ?_ (hB attempt))
    intro log r hr
    cases r with
    | error err =>
      intro ops hops
      rw [List.append_nil, hr.1] at hops
      exact absurd hops (List.not_mem_nil _)
    | ok x =>
      obtain ⟨a, ops0⟩ := x
      have hR : R ops0 := hr.2 a ops0 rfl
      intro e
      have hsub : ∀ (rest : List Event), (∀ ops ∈ submitted rest, R ops) →
          ∀ ops ∈ submitted (log ++ Event.of (.Run ops0) e :: rest), R ops := by
        intro rest hrest ops hops
        rw [submitted_append, hr.1] at hops
        simp only [List.nil_append, Event.of, submitted, List.mem_cons] at hops
        rcases hops with rfl | hops
        · exact hR
        · exact hrest ops hops
      cases e with
      | none => exact hsub [] (fun _ hh => absurd hh (List.not_mem_nil _))
      | some err =>
        by_cases hab : err = .ErrAborted
        · subst hab
          simp only [if_true]
          refine Prog.always_mono _ _ _ ?_ (ih (attempt + 1))
          intro rest _ hrest
          exact hsub rest hrest
        · simp only [hab, if_false]
          exact hsub [] (fun _ hh => absurd hh (List.not_mem_nil _))

/-- Every op set `CreateModelMigration` submits is the op set of `createOps` for some
model and some number of the sequence. -/
theorem CreateModelMigration_runs (L : Lib) (P : migration.Table) (st : State)
    (spec : ModelMigrationSpec) :
    (st.CreateModelMigration L P spec).Always (fun log _ =>
      ∀ ops ∈ submitted log, ∃ now model seq,
        ops = createOps st model (createDocs L P st spec now seq)) := by
  unfold State.CreateModelMigration
  by_cases hc : st.IsController = true
  · simp only [hc, if_true]
    intro ops hops
    exact absurd hops (List.not_mem_nil _)
  · simp only [hc, if_false, Bool.false_eq_true]
    cases hv : spec.Validate L with
    | some err =>
      intro ops hops
      exact absurd hops (List.not_mem_nil _)
    | none =>
      simp only [checkTargetController, Prog.bind_call]
      intro cm
      have hnil : ∀ (ev : Event) (v : Option modelMigration × Option Error),
          submitted [ev] = [] →
          (Prog.ret v).Always (fun log (_ : Option modelMigration × Option Error) =>
            ∀ ops ∈ submitted (ev :: log), ∃ now model seq,
              ops = createOps st model (createDocs L P st spec now seq)) := by
        intro ev v hev ops hops
        rw [hev] at hops
        exact absurd hops (List.not_mem_nil _)
      cases cm with
      | error err => exact hnil _ _ rfl
      | ok current =>
        by_cases ht : spec.TargetInfo.ControllerTag = current.ModelTag
        · simp only [ht, if_true, Prog.bind_ret]
          exact hnil _ _ rfl
        · simp only [ht, if_false, Prog.bind_ret]
          intro now
          refine Prog.always_bind _ _ _ (Prog.always_mono _ _ _ ?_
            (stRun_runs (createBuildTxn L P st spec now)
              (fun ops => ∃ model seq, ops = createOps st model (createDocs L P st spec now seq))
              (createBuildTxn_runs L P st spec now) st.attempts 0))
          intro log r hr
          have hfin : ∀ ops ∈ submitted (Event.of .StControllerModel (.ok current) ::
              Event.of .Now now :: (log ++ [])), ∃ now model seq,
              ops = createOps st model (createDocs L P st spec now seq) := by
            intro ops hops
            simp only [List.append_nil, Event.of, submitted] at hops
            obtain ⟨model, seq, hh⟩ := hr ops hops
            exact ⟨now, model, seq, hh⟩
          cases r with
          | error err => exact hfin
          | ok docs => exact hfin

/-! ## CreateModelMigration on the document store -/

theorem Prog.exec_bind {σ α β : Type} (h : (r : Req) → σ → Req.Resp r × σ) (p : Prog α)
    (f : α → Prog β) :
    ∀ s : σ, (p.bind f).exec h s =
      { val := ((f (p.exec h s).val).exec h (p.exec h s).store).val
        store := ((f (p.exec h s).val).exec h (p.exec h s).store).store
        log := (p.exec h s).log ++ ((f (p.exec h s).val).exec h (p.exec h s).store).log } := by
  induction p with
  | ret a => intro s; rfl
  | call r k ih =>
    intro s
    rw [Prog.bind_call, Prog.exec_call, Prog.exec_call, ih]
    rfl

/-- On the document store, while the marker of the model is there, `buildTxn` of
`CreateModelMigration` returns an error and leaves the store as it was; the error is
"already in progress" when the model is read and Alive. -/
theorem createBuildTxn_while_active (L : Lib) (P : migration.Table) (st : State)
    (spec : ModelMigrationSpec) (now : Int) (attempt : Nat) (s : Store)
    (hmarker : (s.find migrationsActiveC st.ModelUUID).isSome = true) :
    ∃ e, ((createBuildTxn L P st spec now attempt).exec Store.handle s).val = .error e ∧
      ((createBuildTxn L P st spec now attempt).exec Store.handle s).store = s ∧
      submitted ((createBuildTxn L P st spec now attempt).exec Store.handle s).log = [] ∧
      (∀ model, (Store.handle (.StModel st.ModelUUID) s).1 = .ok model →
        model.Life = .Alive → e = .New "already in progress") := by
  have h2 : (Store.handle (.StModel st.ModelUUID) s).2 = s := rfl
  rw [createBuildTxn, Prog.exec_call, h2]
  rcases hr : (Store.handle (.StModel st.ModelUUID) s).1 with err | model
  · exact ⟨_, rfl, rfl, rfl, fun _ hh => by cases hh⟩
  · by_cases hlife : model.Life = .Alive
    · simp only [hlife, ne_eq, not_true_eq_false, if_false]
      rw [Prog.exec_bind, (IsModelMigrationActive_on_store st s).1,
        (IsModelMigrationActive_on_store st s).2, hmarker]
      refine ⟨.New "already in progress", rfl, rfl, ?_, fun _ _ _ => rfl⟩
      simp [Event.of, submitted, submitted_append, State.IsModelMigrationActive, Prog.exec]
    · refine ⟨.New "model is not alive", ?_, ?_, ?_, fun m hm hl => ?_⟩
      · simp only [ne_eq, hlife, not_false_eq_true, if_true, Prog.exec_ret]
      · simp only [ne_eq, hlife, not_false_eq_true, if_true, Prog.exec_ret]
      · simp only [ne_eq, hlife, not_false_eq_true, if_true, Prog.exec_ret]
        rfl
      · cases hm
        exact absurd hl hlife

/-- On the document store, while the marker of the model is there, `st.run` on the
`buildTxn` of `CreateModelMigration` returns an error, submits nothing and leaves the
store as it was. -/
theorem stRun_create_while_active (L : Lib) (P : migration.Table) (st : State)
    (spec : ModelMigrationSpec) (now : Int) (left attempt : Nat) (s : Store)
    (hmarker : (s.find migrationsActiveC st.ModelUUID).isSome = true) :
    ∃ e, ((stRun (createBuildTxn L P st spec now) left attempt).exec Store.handle s).val
        = .error e ∧
      ((stRun (createBuildTxn L P st spec now) left attempt).exec Store.handle s).store = s ∧
      submitted ((stRun (createBuildTxn L P st spec now) left attempt).exec
        Store.handle s).log = [] ∧
      (0 < left → ∀ model, (Store.handle (.StModel st.ModelUUID) s).1 = .ok model →
        model.Life = .Alive → e = .New "already in progress") := by
  cases left with
  | zero => exact ⟨_, rfl, rfl, rfl, fun hh => absurd hh (by decide)⟩
  | succ left =>
    obtain ⟨e, hval, hstore, hsub, he⟩ :=
      createBuildTxn_while_active L P st spec now attempt s hmarker
    rw [stRun, Prog.exec_bind, hval, hstore]
    refine ⟨e, rfl, rfl, ?_, fun _ => he⟩
    simp only [Prog.exec_ret, List.append_nil]
    exact hsub

/-- On the document store `checkTargetController` changes nothing and submits nothing;
it returns no error exactly when the controller model is read and is not the target. -/
theorem checkTargetController_on_store (tag : names.ModelTag) (s : Store) :
    ((checkTargetController tag).exec Store.handle s).store = s ∧
    submitted ((checkTargetController tag).exec Store.handle s).log = [] ∧
    allocated ((checkTargetController tag).exec Store.handle s).log = [] ∧
    (∀ cm, (Store.handle .StControllerModel s).1 = .ok cm → tag ≠ cm.ModelTag →
      ((checkTargetController tag).exec Store.handle s).val = none) := by
  have h2 : (Store.handle .StControllerModel s).2 = s := rfl
  rw [checkTargetController, Prog.exec_call, h2]
  rcases hr : (Store.handle .StControllerModel s).1 with err | current
  · exact ⟨rfl, rfl, rfl, fun _ hh => by cases hh⟩
  · by_cases ht : tag = current.ModelTag
    · refine ⟨?_, ?_, ?_, fun cm hcm hne => ?_⟩
      · simp only [ht, if_true, Prog.exec_ret]
      · simp only [ht, if_true, Prog.exec_ret]
        rfl
      · simp only [ht, if_true, Prog.exec_ret]
        rfl
      · cases hcm
        exact absurd ht hne
    · refine ⟨?_, ?_, ?_, fun cm hcm hne => ?_⟩
      · simp only [ht, if_false, Prog.exec_ret]
      · simp only [ht, if_false, Prog.exec_ret]
        rfl
      · simp only [ht, if_false, Prog.exec_ret]
        rfl
      · simp only [ht, if_false, Prog.exec_ret]

/-- On the document store, while the marker of the model is there,
`CreateModelMigration` fails, submits nothing and leaves the store as it was; when the
checks before the transaction pass, the error is "already in progress" under the
annotation of `CreateModelMigration`. -/
theorem CreateModelMigration_while_active (L : Lib) (P : migration.Table) (st : State)
    (spec : ModelMigrationSpec) (s : Store)
    (hmarker : (s.find migrationsActiveC st.ModelUUID).isSome = true) :
    ((st.CreateModelMigration L P spec).exec Store.handle s).val.1 = none ∧
    ((st.CreateModelMigration L P spec).exec Store.handle s).val.2 ≠ none ∧
    ((st.CreateModelMigration L P spec).exec Store.handle s).store = s ∧
    submitted ((st.CreateModelMigration L P spec).exec Store.handle s).log = [] ∧
    (st.IsController = false → spec.Validate L = none → 0 < st.attempts →
      ∀ current model, (Store.handle .StControllerModel s).1 = .ok current →
        spec.TargetInfo.ControllerTag ≠ current.ModelTag →
        (Store.handle (.StModel st.ModelUUID) s).1 = .ok model → model.Life = .Alive →
        ((st.CreateModelMigration L P spec).exec Store.handle s).val.2 =
          some (.Annotate (.New "already in progress") "failed to create migration")) := by
  unfold State.CreateModelMigration
  by_cases hc : st.IsController = true
  · simp only [hc, if_true]
    exact ⟨rfl, by simp [Prog.exec], rfl, rfl, fun hh => by cases hh⟩
  · simp only [hc, if_false, Bool.false_eq_true]
    cases hv : spec.Validate L with
    | some err =>
      exact ⟨rfl, by simp [Prog.exec], rfl, rfl, fun _ hh => by cases hh⟩
    | none =>
      obtain ⟨hcs, hcsub, _, hcval⟩ :=
        checkTargetController_on_store spec.TargetInfo.ControllerTag s
      rw [Prog.exec_bind, hcs]
      cases hck : ((checkTargetController spec.TargetInfo.ControllerTag).exec
          Store.handle s).val with
      | some err =>
        refine ⟨rfl, by simp [Prog.exec], rfl, ?_, fun _ _ _ current model hcur hne _ _ => ?_⟩
        · simp only [Prog.exec_ret, List.append_nil]
          exact hcsub
        · rw [hcval current hcur hne] at hck
          cases hck
      | none =>
        have hn2 : (Store.handle .Now s).2 = s := rfl
        obtain ⟨e, hval, hstore, hsub, he⟩ := stRun_create_while_active L P st spec
          (Store.handle .Now s).1 st.attempts 0 s hmarker
        rw [Prog.exec_call, hn2, Prog.exec_bind, hval, hstore]
        refine ⟨rfl, by simp [Prog.exec], rfl, ?_, fun _ _ hpos current model _ _ hm hl => ?_⟩
        · rw [submitted_append, hcsub]
          simpa [Event.of, submitted, Prog.exec] using hsub
        · rw [he hpos model hm hl]
          rfl

/-! ## A successful CreateModelMigration on the document store -/

/-- An insert on a missing document puts the document there. -/
theorem Op.apply_insert (op : Op) (s : Store) (d : Doc) (hnone : s.find op.C op.Id = none)
    (hins : op.Insert = some d) : (op.apply s).find op.C op.Id = some d := by
  unfold Op.apply
  rw [hnone, hins]
  exact findEntry_putEntry_same _ _ _ _

/-- An op that only asserts changes nothing. -/
theorem Op.apply_assert_only (op : Op) (s : Store) (hins : op.Insert = none)
    (hupd : op.Update = none) (hrem : op.Remove = false) : op.apply s = s := by
  unfold Op.apply
  rw [hins, hupd, hrem]
  cases s.find op.C op.Id <;> rfl

/-- The allocation of a number of a sequence leaves the other collections as they
were. -/
theorem Store.handle_Sequence_find (uuid name : String) (s : Store) (C0 id0 : String)
    (hseq : C0 ≠ sequenceC) :
    (Store.handle (.Sequence uuid name) s).2.find C0 id0 = s.find C0 id0 :=
  findEntry_putEntry_other _ _ _ _ _ _ (fun hh => hseq hh.1.symm)

/-- The op set of `CreateModelMigration` is applied by a store that has none of the
three documents and an Alive model, and leaves the three documents in it. -/
theorem Store.applyAtomic_createOps (st : State) (model : Model)
    (docs : modelMigDoc × modelMigStatusDoc) (t : Store) (d : Doc)
    (h1 : t.find migrationsC docs.1.Id = none)
    (h2 : t.find migrationsStatusC docs.2.Id = none)
    (h3 : t.find migrationsActiveC st.ModelUUID = none)
    (h4 : t.find modelsC model.UUID = some d) (h5 : D.holds isAliveDoc d = true) :
    ∃ t2, t.applyAtomic (createOps st model docs) = some t2 ∧
      t2.find migrationsC docs.1.Id = some docs.1.toDoc ∧
      t2.find migrationsStatusC docs.2.Id = some docs.2.toDoc ∧
      t2.find migrationsActiveC st.ModelUUID = some [("id", .str docs.1.Id)] := by
  have hall : (createOps st model docs).all (fun op => op.check t) = true := by
    simp [createOps, Op.check, Assert.holds, Model.assertActiveOp, h1, h2, h3, h4, h5]
  refine ⟨_, by rw [Store.applyAtomic, if_pos hall], ?_, ?_, ?_⟩
  · simp only [createOps, List.foldl_cons, List.foldl_nil]
    rw [Op.apply_assert_only _ _ rfl rfl rfl,
      Op.apply_find_other _ _ _ _ (by simp [migrationsActiveC, migrationsC]),
      Op.apply_find_other _ _ _ _ (by simp [migrationsStatusC, migrationsC])]
    exact Op.apply_insert _ _ _ h1 rfl
  · simp only [createOps, List.foldl_cons, List.foldl_nil]
    rw [Op.apply_assert_only _ _ rfl rfl rfl,
      Op.apply_find_other _ _ _ _ (by simp [migrationsActiveC, migrationsStatusC])]
    refine Op.apply_insert _ _ _ ?_ rfl
    rw [Op.apply_find_other _ _ _ _ (by simp [migrationsStatusC, migrationsC])]
    exact h2
  · simp only [createOps, List.foldl_cons, List.foldl_nil]
    rw [Op.apply_assert_only _ _ rfl rfl rfl]
    refine Op.apply_insert _ _ _ ?_ rfl
    rw [Op.apply_find_other _ _ _ _ (by simp [migrationsActiveC, migrationsStatusC]),
      Op.apply_find_other _ _ _ _ (by simp [migrationsActiveC, migrationsC])]
    exact h3

/-- A stored model document whose life is Alive is read as an Alive model and meets the
assertion that the model is Alive. -/
theorem Model.ofDoc_alive (d : Doc) (hlife : d.get "life" = some (.int Life.Alive.toInt)) :
    Model.ofDoc d = some { UUID := d.getStr "_id", Life := .Alive } ∧
    D.holds isAliveDoc d = true := by
  constructor
  · simp [Model.ofDoc, Doc.life, hlife, Life.ofInt, Life.toInt]
  · simp [D.holds, isAliveDoc, Elem.holds, Cond.holds, hlife]

theorem Store.handle_Run_applied (ops : List Op) (t t2 : Store)
    (happ : t.applyAtomic ops = some t2) : Store.handle (.Run ops) t = (none, t2) := by
  simp only [Store.handle, happ]

/-- On the document store, for an Alive model without marker, `buildTxn` of
`CreateModelMigration` returns the documents and the op set for the number the sequence
gives, and leaves the store as the allocation of that number left it. -/
theorem createBuildTxn_fresh (L : Lib) (P : migration.Table) (st : State)
    (spec : ModelMigrationSpec) (now : Int) (attempt : Nat) (s : Store) (d : Doc) (seq : Int)
    (hmodel : s.find modelsC st.ModelUUID = some d) (hid : d.getStr "_id" = st.ModelUUID)
    (hlife : d.get "life" = some (.int Life.Alive.toInt))
    (hmarker : s.find migrationsActiveC st.ModelUUID = none)
    (hseq : (Store.handle (.Sequence st.ModelUUID "modelmigration") s).1 = .ok seq) :
    ((createBuildTxn L P st spec now attempt).exec Store.handle s).val =
      .ok (createDocs L P st spec now seq,
        createOps st { UUID := st.ModelUUID, Life := .Alive }
          (createDocs L P st spec now seq)) ∧
    ((createBuildTxn L P st spec now attempt).exec Store.handle s).store =
      (Store.handle (.Sequence st.ModelUUID "modelmigration") s).2 := by
  have h2 : (Store.handle (.StModel st.ModelUUID) s).2 = s := rfl
  have hr : (Store.handle (.StModel st.ModelUUID) s).1 =
      .ok { UUID := st.ModelUUID, Life := .Alive } := by
    simp [Store.handle, hmodel, (Model.ofDoc_alive d hlife).1, hid]
  rw [createBuildTxn, Prog.exec_call, h2, hr]
  simp only [ne_eq, not_true_eq_false, if_false]
  rw [Prog.exec_bind, (IsModelMigrationActive_on_store st s).1,
    (IsModelMigrationActive_on_store st s).2, hmarker]
  simp only [Option.isSome_none, Bool.false_eq_true, if_false]
  rw [Prog.exec_call, hseq]
  exact ⟨rfl, rfl⟩

/-- On the document store, for a state that is not of the controller model, a valid
spec whose target is not the current controller, an Alive model without marker and a
number of the sequence that no document of the model bears, `CreateModelMigration`
returns the migration made of the documents of `createDocs`, and the store then holds
the two documents and the marker. -/
theorem CreateModelMigration_fresh (L : Lib) (P : migration.Table) (st : State)
    (spec : ModelMigrationSpec) (s : Store) (d : Doc) (current : Model) (seq : Int)
    (hc : st.IsController = false) (hv : spec.Validate L = none)
    (hcur : (Store.handle .StControllerModel s).1 = .ok current)
    (htarget : spec.TargetInfo.ControllerTag ≠ current.ModelTag)
    (hattempts : 0 < st.attempts)
    (hmodel : s.find modelsC st.ModelUUID = some d) (hid : d.getStr "_id" = st.ModelUUID)
    (hlife : d.get "life" = some (.int Life.Alive.toInt))
    (hmarker : s.find migrationsActiveC st.ModelUUID = none)
    (hseq : (Store.handle (.Sequence st.ModelUUID "modelmigration") s).1 = .ok seq)
    (hfresh : s.find migrationsC (st.ModelUUID ++ ":" ++ toString seq) = none)
    (hfreshStatus : s.find migrationsStatusC (st.ModelUUID ++ ":" ++ toString seq) = none) :
    ((st.CreateModelMigration L P spec).exec Store.handle s).val =
      (some { doc := (createDocs L P st spec s.clock seq).1,
              statusDoc := (createDocs L P st spec s.clock seq).2 }, none) ∧
    ((st.CreateModelMigration L P spec).exec Store.handle s).store.find migrationsC
      (st.ModelUUID ++ ":" ++ toString seq) =
        some (createDocs L P st spec s.clock seq).1.toDoc ∧
    ((st.CreateModelMigration L P spec).exec Store.handle s).store.find migrationsStatusC
      (st.ModelUUID ++ ":" ++ toString seq) =
        some (createDocs L P st spec s.clock seq).2.toDoc ∧
    ((st.CreateModelMigration L P spec).exec Store.handle s).store.find migrationsActiveC
      st.ModelUUID = some [("id", .str (st.ModelUUID ++ ":" ++ toString seq))] := by
  obtain ⟨n, hn⟩ : ∃ n, st.attempts = n + 1 := ⟨st.attempts - 1, by omega⟩
  obtain ⟨hcs, _, _, hcval⟩ := checkTargetController_on_store spec.TargetInfo.ControllerTag s
  obtain ⟨hbval, hbstore⟩ :=
    createBuildTxn_fresh L P st spec s.clock 0 s d seq hmodel hid hlife hmarker hseq
  obtain ⟨t2, happ, hf1, hf2, hf3⟩ := Store.applyAtomic_createOps st
    { UUID := st.ModelUUID, Life := .Alive } (createDocs L P st spec s.clock seq)
    (Store.handle (.Sequence st.ModelUUID "modelmigration") s).2 d
    (by rw [Store.handle_Sequence_find _ _ _ _ _ (by decide)]; exact hfresh)
    (by rw [Store.handle_Sequence_find _ _ _ _ _ (by decide)]; exact hfreshStatus)
    (by rw [Store.handle_Sequence_find _ _ _ _ _ (by decide)]; exact hmarker)
    (by rw [Store.handle_Sequence_find _ _ _ _ _ (by decide)]; exact hmodel)
    (Model.ofDoc_alive d hlife).2
  have hn2 : (Store.handle .Now s).2 = s := rfl
  have hn1 : (Store.handle .Now s).1 = s.clock := rfl
  have hrun : (Store.handle (.Run (createOps st { UUID := st.ModelUUID, Life := .Alive }
      (createDocs L P st spec s.clock seq)))
      (Store.handle (.Sequence st.ModelUUID "modelmigration") s).2) = (none, t2) :=
    Store.handle_Run_applied _ _ _ happ
  have hst : ((stRun (createBuildTxn L P st spec s.clock) (n + 1) 0).exec Store.handle s).val
        = .ok (createDocs L P st spec s.clock seq) ∧
      ((stRun (createBuildTxn L P st spec s.clock) (n + 1) 0).exec Store.handle s).store
        = t2 := by
    rw [stRun, Prog.exec_bind, hbval, hbstore]
    simp only []
    rw [Prog.exec_call, hrun]
    exact ⟨rfl, rfl⟩
  have hexec : ((st.CreateModelMigration L P spec).exec Store.handle s).val =
        (some { doc := (createDocs L P st spec s.clock seq).1,
                statusDoc := (createDocs L P st spec s.clock seq).2 }, none) ∧
      ((st.CreateModelMigration L P spec).exec Store.handle s).store = t2 := by
    unfold State.CreateModelMigration
    simp only [hc, hv, Bool.false_eq_true, if_false]
    rw [Prog.exec_bind, hcs, hcval current hcur htarget]
    simp only []
    rw [Prog.exec_call, hn2, hn1, Prog.exec_bind, hn, hst.1, hst.2]
    exact ⟨rfl, rfl⟩
  rw [hexec.1, hexec.2]
  exact ⟨rfl, hf1, hf2, hf3⟩

/-- A descriptor is read back from its stored form as it was. -/
theorem modelMigDoc.read_back (d : modelMigDoc) : modelMigDoc.ofDoc d.toDoc = d := by
  cases d
  rfl

/-- A status document is read back from its stored form as it was. -/
theorem modelMigStatusDoc.status_read_back (d : modelMigStatusDoc) :
    modelMigStatusDoc.ofDoc d.toDoc = d := by
  cases d
  rfl

/-! ## The copy a run of advanceLifecycle ends with -/

theorem answeredErrors_append (a b : List Event) :
    answeredErrors (a ++ b) = answeredErrors a ++ answeredErrors b := by
  induction a with
  | nil => rfl
  | cons e a ih =>
    cases e with
    | FindId C id r => cases r <;> simp [answeredErrors, ih]
    | StMachine id r => cases r <;> simp [answeredErrors, ih]
    | Run ops r => cases r <;> simp [answeredErrors, ih]
    | IsAlive C id r =>
      obtain ⟨b0, e0⟩ := r
      cases e0 <;> simp [answeredErrors, ih]
    | Now t => simp [answeredErrors, ih]
    | CountId C id r =>
      obtain ⟨b0, e0⟩ := r
      cases e0 <;> simp [answeredErrors, ih]
    | FindTopId C q r => cases r <;> simp [answeredErrors, ih]
    | StModel uuid r => cases r <;> simp [answeredErrors, ih]
    | StControllerModel r => cases r <;> simp [answeredErrors, ih]
    | Sequence uuid name r => cases r <;> simp [answeredErrors, ih]

theorem lastExamined_nil (m : Machine) : lastExamined m [] = some m := rfl

/-- After calls that hold no refetch the last copy examined is the one before them. -/
theorem lastExamined_append_of_nil (m : Machine) (a b : List Event)
    (hb : refetches b = []) : lastExamined m (a ++ b) = lastExamined m a := by
  unfold lastExamined
  rw [refetches_append, hb, List.append_nil]

/-- The copy a pass of the loop examines is the last copy examined after its refetch. -/
theorem RefetchRun.lastExamined_eq {i : Nat} {m cur : Machine} {pre : List Event}
    (hf : RefetchRun i m pre (.inr cur)) : lastExamined m pre = some cur := by
  cases hf with
  | first _ => rfl
  | fresh _ _ => rfl

/-- The last copy examined over two stretches of calls is the last copy examined in the
second, started from the last copy examined in the first. -/
theorem lastExamined_append (m cur : Machine) (a b : List Event)
    (ha : lastExamined m a = some cur) :
    lastExamined m (a ++ b) = lastExamined cur b := by
  unfold lastExamined at ha ⊢
  rw [refetches_append]
  cases hb : (refetches b).getLast? with
  | none =>
    have hnil : refetches b = [] := List.getLast?_eq_none_iff.1 hb
    rw [hnil, List.append_nil]
    exact ha
  | some r =>
    have hne : refetches b ≠ [] := by
      intro hnil
      rw [hnil] at hb
      cases hb
    rw [List.getLast?_append_of_ne_nil _ hne, hb]
    cases r <;> rfl

/-- The exit of an attempt that ends the method holds the copy examined. -/
theorem AttemptRun.exit_copy {op : Op} {life : Life} {m : Machine} {log : List Event}
    {x : Exit} (hr : AttemptRun op life m log (some x)) : x.m = some m := by
  cases hr <;> rfl

/-- The variable `m` the loop is left with is the last copy examined. -/
theorem LoopRun.exit_m {op : Op} {life : Life} {n i : Nat} {m : Machine}
    {log : List Event} {x : Exit} (hr : LoopRun op life n i m log x) :
    x.m = lastExamined m log := by
  induction hr with
  | exhausted i m => rfl
  | left n i m pre x hf => cases hf <;> rfl
  | done n i m cur pre mid x hf ha =>
    rw [lastExamined_append_of_nil m pre mid ha.refetches_eq, hf.lastExamined_eq]
    exact ha.exit_copy
  | retry n i m cur pre mid rest x hf ha _ ih =>
    rw [ih, ← List.append_assoc,
      lastExamined_append m cur (pre ++ mid) rest
        (by rw [lastExamined_append_of_nil m pre mid ha.refetches_eq, hf.lastExamined_eq])]

/-- A run of the loop from its first pass ends with the receiver as the copy examined,
unless the life of the receiver was below the target. -/
theorem LoopRun.exit_m_first {op : Op} {life : Life} {n : Nat} {m : Machine}
    {log : List Event} {x : Exit} (hr : LoopRun op life n 0 m log x) :
    x.m = some m ∨ m.doc.Life < life := by
  cases hr with
  | exhausted _ _ => exact Or.inl rfl
  | left _ _ _ _ _ hf => cases hf <;> contradiction
  | done _ _ _ cur pre mid _ hf ha =>
    cases hf with
    | first _ => exact Or.inl ha.exit_copy
    | fresh _ hi => exact absurd rfl hi
  | retry _ _ _ cur pre mid rest _ hf ha _ =>
    cases hf with
    | first _ =>
      cases ha with
      | aborted _ hlt _ _ => exact Or.inr hlt
    | fresh _ hi => exact absurd rfl hi

/-- A HasAssignedUnitsError the loop is left with names the principals of the last copy
examined, which are not none, unless the store answered it. -/
theorem LoopRun.assigned_units {op : Op} {life : Life} {n i : Nat} {m : Machine}
    {log : List Event} {x : Exit} (hr : LoopRun op life n i m log x) (id : String)
    (units : List String) (herr : x.err = some (.HasAssignedUnitsError id units)) :
    (units ≠ [] ∧ ∃ cur, x.m = some cur ∧ id = cur.doc.Id ∧ units = cur.doc.Principals) ∨
    Error.HasAssignedUnitsError id units ∈ answeredErrors log := by
  induction hr with
  | exhausted i m => simp [contentionError] at herr
  | left n i m pre x hf =>
    cases hf with
    | gone err _ _ => simp at herr
    | failed err _ _ =>
      simp only [Option.some.injEq] at herr
      subst herr
      exact Or.inr (by simp [answeredErrors])
  | done n i m cur pre mid x hf ha =>
    cases ha with
    | unknownLife _ => simp at herr
    | alreadyThere _ _ => simp at herr
    | required _ _ _ => simp at herr
    | hasUnits _ _ _ hp =>
      simp only [Option.some.injEq, Error.HasAssignedUnitsError.injEq] at herr
      obtain ⟨rfl, rfl⟩ := herr
      exact Or.inl ⟨hp, cur, rfl, rfl, rfl⟩
    | ran err _ _ _ _ _ =>
      simp only at herr
      subst herr
      refine Or.inr ?_
      rw [answeredErrors_append]
      exact List.mem_append_right _ (by simp [answeredErrors])
  | retry n i m cur pre mid rest x hf ha _ ih =>
    rcases ih herr with hl | hr
    · exact Or.inl hl
    · refine Or.inr ?_
      rw [answeredErrors_append, answeredErrors_append]
      exact List.mem_append_right _ (List.mem_append_right _ hr)

/-! ## The runs of SetConstraints -/

theorem setConstraintsLoop_runs (ops : List Op) :
    ∀ (n : Nat) (m : Machine),
      (setConstraintsLoop ops n m).Always (ConstraintsRun ops n m) := by
  intro n
  induction n with
  | zero => intro m; exact ConstraintsRun.exhausted m
  | succ n ih =>
    intro m
    unfold setConstraintsLoop
    by_cases hlife : m.doc.Life = .Alive
    · by_cases hid : m.doc.InstanceId = ""
      · simp only [hlife, hid, ne_eq, not_true_eq_false, if_false]
        intro err
        by_cases hab : err = some .ErrAborted
        · subst hab
          simp only [not_true_eq_false, if_false]
          intro r
          cases r with
          | error e => exact ConstraintsRun.lost n m e hlife hid
          | ok fresh =>
            refine Prog.always_mono _ _ _ ?_ (ih fresh)
            intro log a hrun
            exact ConstraintsRun.retry n m fresh log a hlife hid hrun
        · simp only [hab, not_false_eq_true, if_true]
          exact ConstraintsRun.ran n m err hlife hid hab
      · simp only [hlife, hid, ne_eq, not_true_eq_false, not_false_eq_true, if_false, if_true]
        exact ConstraintsRun.provisioned n m hlife hid
    · simp only [ne_eq, hlife, not_false_eq_true, if_true]
      exact ConstraintsRun.notAlive n m hlife

/-- A run of the loop of `SetConstraints` submits the one op set, at most once a pass,
and a run that starts at a copy that is not Alive or is provisioned submits nothing and
returns an error. -/
theorem ConstraintsRun.facts {ops : List Op} {n : Nat} {m : Machine} {log : List Event}
    {r : Option Error} (hr : ConstraintsRun ops n m log r) :
    (∀ o ∈ submitted log, o = ops) ∧ (submitted log).length ≤ n ∧
    ((m.doc.Life ≠ .Alive ∨ m.doc.InstanceId ≠ "") → 0 < n → log = [] ∧ r ≠ none) := by
  induction hr with
  | exhausted m => exact ⟨by simp [submitted], by simp [submitted], fun _ hh => absurd hh (by decide)⟩
  | notAlive n m _ => exact ⟨by simp [submitted], by simp [submitted], fun _ _ => ⟨rfl, by simp⟩⟩
  | provisioned n m _ _ =>
    exact ⟨by simp [submitted], by simp [submitted], fun _ _ => ⟨rfl, by simp⟩⟩
  | ran n m err hl hi _ =>
    refine ⟨by simp [submitted], by simp [submitted], fun hh _ => ?_⟩
    rcases hh with hh | hh
    · exact absurd hl hh
    · exact absurd hi hh
  | lost n m e hl hi =>
    refine ⟨by simp [submitted], by simp [submitted], fun hh _ => ?_⟩
    rcases hh with hh | hh
    · exact absurd hl hh
    · exact absurd hi hh
  | retry n m copy rest r hl hi _ ih =>
    refine ⟨?_, ?_, fun hh _ => ?_⟩
    · intro o ho
      simp only [submitted, List.mem_cons] at ho
      rcases ho with rfl | ho
      · rfl
      · exact ih.1 o ho
    · simp only [submitted, List.length_cons]
      exact Nat.succ_le_succ ih.2.1
    · rcases hh with hh | hh
      · exact absurd hl hh
      · exact absurd hi hh

/-- A run of the loop of `SetConstraints` in which as many op sets are rejected as there
are passes is followed, each time, by a refetch; it returns ErrExcessiveContention when
the last refetch has succeeded, and the error of the last refetch otherwise. -/
theorem ConstraintsRun.all_rejected {ops : List Op} {n : Nat} {m : Machine}
    {log : List Event} {r : Option Error} (hr : ConstraintsRun ops n m log r)
    (hres : runResults log = List.replicate n (some .ErrAborted)) :
    (refetches log).length = n ∧
    ((∀ last, (refetches log).getLast? = some last → ∃ copy, last = .ok copy) →
      r = some .ErrExcessiveContention) ∧
    (∀ e, (refetches log).getLast? = some (.error e) → r = some e) := by
  induction hr with
  | exhausted m => exact ⟨rfl, fun _ => rfl, fun e hh => by simp [refetches] at hh⟩
  | notAlive n m _ => simp [runResults, List.replicate] at hres
  | provisioned n m _ _ => simp [runResults, List.replicate] at hres
  | ran n m err _ _ hab =>
    simp only [runResults, List.replicate, List.cons.injEq] at hres
    exact absurd hres.1 hab
  | lost n m e _ _ =>
    simp only [runResults, List.replicate, List.cons.injEq, true_and] at hres
    cases n with
    | zero =>
      refine ⟨rfl, fun hh => ?_, fun e2 hh => ?_⟩
      · obtain ⟨copy, hc⟩ := hh (.error e) rfl
        cases hc
      · simp only [refetches, List.getLast?_singleton, Option.some.injEq,
          Except.error.injEq] at hh
        rw [hh]
    | succ k => simp [List.replicate] at hres
  | retry n m copy rest r _ _ hrest ih =>
    simp only [runResults, List.replicate, List.cons.injEq, true_and] at hres
    obtain ⟨h1, h2, h3⟩ := ih hres
    cases hl : refetches rest with
    | nil =>
      rw [hl] at h1 h2
      refine ⟨by simp [refetches, hl, ← h1], fun _ => ?_, fun e hh => ?_⟩
      · exact h2 (fun last hlast => by cases hlast)
      · simp [refetches, hl] at hh
    | cons a l =>
      rw [hl] at h1 h2 h3
      refine ⟨by simp [refetches, hl, ← h1], fun hh => ?_, fun e hh => ?_⟩
      · refine h2 (fun last hlast => hh last ?_)
        simp only [refetches, hl, List.getLast?_cons_cons]
        exact hlast
      · simp only [refetches, hl, List.getLast?_cons_cons] at hh
        exact h3 e hh

/-- On the document store, while the persisted machine does not meet the assertion of
the op set, the loop of `SetConstraints` returns an error and leaves the store as it
was. -/
theorem setConstraintsLoop_rejected (ops : List Op) (s : Store)
    (hrej : s.applyAtomic ops = none) :
    ∀ (n : Nat) (m : Machine),
      ((setConstraintsLoop ops n m).exec Store.handle s).val ≠ none ∧
      ((setConstraintsLoop ops n m).exec Store.handle s).store = s := by
  intro n
  induction n with
  | zero => intro m; exact ⟨by simp [setConstraintsLoop, Prog.exec], rfl⟩
  | succ n ih =>
    intro m
    unfold setConstraintsLoop
    by_cases hlife : m.doc.Life = .Alive
    · by_cases hid : m.doc.InstanceId = ""
      · simp only [hlife, hid, ne_eq, not_true_eq_false, if_false]
        have hrun : Store.handle (.Run ops) s = (some .ErrAborted, s) := by
          simp only [Store.handle, hrej]
        have h2 : (Store.handle (.StMachine m.doc.Id) s).2 = s := rfl
        rw [Prog.exec_call, hrun]
        simp only [not_true_eq_false, if_false]
        rw [Prog.exec_call, h2]
        cases (Store.handle (.StMachine m.doc.Id) s).1 with
        | error e => exact ⟨by simp [Prog.exec], rfl⟩
        | ok fresh => exact ih fresh
      · simp only [hlife, hid, ne_eq, not_true_eq_false, not_false_eq_true, if_false, if_true]
        exact ⟨by simp [Prog.exec], rfl⟩
    · simp only [ne_eq, hlife, not_false_eq_true, if_true]
      exact ⟨by simp [Prog.exec], rfl⟩

/-- An op set whose first op has an assertion that does not hold is rejected. -/
theorem Store.applyAtomic_rejected (s : Store) (op : Op) (rest : List Op)
    (hcheck : op.check s = false) : s.applyAtomic (op :: rest) = none := by
  simp [Store.applyAtomic, hcheck]

/-! ## Times -/

/-- The time `time.Unix` gives is the given number of nanoseconds after the first of
January 1970, with its nanoseconds within the second. -/
theorem time.Unix_spec (sec nsec : Int) :
    (time.Unix sec nsec).UnixNano = sec * 1000000000 + nsec ∧
    0 ≤ (time.Unix sec nsec).nsec ∧ (time.Unix sec nsec).nsec < 1000000000 := by
  unfold time.Unix time.Time.UnixNano
  by_cases hout : nsec < 0 ∨ nsec ≥ 1000000000
  · simp only [hout, if_true]
    have hq : nsec - Int.tdiv nsec 1000000000 * 1000000000 = Int.tmod nsec 1000000000 := by
      rw [Int.tmod_def]
      ring
    rw [hq]
    have hdef := Int.tmod_def nsec 1000000000
    have hlt := Int.tmod_lt_of_pos nsec (b := 1000000000) (by decide)
    by_cases hneg : nsec < 0
    · have hle : -1000000000 < Int.tmod nsec 1000000000 := by
        have h1 : Int.tdiv nsec 1000000000 = -((-nsec) / 1000000000) := by
          have h2 : nsec = -(-nsec) := by omega
          rw [h2, Int.neg_tdiv, Int.tdiv_eq_ediv (by omega) (by decide)]
          simp
        rw [hdef, h1]
        omega
      by_cases hm : Int.tmod nsec 1000000000 < 0
      · simp only [hm, if_true]
        refine ⟨by omega, by omega, by omega⟩
      · simp only [hm, if_false]
        refine ⟨by omega, by omega, by omega⟩
    · have hnn := Int.tmod_nonneg (1000000000 : Int) (a := nsec) (by omega)
      have hm : ¬ Int.tmod nsec 1000000000 < 0 := by omega
      simp only [hm, if_false]
      refine ⟨by omega, by omega, by omega⟩
  · simp only [hout, if_false]
    refine ⟨by omega, by omega, by omega⟩

/-- A time that `IsZero` is 62135596800 seconds before the first of January 1970. -/
theorem time.Time.UnixNano_of_IsZero (t : time.Time) (hz : t.IsZero = true) :
    t.UnixNano = -62135596800000000000 := by
  unfold time.Time.IsZero at hz
  simp only [Bool.and_eq_true, beq_iff_eq] at hz
  unfold time.Time.UnixNano
  rw [hz.1, hz.2]
  decide

/-! ## The source of the payload transactions -/

/-- The source of `newTxnSource` on an implementation: the program of
`checkAssertsAndUpdate`, then the ops of the transaction it left, or its error. -/
theorem newTxnSource_on {τ : Type} (T : payloadsTransaction τ) (attempt : Nat) (t : τ) :
    (newTxnSource attempt).on T t =
      (T.checkAssertsAndUpdate t).bind fun r =>
        match r.1 with
        | some e => .ret (([], some (.Trace e)), r.2)
        | none => .ret ((T.ops r.2, none), r.2) := by
  unfold newTxnSource
  simp only [PtxnProg.on]
  congr 1
  funext r
  cases r.1 <;> rfl

/-- The run of the source of `newTxnSource` on an implementation, against any behaviour
of the store: the calls are those of `checkAssertsAndUpdate`. -/
theorem newTxnSource_on_exec {σ τ : Type} (T : payloadsTransaction τ)
    (h : (r : Req) → σ → Req.Resp r × σ) (s : σ) (attempt : Nat) (t : τ) :
    (((newTxnSource attempt).on T t).exec h s).log =
      ((T.checkAssertsAndUpdate t).exec h s).log ∧
    (((newTxnSource attempt).on T t).exec h s).store =
      ((T.checkAssertsAndUpdate t).exec h s).store ∧
    (((newTxnSource attempt).on T t).exec h s).val.2 =
      ((T.checkAssertsAndUpdate t).exec h s).val.2 ∧
    (∀ e, ((T.checkAssertsAndUpdate t).exec h s).val.1 = some e →
      (((newTxnSource attempt).on T t).exec h s).val.1 = ([], some (.Trace e))) ∧
    (((T.checkAssertsAndUpdate t).exec h s).val.1 = none →
      (((newTxnSource attempt).on T t).exec h s).val.1 =
        (T.ops ((T.checkAssertsAndUpdate t).exec h s).val.2, none)) := by
  rw [newTxnSource_on, Prog.exec_bind]
  cases hv : ((T.checkAssertsAndUpdate t).exec h s).val.1 with
  | none =>
    refine ⟨?_, ?_, ?_, ?_, ?_⟩
    · simp [Prog.exec]
    · rfl
    · rfl
    · intro e he
      cases he
    · intro _
      rfl
  | some e0 =>
    refine ⟨?_, ?_, ?_, ?_, ?_⟩
    · simp [Prog.exec]
    · rfl
    · rfl
    · intro e he
      cases he
      rfl
    · intro hn
      cases hn

/-- When `checkAssertsAndUpdate` returns an error at the first attempt, `run` returns
that error, traced by the source and by `run`, and makes no call but those of
`checkAssertsAndUpdate`. -/
theorem payloadsTransactions.run_check_error {σ τ : Type} (T : payloadsTransaction τ)
    (h : (r : Req) → σ → Req.Resp r × σ) (s : σ) (ptxn : τ) (n : Nat) (e : Error)
    (hcheck : ((T.checkAssertsAndUpdate ptxn).exec h s).val.1 = some e) :
    ((payloadsTransactions.run (n + 1) T ptxn).exec h s).val.1 = some (.Trace (.Trace e)) ∧
    ((payloadsTransactions.run (n + 1) T ptxn).exec h s).log =
      ((T.checkAssertsAndUpdate ptxn).exec h s).log ∧
    ((payloadsTransactions.run (n + 1) T ptxn).exec h s).store =
      ((T.checkAssertsAndUpdate ptxn).exec h s).store := by
  obtain ⟨hlog, hstore, _, herr, _⟩ := newTxnSource_on_exec T h s 0 ptxn
  have hval := herr e hcheck
  unfold payloadsTransactions.run
  rw [Prog.exec_bind]
  have hrunner : ((payloadsTxnRunner.Run (fun attempt t => (newTxnSource attempt).on T t)
      (n + 1) 0 ptxn).exec h s).val.1 = some (.Trace e) ∧
      ((payloadsTxnRunner.Run (fun attempt t => (newTxnSource attempt).on T t)
        (n + 1) 0 ptxn).exec h s).log = ((T.checkAssertsAndUpdate ptxn).exec h s).log ∧
      ((payloadsTxnRunner.Run (fun attempt t => (newTxnSource attempt).on T t)
        (n + 1) 0 ptxn).exec h s).store = ((T.checkAssertsAndUpdate ptxn).exec h s).store := by
    rw [payloadsTxnRunner.Run, Prog.exec_bind]
    simp only [hval]
    exact ⟨rfl, by simp [Prog.exec, hlog], by simp [Prog.exec, hstore]⟩
  obtain ⟨h1, h2, h3⟩ := hrunner
  simp only [h1]
  exact ⟨rfl, by simp [Prog.exec, h2], by simp [Prog.exec, h3]⟩

/-- When the query for the payload is answered that there is none,
`removePayloadTxn.checkAssertsAndUpdate` returns the not-found error of the payload
package under the name of the payload, and makes no other call. -/
theorem removePayloadTxn.check_missing {σ : Type} (h : (r : Req) → σ → Req.Resp r × σ)
    (s : σ) (rtxn : removePayloadTxn)
    (hgone : (h (.FindId payloadsC (payloadID rtxn.unit rtxn.name)) s).1
      = .error .ErrNotFound) :
    (rtxn.checkAssertsAndUpdate.exec h s).val.1 =
      some (.Annotate payload.ErrNotFound ("(" ++ rtxn.name ++ ")")) ∧
    submitted (rtxn.checkAssertsAndUpdate.exec h s).log = [] := by
  unfold removePayloadTxn.checkAssertsAndUpdate payloadsQueries.one
  simp only [Prog.bind_call, Prog.exec_call, hgone]
  simp [Prog.bind, Prog.exec, IsNotFoundError, Event.of, submitted]

/-- The same for `setPayloadStatusTxn.checkAssertsAndUpdate`. -/
theorem setPayloadStatusTxn.check_not_found {σ : Type} (h : (r : Req) → σ → Req.Resp r × σ)
    (s : σ) (stxn : setPayloadStatusTxn)
    (hgone : (h (.FindId payloadsC (payloadID stxn.unit stxn.name)) s).1
      = .error .ErrNotFound) :
    (stxn.checkAssertsAndUpdate.exec h s).val.1 =
      some (.Annotate payload.ErrNotFound ("(" ++ stxn.name ++ ")")) ∧
    submitted (stxn.checkAssertsAndUpdate.exec h s).log = [] := by
  unfold setPayloadStatusTxn.checkAssertsAndUpdate payloadsQueries.one
  simp only [Prog.bind_call, Prog.exec_call, hgone]
  simp [Prog.bind, Prog.exec, IsNotFoundError, Event.of, submitted]

/-! ## Two calls of advanceLifecycle at once -/

theorem Prog.par_ret_left {σ α β : Type} (h : (r : Req) → σ → Req.Resp r × σ)
    (sched : List Bool) (a : α) (q : Prog β) (s : σ) :
    Prog.par h sched (.ret a) q s =
      { left := a, right := (q.exec h s).val, store := (q.exec h s).store, leftLog := [],
        rightLog := (q.exec h s).log } := by
  cases sched with
  | nil => cases q <;> rfl
  | cons b sched => cases b <;> cases q <;> rfl

theorem Prog.par_ret_right {σ α β : Type} (h : (r : Req) → σ → Req.Resp r × σ)
    (sched : List Bool) (p : Prog α) (b : β) (s : σ) :
    Prog.par h sched p (.ret b) s =
      { left := (p.exec h s).val, right := b, store := (p.exec h s).store,
        leftLog := (p.exec h s).log, rightLog := [] } := by
  cases p with
  | ret a =>
    rw [Prog.par_ret_left]
    rfl
  | call r k =>
    cases sched with
    | nil => rfl
    | cons c sched => cases c <;> rfl

theorem Prog.par_nil {σ α β : Type} (h : (r : Req) → σ → Req.Resp r × σ)
    (p : Prog α) (q : Prog β) (s : σ) :
    Prog.par h [] p q s =
      { left := (p.exec h s).val, right := (q.exec h (p.exec h s).store).val,
        store := (q.exec h (p.exec h s).store).store, leftLog := (p.exec h s).log,
        rightLog := (q.exec h (p.exec h s).store).log } := by
  cases p with
  | ret a =>
    rw [Prog.par_ret_left]
    rfl
  | call r k =>
    cases q with
    | ret b =>
      rw [Prog.par_ret_right]
      rfl
    | call r2 k2 => rfl

theorem Prog.par_left {σ α β : Type} (h : (r : Req) → σ → Req.Resp r × σ)
    (sched : List Bool) (r : Req) (k : Req.Resp r → Prog α) (r2 : Req)
    (k2 : Req.Resp r2 → Prog β) (s : σ) :
    Prog.par h (true :: sched) (.call r k) (.call r2 k2) s =
      { Prog.par h sched (k (h r s).1) (.call r2 k2) (h r s).2 with
        leftLog := Event.of r (h r s).1 ::
          (Prog.par h sched (k (h r s).1) (.call r2 k2) (h r s).2).leftLog } := rfl

theorem Prog.par_right {σ α β : Type} (h : (r : Req) → σ → Req.Resp r × σ)
    (sched : List Bool) (r : Req) (k : Req.Resp r → Prog α) (r2 : Req)
    (k2 : Req.Resp r2 → Prog β) (s : σ) :
    Prog.par h (false :: sched) (.call r k) (.call r2 k2) s =
      { Prog.par h sched (.call r k) (k2 (h r2 s).1) (h r2 s).2 with
        rightLog := Event.of r2 (h r2 s).1 ::
          (Prog.par h sched (.call r k) (k2 (h r2 s).1) (h r2 s).2).rightLog } := rfl

/-- The method `advanceLifecycle` starts with the read of the containers, and goes on
with the loop when it finds none. -/
theorem advanceLifecycle_first_call (original : Machine) (life : Life) :
    ∃ k, original.advanceLifecycle life = .call (.FindId containerRefsC original.doc.Id) k ∧
      ∀ mc : Doc, (machineContainers.ofDoc mc).Children = [] →
        k (.ok mc) = advanceFromLoop original life 3 0 := by
  refine ⟨_, rfl, ?_⟩
  intro mc hmc
  simp [Prog.bind, hmc, advanceFromLoop]

theorem advanceLoop_succ (op : Op) (life : Life) (left i : Nat) (m : Machine) :
    advanceLoop op life (left + 1) i m =
      (advanceRefetch i m).bind fun r =>
        match r with
        | .inl x => .ret x
        | .inr m =>
          (advanceAttempt op life m).bind fun a =>
            match a with
            | some x => .ret x
            | none => advanceLoop op life left (i + 1) m := by
  rw [advanceLoop]

/-- The pass of the loop to Dying on a copy that shows the machine free to die is the
submission of the op. -/
theorem advanceAttempt_free (op : Op) (id : String) (m : Machine) (hm : freeHandle id m) :
    advanceAttempt op .Dying m =
      .call (.Run [assertedOp op .Dying]) fun (err : Option Error) =>
        if err ≠ some .ErrAborted then .ret (some ⟨some m, err, none⟩) else .ret none := by
  obtain ⟨_, hlife, hjobs, hprin⟩ := hm
  have hany : m.doc.Jobs.any (fun j => j == JobManageEnviron) = false := by
    rw [List.any_eq_false]
    intro j hj hje
    rw [beq_iff_eq] at hje
    exact hjobs (hje ▸ hj)
  simp only [advanceAttempt, advanceChecked, hlife, hany, hprin, ne_eq, not_true_eq_false,
    if_false, List.length_nil, Bool.false_eq_true, assertedOp, lifeAssert]

/-- The pass of the loop to Dying on a copy that is not Alive ends the method. -/
theorem advanceAttempt_done (op : Op) (m : Machine) (hm : m.doc.Life ≠ .Alive) :
    advanceAttempt op .Dying m = .ret (some ⟨some m, none, none⟩) := by
  simp only [advanceAttempt, ne_eq, hm, not_false_eq_true, if_true]

/-- For a handle that shows the machine free to die, what is left of `advanceLifecycle`
to Dying after the read of the containers starts with the submission of the op; when
the op is applied the method returns success with the receiver Dying, and when it is
rejected the second pass of the loop is left. -/
theorem advanceFromLoop_first_call (id : String) (m : Machine) (hm : freeHandle id m) :
    ∃ k, advanceFromLoop m .Dying 3 0 =
        .call (.Run [assertedOp (advanceOp m .Dying) .Dying]) k ∧
      k none = .ret (.returned none, m.dying) ∧
      k (some .ErrAborted) = advanceFromLoop m .Dying 2 1 := by
  have hrefetch : advanceRefetch 0 m = .ret (.inr m) := by
    simp [advanceRefetch]
  have hlife := hm.2.1
  refine ⟨fun (err : Option Error) =>
    (((if err ≠ some Error.ErrAborted then Prog.ret (some ⟨some m, err, none⟩)
        else Prog.ret none : Prog (Option Exit)).bind fun a =>
        match a with
        | some x => Prog.ret x
        | none => advanceLoop (advanceOp m .Dying) .Dying 2 (0 + 1) m).bind fun x =>
      Prog.ret (x.outcome, advanceDeferred m .Dying x)), ?_, ?_, ?_⟩
  · rw [advanceFromLoop, advanceLoop_succ, hrefetch, Prog.bind_ret]
    simp only []
    rw [advanceAttempt_free _ id m hm, Prog.bind_call, Prog.bind_call]
    rfl
  · simp only [ne_eq, reduceCtorEq, not_false_eq_true, if_true, Prog.bind_ret, Exit.outcome,
      advanceDeferred, Machine.dying, hlife]
    rfl
  · simp only [ne_eq, not_true_eq_false, if_false, Prog.bind_ret]
    rfl

/-- The second pass of the loop starts with the refetch of the machine; when the copy
fetched is not Alive the method returns success with the receiver Dying. -/
theorem advanceFromLoop_second_call (m : Machine) :
    ∃ k, advanceFromLoop m .Dying 2 1 = .call (.StMachine m.doc.Id) k ∧
      ∀ fresh : Machine, fresh.doc.Life = .Dying →
        k (.ok fresh) = .ret (.returned none, m.dying) := by
  refine ⟨fun (r : Except Error Machine) =>
    (((match r with
        | .error err =>
          if IsNotFoundError (some err) then Prog.ret (.inl ⟨none, none, none⟩)
          else Prog.ret (.inl ⟨none, some err, none⟩)
        | .ok fresh => Prog.ret (.inr fresh) : Prog (Exit ⊕ Machine)).bind fun r =>
        match r with
        | .inl x => Prog.ret x
        | .inr cur =>
          (advanceAttempt (advanceOp m .Dying) .Dying cur).bind fun a =>
            match a with
            | some x => Prog.ret x
            | none => advanceLoop (advanceOp m .Dying) .Dying 1 (1 + 1) cur).bind fun x =>
      Prog.ret (x.outcome, advanceDeferred m .Dying x)), ?_, ?_⟩
  · rw [advanceFromLoop, advanceLoop_succ]
    simp only [advanceRefetch, ne_eq, one_ne_zero, not_false_eq_true, if_true]
    rw [Prog.bind_call, Prog.bind_call]
    rfl
  · intro fresh hfresh
    have hna : fresh.doc.Life ≠ .Alive := by
      rw [hfresh]
      decide
    simp only [Prog.bind_ret]
    rw [advanceAttempt_done _ fresh hna]
    simp only [Prog.bind_ret, Exit.outcome, advanceDeferred, Machine.dying, hfresh]
    rfl

/-! ## The document store under two calls of advanceLifecycle -/

theorem assertedOp_dying (id : String) (m : Machine) (hm : freeHandle id m) :
    assertedOp (advanceOp m .Dying) .Dying = dyingOp id := by
  simp only [assertedOp, advanceOp, lifeAssert, dyingOp, hm.1]

/-- The read of the containers on a store that records none. -/
theorem Store.handle_containers (id : String) (s : Store) (hs : noContainers id s) :
    ∃ mc, Store.handle (.FindId containerRefsC id) s = (.ok mc, s) ∧
      (machineContainers.ofDoc mc).Children = [] := by
  obtain ⟨mc, hfind, hmc⟩ := hs
  refine ⟨mc, ?_, hmc⟩
  simp only [Store.handle, hfind]

/-- The op to Dying is applied by a store in which the machine is free to die, and
leaves the machine Dying. -/
theorem Store.handle_dyingOp_free (id : String) (s : Store) (hs : freeStore id s) :
    ∃ s1, Store.handle (.Run [dyingOp id]) s = (none, s1) ∧ dyingStore id s1 := by
  obtain ⟨⟨mc, hmc, hch⟩, pd, hpd, hq⟩ := hs
  have hcheck : (dyingOp id).check s = true := by
    simp only [Op.check, dyingOp, hpd, Assert.holds, hq]
  have happ : s.applyAtomic [dyingOp id] = some ((dyingOp id).apply s) := by
    simp [Store.applyAtomic, hcheck]
  refine ⟨(dyingOp id).apply s, by simp only [Store.handle, happ], ⟨mc, ?_, hch⟩, ?_⟩
  · rw [Op.apply_find_other _ _ _ _ (by simp [dyingOp, machinesC, containerRefsC])]
    exact hmc
  · refine ⟨pd.setAll [("life", .int Life.Dying.toInt)], ?_, ?_⟩
    · have hid : (dyingOp id).Id = id := rfl
      have hC : (dyingOp id).C = machinesC := rfl
      simp only [Op.apply, hid, hC, hpd, dyingOp, Bool.false_eq_true, if_false]
      exact findEntry_putEntry_same _ _ _ _
    · simp only [Doc.setAll, List.foldl_cons, List.foldl_nil]
      exact Doc.get_set_same _ _ _

/-- The op to Dying is rejected by a store in which the machine is Dying. -/
theorem Store.handle_dyingOp_dying (id : String) (s : Store) (hs : dyingStore id s) :
    Store.handle (.Run [dyingOp id]) s = (some .ErrAborted, s) := by
  obtain ⟨_, pd, hpd, hlife⟩ := hs
  have hcheck : (dyingOp id).check s = false := by
    simp only [Op.check, dyingOp, hpd, Assert.holds, D.holds_append]
    have : D.holds isAliveDoc pd = false := by
      simp [D.holds, isAliveDoc, Elem.holds, hlife, Cond.holds, Value.elems, Life.toInt]
    rw [this, Bool.and_false]
  have happ : s.applyAtomic [dyingOp id] = none :=
    Store.applyAtomic_rejected s _ _ hcheck
  simp only [Store.handle, happ]

/-- The refetch on a store in which the machine is Dying gives a copy that is Dying. -/
theorem Store.handle_refetch_dying (id : String) (s : Store) (hs : dyingStore id s) :
    ∃ fresh, Store.handle (.StMachine id) s = (.ok fresh, s) ∧ fresh.doc.Life = .Dying := by
  obtain ⟨_, pd, hpd, hlife⟩ := hs
  have hl : pd.life = some .Dying := by
    simp [Doc.life, hlife, Life.ofInt, Life.toInt]
  refine ⟨newMachine
    { Id := pd.getStr "_id", Nonce := pd.getStr "nonce", Series := pd.getStr "series",
      ContainerType := pd.getStr "containertype", InstanceId := pd.getStr "instanceid",
      Principals := pd.getStrs "principals", Life := .Dying, Tools := pd.getTools "tools",
      TxnRevno := pd.getInt "txn-revno", Jobs := pd.getInts "jobs",
      PasswordHash := pd.getStr "passwordhash", Clean := pd.getBool "clean" }, ?_, rfl⟩
  simp only [Store.handle, hpd, machineDoc.ofDoc, hl]

/-! ## The outcomes of two calls of advanceLifecycle at once -/

/-- On a store in which the machine is free to die, what is left of `advanceLifecycle`
after the read of the containers has its op applied. -/
theorem advanceFromLoop_wins (id : String) (m : Machine) (hm : freeHandle id m) (s : Store)
    (hs : freeStore id s) :
    ∃ s1, dyingStore id s1 ∧
      ((advanceFromLoop m .Dying 3 0).exec Store.handle s).val = (.returned none, m.dying) ∧
      ((advanceFromLoop m .Dying 3 0).exec Store.handle s).store = s1 ∧
      ((advanceFromLoop m .Dying 3 0).exec Store.handle s).log = [.Run [dyingOp id] none] := by
  obtain ⟨k, hk, hnone, _⟩ := advanceFromLoop_first_call id m hm
  obtain ⟨s1, hrun, hs1⟩ := Store.handle_dyingOp_free id s hs
  rw [assertedOp_dying id m hm] at hk
  refine ⟨s1, hs1, ?_, ?_, ?_⟩ <;>
    (rw [hk, Prog.exec_call, hrun]; simp only [hnone, Prog.exec_ret]; try rfl)

/-- On a store in which the machine is Dying, what is left of `advanceLifecycle` after
the read of the containers has its op rejected, refetches the machine and returns
success. -/
theorem advanceFromLoop_loses (id : String) (m : Machine) (hm : freeHandle id m) (s : Store)
    (hs : dyingStore id s) :
    ∃ copy, copy.doc.Life = .Dying ∧
      ((advanceFromLoop m .Dying 3 0).exec Store.handle s).val = (.returned none, m.dying) ∧
      ((advanceFromLoop m .Dying 3 0).exec Store.handle s).store = s ∧
      ((advanceFromLoop m .Dying 3 0).exec Store.handle s).log =
        [.Run [dyingOp id] (some .ErrAborted), .StMachine id (.ok copy)] := by
  obtain ⟨k, hk, _, hab⟩ := advanceFromLoop_first_call id m hm
  obtain ⟨k2, hk2, hfresh⟩ := advanceFromLoop_second_call m
  obtain ⟨copy, hre, hcopy⟩ := Store.handle_refetch_dying id s hs
  have hrun := Store.handle_dyingOp_dying id s hs
  rw [assertedOp_dying id m hm] at hk
  rw [hm.1] at hk2
  refine ⟨copy, hcopy, ?_, ?_, ?_⟩ <;>
    (rw [hk, Prog.exec_call, hrun]; simp only [hab]
     rw [hk2, Prog.exec_call, hre]; simp only [hfresh copy hcopy, Prog.exec_ret]; try rfl)

/-- The whole of `advanceLifecycle` on a store in which the machine is free to die. -/
theorem advanceLifecycle_wins (id : String) (m : Machine) (hm : freeHandle id m) (s : Store)
    (hs : freeStore id s) :
    ∃ s1 mc, dyingStore id s1 ∧
      ((m.advanceLifecycle .Dying).exec Store.handle s).val = (.returned none, m.dying) ∧
      ((m.advanceLifecycle .Dying).exec Store.handle s).store = s1 ∧
      ((m.advanceLifecycle .Dying).exec Store.handle s).log =
        [.FindId containerRefsC id (.ok mc), .Run [dyingOp id] none] := by
  obtain ⟨k, hk, hnext⟩ := advanceLifecycle_first_call m .Dying
  obtain ⟨mc, hread, hmc⟩ := Store.handle_containers id s hs.1
  obtain ⟨s1, hs1, hv, hst, hlog⟩ := advanceFromLoop_wins id m hm s hs
  rw [hm.1] at hk
  refine ⟨s1, mc, hs1, ?_, ?_, ?_⟩ <;>
    (rw [hk, Prog.exec_call, hread]; simp only [hnext mc hmc, hv, hst, hlog]; try rfl)

/-- The whole of `advanceLifecycle` on a store in which the machine is Dying. -/
theorem advanceLifecycle_loses (id : String) (m : Machine) (hm : freeHandle id m) (s : Store)
    (hs : dyingStore id s) :
    ∃ copy mc, copy.doc.Life = .Dying ∧
      ((m.advanceLifecycle .Dying).exec Store.handle s).val = (.returned none, m.dying) ∧
      ((m.advanceLifecycle .Dying).exec Store.handle s).store = s ∧
      ((m.advanceLifecycle .Dying).exec Store.handle s).log =
        [.FindId containerRefsC id (.ok mc), .Run [dyingOp id] (some .ErrAborted),
         .StMachine id (.ok copy)] := by
  obtain ⟨k, hk, hnext⟩ := advanceLifecycle_first_call m .Dying
  obtain ⟨mc, hread, hmc⟩ := Store.handle_containers id s hs.1
  obtain ⟨copy, hcopy, hv, hst, hlog⟩ := advanceFromLoop_loses id m hm s hs
  rw [hm.1] at hk
  refine ⟨copy, mc, hcopy, ?_, ?_, ?_⟩ <;>
    (rw [hk, Prog.exec_call, hread]; simp only [hnext mc hmc, hv, hst, hlog]; try rfl)

/-! ## The runs of two calls, step by step -/

/-- Both calls are about to submit their op: the one that submits first has it
applied. -/
theorem par_both_at_submission (id : String) (a b : Machine) (ha : freeHandle id a)
    (hb : freeHandle id b) (s : Store) (hs : freeStore id s) (sched : List Bool) :
    oneApplied id a b
      (Prog.par Store.handle sched (advanceFromLoop a .Dying 3 0)
        (advanceFromLoop b .Dying 3 0) s) := by
  obtain ⟨ka, hka, hna, _⟩ := advanceFromLoop_first_call id a ha
  obtain ⟨kb, hkb, hnb, _⟩ := advanceFromLoop_first_call id b hb
  rw [assertedOp_dying id a ha] at hka
  rw [assertedOp_dying id b hb] at hkb
  obtain ⟨s1, hrun, hs1⟩ := Store.handle_dyingOp_free id s hs
  cases sched with
  | nil =>
    rw [Prog.par_nil]
    obtain ⟨s2, hs2, hv, hst, hlog⟩ := advanceFromLoop_wins id a ha s hs
    obtain ⟨copy, hcopy, hv2, hst2, hlog2⟩ := advanceFromLoop_loses id b hb s2 hs2
    simp only [hv, hst, hlog, hv2, hst2, hlog2]
    exact ⟨rfl, rfl, Or.inl ⟨rfl, rfl, rfl, copy, rfl, hcopy⟩, hs2⟩
  | cons c sched =>
    cases c with
    | true =>
      obtain ⟨copy, hcopy, hv2, hst2, hlog2⟩ := advanceFromLoop_loses id b hb s1 hs1
      rw [hka, hkb, Prog.par_left, hrun]
      simp only [hna]
      rw [Prog.par_ret_left, ← hkb]
      simp only [hv2, hst2, hlog2]
      exact ⟨rfl, rfl, Or.inl ⟨rfl, rfl, rfl, copy, rfl, hcopy⟩, hs1⟩
    | false =>
      obtain ⟨copy, hcopy, hv2, hst2, hlog2⟩ := advanceFromLoop_loses id a ha s1 hs1
      rw [hka, hkb, Prog.par_right, hrun]
      simp only [hnb]
      rw [Prog.par_ret_right, ← hka]
      simp only [hv2, hst2, hlog2]
      exact ⟨rfl, rfl, Or.inr ⟨rfl, rfl, rfl, copy, rfl, hcopy⟩, hs1⟩

/-- A read of the containers ahead of the calls of the left call changes nothing of the
outcome. -/
theorem oneApplied_read_left (id : String) (a b : Machine)
    (w : Traces Store (Outcome × Machine) (Outcome × Machine)) (C i : String)
    (r : Except Error Doc) (hw : oneApplied id a b w) :
    oneApplied id a b { w with leftLog := .FindId C i r :: w.leftLog } := by
  unfold oneApplied at hw ⊢
  simpa [runResults, refetches] using hw

/-- A read of the containers ahead of the calls of the right call changes nothing of the
outcome. -/
theorem oneApplied_read_right (id : String) (a b : Machine)
    (w : Traces Store (Outcome × Machine) (Outcome × Machine)) (C i : String)
    (r : Except Error Doc) (hw : oneApplied id a b w) :
    oneApplied id a b { w with rightLog := .FindId C i r :: w.rightLog } := by
  unfold oneApplied at hw ⊢
  simpa [runResults, refetches] using hw

/-- The left call has yet to read the containers, the right one is about to submit. -/
theorem par_left_at_start (id : String) (a b : Machine) (ha : freeHandle id a)
    (hb : freeHandle id b) (s : Store) (hs : freeStore id s) (sched : List Bool) :
    oneApplied id a b
      (Prog.par Store.handle sched (a.advanceLifecycle .Dying)
        (advanceFromLoop b .Dying 3 0) s) := by
  obtain ⟨k, hk, hnext⟩ := advanceLifecycle_first_call a .Dying
  rw [ha.1] at hk
  obtain ⟨mc, hread, hmc⟩ := Store.handle_containers id s hs.1
  obtain ⟨kb, hkb, hnb, _⟩ := advanceFromLoop_first_call id b hb
  rw [assertedOp_dying id b hb] at hkb
  obtain ⟨s1, hrun, hs1⟩ := Store.handle_dyingOp_free id s hs
  cases sched with
  | nil =>
    rw [Prog.par_nil]
    obtain ⟨s2, mc2, hs2, hv, hst, hlog⟩ := advanceLifecycle_wins id a ha s hs
    obtain ⟨copy, hcopy, hv2, hst2, hlog2⟩ := advanceFromLoop_loses id b hb s2 hs2
    simp only [hv, hst, hlog, hv2, hst2, hlog2]
    exact ⟨rfl, rfl, Or.inl ⟨rfl, rfl, rfl, copy, rfl, hcopy⟩, hs2⟩
  | cons c sched =>
    cases c with
    | true =>
      have hrec := par_both_at_submission id a b ha hb s hs sched
      rw [hk, hkb, Prog.par_left, hread]
      simp only [hnext mc hmc]
      rw [← hkb]
      exact oneApplied_read_left id a b _ _ _ _ hrec
    | false =>
      obtain ⟨copy, mc2, hcopy, hv2, hst2, hlog2⟩ := advanceLifecycle_loses id a ha s1 hs1
      rw [hk, hkb, Prog.par_right, hrun]
      simp only [hnb]
      rw [Prog.par_ret_right, ← hk]
      simp only [hv2, hst2, hlog2]
      exact ⟨rfl, rfl, Or.inr ⟨rfl, rfl, rfl, copy, rfl, hcopy⟩, hs1⟩

/-- The right call has yet to read the containers, the left one is about to submit. -/
theorem par_right_at_start (id : String) (a b : Machine) (ha : freeHandle id a)
    (hb : freeHandle id b) (s : Store) (hs : freeStore id s) (sched : List Bool) :
    oneApplied id a b
      (Prog.par Store.handle sched (advanceFromLoop a .Dying 3 0)
        (b.advanceLifecycle .Dying) s) := by
  obtain ⟨k, hk, hnext⟩ := advanceLifecycle_first_call b .Dying
  rw [hb.1] at hk
  obtain ⟨mc, hread, hmc⟩ := Store.handle_containers id s hs.1
  obtain ⟨ka, hka, hna, _⟩ := advanceFromLoop_first_call id a ha
  rw [assertedOp_dying id a ha] at hka
  obtain ⟨s1, hrun, hs1⟩ := Store.handle_dyingOp_free id s hs
  cases sched with
  | nil =>
    rw [Prog.par_nil]
    obtain ⟨s2, hs2, hv, hst, hlog⟩ := advanceFromLoop_wins id a ha s hs
    obtain ⟨copy, mc2, hcopy, hv2, hst2, hlog2⟩ := advanceLifecycle_loses id b hb s2 hs2
    simp only [hv, hst, hlog, hv2, hst2, hlog2]
    exact ⟨rfl, rfl, Or.inl ⟨rfl, rfl, rfl, copy, rfl, hcopy⟩, hs2⟩
  | cons c sched =>
    cases c with
    | true =>
      obtain ⟨copy, mc2, hcopy, hv2, hst2, hlog2⟩ := advanceLifecycle_loses id b hb s1 hs1
      rw [hka, hk, Prog.par_left, hrun]
      simp only [hna]
      rw [Prog.par_ret_left, ← hk]
      simp only [hv2, hst2, hlog2]
      exact ⟨rfl, rfl, Or.inl ⟨rfl, rfl, rfl, copy, rfl, hcopy⟩, hs1⟩
    | false =>
      have hrec := par_both_at_submission id a b ha hb s hs sched
      rw [hka, hk, Prog.par_right, hread]
      simp only [hnext mc hmc]
      rw [← hka]
      exact oneApplied_read_right id a b _ _ _ _ hrec

/-- Two calls of `advanceLifecycle` to Dying at once, from their start, on a store in
which the machine is free to die: one has its op applied, under every schedule. -/
theorem par_both_at_start (id : String) (a b : Machine) (ha : freeHandle id a)
    (hb : freeHandle id b) (s : Store) (hs : freeStore id s) (sched : List Bool) :
    oneApplied id a b
      (Prog.par Store.handle sched (a.advanceLifecycle .Dying)
        (b.advanceLifecycle .Dying) s) := by
  obtain ⟨k, hk, hnext⟩ := advanceLifecycle_first_call a .Dying
  rw [ha.1] at hk
  obtain ⟨k2, hk2, hnext2⟩ := advanceLifecycle_first_call b .Dying
  rw [hb.1] at hk2
  obtain ⟨mc, hread, hmc⟩ := Store.handle_containers id s hs.1
  cases sched with
  | nil =>
    rw [Prog.par_nil]
    obtain ⟨s2, mc2, hs2, hv, hst, hlog⟩ := advanceLifecycle_wins id a ha s hs
    obtain ⟨copy, mc3, hcopy, hv2, hst2, hlog2⟩ := advanceLifecycle_loses id b hb s2 hs2
    simp only [hv, hst, hlog, hv2, hst2, hlog2]
    exact ⟨rfl, rfl, Or.inl ⟨rfl, rfl, rfl, copy, rfl, hcopy⟩, hs2⟩
  | cons c sched =>
    cases c with
    | true =>
      have hrec := par_right_at_start id a b ha hb s hs sched
      rw [hk, hk2, Prog.par_left, hread]
      simp only [hnext mc hmc]
      rw [← hk2]
      exact oneApplied_read_left id a b _ _ _ _ hrec
    | false =>
      have hrec := par_left_at_start id a b ha hb s hs sched
      rw [hk, hk2, Prog.par_right, hread]
      simp only [hnext2 mc hmc]
      rw [← hk]
      exact oneApplied_read_right id a b _ _ _ _ hrec

/-! ## The errors of the reads of advanceLifecycle -/

/-- A refetch that fails with an error other than a not-found is the last call of the
loop, which is left with that error as the result. -/
theorem LoopRun.refetch_error {op : Op} {life : Life} {n i : Nat} {m : Machine}
    {log : List Event} {x : Exit} (hr : LoopRun op life n i m log x) {err : Error}
    (hmem : Except.error err ∈ refetches log) (hnf : IsNotFoundError (some err) = false) :
    x = ⟨none, some err, none⟩ ∧ ∃ front id, log = front ++ [Event.StMachine id (.error err)] := by
  induction hr with
  | exhausted i m => simp [refetches] at hmem
  | left n i m pre x hf =>
    cases hf with
    | gone e _ he =>
      simp only [refetches, List.mem_singleton, Except.error.injEq] at hmem
      subst hmem
      rw [hnf] at he
      exact absurd he (by decide)
    | failed e _ _ =>
      simp only [refetches, List.mem_singleton, Except.error.injEq] at hmem
      subst hmem
      exact ⟨rfl, [], _, rfl⟩
  | done n i m cur pre mid x hf ha =>
    rw [refetches_append, ha.refetches_eq, List.append_nil] at hmem
    cases hf with
    | first _ => simp [refetches] at hmem
    | fresh copy _ => simp [refetches] at hmem
  | retry n i m cur pre mid rest x hf ha _ ih =>
    rw [refetches_append, refetches_append, ha.refetches_eq, List.nil_append,
      List.mem_append] at hmem
    rcases hmem with hmem | hmem
    · cases hf with
      | first _ => simp [refetches] at hmem
      | fresh copy _ => simp [refetches] at hmem
    · obtain ⟨hx, front, id, hlog⟩ := ih hmem
      refine ⟨hx, pre ++ (mid ++ front), id, ?_⟩
      rw [hlog]
      simp

/-- The calls of the loop of advanceLifecycle are submissions and refetches. -/
theorem LoopRun.calls {op : Op} {life : Life} {n i : Nat} {m : Machine}
    {log : List Event} {x : Exit} (hr : LoopRun op life n i m log x) :
    ∀ e ∈ log, (∃ ops r, e = Event.Run ops r) ∨ (∃ id r, e = Event.StMachine id r) := by
  have hf : ∀ {i : Nat} {m : Machine} {pre : List Event} {r : Exit ⊕ Machine},
      RefetchRun i m pre r →
      ∀ e ∈ pre, (∃ ops r, e = Event.Run ops r) ∨ (∃ id r, e = Event.StMachine id r) := by
    intro i m pre r h e he
    cases h with
    | first _ => simp at he
    | fresh copy _ =>
      simp only [List.mem_singleton] at he
      exact Or.inr ⟨_, _, he⟩
    | gone err _ _ =>
      simp only [List.mem_singleton] at he
      exact Or.inr ⟨_, _, he⟩
    | failed err _ _ =>
      simp only [List.mem_singleton] at he
      exact Or.inr ⟨_, _, he⟩
  have ha : ∀ {m : Machine} {mid : List Event} {a : Option Exit},
      AttemptRun op life m mid a →
      ∀ e ∈ mid, (∃ ops r, e = Event.Run ops r) ∨ (∃ id r, e = Event.StMachine id r) := by
    intro m mid a h e he
    cases h with
    | ran err _ _ _ _ _ =>
      simp only [List.mem_singleton] at he
      exact Or.inl ⟨_, _, he⟩
    | aborted _ _ _ _ =>
      simp only [List.mem_singleton] at he
      exact Or.inl ⟨_, _, he⟩
    | unknownLife _ => simp at he
    | alreadyThere _ _ => simp at he
    | required _ _ _ => simp at he
    | hasUnits _ _ _ _ => simp at he
  induction hr with
  | exhausted i m => intro e he; simp at he
  | left n i m pre x h1 => exact hf h1
  | done n i m cur pre mid x h1 h2 =>
    intro e he
    rcases List.mem_append.1 he with he | he
    · exact hf h1 e he
    · exact ha h2 e he
  | retry n i m cur pre mid rest x h1 h2 _ ih =>
    intro e he
    rcases List.mem_append.1 he with he | he
    · exact hf h1 e he
    · rcases List.mem_append.1 he with he | he
      · exact ha h2 e he
      · exact ih e he

/-! ## The greatest id of a collection -/

/-- The order of the store on strings is asymmetric. -/
theorem charsLt_asymm : ∀ a b : List Char, charsLt a b = true → charsLt b a = false := by
  intro a
  induction a with
  | nil =>
    intro b _
    cases b <;> rfl
  | cons x xs ih =>
    intro b hab
    cases b with
    | nil => simp [charsLt] at hab
    | cons y ys =>
      simp only [charsLt, Bool.or_eq_true, decide_eq_true_eq, Bool.and_eq_true,
        beq_iff_eq] at hab
      simp only [charsLt, Bool.or_eq_false_iff, decide_eq_false_iff_not, not_lt,
        Bool.and_eq_false_imp, beq_iff_eq]
      rcases hab with hlt | ⟨heq, hrest⟩
      · exact ⟨by omega, fun h => by omega⟩
      · exact ⟨by omega, fun _ => ih ys hrest⟩

/-- A common prefix does not take part in the order of the store on strings. -/
theorem charsLt_append_left (p a b : List Char) :
    charsLt (p ++ a) (p ++ b) = charsLt a b := by
  induction p with
  | nil => rfl
  | cons c p ih => simp [charsLt, ih]

/-- The decimal numerals of one digit are in the order of their numbers. -/
theorem charsLt_digit (k n : Int) (hk : 0 ≤ k) (hkn : k < n) (hn : n ≤ 9) :
    charsLt (toString k).data (toString n).data = true := by
  have hn0 : 1 ≤ n := by omega
  interval_cases n <;> interval_cases k <;> decide

/-- The ids of the attempts 0 to 9 of a model are in the order of their numbers. -/
theorem charsLt_attempt (uuid : String) (k n : Int) (hk : 0 ≤ k) (hkn : k < n) (hn : n ≤ 9) :
    charsLt (uuid ++ ":" ++ toString k).data (uuid ++ ":" ++ toString n).data = true := by
  rw [String.data_append, String.data_append (uuid ++ ":"), charsLt_append_left]
  exact charsLt_digit k n hk hkn hn

/-- A document put into another collection does not change the greatest id of a
collection. -/
theorem topEntry_putEntry_other (C : String) (q : D) (C0 id0 : String) (d : Doc)
    (hC : C0 ≠ C) :
    ∀ docs : List Entry, topEntry C q (putEntry C0 id0 d docs) = topEntry C q docs := by
  intro docs
  induction docs with
  | nil => simp [putEntry, topEntry, hC]
  | cons e docs ih =>
    by_cases he : e.C = C0 ∧ e.Id = id0
    · have hne : ¬ e.C = C := fun h => hC (he.1 ▸ h)
      simp [putEntry, he, topEntry, hC, hne]
    · simp only [putEntry, he, if_false, topEntry, ih]

/-- A new document whose id is above the ids of the documents of its collection that
meet the query is the one with the greatest id afterwards. -/
theorem topEntry_putEntry_new (C : String) (q : D) (id : String) (d : Doc)
    (hq : D.holds q d = true) :
    ∀ docs : List Entry, findEntry C id docs = none →
      (∀ e ∈ docs, e.C = C → D.holds q e.doc = true → charsLt e.Id.data id.data = true) →
      topEntry C q (putEntry C id d docs) = some ⟨C, id, d⟩ := by
  intro docs
  induction docs with
  | nil =>
    intro _ _
    simp [putEntry, topEntry, hq]
  | cons e docs ih =>
    intro hfind hlt
    have he : ¬ (e.C = C ∧ e.Id = id) := by
      intro hh
      simp [findEntry, hh] at hfind
    have hrest : findEntry C id docs = none := by
      simpa [findEntry, he] using hfind
    have ih2 := ih hrest (fun x hx => hlt x (List.mem_cons_of_mem _ hx))
    simp only [putEntry, he, if_false, topEntry, ih2]
    by_cases hqual : e.C = C ∧ D.holds q e.doc = true
    · have h1 := hlt e (List.mem_cons_self _ _) hqual.1 hqual.2
      have h2 := charsLt_asymm _ _ h1
      simp [h2]
    · have : ¬ (e.C = C ∧ D.holds q e.doc = true ∧ charsLt id.data e.Id.data = true) :=
        fun hh => hqual ⟨hh.1, hh.2.1⟩
      simp only [this, if_false]

theorem mem_putEntry (C id : String) (d : Doc) (e : Entry) :
    ∀ docs : List Entry, e ∈ putEntry C id d docs → e ∈ docs ∨ e = ⟨C, id, d⟩ := by
  intro docs
  induction docs with
  | nil =>
    intro h
    simp only [putEntry, List.mem_singleton] at h
    exact Or.inr h
  | cons x docs ih =>
    intro h
    by_cases hx : x.C = C ∧ x.Id = id
    · simp only [putEntry, hx, and_self, if_true, List.mem_cons] at h
      rcases h with h | h
      · exact Or.inr h
      · exact Or.inl (List.mem_cons_of_mem _ h)
    · simp only [putEntry, hx, if_false, List.mem_cons] at h
      rcases h with h | h
      · exact Or.inl (h ▸ List.mem_cons_self _ _)
      · rcases ih h with h | h
        · exact Or.inl (List.mem_cons_of_mem _ h)
        · exact Or.inr h

/-- An insert on a missing document adds the document to the entries. -/
theorem Op.apply_insert_docs (op : Op) (s : Store) (d : Doc)
    (hnone : s.find op.C op.Id = none) (hins : op.Insert = some d) :
    (op.apply s).docs = putEntry op.C op.Id d s.docs := by
  unfold Op.apply
  rw [hnone, hins]

/-- The greatest id among the descriptors after the op set of `CreateModelMigration` was
applied: the new descriptor, when its id is above the ids of the descriptors of the
model that were there. -/
theorem topEntry_createOps (st : State) (model : Model)
    (docs : modelMigDoc × modelMigStatusDoc) (t t2 : Store) (q : D)
    (happ : t.applyAtomic (createOps st model docs) = some t2)
    (h1 : t.find migrationsC docs.1.Id = none)
    (h2 : t.find migrationsStatusC docs.2.Id = none)
    (h3 : t.find migrationsActiveC st.ModelUUID = none)
    (hq : D.holds q docs.1.toDoc = true)
    (hlt : ∀ e ∈ t.docs, e.C = migrationsC → D.holds q e.doc = true →
      charsLt e.Id.data docs.1.Id.data = true) :
    topEntry migrationsC q t2.docs = some ⟨migrationsC, docs.1.Id, docs.1.toDoc⟩ := by
  rw [Store.applyAtomic_eq happ]
  have hops : createOps st model docs =
      [Op.mk migrationsC docs.1.Id .DocMissing (some docs.1.toDoc) none false,
       Op.mk migrationsStatusC docs.2.Id .DocMissing (some docs.2.toDoc) none false,
       Op.mk migrationsActiveC st.ModelUUID .DocMissing (some [("id", .str docs.1.Id)])
         none false,
       model.assertActiveOp] := rfl
  rw [hops]
  simp only [List.foldl_cons, List.foldl_nil]
  rw [Op.apply_assert_only _ _ rfl rfl rfl]
  generalize ho1 : Op.mk migrationsC docs.1.Id .DocMissing (some docs.1.toDoc) none false = o1
  generalize ho2 :
    Op.mk migrationsStatusC docs.2.Id .DocMissing (some docs.2.toDoc) none false = o2
  generalize ho3 : Op.mk migrationsActiveC st.ModelUUID .DocMissing
    (some [("id", .str docs.1.Id)]) none false = o3
  have e1 : (o1.apply t).docs = putEntry migrationsC docs.1.Id docs.1.toDoc t.docs := by
    subst ho1
    exact Op.apply_insert_docs _ _ _ h1 rfl
  have f2 : (o1.apply t).find migrationsStatusC docs.2.Id = none := by
    rw [Op.apply_find_other _ _ _ _ (by subst ho1; simp [migrationsStatusC, migrationsC])]
    exact h2
  have e2 : (o2.apply (o1.apply t)).docs =
      putEntry migrationsStatusC docs.2.Id docs.2.toDoc (o1.apply t).docs := by
    subst ho2
    exact Op.apply_insert_docs _ _ _ f2 rfl
  have f3 : (o2.apply (o1.apply t)).find migrationsActiveC st.ModelUUID = none := by
    rw [Op.apply_find_other _ _ _ _ (by subst ho2; simp [migrationsActiveC, migrationsStatusC]),
      Op.apply_find_other _ _ _ _ (by subst ho1; simp [migrationsActiveC, migrationsC])]
    exact h3
  have e3 : (o3.apply (o2.apply (o1.apply t))).docs =
      putEntry migrationsActiveC st.ModelUUID [("id", .str docs.1.Id)]
        (o2.apply (o1.apply t)).docs := by
    subst ho3
    exact Op.apply_insert_docs _ _ _ f3 rfl
  rw [e3, e2, e1, topEntry_putEntry_other _ _ _ _ _ (by decide),
    topEntry_putEntry_other _ _ _ _ _ (by decide)]
  exact topEntry_putEntry_new _ _ _ _ hq _ h1 hlt

/-- On the document store, under the conditions of `CreateModelMigration_fresh`, the
store `CreateModelMigration` leaves is the one after the allocation of the number of the
sequence and the application of the op set. -/
theorem CreateModelMigration_fresh_store (L : Lib) (P : migration.Table) (st : State)
    (spec : ModelMigrationSpec) (s : Store) (d : Doc) (current : Model) (seq : Int)
    (hc : st.IsController = false) (hv : spec.Validate L = none)
    (hcur : (Store.handle .StControllerModel s).1 = .ok current)
    (htarget : spec.TargetInfo.ControllerTag ≠ current.ModelTag)
    (hattempts : 0 < st.attempts)
    (hmodel : s.find modelsC st.ModelUUID = some d) (hid : d.getStr "_id" = st.ModelUUID)
    (hlife : d.get "life" = some (.int Life.Alive.toInt))
    (hmarker : s.find migrationsActiveC st.ModelUUID = none)
    (hseq : (Store.handle (.Sequence st.ModelUUID "modelmigration") s).1 = .ok seq)
    (hfresh : s.find migrationsC (st.ModelUUID ++ ":" ++ toString seq) = none)
    (hfreshStatus : s.find migrationsStatusC (st.ModelUUID ++ ":" ++ toString seq) = none) :
    (Store.handle (.Sequence st.ModelUUID "modelmigration") s).2.applyAtomic
        (createOps st { UUID := st.ModelUUID, Life := .Alive }
          (createDocs L P st spec s.clock seq)) =
      some ((st.CreateModelMigration L P spec).exec Store.handle s).store := by
  obtain ⟨n, hn⟩ : ∃ n, st.attempts = n + 1 := ⟨st.attempts - 1, by omega⟩
  obtain ⟨hcs, _, _, hcval⟩ := checkTargetController_on_store spec.TargetInfo.ControllerTag s
  obtain ⟨hbval, hbstore⟩ :=
    createBuildTxn_fresh L P st spec s.clock 0 s d seq hmodel hid hlife hmarker hseq
  obtain ⟨t2, happ, _, _, _⟩ := Store.applyAtomic_createOps st
    { UUID := st.ModelUUID, Life := .Alive } (createDocs L P st spec s.clock seq)
    (Store.handle (.Sequence st.ModelUUID "modelmigration") s).2 d
    (by rw [Store.handle_Sequence_find _ _ _ _ _ (by decide)]; exact hfresh)
    (by rw [Store.handle_Sequence_find _ _ _ _ _ (by decide)]; exact hfreshStatus)
    (by rw [Store.handle_Sequence_find _ _ _ _ _ (by decide)]; exact hmarker)
    (by rw [Store.handle_Sequence_find _ _ _ _ _ (by decide)]; exact hmodel)
    (Model.ofDoc_alive d hlife).2
  have hn2 : (Store.handle .Now s).2 = s := rfl
  have hn1 : (Store.handle .Now s).1 = s.clock := rfl
  have hrun : (Store.handle (.Run (createOps st { UUID := st.ModelUUID, Life := .Alive }
      (createDocs L P st spec s.clock seq)))
      (Store.handle (.Sequence st.ModelUUID "modelmigration") s).2) = (none, t2) :=
    Store.handle_Run_applied _ _ _ happ
  have hst : ((stRun (createBuildTxn L P st spec s.clock) (n + 1) 0).exec Store.handle s).val
        = .ok (createDocs L P st spec s.clock seq) ∧
      ((stRun (createBuildTxn L P st spec s.clock) (n + 1) 0).exec Store.handle s).store
        = t2 := by
    rw [stRun, Prog.exec_bind, hbval, hbstore]
    simp only []
    rw [Prog.exec_call, hrun]
    exact ⟨rfl, rfl⟩
  have hexec : ((st.CreateModelMigration L P spec).exec Store.handle s).store = t2 := by
    unfold State.CreateModelMigration
    simp only [hc, hv, Bool.false_eq_true, if_false]
    rw [Prog.exec_bind, hcs, hcval current hcur htarget]
    simp only []
    rw [Prog.exec_call, hn2, hn1, Prog.exec_bind, hn, hst.1, hst.2]
    rfl
  rw [hexec, happ]

/-- On the document store, `GetModelMigration` returns the migration made of the
descriptor with the greatest id among the ones of the model and of the status document
with that id. -/
theorem GetModelMigration_on_store (st : State) (s : Store) (e : Entry) (status : Doc)
    (htop : topEntry migrationsC [.field "model-uuid" (.eq (.str st.ModelUUID))] s.docs
      = some e)
    (hstatus : s.find migrationsStatusC (modelMigDoc.ofDoc e.doc).Id = some status) :
    (st.GetModelMigration.exec Store.handle s).val =
      (some { doc := modelMigDoc.ofDoc e.doc, statusDoc := modelMigStatusDoc.ofDoc status },
        none) := by
  have h1 : (Store.handle (.FindTopId migrationsC
      [.field "model-uuid" (.eq (.str st.ModelUUID))]) s) = (Except.ok e.doc, s) := by
    simp only [Store.handle, htop]
  have h2 : (Store.handle (.FindId migrationsStatusC (modelMigDoc.ofDoc e.doc).Id) s) =
      (Except.ok status, s) := by
    simp only [Store.handle, hstatus]
  rw [State.GetModelMigration, Prog.exec_call, h1]
  simp only []
  rw [Prog.exec_call, h2]
  rfl

/-- On the document store, under the conditions of `CreateModelMigration_fresh`, when
the id of the new migration is above the ids of the descriptors of the model in the
store, in the order of strings, `GetModelMigration` right after `CreateModelMigration`
returns the migration just created. -/
theorem GetModelMigration_after_create (L : Lib) (P : migration.Table) (st : State)
    (spec : ModelMigrationSpec) (s : Store) (d : Doc) (current : Model) (seq : Int)
    (hc : st.IsController = false) (hv : spec.Validate L = none)
    (hcur : (Store.handle .StControllerModel s).1 = .ok current)
    (htarget : spec.TargetInfo.ControllerTag ≠ current.ModelTag)
    (hattempts : 0 < st.attempts)
    (hmodel : s.find modelsC st.ModelUUID = some d) (hid : d.getStr "_id" = st.ModelUUID)
    (hlife : d.get "life" = some (.int Life.Alive.toInt))
    (hmarker : s.find migrationsActiveC st.ModelUUID = none)
    (hseq : (Store.handle (.Sequence st.ModelUUID "modelmigration") s).1 = .ok seq)
    (hfresh : s.find migrationsC (st.ModelUUID ++ ":" ++ toString seq) = none)
    (hfreshStatus : s.find migrationsStatusC (st.ModelUUID ++ ":" ++ toString seq) = none)
    (hlast : ∀ e ∈ s.docs, e.C = migrationsC →
      D.holds [.field "model-uuid" (.eq (.str st.ModelUUID))] e.doc = true →
      charsLt e.Id.data (st.ModelUUID ++ ":" ++ toString seq).data = true) :
    (st.GetModelMigration.exec Store.handle
      ((st.CreateModelMigration L P spec).exec Store.handle s).store).val =
      (some { doc := (createDocs L P st spec s.clock seq).1,
              statusDoc := (createDocs L P st spec s.clock seq).2 }, none) := by
  obtain ⟨_, _, hf2, _⟩ := CreateModelMigration_fresh L P st spec s d current seq
    hc hv hcur htarget hattempts hmodel hid hlife hmarker hseq hfresh hfreshStatus
  have happ := CreateModelMigration_fresh_store L P st spec s d current seq
    hc hv hcur htarget hattempts hmodel hid hlife hmarker hseq hfresh hfreshStatus
  have htop := topEntry_createOps st { UUID := st.ModelUUID, Life := .Alive }
    (createDocs L P st spec s.clock seq)
    (Store.handle (.Sequence st.ModelUUID "modelmigration") s).2 _
    [.field "model-uuid" (.eq (.str st.ModelUUID))] happ
    (by rw [Store.handle_Sequence_find _ _ _ _ _ (by decide)]; exact hfresh)
    (by rw [Store.handle_Sequence_find _ _ _ _ _ (by decide)]; exact hfreshStatus)
    (by rw [Store.handle_Sequence_find _ _ _ _ _ (by decide)]; exact hmarker)
    (by simp [D.holds, Elem.holds, Cond.holds, createDocs, modelMigDoc.toDoc, Doc.get,
      Value.elems])
    (by
      intro e he hC hq
      rcases mem_putEntry _ _ _ _ _ he with he | he
      · exact hlast e he hC hq
      · rw [he] at hC
        have hne : sequenceC ≠ migrationsC := by decide
        exact absurd hC hne)
  have hget := GetModelMigration_on_store st _ _ (createDocs L P st spec s.clock seq).2.toDoc
    htop (by
      rw [modelMigDoc.read_back]
      exact hf2)
  rw [hget]
  simp only [modelMigDoc.read_back, modelMigStatusDoc.status_read_back]

/-! ## The stamps of a migration -/

theorem clockReadings_append (l₁ l₂ : List Event) :
    clockReadings (l₁ ++ l₂) = clockReadings l₁ ++ clockReadings l₂ := by
  induction l₁ with
  | nil => rfl
  | cons e l₁ ih => cases e <;> simp [clockReadings, ih]

/-- A run of `buildTxn` of `CreateModelMigration` does not read the clock, and the
documents it returns are the ones of `createDocs` for a number of the sequence. -/
theorem createBuildTxn_docs (L : Lib) (P : migration.Table) (st : State)
    (spec : ModelMigrationSpec) (now : Int) (attempt : Nat) :
    (createBuildTxn L P st spec now attempt).Always (fun log r =>
      clockReadings log = [] ∧
      ∀ docs ops, r = .ok (docs, ops) → ∃ seq, docs = createDocs L P st spec now seq) := by
  unfold createBuildTxn
  intro r
  cases r with
  | error err => exact ⟨rfl, fun _ _ hh => by cases hh⟩
  | ok model =>
    by_cases hlife : model.Life = .Alive
    · simp only [hlife, ne_eq, not_true_eq_false, if_false, State.IsModelMigrationActive,
        Prog.bind_call]
      intro c
      obtain ⟨n, e⟩ := c
      cases e with
      | some err => exact ⟨rfl, fun _ _ hh => by cases hh⟩
      | none =>
        simp only [Prog.bind_ret]
        by_cases hact : decide (n > 0) = true
        · simp only [hact, if_true]
          exact ⟨rfl, fun _ _ hh => by cases hh⟩
        · simp only [hact, if_false, Bool.false_eq_true]
          intro sq
          cases sq with
          | error err => exact ⟨rfl, fun _ _ hh => by cases hh⟩
          | ok seq =>
            refine ⟨rfl, fun docs ops hh => ?_⟩
            simp only [Except.ok.injEq, Prod.mk.injEq] at hh
            exact ⟨seq, hh.1.symm⟩
    · simp only [ne_eq, hlife, not_false_eq_true, if_true]
      exact ⟨rfl, fun _ _ hh => by cases hh⟩

/-- A run of `st.run` does not read the clock when its `buildTxn` does not, and what it
returns is what a call of its `buildTxn` returned. -/
theorem stRun_result {α : Type} (buildTxn : Nat → Prog (Except Error (α × List Op)))
    (R : α → Prop)
    (hB : ∀ attempt, (buildTxn attempt).Always (fun log r =>
      clockReadings log = [] ∧ ∀ a ops, r = .ok (a, ops) → R a)) :
    ∀ left attempt,
      (stRun buildTxn left attempt).Always (fun log r =>
        clockReadings log = [] ∧ ∀ a, r = .ok a → R a) := by
  intro left
  induction left with
  | zero =>
    intro attempt
    exact ⟨rfl, fun _ hh => by cases hh⟩
  | succ left ih =>
    intro attempt
    unfold stRun
    refine Prog.always_bind _ _ _ (Prog.always_mono _ _ _ ?_ (hB attempt))
    intro log r hr
    cases r with
    | error err =>
      refine ⟨?_, fun _ hh => by cases hh⟩
      rw [List.append_nil]
      exact hr.1
    | ok x =>
      obtain ⟨a, ops0⟩ := x
      have hR : R a := hr.2 a ops0 rfl
      intro e
      have hclock : ∀ (rest : List Event), clockReadings rest = [] →
          clockReadings (log ++ Event.of (.Run ops0) e :: rest) = [] := by
        intro rest hrest
        rw [clockReadings_append, hr.1]
        simpa [Event.of, clockReadings] using hrest
      cases e with
      | none =>
        refine ⟨hclock [] rfl, fun b hb => ?_⟩
        simp only [Except.ok.injEq] at hb
        exact hb ▸ hR
      | some err =>
        by_cases hab : err = .ErrAborted
        · subst hab
          simp only [if_true]
          refine Prog.always_mono _ _ _ ?_ (ih (attempt + 1))
          intro rest r hrest
          exact ⟨hclock rest hrest.1, hrest.2⟩
        · simp only [hab, if_false]
          exact ⟨hclock [] rfl, fun _ hh => by cases hh⟩

/-- A migration `CreateModelMigration` returns is made of the documents of `createDocs`
for the one reading of the clock of the run and a number of the sequence. -/
theorem CreateModelMigration_made (L : Lib) (P : migration.Table) (st : State)
    (spec : ModelMigrationSpec) :
    (st.CreateModelMigration L P spec).Always (fun log v =>
      ∀ mig, v.1 = some mig → ∃ now seq, clockReadings log = [now] ∧
        mig = { doc := (createDocs L P st spec now seq).1,
                statusDoc := (createDocs L P st spec now seq).2 }) := by
  unfold State.CreateModelMigration
  by_cases hc : st.IsController = true
  · simp only [hc, if_true]
    intro mig hh
    cases hh
  · simp only [hc, if_false, Bool.false_eq_true]
    cases hv : spec.Validate L with
    | some err =>
      intro mig hh
      cases hh
    | none =>
      simp only [checkTargetController, Prog.bind_call]
      intro cm
      cases cm with
      | error err =>
        intro mig hh
        cases hh
      | ok current =>
        by_cases ht : spec.TargetInfo.ControllerTag = current.ModelTag
        · simp only [ht, if_true, Prog.bind_ret]
          intro mig hh
          cases hh
        · simp only [ht, if_false, Prog.bind_ret]
          intro now
          refine Prog.always_bind _ _ _ (Prog.always_mono _ _ _ ?_
            (stRun_result (createBuildTxn L P st spec now)
              (fun docs => ∃ seq, docs = createDocs L P st spec now seq)
              (createBuildTxn_docs L P st spec now) st.attempts 0))
          intro log r hr
          cases r with
          | error err =>
            intro mig hh
            cases hh
          | ok docs =>
            intro mig hh
            obtain ⟨seq, hseq⟩ := hr.2 docs rfl
            simp only [Option.some.injEq] at hh
            refine ⟨now, seq, ?_, ?_⟩
            · simp only [List.append_nil, Event.of, clockReadings, hr.1]
            · rw [← hh, hseq]

/-- What the op set of `SetPhase` sets of a time and what `nextDoc` holds of it: the
reading of the clock when the op set sets it, and what the status document held
otherwise. -/
theorem setPhaseOps_stamps (P : migration.Table) (mig : modelMigration)
    (nextPhase : migration.Phase) (now : Int) (r : Option Error) (f : TimeField) :
    (stampIn f.key [.Now now, .Run (setPhaseOps P mig nextPhase now) r] = some now ∧
      f.stored (setPhaseNext P mig nextPhase now).1 = now) ∨
    (stampIn f.key [.Now now, .Run (setPhaseOps P mig nextPhase now) r] = none ∧
      f.stored (setPhaseNext P mig nextPhase now).1 = f.stored mig.statusDoc) := by
  by_cases hs : nextPhase = P.SUCCESS
  · subst hs
    by_cases ht : P.IsTerminal P.SUCCESS = true <;> cases f <;>
      simp [stampIn, submitted, setPhaseOps, setPhaseNext, ht, Op.sets, Doc.get,
        TimeField.key, TimeField.stored]
  · by_cases ht : P.IsTerminal nextPhase = true <;> cases f <;>
      simp [stampIn, submitted, setPhaseOps, setPhaseNext, hs, ht, Op.sets, Doc.get,
        TimeField.key, TimeField.stored]

/-- The status document of a migration holds, of each time, the reading of the clock it
was last stamped with, and 0 when it was never stamped; the stamps are values of an
int64. -/
theorem Stamped.stored_eq {L : Lib} {P : migration.Table} {mig : modelMigration}
    {stamps : Stamps} (hist : Stamped L P mig stamps) (f : TimeField) :
    f.stored mig.statusDoc = (stamps f).getD 0 ∧ ∀ t, stamps f = some t → isInt64 t := by
  induction hist with
  | created h s st spec mig now hval hclock hnow =>
    have hmade := Prog.always_exec h _ _ (CreateModelMigration_made L P st spec) s
    obtain ⟨now', seq, hc, hmig⟩ := hmade mig (by rw [hval])
    rw [hclock] at hc
    simp only [List.cons.injEq, and_true] at hc
    subst hc
    subst hmig
    cases f <;> simp [TimeField.stored, createDocs, hnow]
  | phase h s mig stamps nextPhase _ hnil hclock ih =>
    have hrun := Prog.always_exec h _ _ (SetPhase_runs P mig nextPhase) s
    generalize ((mig.SetPhase P nextPhase).exec h s).log = log at hrun hclock
    generalize ((mig.SetPhase P nextPhase).exec h s).val = val at hrun hnil
    cases hrun with
    | invalid now err _ => cases hnil
    | illegal now _ _ _ => cases hnil
    | aborted now _ _ _ => cases hnil
    | failed now err _ _ _ _ => cases hnil
    | same now _ _ =>
      have : stampIn f.key [Event.Now now] = none := rfl
      simp only [this]
      exact ih
    | changed now _ _ _ =>
      have hnow : isInt64 now := hclock now (by simp [clockReadings])
      rcases setPhaseOps_stamps P mig nextPhase now none f with ⟨h1, h2⟩ | ⟨h1, h2⟩
      · simp only [h1, h2, Option.getD_some, Option.some.injEq, true_and]
        intro t ht
        exact ht ▸ hnow
      · simp only [h1, h2]
        exact ih
  | message h s mig stamps text _ hnil ih =>
    have hrun := Prog.always_exec h _ _ (SetStatusMessage_runs mig text) s
    generalize ((mig.SetStatusMessage text).exec h s).log = log at hrun
    generalize ((mig.SetStatusMessage text).exec h s).val = val at hrun hnil
    cases hrun with
    | failed err => cases hnil
    | set =>
      refine ⟨?_, ih.2⟩
      rw [← ih.1]
      cases f <;> rfl

/-- For a value of an int64, `unixNanoToTime0` gives the zero time exactly at 0. -/
theorem unixNanoToTime0_isZero (i : Int) (hi : isInt64 i) :
    (unixNanoToTime0 i).IsZero = true ↔ i = 0 := by
  constructor
  · intro hz
    by_contra hne
    have h1 := time.Time.UnixNano_of_IsZero _ hz
    simp only [unixNanoToTime0, hne, if_false] at h1
    rw [(time.Unix_spec 0 i).1] at h1
    unfold isInt64 at hi
    omega
  · intro h0
    rw [h0]
    rfl

/-! ## The removal of a document -/

/-- After a removal without assertion and without insert the document is not there,
whether it was there before or not. -/
theorem Op.apply_remove_gone (s : Store) (C id : String) :
    (Op.apply { C := C, Id := id, Remove := true } s).find C id = none := by
  unfold Op.apply
  cases hcur : s.find C id with
  | none => simpa using hcur
  | some cur =>
    simp only [if_true]
    exact findEntry_removeEntry_same _ _ _

/-! # The claims -/

/-! ## C1: machines holding JobManageEnviron -/

/-- C1 (amended): for every machine whose jobs include JobManageEnviron and every
behaviour of the store, Destroy and EnsureDead (advanceLifecycle to Dying and to Dead)
submit no transaction and leave the receiver, and so its life, unchanged, and on the
document store they leave everything persisted unchanged; when the container read fails
they return the error of that read (the not-found of the driver as the not-found error
"container info for machine"), when it finds containers they return the
HasContainersError, and when the in-memory life is below the target they fail, with the
guard "machine ... is required by the environment" if the container read found no
containers. -/
theorem manager_never_advances {σ : Type} (h : (r : Req) → σ → Req.Resp r × σ) (s : σ)
    (st : Store) (original : Machine) (life : Life) (hlife : life ≠ .Alive)
    (hjob : JobManageEnviron ∈ original.doc.Jobs) :
    submitted ((original.advanceLifecycle life).exec h s).log = [] ∧
    ((original.advanceLifecycle life).exec h s).val.2 = original ∧
    ((original.advanceLifecycle life).exec Store.handle st).store = st ∧
    (∀ err, (h (.FindId containerRefsC original.doc.Id) s).1 = Except.error err →
      ((original.advanceLifecycle life).exec h s).val.1 =
        .returned (some (if err = .ErrNotFound then
          .NotFoundf "container info for machine %v" [original.doc.Id] else err))) ∧
    (∀ mc, (h (.FindId containerRefsC original.doc.Id) s).1 = Except.ok mc →
      (machineContainers.ofDoc mc).Children ≠ [] →
      ((original.advanceLifecycle life).exec h s).val.1 =
        .returned (some (.HasContainersError original.doc.Id
          (machineContainers.ofDoc mc).Children))) ∧
    (original.doc.Life < life →
      ∃ err, ((original.advanceLifecycle life).exec h s).val.1 = .returned (some err)) ∧
    (original.doc.Life < life →
      ∀ mc, (h (.FindId containerRefsC original.doc.Id) s).1 = Except.ok mc →
        (machineContainers.ofDoc mc).Children = [] →
        ((original.advanceLifecycle life).exec h s).val.1 =
          .returned (some (.Errorf "machine %s is required by the environment"
            [original.doc.Id]))) := by
  have key : ∀ {τ : Type} (g : (r : Req) → τ → Req.Resp r × τ) (u : τ),
      submitted ((original.advanceLifecycle life).exec g u).log = [] ∧
      ((original.advanceLifecycle life).exec g u).val.2 = original ∧
      (∀ err, (g (.FindId containerRefsC original.doc.Id) u).1 = Except.error err →
        ((original.advanceLifecycle life).exec g u).val.1 =
          .returned (some (if err = .ErrNotFound then
            .NotFoundf "container info for machine %v" [original.doc.Id] else err))) ∧
      (∀ mc, (g (.FindId containerRefsC original.doc.Id) u).1 = Except.ok mc →
        (machineContainers.ofDoc mc).Children ≠ [] →
        ((original.advanceLifecycle life).exec g u).val.1 =
          .returned (some (.HasContainersError original.doc.Id
            (machineContainers.ofDoc mc).Children))) ∧
      (original.doc.Life < life →
        ∃ err, ((original.advanceLifecycle life).exec g u).val.1 = .returned (some err)) ∧
      (original.doc.Life < life →
        ∀ mc, (g (.FindId containerRefsC original.doc.Id) u).1 = Except.ok mc →
          (machineContainers.ofDoc mc).Children = [] →
          ((original.advanceLifecycle life).exec g u).val.1 =
            .returned (some (.Errorf "machine %s is required by the environment"
              [original.doc.Id]))) := by
    intro τ g u
    have hrun := Prog.always_exec g _ _ (advanceLifecycle_runs original life) u
    have hhead := advanceLifecycle_log_head g u original life
    generalize ((original.advanceLifecycle life).exec g u).log = log at hrun hhead
    generalize ((original.advanceLifecycle life).exec g u).val = val at hrun
    cases hrun with
    | readFailed err =>
      simp only [List.head?_cons, Option.some.injEq, Event.FindId.injEq, true_and] at hhead
      refine ⟨rfl, rfl, ?_, ?_, fun _ => ⟨_, rfl⟩, ?_⟩
      · intro err' herr
        rw [herr] at hhead
        cases hhead
        rfl
      · intro mc hmc _
        rw [hmc] at hhead
        cases hhead
      · intro _ mc hmc _
        rw [hmc] at hhead
        cases hhead
    | hosting mc hc =>
      simp only [List.head?_cons, Option.some.injEq, Event.FindId.injEq, true_and] at hhead
      refine ⟨rfl, rfl, ?_, ?_, fun _ => ⟨_, rfl⟩, ?_⟩
      · intro err herr
        rw [herr] at hhead
        cases hhead
      · intro mc' hmc _
        rw [hmc] at hhead
        cases hhead
        rfl
      · intro _ mc' hmc hc'
        rw [hmc] at hhead
        cases hhead
        exact absurd hc' hc
    | looped mc rest x hc hloop =>
      simp only [List.head?_cons, Option.some.injEq, Event.FindId.injEq, true_and] at hhead
      have hread : ∀ err, (g (.FindId containerRefsC original.doc.Id) u).1
          ≠ Except.error err := by
        intro err herr
        rw [herr] at hhead
        cases hhead
      have hnone : ∀ mc', (g (.FindId containerRefsC original.doc.Id) u).1 = Except.ok mc' →
          (machineContainers.ofDoc mc').Children = [] := by
        intro mc' hmc
        rw [hmc] at hhead
        cases hhead
        exact hc
      rcases LoopRun.first_pass hloop with ⟨y, ha, rfl⟩ | ⟨mid, rest', ha, _, _⟩
      · cases ha with
        | unknownLife h0 => exact absurd h0 hlife
        | alreadyThere _ hle =>
          refine ⟨rfl, advanceDeferred_alreadyThere original life hle,
            fun err herr => absurd herr (hread err),
            fun mc' hmc hne => absurd (hnone mc' hmc) hne, ?_, ?_⟩
          · intro hlt
            exact absurd hle ((Life.not_le_iff _ _).2 hlt)
          · intro hlt
            exact absurd hle ((Life.not_le_iff _ _).2 hlt)
        | required _ _ _ =>
          exact ⟨rfl, rfl, fun err herr => absurd herr (hread err),
            fun mc' hmc hne => absurd (hnone mc' hmc) hne, fun _ => ⟨_, rfl⟩,
            fun _ _ _ _ => rfl⟩
        | hasUnits _ _ hnj _ => exact absurd hjob hnj
        | ran _ _ _ hnj _ _ => exact absurd hjob hnj
      · cases ha with
        | aborted _ _ hnj _ => exact absurd hjob hnj
  obtain ⟨h1, h2, h3, h4, h5, h6⟩ := key h s
  exact ⟨h1, h2, Store.exec_store_eq _ st (key Store.handle st).1
    (Prog.always_exec Store.handle _ _ (advanceLifecycle_runs original life) st).allocated_eq,
    h3, h4, h5, h6⟩

/-- C1 (witness): the theorem at the Alive machine "0" holding JobManageEnviron, with
Destroy run on the document store: nothing is submitted, nothing changes, and the error
is the guard of the jobs. -/
theorem manager_never_advances_witness :
    Life.Dying ≠ Life.Alive ∧ JobManageEnviron ∈ (newMachine aliveManager).doc.Jobs ∧
    submitted (((newMachine aliveManager).advanceLifecycle .Dying).exec Store.handle
        (exampleStore aliveManager [])).log = [] ∧
    (((newMachine aliveManager).advanceLifecycle .Dying).exec Store.handle
        (exampleStore aliveManager [])).val.2 = newMachine aliveManager ∧
    (((newMachine aliveManager).advanceLifecycle .Dying).exec Store.handle
        (exampleStore aliveManager [])).store = exampleStore aliveManager [] ∧
    (((newMachine aliveManager).advanceLifecycle .Dying).exec Store.handle
        (exampleStore aliveManager [])).val.1 =
      .returned (some (.Errorf "machine %s is required by the environment" ["0"])) :=
  have hthm := manager_never_advances Store.handle (exampleStore aliveManager [])
    (exampleStore aliveManager []) (newMachine aliveManager) .Dying (by decide) (by decide)
  ⟨by decide, by decide, hthm.1, hthm.2.1, hthm.2.2.1,
    hthm.2.2.2.2.2.2 (by decide) (machineContainers.mk "0" []).toDoc rfl (by decide)⟩

/-- C1 (counterexample): the Alive machine "0" holds JobManageEnviron and the store
cannot be reached; Destroy and EnsureDead fail with the error of the container read,
which is none of the structural-guard errors. -/
theorem manager_destroy_store_down :
    JobManageEnviron ∈ (newMachine aliveManager).doc.Jobs ∧
    (newMachine aliveManager).doc.Life = .Alive ∧
    ((newMachine aliveManager).Destroy.exec Store.handleDown
        (exampleStore aliveManager [])).val.1 =
      .returned (some (.store "connection lost")) ∧
    ((newMachine aliveManager).EnsureDead.exec Store.handleDown
        (exampleStore aliveManager [])).val.1 =
      .returned (some (.store "connection lost")) ∧
    IsHasContainersError (some (.store "connection lost")) = false ∧
    IsHasAssignedUnitsError (some (.store "connection lost")) = false ∧
    Error.store "connection lost" ≠
      .Errorf "machine %s is required by the environment" ["0"] := by
  decide

/-! ## C2: machines with principals -/

/-- What holds of C2 away from the failing input: for every machine with one or more
principals and every behaviour of the store, Destroy submits no transaction and leaves
the receiver, and so its life, unchanged, and on the document store it leaves everything
persisted unchanged; when the in-memory life is Alive it fails, and when moreover the
jobs do not include JobManageEnviron and the container read finds no containers, the
error is the HasAssignedUnitsError with the machine id and exactly the list of
principals. -/
theorem destroy_with_principals {σ : Type} (h : (r : Req) → σ → Req.Resp r × σ) (s : σ)
    (st : Store) (original : Machine) (hunits : original.doc.Principals ≠ []) :
    submitted (original.Destroy.exec h s).log = [] ∧
    (original.Destroy.exec h s).val.2 = original ∧
    (original.Destroy.exec Store.handle st).store = st ∧
    (original.doc.Life = .Alive →
      ∃ err, (original.Destroy.exec h s).val.1 = .returned (some err)) ∧
    (original.doc.Life = .Alive → JobManageEnviron ∉ original.doc.Jobs →
      ∀ mc, (h (.FindId containerRefsC original.doc.Id) s).1 = Except.ok mc →
        (machineContainers.ofDoc mc).Children = [] →
        (original.Destroy.exec h s).val.1 =
          .returned (some (.HasAssignedUnitsError original.doc.Id
            original.doc.Principals))) := by
  have key : ∀ {τ : Type} (g : (r : Req) → τ → Req.Resp r × τ) (u : τ),
      submitted (original.Destroy.exec g u).log = [] ∧
      (original.Destroy.exec g u).val.2 = original ∧
      (original.doc.Life = .Alive →
        ∃ err, (original.Destroy.exec g u).val.1 = .returned (some err)) ∧
      (original.doc.Life = .Alive → JobManageEnviron ∉ original.doc.Jobs →
        ∀ mc, (g (.FindId containerRefsC original.doc.Id) u).1 = Except.ok mc →
          (machineContainers.ofDoc mc).Children = [] →
          (original.Destroy.exec g u).val.1 =
            .returned (some (.HasAssignedUnitsError original.doc.Id
              original.doc.Principals))) := by
    intro τ g u
    have hrun := Prog.always_exec g _ _ (advanceLifecycle_runs original .Dying) u
    have hhead := advanceLifecycle_log_head g u original .Dying
    unfold Machine.Destroy
    generalize ((original.advanceLifecycle .Dying).exec g u).log = log at hrun hhead
    generalize ((original.advanceLifecycle .Dying).exec g u).val = val at hrun
    cases hrun with
    | readFailed err =>
      refine ⟨rfl, rfl, fun _ => ⟨_, rfl⟩, ?_⟩
      intro _ _ mc hmc _
      simp [hmc] at hhead
    | hosting mc hc =>
      refine ⟨rfl, rfl, fun _ => ⟨_, rfl⟩, ?_⟩
      intro _ _ mc' hmc hc'
      simp only [List.head?_cons, Option.some.injEq, Event.FindId.injEq, true_and] at hhead
      rw [hmc] at hhead
      cases hhead
      exact absurd hc' hc
    | looped mc rest x hc hloop =>
      rcases LoopRun.first_pass hloop with ⟨y, ha, rfl⟩ | ⟨mid, rest', ha, _, _⟩
      · cases ha with
        | unknownLife h0 => exact absurd h0 (by decide)
        | alreadyThere _ hle =>
          refine ⟨rfl, advanceDeferred_alreadyThere original _ hle, ?_, ?_⟩
          · intro hal
            rw [hal] at hle
            exact absurd hle (by decide)
          · intro hal
            rw [hal] at hle
            exact absurd hle (by decide)
        | required _ _ hj =>
          exact ⟨rfl, rfl, fun _ => ⟨_, rfl⟩, fun _ hnj => absurd hj hnj⟩
        | hasUnits _ _ _ _ =>
          exact ⟨rfl, rfl, fun _ => ⟨_, rfl⟩, fun _ _ _ _ _ => rfl⟩
        | ran _ _ _ _ hp _ => exact absurd hp hunits
      · cases ha with
        | aborted _ _ _ hp => exact absurd hp hunits
  obtain ⟨h1, h2, h3, h4⟩ := key h s
  exact ⟨h1, h2, Store.exec_store_eq _ st (key Store.handle st).1
    (Prog.always_exec Store.handle _ _ (advanceLifecycle_runs original .Dying) st).allocated_eq,
    h3, h4⟩

/-- The theorem above at the Alive machine "0" with two units assigned, with Destroy run
on the document store. -/
theorem destroy_with_principals_witness :
    (newMachine hostWithUnits).doc.Principals ≠ [] ∧
    (submitted ((newMachine hostWithUnits).Destroy.exec Store.handle
        (exampleStore hostWithUnits [])).log = [] ∧
    ((newMachine hostWithUnits).Destroy.exec Store.handle
        (exampleStore hostWithUnits [])).val.2 = newMachine hostWithUnits ∧
    ((newMachine hostWithUnits).Destroy.exec Store.handle
        (exampleStore hostWithUnits [])).store = exampleStore hostWithUnits [] ∧
    ((newMachine hostWithUnits).doc.Life = .Alive →
      ∃ err, ((newMachine hostWithUnits).Destroy.exec Store.handle
        (exampleStore hostWithUnits [])).val.1 = .returned (some err)) ∧
    ((newMachine hostWithUnits).doc.Life = .Alive →
      JobManageEnviron ∉ (newMachine hostWithUnits).doc.Jobs →
      ∀ mc, (Store.handle (.FindId containerRefsC (newMachine hostWithUnits).doc.Id)
          (exampleStore hostWithUnits [])).1 = Except.ok mc →
        (machineContainers.ofDoc mc).Children = [] →
        ((newMachine hostWithUnits).Destroy.exec Store.handle
          (exampleStore hostWithUnits [])).val.1 =
          .returned (some (.HasAssignedUnitsError (newMachine hostWithUnits).doc.Id
            (newMachine hostWithUnits).doc.Principals)))) :=
  ⟨by decide,
    destroy_with_principals Store.handle (exampleStore hostWithUnits [])
      (exampleStore hostWithUnits []) (newMachine hostWithUnits) (by decide)⟩

/-- C2 (failing input): the Alive machine "0" has the unit wordpress/0 assigned and
holds JobHostUnits and JobManageEnviron, and the store records no containers for it.
Destroy checks the jobs before the principals and fails with "machine 0 is required by
the environment", which is no HasAssignedUnitsError, where the claim and the comment of
Destroy ("If the machine has assigned units, Destroy will return a
HasAssignedUnitsError") say the HasAssignedUnitsError naming wordpress/0; nothing is
submitted and the receiver is unchanged. -/
theorem manager_with_unit_destroy_error :
    (newMachine managerWithUnit).doc.Principals = ["wordpress/0"] ∧
    (newMachine managerWithUnit).doc.Life = .Alive ∧
    (newMachine managerWithUnit).doc.Jobs = [JobHostUnits, JobManageEnviron] ∧
    ((newMachine managerWithUnit).Destroy.exec Store.handle
        (exampleStore managerWithUnit [])).val.1 =
      .returned (some (.Errorf "machine %s is required by the environment" ["0"])) ∧
    IsHasAssignedUnitsError
      (some (.Errorf "machine %s is required by the environment" ["0"])) = false ∧
    ((newMachine managerWithUnit).Destroy.exec Store.handle
        (exampleStore managerWithUnit [])).val.1 ≠
      .returned (some (.HasAssignedUnitsError "0" ["wordpress/0"])) ∧
    submitted ((newMachine managerWithUnit).Destroy.exec Store.handle
        (exampleStore managerWithUnit [])).log = [] ∧
    ((newMachine managerWithUnit).Destroy.exec Store.handle
        (exampleStore managerWithUnit [])).val.2 = newMachine managerWithUnit := by
  decide

/-! ## C3: machines already Dead -/

/-- C3 (amended): for every machine whose in-memory life is Dead and every behaviour of
the store, advanceLifecycle to Dying and to Dead submits no transaction and leaves the
receiver unchanged, and it returns success whenever the container read finds no
containers. -/
theorem dead_machine_nothing_to_do {σ : Type} (h : (r : Req) → σ → Req.Resp r × σ) (s : σ)
    (original : Machine) (life : Life) (hlife : life ≠ .Alive)
    (hdead : original.doc.Life = .Dead) :
    submitted ((original.advanceLifecycle life).exec h s).log = [] ∧
    ((original.advanceLifecycle life).exec h s).val.2 = original ∧
    (∀ mc, (h (.FindId containerRefsC original.doc.Id) s).1 = Except.ok mc →
      (machineContainers.ofDoc mc).Children = [] →
      ((original.advanceLifecycle life).exec h s).val.1 = .returned none) := by
  have hrun := Prog.always_exec h _ _ (advanceLifecycle_runs original life) s
  have hhead := advanceLifecycle_log_head h s original life
  generalize ((original.advanceLifecycle life).exec h s).log = log at hrun hhead
  generalize ((original.advanceLifecycle life).exec h s).val = val at hrun
  have hnlt : ¬ original.doc.Life < life := by
    rw [hdead]
    cases life <;> decide
  cases hrun with
  | readFailed err =>
    refine ⟨rfl, rfl, ?_⟩
    intro mc hmc _
    simp [hmc] at hhead
  | hosting mc hc =>
    refine ⟨rfl, rfl, ?_⟩
    intro mc' hmc hc'
    simp only [List.head?_cons, Option.some.injEq, Event.FindId.injEq, true_and] at hhead
    rw [hmc] at hhead
    cases hhead
    exact absurd hc' hc
  | looped mc rest x hc hloop =>
    rcases LoopRun.first_pass hloop with ⟨y, ha, rfl⟩ | ⟨mid, rest', ha, _, _⟩
    · cases ha with
      | unknownLife h0 => exact absurd h0 hlife
      | alreadyThere _ hle =>
        exact ⟨rfl, advanceDeferred_alreadyThere original _ hle, fun _ _ _ => rfl⟩
      | required _ hlt _ => exact absurd hlt hnlt
      | hasUnits _ hlt _ _ => exact absurd hlt hnlt
      | ran _ _ hlt _ _ _ => exact absurd hlt hnlt
    · cases ha with
      | aborted _ hlt _ _ => exact absurd hlt hnlt

/-- C3 (witness): the theorem at the machine "0" with life Dead and the target Dead,
run on the document store. -/
theorem dead_machine_nothing_to_do_witness :
    Life.Dead ≠ Life.Alive ∧ (newMachine deadHost).doc.Life = .Dead ∧
    (submitted (((newMachine deadHost).advanceLifecycle .Dead).exec Store.handle
        (exampleStore deadHost [])).log = [] ∧
    (((newMachine deadHost).advanceLifecycle .Dead).exec Store.handle
        (exampleStore deadHost [])).val.2 = newMachine deadHost ∧
    (∀ mc, (Store.handle (.FindId containerRefsC (newMachine deadHost).doc.Id)
        (exampleStore deadHost [])).1 = Except.ok mc →
      (machineContainers.ofDoc mc).Children = [] →
      (((newMachine deadHost).advanceLifecycle .Dead).exec Store.handle
        (exampleStore deadHost [])).val.1 = .returned none)) :=
  ⟨by decide, by decide,
    dead_machine_nothing_to_do Store.handle (exampleStore deadHost []) (newMachine deadHost)
      .Dead (by decide) (by decide)⟩

/-- C3 (counterexample): the life of the machine "0" is Dead and the store records the
container 0/lxc/0 for it; EnsureDead and Destroy fail with the HasContainersError
instead of returning success. -/
theorem dead_machine_with_container_fails :
    (newMachine deadHost).doc.Life = .Dead ∧
    ((newMachine deadHost).EnsureDead.exec Store.handle
        (exampleStore deadHost ["0/lxc/0"])).val.1 =
      .returned (some (.HasContainersError "0" ["0/lxc/0"])) ∧
    ((newMachine deadHost).Destroy.exec Store.handle
        (exampleStore deadHost ["0/lxc/0"])).val.1 =
      .returned (some (.HasContainersError "0" ["0/lxc/0"])) := by
  decide

/-! ## C4: machines hosting containers -/

/-- C4: for every machine, either target and every behaviour of the store, when the
container read of Containers() returns a non-empty set of children, advanceLifecycle
returns the HasContainersError with the machine id and exactly the ids read, makes no
call after that read (so it submits no transaction), and leaves the receiver unchanged. -/
theorem has_containers_fails_at_once {σ : Type} (h : (r : Req) → σ → Req.Resp r × σ) (s : σ)
    (original : Machine) (life : Life) (mc : Doc)
    (hread : (h (.FindId containerRefsC original.doc.Id) s).1 = Except.ok mc)
    (hchildren : (machineContainers.ofDoc mc).Children ≠ []) :
    ((original.advanceLifecycle life).exec h s).val =
      (.returned (some (.HasContainersError original.doc.Id
        (machineContainers.ofDoc mc).Children)), original) ∧
    ((original.advanceLifecycle life).exec h s).log =
      [.FindId containerRefsC original.doc.Id (.ok mc)] ∧
    submitted ((original.advanceLifecycle life).exec h s).log = [] := by
  have hrun := Prog.always_exec h _ _ (advanceLifecycle_runs original life) s
  have hhead := advanceLifecycle_log_head h s original life
  generalize ((original.advanceLifecycle life).exec h s).log = log at hrun hhead
  generalize ((original.advanceLifecycle life).exec h s).val = val at hrun
  rw [hread] at hhead
  cases hrun with
  | readFailed err => simp at hhead
  | hosting mc' hc =>
    simp only [List.head?_cons, Option.some.injEq, Event.FindId.injEq, true_and] at hhead
    cases hhead
    exact ⟨rfl, rfl, rfl⟩
  | looped mc' rest x hc hloop =>
    simp only [List.head?_cons, Option.some.injEq, Event.FindId.injEq, true_and] at hhead
    cases hhead
    exact absurd hc hchildren

/-- C4 (witness): the theorem at the machine "0" and the target Dead, on the document
store recording the container 0/lxc/0 for the machine. -/
theorem has_containers_fails_at_once_witness :
    (Store.handle (.FindId containerRefsC (newMachine exampleDoc).doc.Id)
        (exampleStore exampleDoc ["0/lxc/0"])).1 =
      Except.ok (machineContainers.mk "0" ["0/lxc/0"]).toDoc ∧
    (machineContainers.ofDoc (machineContainers.mk "0" ["0/lxc/0"]).toDoc).Children ≠ [] ∧
    ((((newMachine exampleDoc).advanceLifecycle .Dead).exec Store.handle
        (exampleStore exampleDoc ["0/lxc/0"])).val =
      (.returned (some (.HasContainersError (newMachine exampleDoc).doc.Id
        (machineContainers.ofDoc (machineContainers.mk "0" ["0/lxc/0"]).toDoc).Children)),
        newMachine exampleDoc) ∧
    (((newMachine exampleDoc).advanceLifecycle .Dead).exec Store.handle
        (exampleStore exampleDoc ["0/lxc/0"])).log =
      [.FindId containerRefsC (newMachine exampleDoc).doc.Id
        (.ok (machineContainers.mk "0" ["0/lxc/0"]).toDoc)] ∧
    submitted (((newMachine exampleDoc).advanceLifecycle .Dead).exec Store.handle
        (exampleStore exampleDoc ["0/lxc/0"])).log = []) :=
  ⟨rfl, by decide,
    has_containers_fails_at_once Store.handle (exampleStore exampleDoc ["0/lxc/0"])
      (newMachine exampleDoc) .Dead (machineContainers.mk "0" ["0/lxc/0"]).toDoc rfl
      (by decide)⟩

/-! ## C5: what the assertions of the op guard at commit -/

/-- C5 (amended): over a store that applies an op only when its assertion holds on the
current document, no op set submitted by advanceLifecycle, whatever the behaviour of
the store it ran against, is applied while the persisted machine holds
JobManageEnviron or has one or more principals: the store rejects it. -/
theorem commit_needs_no_manager_no_units {σ : Type} (h : (r : Req) → σ → Req.Resp r × σ)
    (s : σ) (original : Machine) (life : Life) (ops : List Op) (st : Store) (d : Doc)
    (persisted : machineDoc)
    (hops : ops ∈ submitted ((original.advanceLifecycle life).exec h s).log)
    (hfind : st.find machinesC original.doc.Id = some d)
    (hdoc : machineDoc.ofDoc d = some persisted)
    (hguard : JobManageEnviron ∈ persisted.Jobs ∨ persisted.Principals ≠ []) :
    st.applyAtomic ops = none := by
  have hrun := Prog.always_exec h _ _ (advanceLifecycle_runs original life) s
  obtain ⟨rfl, _⟩ := hrun.submitted_ops ops hops
  obtain ⟨hjobs, hprin, _⟩ := machineDoc.ofDoc_fields hdoc
  rw [hjobs, hprin] at hguard
  unfold Store.applyAtomic
  have hcheck : (assertedOp (advanceOp original life) life).check st = false := by
    cases hc : (assertedOp (advanceOp original life) life).check st with
    | false => rfl
    | true =>
      have hq : D.holds (advanceAsserts ++ lifeAssert life) d = true := by
        simpa [Op.check, assertedOp, advanceOp, hfind, Assert.holds] using hc
      rw [D.holds_append, Bool.and_eq_true] at hq
      obtain ⟨hnj, hnp⟩ := advanceAsserts_holds hq.1
      rcases hguard with hg | hg
      · exact absurd hg hnj
      · exact absurd hnp hg
  simp [hcheck]

/-- C5 (witness): the op set Destroy submits for the machine "0", against a store in
which the machine has two units assigned: the store rejects it. -/
theorem commit_needs_no_manager_no_units_witness :
    [assertedOp (advanceOp (newMachine exampleDoc) .Dying) .Dying] ∈
      submitted (((newMachine exampleDoc).advanceLifecycle .Dying).exec Store.handle
        (exampleStore exampleDoc [])).log ∧
    (exampleStore hostWithUnits []).find machinesC (newMachine exampleDoc).doc.Id =
      some hostWithUnits.toDoc ∧
    machineDoc.ofDoc hostWithUnits.toDoc = some hostWithUnits ∧
    (JobManageEnviron ∈ hostWithUnits.Jobs ∨ hostWithUnits.Principals ≠ []) ∧
    (exampleStore hostWithUnits []).applyAtomic
      [assertedOp (advanceOp (newMachine exampleDoc) .Dying) .Dying] = none :=
  ⟨by decide, by decide, by decide, by decide,
    commit_needs_no_manager_no_units Store.handle (exampleStore exampleDoc [])
      (newMachine exampleDoc) .Dying
      [assertedOp (advanceOp (newMachine exampleDoc) .Dying) .Dying]
      (exampleStore hostWithUnits []) hostWithUnits.toDoc hostWithUnits
      (by decide) (by decide) (by decide) (by decide)⟩

/-- C5 (counterexample): Destroy of the Alive machine "0", without the manager job and
without units, against a store where a second writer records the child container
0/lxc/0 right after the read of the containers: the op set is submitted and applied
while the container is recorded, and the machine is Dying with a recorded child. -/
theorem destroy_commits_despite_container :
    ((newMachine exampleDoc).Destroy.exec Store.handleRacing
        (exampleStore exampleDoc [])).val.1 = .returned none ∧
    submitted ((newMachine exampleDoc).Destroy.exec Store.handleRacing
        (exampleStore exampleDoc [])).log =
      [[assertedOp (advanceOp (newMachine exampleDoc) .Dying) .Dying]] ∧
    (Store.handleRacing (.FindId containerRefsC "0") (exampleStore exampleDoc [])).2 =
      exampleStore exampleDoc ["0/lxc/0"] ∧
    (((exampleStore exampleDoc ["0/lxc/0"]).find containerRefsC "0").map
        fun d => (machineContainers.ofDoc d).Children) = some ["0/lxc/0"] ∧
    (exampleStore exampleDoc ["0/lxc/0"]).applyAtomic
        [assertedOp (advanceOp (newMachine exampleDoc) .Dying) .Dying] =
      some (exampleStore { exampleDoc with Life := .Dying } ["0/lxc/0"]) ∧
    ((newMachine exampleDoc).Destroy.exec Store.handleRacing
        (exampleStore exampleDoc [])).store =
      exampleStore { exampleDoc with Life := .Dying } ["0/lxc/0"] := by
  decide

/-! ## C6: the persisted life only grows -/

/-- C6: every op set that advanceLifecycle submits, whatever the behaviour of the store
it ran against, is the single update of the machine document that sets life to the
target, under an assertion that makes the persisted life Alive for the target Dying and
not Dead for the target Dead; so whenever the store applies it the persisted life
becomes the target, which is strictly greater than the persisted life before. -/
theorem persisted_life_only_grows {σ : Type} (h : (r : Req) → σ → Req.Resp r × σ)
    (s : σ) (original : Machine) (life : Life) (ops : List Op) (st st' : Store) (d : Doc)
    (old : Life)
    (hops : ops ∈ submitted ((original.advanceLifecycle life).exec h s).log)
    (happlied : st.applyAtomic ops = some st')
    (hfind : st.find machinesC original.doc.Id = some d)
    (hold : d.life = some old) :
    ops = [{ C := machinesC, Id := original.doc.Id,
             Assert := .query (advanceAsserts ++ lifeAssert life),
             Update := some (.set [("life", .int life.toInt)]) }] ∧
    (life = .Dying → old = .Alive) ∧ (life = .Dead → old ≠ .Dead) ∧
    (∃ d', st'.find machinesC original.doc.Id = some d' ∧ d'.life = some life) ∧
    old < life := by
  have hrun := Prog.always_exec h _ _ (advanceLifecycle_runs original life) s
  obtain ⟨rfl, hl⟩ := hrun.submitted_ops ops hops
  obtain ⟨d0, hd0, hq, hnew⟩ := @Store.applyAtomic_update st st' machinesC original.doc.Id
    (advanceAsserts ++ lifeAssert life) [("life", .int life.toInt)] happlied
  rw [hfind, Option.some.injEq] at hd0
  subst hd0
  rw [D.holds_append, Bool.and_eq_true] at hq
  obtain ⟨h1, h2, h3⟩ := lifeAssert_holds hl hq.2 hold
  refine ⟨rfl, h1, h2, ⟨_, hnew, ?_⟩, h3⟩
  exact Doc.life_set d life

/-- C6 (witness): the op set Destroy submits for the Alive machine "0", applied by the
document store: the persisted life goes from Alive to Dying. -/
theorem persisted_life_only_grows_witness :
    [assertedOp (advanceOp (newMachine exampleDoc) .Dying) .Dying] ∈
      submitted (((newMachine exampleDoc).advanceLifecycle .Dying).exec Store.handle
        (exampleStore exampleDoc [])).log ∧
    (exampleStore exampleDoc []).applyAtomic
        [assertedOp (advanceOp (newMachine exampleDoc) .Dying) .Dying] =
      some (exampleStore { exampleDoc with Life := .Dying } []) ∧
    (exampleStore exampleDoc []).find machinesC (newMachine exampleDoc).doc.Id =
      some exampleDoc.toDoc ∧
    exampleDoc.toDoc.life = some .Alive ∧
    ([assertedOp (advanceOp (newMachine exampleDoc) .Dying) .Dying] =
      [{ C := machinesC, Id := (newMachine exampleDoc).doc.Id,
         Assert := .query (advanceAsserts ++ lifeAssert .Dying),
         Update := some (.set [("life", .int Life.Dying.toInt)]) }] ∧
    (Life.Dying = .Dying → Life.Alive = .Alive) ∧ (Life.Dying = .Dead → Life.Alive ≠ .Dead) ∧
    (∃ d', (exampleStore { exampleDoc with Life := .Dying } []).find machinesC
        (newMachine exampleDoc).doc.Id = some d' ∧ d'.life = some .Dying) ∧
    Life.Alive < Life.Dying) :=
  ⟨by decide, by decide, by decide, by decide,
    persisted_life_only_grows Store.handle (exampleStore exampleDoc [])
      (newMachine exampleDoc) .Dying
      [assertedOp (advanceOp (newMachine exampleDoc) .Dying) .Dying]
      (exampleStore exampleDoc []) (exampleStore { exampleDoc with Life := .Dying } [])
      exampleDoc.toDoc .Alive (by decide) (by decide) (by decide) (by decide)⟩

/-! ## C7: bounded retries -/

/-- C7: for every behaviour of the store, a call of advanceLifecycle ends after at most
3 submissions of an op set and at most 2 refetches; when 3 op sets were submitted and
all were rejected with txn.ErrAborted, it returns the error made from
ErrExcessiveContention, not success, and leaves the receiver unchanged. -/
theorem advance_is_bounded {σ : Type} (h : (r : Req) → σ → Req.Resp r × σ) (s : σ)
    (original : Machine) (life : Life) :
    (submitted ((original.advanceLifecycle life).exec h s).log).length ≤ 3 ∧
    (refetches ((original.advanceLifecycle life).exec h s).log).length ≤ 2 ∧
    (runResults ((original.advanceLifecycle life).exec h s).log =
        [some .ErrAborted, some .ErrAborted, some .ErrAborted] →
      (∃ id, ((original.advanceLifecycle life).exec h s).val.1 =
        .returned (some (.Errorf "machine %s cannot advance lifecycle: %v"
          [id, ErrExcessiveContentionText]))) ∧
      ((original.advanceLifecycle life).exec h s).val.1 ≠ .returned none ∧
      ((original.advanceLifecycle life).exec h s).val.2 = original) := by
  have hrun := Prog.always_exec h _ _ (advanceLifecycle_runs original life) s
  generalize ((original.advanceLifecycle life).exec h s).log = log at hrun
  generalize ((original.advanceLifecycle life).exec h s).val = val at hrun
  cases hrun with
  | readFailed err => simp [submitted, refetches, runResults]
  | hosting mc _ => simp [submitted, refetches, runResults]
  | looped mc rest x _ hloop =>
    obtain ⟨hb1, hb2⟩ := hloop.bounds
    simp only [if_true] at hb2
    refine ⟨by simpa [submitted] using hb1, by simp only [refetches]; omega, ?_⟩
    intro hab
    obtain ⟨last, rfl⟩ := hloop.exhausted_of_aborts (by simpa [runResults] using hab)
    exact ⟨⟨last.string, rfl⟩, by simp [Exit.outcome], rfl⟩

/-- C7 (witness): Destroy of the Alive machine "0" against a store that rejects every
op set: three submissions, all rejected, and the theorem at this run. -/
theorem advance_is_bounded_witness :
    runResults ((newMachine exampleDoc).Destroy.exec Store.handleContended
        (exampleStore exampleDoc [])).log =
      [some .ErrAborted, some .ErrAborted, some .ErrAborted] ∧
    ((submitted (((newMachine exampleDoc).advanceLifecycle .Dying).exec Store.handleContended
        (exampleStore exampleDoc [])).log).length ≤ 3 ∧
    (refetches (((newMachine exampleDoc).advanceLifecycle .Dying).exec Store.handleContended
        (exampleStore exampleDoc [])).log).length ≤ 2 ∧
    (runResults (((newMachine exampleDoc).advanceLifecycle .Dying).exec Store.handleContended
        (exampleStore exampleDoc [])).log =
        [some .ErrAborted, some .ErrAborted, some .ErrAborted] →
      (∃ id, (((newMachine exampleDoc).advanceLifecycle .Dying).exec Store.handleContended
          (exampleStore exampleDoc [])).val.1 =
        .returned (some (.Errorf "machine %s cannot advance lifecycle: %v"
          [id, ErrExcessiveContentionText]))) ∧
      (((newMachine exampleDoc).advanceLifecycle .Dying).exec Store.handleContended
          (exampleStore exampleDoc [])).val.1 ≠ .returned none ∧
      (((newMachine exampleDoc).advanceLifecycle .Dying).exec Store.handleContended
          (exampleStore exampleDoc [])).val.2 = newMachine exampleDoc)) :=
  ⟨by decide,
    advance_is_bounded Store.handleContended (exampleStore exampleDoc [])
      (newMachine exampleDoc) .Dying⟩

/-! ## C8: a machine that vanished -/

/-- C8: for every behaviour of the store, when a refetch of the machine on a pass after
the first reports that it no longer exists, advanceLifecycle returns success, that
refetch is its last call (no further op set is submitted), and the receiver is the
original with Dead as its life. -/
theorem vanished_machine_counts_as_dead {σ : Type} (h : (r : Req) → σ → Req.Resp r × σ)
    (s : σ) (original : Machine) (life : Life) (err : Error)
    (hgone : Except.error err ∈ refetches ((original.advanceLifecycle life).exec h s).log)
    (hnotfound : IsNotFoundError (some err) = true) :
    ((original.advanceLifecycle life).exec h s).val.1 = .returned none ∧
    ((original.advanceLifecycle life).exec h s).val.2 =
      { original with doc := { original.doc with Life := .Dead } } ∧
    ∃ front id, ((original.advanceLifecycle life).exec h s).log =
      front ++ [Event.StMachine id (.error err)] := by
  have hrun := Prog.always_exec h _ _ (advanceLifecycle_runs original life) s
  generalize ((original.advanceLifecycle life).exec h s).log = log at hrun hgone
  generalize ((original.advanceLifecycle life).exec h s).val = val at hrun
  cases hrun with
  | readFailed e => simp [refetches] at hgone
  | hosting mc _ => simp [refetches] at hgone
  | looped mc rest x _ hloop =>
    obtain ⟨rfl, front, id, rfl⟩ := hloop.gone_is_last (by simpa [refetches] using hgone) hnotfound
    exact ⟨rfl, rfl, _ :: front, id, rfl⟩

/-- C8 (witness): Destroy of a stale Alive copy of the machine "0" on the document store
from which the machine is gone: the op set is rejected, and the refetch reports the
machine not found. -/
theorem vanished_machine_counts_as_dead_witness :
    Except.error (Error.NotFoundf "machine %s" ["0"]) ∈
      refetches (((newMachine exampleDoc).advanceLifecycle .Dying).exec Store.handle
        goneStore).log ∧
    IsNotFoundError (some (Error.NotFoundf "machine %s" ["0"])) = true ∧
    ((((newMachine exampleDoc).advanceLifecycle .Dying).exec Store.handle goneStore).val.1 =
      .returned none ∧
    (((newMachine exampleDoc).advanceLifecycle .Dying).exec Store.handle goneStore).val.2 =
      { newMachine exampleDoc with
        doc := { (newMachine exampleDoc).doc with Life := .Dead } } ∧
    ∃ front id, (((newMachine exampleDoc).advanceLifecycle .Dying).exec Store.handle
        goneStore).log =
      front ++ [Event.StMachine id (.error (Error.NotFoundf "machine %s" ["0"]))]) :=
  ⟨List.mem_singleton.2 rfl, rfl,
    vanished_machine_counts_as_dead Store.handle goneStore (newMachine exampleDoc) .Dying
      (Error.NotFoundf "machine %s" ["0"]) (List.mem_singleton.2 rfl) rfl⟩

/-! ## C9: errors of the store -/

/-- C9 (amended): whatever the behaviour of the store.  The calls of advanceLifecycle on
the store are the container read, submissions and refetches.  When the container read
fails, its error is returned, unchanged unless it is the not-found of the driver, which
is returned as the not-found error "container info for machine"; when a submission
fails with an error other than the rejection txn.ErrAborted, or a refetch with an error
other than a not-found, that same error is returned unchanged; a refetch that reports
the machine not found ends the call with success.  In each case the failed call is the
last, so that no further op set is submitted, and on an error the receiver is unchanged.
The calls of SetPhase are the reading of the clock and one submission; when the
submission fails with an error other than the rejection, SetPhase returns it annotated
with "failed to update phase", the failed submission is the last call and the receiver
is unchanged. -/
theorem store_errors_are_not_retried {σ τ : Type} (h : (r : Req) → σ → Req.Resp r × σ)
    (s : σ) (original : Machine) (life : Life)
    (g : (r : Req) → τ → Req.Resp r × τ) (u : τ) (P : migration.Table)
    (mig : modelMigration) (nextPhase : migration.Phase) :
    (∀ e ∈ ((original.advanceLifecycle life).exec h s).log,
      (∃ r, e = Event.FindId containerRefsC original.doc.Id r) ∨
      (∃ ops r, e = Event.Run ops r) ∨ (∃ id r, e = Event.StMachine id r)) ∧
    (∀ err, (h (.FindId containerRefsC original.doc.Id) s).1 = Except.error err →
      ((original.advanceLifecycle life).exec h s).val =
        (.returned (some (if err = .ErrNotFound then
          .NotFoundf "container info for machine %v" [original.doc.Id] else err)), original) ∧
      ((original.advanceLifecycle life).exec h s).log =
        [Event.FindId containerRefsC original.doc.Id (.error err)]) ∧
    (∀ err, err ≠ .ErrAborted →
      some err ∈ runResults ((original.advanceLifecycle life).exec h s).log →
      ((original.advanceLifecycle life).exec h s).val = (.returned (some err), original) ∧
      ∃ front ops, ((original.advanceLifecycle life).exec h s).log =
        front ++ [Event.Run ops (some err)]) ∧
    (∀ err, IsNotFoundError (some err) = false →
      Except.error err ∈ refetches ((original.advanceLifecycle life).exec h s).log →
      ((original.advanceLifecycle life).exec h s).val = (.returned (some err), original) ∧
      ∃ front id, ((original.advanceLifecycle life).exec h s).log =
        front ++ [Event.StMachine id (.error err)]) ∧
    (∀ err, IsNotFoundError (some err) = true →
      Except.error err ∈ refetches ((original.advanceLifecycle life).exec h s).log →
      ((original.advanceLifecycle life).exec h s).val.1 = .returned none ∧
      ∃ front id, ((original.advanceLifecycle life).exec h s).log =
        front ++ [Event.StMachine id (.error err)]) ∧
    (∀ e ∈ ((mig.SetPhase P nextPhase).exec g u).log,
      (∃ t, e = Event.Now t) ∨ (∃ ops r, e = Event.Run ops r)) ∧
    (∀ err, err ≠ .ErrAborted →
      some err ∈ runResults ((mig.SetPhase P nextPhase).exec g u).log →
      ((mig.SetPhase P nextPhase).exec g u).val =
        (some (.Annotate err "failed to update phase"), mig) ∧
      ∃ front ops, ((mig.SetPhase P nextPhase).exec g u).log =
        front ++ [Event.Run ops (some err)]) := by
  have hrun := Prog.always_exec h _ _ (advanceLifecycle_runs original life) s
  have hhead := advanceLifecycle_log_head h s original life
  have hrunP := Prog.always_exec g _ _ (SetPhase_runs P mig nextPhase) u
  generalize ((original.advanceLifecycle life).exec h s).log = log at hrun hhead
  generalize ((original.advanceLifecycle life).exec h s).val = val at hrun
  generalize ((mig.SetPhase P nextPhase).exec g u).log = logP at hrunP
  generalize ((mig.SetPhase P nextPhase).exec g u).val = valP at hrunP
  refine ⟨?_, ?_, ?_, ?_, ?_, ?_, ?_⟩
  · intro e he
    cases hrun with
    | readFailed err =>
      simp only [List.mem_singleton] at he
      exact Or.inl ⟨_, he⟩
    | hosting mc _ =>
      simp only [List.mem_singleton] at he
      exact Or.inl ⟨_, he⟩
    | looped mc rest x _ hloop =>
      rcases List.mem_cons.1 he with he | he
      · exact Or.inl ⟨_, he⟩
      · exact Or.inr (hloop.calls e he)
  · intro err herr
    rw [herr] at hhead
    cases hrun with
    | readFailed e =>
      simp only [List.head?_cons, Option.some.injEq, Event.FindId.injEq, true_and] at hhead
      cases hhead
      exact ⟨rfl, rfl⟩
    | hosting mc _ =>
      simp only [List.head?_cons, Option.some.injEq, Event.FindId.injEq, true_and] at hhead
      cases hhead
    | looped mc rest x _ hloop =>
      simp only [List.head?_cons, Option.some.injEq, Event.FindId.injEq, true_and] at hhead
      cases hhead
  · intro err hne hmem
    cases hrun with
    | readFailed e => simp [runResults] at hmem
    | hosting mc _ => simp [runResults] at hmem
    | looped mc rest x _ hloop =>
      obtain ⟨⟨cur, rfl⟩, front, ops, rfl⟩ :=
        hloop.store_error (by simpa [runResults] using hmem) hne
      exact ⟨rfl, _ :: front, ops, rfl⟩
  · intro err hnf hmem
    cases hrun with
    | readFailed e => simp [refetches] at hmem
    | hosting mc _ => simp [refetches] at hmem
    | looped mc rest x _ hloop =>
      obtain ⟨rfl, front, id, rfl⟩ :=
        hloop.refetch_error (by simpa [refetches] using hmem) hnf
      exact ⟨rfl, _ :: front, id, rfl⟩
  · intro err hnf hmem
    cases hrun with
    | readFailed e => simp [refetches] at hmem
    | hosting mc _ => simp [refetches] at hmem
    | looped mc rest x _ hloop =>
      obtain ⟨rfl, front, id, rfl⟩ :=
        hloop.gone_is_last (by simpa [refetches] using hmem) hnf
      exact ⟨rfl, _ :: front, id, rfl⟩
  · intro e he
    cases hrunP <;> simp only [List.mem_cons, List.mem_singleton, List.not_mem_nil,
      or_false] at he <;> first
      | exact Or.inl ⟨_, he⟩
      | (rcases he with he | he
         · exact Or.inl ⟨_, he⟩
         · exact Or.inr ⟨_, _, he⟩)
  · intro err hne hmem
    cases hrunP with
    | invalid now e _ => simp [runResults] at hmem
    | same now _ _ => simp [runResults] at hmem
    | illegal now _ _ _ => simp [runResults] at hmem
    | changed now _ _ _ => simp [runResults] at hmem
    | aborted now _ _ _ =>
      simp only [runResults, List.mem_singleton, Option.some.injEq] at hmem
      exact absurd hmem hne
    | failed now e _ _ _ _ =>
      simp only [runResults, List.mem_singleton, Option.some.injEq] at hmem
      subst hmem
      exact ⟨rfl, [.Now now], _, rfl⟩

/-- C9 (witness): the cases of the theorem at the Alive machine "0" and at the example
migration: Destroy against a store that cannot be reached (the container read fails),
against a store whose connection is lost (the submission fails) and against a store that
rejects the op set and then fails the refetch, and SetPhase from QUIESCE to SUCCESS
against a store whose connection is lost; each returns the error as the theorem says. -/
theorem store_errors_are_not_retried_witness :
    (((newMachine exampleDoc).advanceLifecycle .Dying).exec Store.handleDown
        (exampleStore exampleDoc [])).val =
      (.returned (some (Error.store "connection lost")), newMachine exampleDoc) ∧
    (((newMachine exampleDoc).advanceLifecycle .Dying).exec Store.handleOffline
        (exampleStore exampleDoc [])).val =
      (.returned (some (Error.store "connection lost")), newMachine exampleDoc) ∧
    (((newMachine exampleDoc).advanceLifecycle .Dying).exec Store.handleDropping
        (exampleStore exampleDoc [])).val =
      (.returned (some (Error.store "connection lost")), newMachine exampleDoc) ∧
    ((exampleMigration.SetPhase exampleTable 2).exec Store.handleOffline
        (exampleStore exampleDoc [])).val =
      (some (.Annotate (Error.store "connection lost") "failed to update phase"),
        exampleMigration) :=
  ⟨((store_errors_are_not_retried Store.handleDown (exampleStore exampleDoc [])
      (newMachine exampleDoc) .Dying Store.handleOffline (exampleStore exampleDoc [])
      exampleTable exampleMigration 2).2.1 (Error.store "connection lost") rfl).1,
    ((store_errors_are_not_retried Store.handleOffline (exampleStore exampleDoc [])
      (newMachine exampleDoc) .Dying Store.handleOffline (exampleStore exampleDoc [])
      exampleTable exampleMigration 2).2.2.1 (Error.store "connection lost") (by decide)
      (by decide)).1,
    ((store_errors_are_not_retried Store.handleDropping (exampleStore exampleDoc [])
      (newMachine exampleDoc) .Dying Store.handleOffline (exampleStore exampleDoc [])
      exampleTable exampleMigration 2).2.2.2.1 (Error.store "connection lost") rfl
      (List.mem_singleton.2 rfl)).1,
    ((store_errors_are_not_retried Store.handleOffline (exampleStore exampleDoc [])
      (newMachine exampleDoc) .Dying Store.handleOffline (exampleStore exampleDoc [])
      exampleTable exampleMigration 2).2.2.2.2.2.2 (Error.store "connection lost")
      (by decide) (by decide)).1⟩

/-- C9 (counterexample): three runs in which the store answers an error that is not the
rejection and the caller gets another result.  SetPhase from QUIESCE to SUCCESS against
a store whose connection is lost returns the annotated error; Destroy of a stale copy of
the machine "0" on a store that holds nothing gets the not-found of the driver from the
container read and returns the not-found error "container info for machine"; Destroy on
a store in which the machine vanishes after the container read has its op set rejected,
gets a not-found from the refetch and returns success. -/
theorem setPhase_annotates_store_error :
    (runResults ((exampleMigration.SetPhase exampleTable 2).exec Store.handleOffline
        (exampleStore exampleDoc [])).log = [some (Error.store "connection lost")] ∧
     ((exampleMigration.SetPhase exampleTable 2).exec Store.handleOffline
        (exampleStore exampleDoc [])).val.1 =
      some (.Annotate (Error.store "connection lost") "failed to update phase") ∧
     ((exampleMigration.SetPhase exampleTable 2).exec Store.handleOffline
        (exampleStore exampleDoc [])).val.1 ≠ some (Error.store "connection lost")) ∧
    (answeredErrors ((newMachine exampleDoc).Destroy.exec Store.handle emptyStore).log
        = [Error.ErrNotFound] ∧
     ((newMachine exampleDoc).Destroy.exec Store.handle emptyStore).val.1 =
      .returned (some (.NotFoundf "container info for machine %v" ["0"]))) ∧
    (answeredErrors ((newMachine exampleDoc).Destroy.exec Store.handleVanishing
        (2, exampleStore exampleDoc [])).log
        = [Error.ErrAborted, Error.NotFoundf "machine %s" ["0"]] ∧
     ((newMachine exampleDoc).Destroy.exec Store.handleVanishing
        (2, exampleStore exampleDoc [])).val.1 = .returned none) := by
  decide

/-! ## C10: SetProvisioned -/

/-- C10: SetProvisioned keeps the instance id and the nonce both unset or both set, and
immutable once set.  Whatever the behaviour of the store: an empty id or nonce is
refused before any call; at most one op set is submitted, the single update of both
fields under the assertion that the machine is Alive and both fields are empty; on
success the receiver holds the given id and nonce, both non-empty, and on failure it
is unchanged, so that a receiver with both unset or both set stays so.  On the document
store: a call on a machine whose persisted instance id
or nonce is set fails and leaves everything persisted unchanged, and a persisted
document with both fields unset or both set is still so after the call. -/
theorem provisioned_once {σ : Type} (h : (r : Req) → σ → Req.Resp r × σ) (s : σ)
    (st : Store) (m : Machine) (id : InstanceId) (nonce : String) :
    ((id = "" ∨ nonce = "") →
      ((m.SetProvisioned id nonce).exec h s).log = [] ∧
      ((m.SetProvisioned id nonce).exec h s).val.1 ≠ none) ∧
    (submitted ((m.SetProvisioned id nonce).exec h s).log).length ≤ 1 ∧
    (∀ ops ∈ submitted ((m.SetProvisioned id nonce).exec h s).log,
      ops = [{ C := machinesC, Id := m.doc.Id,
               Assert := .query (isAliveDoc ++ [.field "instanceid" (.eq (.str "")),
                 .field "nonce" (.eq (.str ""))]),
               Update := some (.set [("instanceid", .str id), ("nonce", .str nonce)]) }]) ∧
    (((m.SetProvisioned id nonce).exec h s).val.1 = none →
      id ≠ "" ∧ nonce ≠ "" ∧
      ((m.SetProvisioned id nonce).exec h s).val.2 =
        { m with doc := { m.doc with InstanceId := id, Nonce := nonce } }) ∧
    (((m.SetProvisioned id nonce).exec h s).val.1 ≠ none →
      ((m.SetProvisioned id nonce).exec h s).val.2 = m) ∧
    ((m.doc.InstanceId = "" ↔ m.doc.Nonce = "") →
      (((m.SetProvisioned id nonce).exec h s).val.2.doc.InstanceId = "" ↔
        ((m.SetProvisioned id nonce).exec h s).val.2.doc.Nonce = "")) ∧
    (∀ d, st.find machinesC m.doc.Id = some d →
      (d.getStr "instanceid" ≠ "" ∨ d.getStr "nonce" ≠ "") →
      ((m.SetProvisioned id nonce).exec Store.handle st).val.1 ≠ none ∧
      ((m.SetProvisioned id nonce).exec Store.handle st).store = st) ∧
    (∀ d d', st.find machinesC m.doc.Id = some d →
      (d.getStr "instanceid" = "" ↔ d.getStr "nonce" = "") →
      ((m.SetProvisioned id nonce).exec Store.handle st).store.find machinesC m.doc.Id
        = some d' →
      (d'.getStr "instanceid" = "" ↔ d'.getStr "nonce" = "")) := by
  have hrun := Prog.always_exec h _ _ (SetProvisioned_runs m id nonce) s
  have hst := Prog.always_exec Store.handle _ _ (SetProvisioned_runs m id nonce) st
  have honest := SetProvisioned_on_store st m id nonce
  generalize ((m.SetProvisioned id nonce).exec h s).log = log at hrun
  generalize ((m.SetProvisioned id nonce).exec h s).val = val at hrun
  have hrejected : ∀ d, st.find machinesC m.doc.Id = some d →
      (d.getStr "instanceid" ≠ "" ∨ d.getStr "nonce" ≠ "") →
      st.applyAtomic (setProvisionedOps m id nonce) = none := by
    intro d hfind hset
    cases happ : st.applyAtomic (setProvisionedOps m id nonce) with
    | none => rfl
    | some st' =>
      obtain ⟨d0, hd0, hq, _⟩ := Store.applyAtomic_update happ
      rw [hfind, Option.some.injEq] at hd0
      subst hd0
      rw [D.holds_append, Bool.and_eq_true] at hq
      obtain ⟨hi, hn⟩ := notSetYet_holds hq.2
      rcases hset with hset | hset
      · exact absurd hi hset
      · exact absurd hn hset
  have hmem : (id = "" ∨ nonce = "") →
      ((m.SetProvisioned id nonce).exec Store.handle st).val.1 ≠ none ∧
      ((m.SetProvisioned id nonce).exec Store.handle st).store = st := by
    intro hempty
    simp [Machine.SetProvisioned, hempty, Prog.exec, ErrorContextf]
  refine ⟨?_, ?_, ?_, ?_, ?_, ?_, ?_, ?_⟩
  · intro hempty
    cases hrun with
    | empty _ => exact ⟨rfl, by simp⟩
    | set hid hn => rcases hempty with hh | hh <;> contradiction
    | failed e hid hn _ => rcases hempty with hh | hh <;> contradiction
    | unknown a e hid hn => rcases hempty with hh | hh <;> contradiction
    | notAlive hid hn => rcases hempty with hh | hh <;> contradiction
    | alreadySet hid hn => rcases hempty with hh | hh <;> contradiction
  · cases hrun <;> simp [submitted]
  · intro ops hops
    cases hrun <;> simp [submitted] at hops <;> exact hops
  · intro hnone
    cases hrun with
    | set hid hn => exact ⟨hid, hn, rfl⟩
    | _ => simp at hnone
  · intro hsome
    cases hrun with
    | set hid hn => simp at hsome
    | _ => rfl
  · intro hinv
    cases hrun with
    | set hid hn => exact ⟨fun hh => absurd hh hid, fun hh => absurd hh hn⟩
    | _ => exact hinv
  · intro d hfind hset
    by_cases hempty : id = "" ∨ nonce = ""
    · exact hmem hempty
    · have hid : id ≠ "" := fun hh => hempty (Or.inl hh)
      have hn : nonce ≠ "" := fun hh => hempty (Or.inr hh)
      obtain ⟨h1, h2⟩ := (honest hid hn).2 (hrejected d hfind hset)
      exact ⟨h2, h1⟩
  · intro d d' hfind hinv hfind'
    by_cases hempty : id = "" ∨ nonce = ""
    · rw [(hmem hempty).2, hfind, Option.some.injEq] at hfind'
      subst hfind'
      exact hinv
    · have hid : id ≠ "" := fun hh => hempty (Or.inl hh)
      have hn : nonce ≠ "" := fun hh => hempty (Or.inr hh)
      cases happ : st.applyAtomic (setProvisionedOps m id nonce) with
      | none =>
        rw [((honest hid hn).2 happ).1, hfind, Option.some.injEq] at hfind'
        subst hfind'
        exact hinv
      | some st' =>
        obtain ⟨d0, hd0, _, hnew⟩ := Store.applyAtomic_update happ
        rw [((honest hid hn).1 st' happ).1, hnew, Option.some.injEq] at hfind'
        subst hfind'
        have h1 : (Doc.setAll d0 [("instanceid", .str id), ("nonce", .str nonce)]).getStr
            "instanceid" = id := by
          simp only [Doc.setAll, List.foldl_cons, List.foldl_nil]
          rw [Doc.getStr_set_other _ _ _ _ (by decide), Doc.getStr_set_same]
        have h2 : (Doc.setAll d0 [("instanceid", .str id), ("nonce", .str nonce)]).getStr
            "nonce" = nonce := by
          simp only [Doc.setAll, List.foldl_cons, List.foldl_nil]
          rw [Doc.getStr_set_same]
        rw [h1, h2]
        exact ⟨fun hh => absurd hh hid, fun hh => absurd hh hn⟩

/-- C10 (witness): SetProvisioned on the machine "0", first not yet provisioned, then
already provisioned, on the document store: the first call sets both fields, the
second fails and changes nothing; and the theorem at the second call. -/
theorem provisioned_once_witness :
    (((newMachine exampleDoc).SetProvisioned "i-1" "nonce-1").exec Store.handle
        (exampleStore exampleDoc [])).val =
      (none, newMachine { exampleDoc with InstanceId := "i-1", Nonce := "nonce-1" }) ∧
    (((newMachine exampleDoc).SetProvisioned "i-1" "nonce-1").exec Store.handle
        (exampleStore exampleDoc [])).store =
      exampleStore { exampleDoc with InstanceId := "i-1", Nonce := "nonce-1" } [] ∧
    (((newMachine exampleDoc).SetProvisioned "i-1" "nonce-1").exec Store.handle
        (exampleStore provisionedHost [])).val.1 =
      some (.ErrorContextf "cannot set instance id of machine %q" ["0"]
        (.Errorf "already set" [])) ∧
    (∀ d, (exampleStore provisionedHost []).find machinesC (newMachine exampleDoc).doc.Id
        = some d →
      (d.getStr "instanceid" ≠ "" ∨ d.getStr "nonce" ≠ "") →
      (((newMachine exampleDoc).SetProvisioned "i-1" "nonce-1").exec Store.handle
        (exampleStore provisionedHost [])).val.1 ≠ none ∧
      (((newMachine exampleDoc).SetProvisioned "i-1" "nonce-1").exec Store.handle
        (exampleStore provisionedHost [])).store = exampleStore provisionedHost []) :=
  ⟨by decide, by decide, by decide,
    (provisioned_once Store.handle (exampleStore provisionedHost [])
      (exampleStore provisionedHost []) (newMachine exampleDoc) "i-1" "nonce-1").2.2.2.2.2.2.1⟩

/-! ## C11: the phase changes only along the transition table -/

/-- C11: for every handle whose current phase is `c`, every requested phase `p` and
every behaviour of the store, SetPhase returns success only if `p` is `c` or `c` can
transition to `p`; otherwise it returns the error "illegal phase change", submits no
transaction and leaves the receiver unchanged, and on the document store it leaves
everything persisted unchanged. -/
theorem phase_changes_follow_table {σ : Type} (P : migration.Table)
    (h : (r : Req) → σ → Req.Resp r × σ) (s : σ) (st : Store) (mig : modelMigration)
    (c p : migration.Phase) (hcur : mig.Phase P = (c, none)) :
    (((mig.SetPhase P p).exec h s).val.1 = none → p = c ∨ P.CanTransitionTo c p = true) ∧
    (p ≠ c → P.CanTransitionTo c p = false →
      ((mig.SetPhase P p).exec h s).val =
        (some (.Errorf "illegal phase change: %s -> %s" [P.PhaseString c, P.PhaseString p]),
          mig) ∧
      submitted ((mig.SetPhase P p).exec h s).log = [] ∧
      ((mig.SetPhase P p).exec Store.handle st).store = st) := by
  obtain ⟨h1, h2⟩ := modelMigration.Phase_fst_of_ok hcur
  have hrun := Prog.always_exec h _ _ (SetPhase_runs P mig p) s
  have hst := Prog.always_exec Store.handle _ _ (SetPhase_runs P mig p) st
  generalize ((mig.SetPhase P p).exec h s).log = log at hrun
  generalize ((mig.SetPhase P p).exec h s).val = val at hrun
  constructor
  · intro hok
    cases hrun with
    | invalid now err _ => simp at hok
    | same now _ hsame => exact Or.inl (hsame.trans h1)
    | illegal now _ _ _ => simp at hok
    | changed now _ _ hcan => rw [h1] at hcan; exact Or.inr hcan
    | aborted now _ _ _ => simp at hok
    | failed now err _ _ _ _ => simp at hok
  · intro hne hcannot
    have hstore : ((mig.SetPhase P p).exec Store.handle st).store = st := by
      refine Store.exec_store_eq _ st ?_ hst.no_allocation
      generalize ((mig.SetPhase P p).exec Store.handle st).log = log' at hst
      generalize ((mig.SetPhase P p).exec Store.handle st).val = val' at hst
      cases hst with
      | invalid now err _ => rfl
      | same now _ _ => rfl
      | illegal now _ _ _ => rfl
      | changed now _ _ hcan => rw [h1, hcannot] at hcan; exact absurd hcan (by decide)
      | aborted now _ _ hcan => rw [h1, hcannot] at hcan; exact absurd hcan (by decide)
      | failed now err _ _ hcan _ => rw [h1, hcannot] at hcan; exact absurd hcan (by decide)
    cases hrun with
    | invalid now err he => rw [h2] at he; exact absurd he (by simp)
    | same now _ hsame => exact absurd (hsame.trans h1) hne
    | illegal now _ _ _ => rw [h1]; exact ⟨rfl, rfl, hstore⟩
    | changed now _ _ hcan => rw [h1, hcannot] at hcan; exact absurd hcan (by decide)
    | aborted now _ _ hcan => rw [h1, hcannot] at hcan; exact absurd hcan (by decide)
    | failed now err _ _ hcan _ => rw [h1, hcannot] at hcan; exact absurd hcan (by decide)

/-- C11 (witness): the theorem at the example migration, in the phase QUIESCE (1), and
the requested phase 0, which cannot be reached from QUIESCE. -/
theorem phase_changes_follow_table_witness :
    exampleMigration.Phase exampleTable = (1, none) ∧
    ((((exampleMigration.SetPhase exampleTable 0).exec Store.handle
          (exampleStore exampleDoc [])).val.1 = none →
        (0 : migration.Phase) = 1 ∨ exampleTable.CanTransitionTo 1 0 = true) ∧
    ((0 : migration.Phase) ≠ 1 → exampleTable.CanTransitionTo 1 0 = false →
      ((exampleMigration.SetPhase exampleTable 0).exec Store.handle
          (exampleStore exampleDoc [])).val =
        (some (.Errorf "illegal phase change: %s -> %s"
          [exampleTable.PhaseString 1, exampleTable.PhaseString 0]), exampleMigration) ∧
      submitted ((exampleMigration.SetPhase exampleTable 0).exec Store.handle
          (exampleStore exampleDoc [])).log = [] ∧
      ((exampleMigration.SetPhase exampleTable 0).exec Store.handle
          (exampleStore exampleDoc [])).store = exampleStore exampleDoc [])) :=
  ⟨by decide,
    phase_changes_follow_table exampleTable Store.handle (exampleStore exampleDoc [])
      (exampleStore exampleDoc []) exampleMigration 1 0 (by decide)⟩

/-! ## C12: SetPhase to the current phase -/

/-- C12: for a phase `p` whose name parses back to `p`, once a SetPhase to `p` has
returned success, a further SetPhase to `p` on the handle it left, whatever the
behaviour of the store, returns success, submits no transaction and leaves the handle
as it was, all of its status document included; so the same holds of every further
call. -/
theorem setPhase_again_changes_nothing {σ τ : Type} (P : migration.Table)
    (h : (r : Req) → σ → Req.Resp r × σ) (s : σ)
    (g : (r : Req) → τ → Req.Resp r × τ) (u : τ) (mig : modelMigration)
    (p : migration.Phase) (hname : P.ParsePhase (P.PhaseString p) = (p, true))
    (hok : ((mig.SetPhase P p).exec h s).val.1 = none) :
    ((((mig.SetPhase P p).exec h s).val.2.SetPhase P p).exec g u).val =
      (none, ((mig.SetPhase P p).exec h s).val.2) ∧
    submitted ((((mig.SetPhase P p).exec h s).val.2.SetPhase P p).exec g u).log = [] := by
  have hrun := Prog.always_exec h _ _ (SetPhase_runs P mig p) s
  generalize ((mig.SetPhase P p).exec h s).log = log at hrun
  generalize ((mig.SetPhase P p).exec h s).val = val at hrun hok
  have hcur : val.2.Phase P = (p, none) := by
    cases hrun with
    | invalid now err _ => simp at hok
    | same now hnone hsame =>
      show mig.Phase P = (p, none)
      rw [hsame]
      exact Prod.ext rfl hnone
    | illegal now _ _ _ => simp at hok
    | changed now _ _ _ =>
      exact modelMigration.Phase_of_name hname (setPhaseNext_Phase P mig p now)
    | aborted now _ _ _ => simp at hok
    | failed now err _ _ _ _ => simp at hok
  exact SetPhaseRun.of_same hcur (Prog.always_exec g _ _ (SetPhase_runs P val.2 p) u)

/-- C12 (witness): the theorem at the example migration, moved from QUIESCE to SUCCESS
(2) on a store that holds its status document, and then asked for SUCCESS again. -/
theorem setPhase_again_changes_nothing_witness :
    exampleTable.ParsePhase (exampleTable.PhaseString 2) = (2, true) ∧
    ((exampleMigration.SetPhase exampleTable 2).exec Store.handle migrationStore).val.1
      = none ∧
    (((((exampleMigration.SetPhase exampleTable 2).exec Store.handle
          migrationStore).val.2.SetPhase exampleTable 2).exec Store.handleOffline
          migrationStore).val =
      (none, ((exampleMigration.SetPhase exampleTable 2).exec Store.handle
          migrationStore).val.2) ∧
    submitted ((((exampleMigration.SetPhase exampleTable 2).exec Store.handle
          migrationStore).val.2.SetPhase exampleTable 2).exec Store.handleOffline
          migrationStore).log = []) :=
  ⟨by decide, by decide,
    setPhase_again_changes_nothing exampleTable Store.handle migrationStore
      Store.handleOffline migrationStore exampleMigration 2 (by decide) (by decide)⟩

/-! ## C13: the marker of the active migration -/

/-- C13 (amended): whatever the behaviour of the store, every op set that SetPhase
submits holds the update of the status document, and holds the removal of the
migrations-active document keyed by the model UUID, under the assertion that it exists,
if and only if the next phase is terminal.  On the document store, for a handle of the
model of the state: after a successful SetPhase that changes the phase to a terminal
phase IsModelMigrationActive was true before and is false afterwards; after a
successful SetPhase to a phase that is not terminal, or to the current phase, it is
what it was before. -/
theorem marker_goes_when_phase_becomes_terminal {σ : Type} (P : migration.Table)
    (h : (r : Req) → σ → Req.Resp r × σ) (s : σ) (store : Store) (st : State)
    (mig : modelMigration) (next : migration.Phase)
    (hmodel : mig.doc.ModelUUID = st.ModelUUID) :
    (∀ ops ∈ submitted ((mig.SetPhase P next).exec h s).log,
      (({ C := migrationsActiveC, Id := mig.doc.ModelUUID, Assert := .DocExists,
          Remove := true } : Op) ∈ ops ↔ P.IsTerminal next = true) ∧
      ∃ fields,
        ({ C := migrationsStatusC, Id := mig.statusDoc.Id, Update := some (.set fields),
           Assert := .query [.field "phase" (.eq (.str mig.statusDoc.Phase))] } : Op)
          ∈ ops) ∧
    (((mig.SetPhase P next).exec Store.handle store).val.1 = none →
      next ≠ (mig.Phase P).1 → P.IsTerminal next = true →
      (st.IsModelMigrationActive.exec Store.handle store).val = (true, none) ∧
      (st.IsModelMigrationActive.exec Store.handle
        ((mig.SetPhase P next).exec Store.handle store).store).val = (false, none)) ∧
    (((mig.SetPhase P next).exec Store.handle store).val.1 = none →
      next = (mig.Phase P).1 ∨ P.IsTerminal next = false →
      (st.IsModelMigrationActive.exec Store.handle
        ((mig.SetPhase P next).exec Store.handle store).store).val =
      (st.IsModelMigrationActive.exec Store.handle store).val) := by
  refine ⟨?_, ?_, ?_⟩
  · have hrun := Prog.always_exec h _ _ (SetPhase_runs P mig next) s
    generalize ((mig.SetPhase P next).exec h s).log = log at hrun
    generalize ((mig.SetPhase P next).exec h s).val = val at hrun
    intro ops hops
    have hshape : ∃ now, ops = setPhaseOps P mig next now := by
      cases hrun with
      | invalid now err _ => simp [submitted] at hops
      | same now _ _ => simp [submitted] at hops
      | illegal now _ _ _ => simp [submitted] at hops
      | changed now _ _ _ => exact ⟨now, by simpa [submitted] using hops⟩
      | aborted now _ _ _ => exact ⟨now, by simpa [submitted] using hops⟩
      | failed now err _ _ _ _ => exact ⟨now, by simpa [submitted] using hops⟩
    obtain ⟨now, rfl⟩ := hshape
    exact ⟨setPhaseOps_marker_mem P mig next now, _, setPhaseOps_status_mem P mig next now⟩
  · intro hok hne ht
    have happ := SetPhase_on_store P mig next store hok hne
    obtain ⟨hbefore, hafter⟩ := Store.applyAtomic_setPhaseOps_terminal ht happ
    rw [(IsModelMigrationActive_on_store st _).1, (IsModelMigrationActive_on_store st _).1,
      ← hmodel, hbefore, hafter]
    exact ⟨rfl, rfl⟩
  · intro hok hcase
    rw [(IsModelMigrationActive_on_store st _).1, (IsModelMigrationActive_on_store st _).1,
      ← hmodel]
    have hst := Prog.always_exec Store.handle _ _ (SetPhase_runs P mig next) store
    have hfind : ((mig.SetPhase P next).exec Store.handle store).store.find migrationsActiveC
        mig.doc.ModelUUID = store.find migrationsActiveC mig.doc.ModelUUID := by
      refine Store.exec_find_other _ _ _ (by decide) store ?_
      generalize ((mig.SetPhase P next).exec Store.handle store).log = log at hst
      generalize ((mig.SetPhase P next).exec Store.handle store).val = val at hst hok
      intro ops hops op hop
      have hshape : ∃ now, ops = setPhaseOps P mig next now ∧ next ≠ (mig.Phase P).1 := by
        cases hst with
        | invalid now err _ => simp [submitted] at hops
        | same now _ _ => simp [submitted] at hops
        | illegal now _ _ _ => simp [submitted] at hops
        | changed now _ hne _ => exact ⟨now, by simpa [submitted] using hops, hne⟩
        | aborted now _ hne _ => exact ⟨now, by simpa [submitted] using hops, hne⟩
        | failed now err _ hne _ _ => exact ⟨now, by simpa [submitted] using hops, hne⟩
      obtain ⟨now, rfl, hne⟩ := hshape
      have hnt : P.IsTerminal next = false := by
        rcases hcase with hsame | hnt
        · exact absurd hsame hne
        · exact hnt
      rcases setPhaseOps_collections P mig next now op hop with ⟨hC, _⟩ | ⟨_, _, ht⟩
      · intro hh
        rw [hC] at hh
        exact absurd hh.1 (by decide)
      · rw [hnt] at ht
        exact absurd ht (by decide)
    rw [hfind]

/-- C13 (witness): the theorem at the example migration of the model "uuid", moved from
QUIESCE to the terminal phase SUCCESS (2) on a store in which it is under way. -/
theorem marker_goes_when_phase_becomes_terminal_witness :
    exampleMigration.doc.ModelUUID = exampleState.ModelUUID ∧
    ((exampleMigration.SetPhase exampleTable 2).exec Store.handle migrationStore).val.1
      = none ∧
    (2 : migration.Phase) ≠ (exampleMigration.Phase exampleTable).1 ∧
    exampleTable.IsTerminal 2 = true ∧
    (exampleState.IsModelMigrationActive.exec Store.handle migrationStore).val
      = (true, none) ∧
    (exampleState.IsModelMigrationActive.exec Store.handle
      ((exampleMigration.SetPhase exampleTable 2).exec Store.handle
        migrationStore).store).val = (false, none) :=
  ⟨by decide, by decide, by decide, by decide,
    (marker_goes_when_phase_becomes_terminal exampleTable Store.handle migrationStore
      migrationStore exampleState exampleMigration 2 (by decide)).2.1
      (by decide) (by decide) (by decide)⟩

/-- C13 (counterexample): the example migration has ended in the terminal phase ABORT
(3) and its marker is gone; a SetPhase to ABORT returns success, and
IsModelMigrationActive is false before it, not true. -/
theorem setPhase_to_current_terminal_phase :
    exampleTable.IsTerminal 3 = true ∧
    ((abortedMigration.SetPhase exampleTable 3).exec Store.handle endedStore).val.1
      = none ∧
    (exampleState.IsModelMigrationActive.exec Store.handle endedStore).val
      = (false, none) ∧
    (exampleState.IsModelMigrationActive.exec Store.handle
      ((abortedMigration.SetPhase exampleTable 3).exec Store.handle endedStore).store).val
      = (false, none) := by
  decide

/-! ## C14: what a successful change of phase stamps -/

/-- C14: whatever the behaviour of the store, a successful SetPhase to a phase other
than the current one reads the clock first and then submits one op set; with `now` the
reading, the status document in memory has the name of the next phase as its phase and
`now` as its phase-changed-time, `now` as its success-time if the next phase is SUCCESS
and as its end-time if the next phase is terminal, and is otherwise as before; and the
fields of the `$set` update on the status document are these very fields with these
very values: applied to the stored form of the old status document it gives the stored
form of the new one. -/
theorem setPhase_stamps {σ : Type} (P : migration.Table)
    (h : (r : Req) → σ → Req.Resp r × σ) (s : σ) (mig : modelMigration)
    (next : migration.Phase)
    (hok : ((mig.SetPhase P next).exec h s).val.1 = none)
    (hne : next ≠ (mig.Phase P).1) :
    ∃ now fields,
      ((mig.SetPhase P next).exec h s).log =
        [.Now now, .Run (setPhaseOps P mig next now) none] ∧
      ((mig.SetPhase P next).exec h s).val.2.doc = mig.doc ∧
      ((mig.SetPhase P next).exec h s).val.2.statusDoc =
        { mig.statusDoc with
          Phase := P.PhaseString next
          PhaseChangedTime := now
          SuccessTime := if next = P.SUCCESS then now else mig.statusDoc.SuccessTime
          EndTime := if P.IsTerminal next = true then now else mig.statusDoc.EndTime } ∧
      ({ C := migrationsStatusC, Id := mig.statusDoc.Id, Update := some (.set fields),
         Assert := .query [.field "phase" (.eq (.str mig.statusDoc.Phase))] } : Op)
        ∈ setPhaseOps P mig next now ∧
      fields =
        [("phase", Value.str (P.PhaseString next)), ("phase-changed-time", Value.int now)]
        ++ (if next = P.SUCCESS then [("success-time", Value.int now)] else [])
        ++ (if P.IsTerminal next = true then [("end-time", Value.int now)] else []) ∧
      Doc.setAll mig.statusDoc.toDoc fields =
        ((mig.SetPhase P next).exec h s).val.2.statusDoc.toDoc := by
  have hrun := Prog.always_exec h _ _ (SetPhase_runs P mig next) s
  generalize ((mig.SetPhase P next).exec h s).log = log at hrun
  generalize ((mig.SetPhase P next).exec h s).val = val at hrun hok
  cases hrun with
  | invalid now err _ => simp at hok
  | same now _ hsame => exact absurd hsame hne
  | illegal now _ _ _ => simp at hok
  | changed now _ _ _ =>
    exact ⟨now, (setPhaseNext P mig next now).2, rfl, rfl, setPhaseNext_fst P mig next now,
      setPhaseOps_status_mem P mig next now, setPhaseNext_snd P mig next now,
      setPhaseNext_toDoc P mig next now⟩
  | aborted now _ _ _ => simp at hok
  | failed now err _ _ _ _ => simp at hok

/-- C14 (witness): the theorem at the example migration moved from QUIESCE to SUCCESS
(2) on a store that holds its status document. -/
theorem setPhase_stamps_witness :
    ((exampleMigration.SetPhase exampleTable 2).exec Store.handle migrationStore).val.1
      = none ∧
    (2 : migration.Phase) ≠ (exampleMigration.Phase exampleTable).1 ∧
    ∃ now fields,
      ((exampleMigration.SetPhase exampleTable 2).exec Store.handle migrationStore).log =
        [.Now now, .Run (setPhaseOps exampleTable exampleMigration 2 now) none] ∧
      ((exampleMigration.SetPhase exampleTable 2).exec Store.handle
        migrationStore).val.2.doc = exampleMigration.doc ∧
      ((exampleMigration.SetPhase exampleTable 2).exec Store.handle
        migrationStore).val.2.statusDoc =
        { exampleMigration.statusDoc with
          Phase := exampleTable.PhaseString 2
          PhaseChangedTime := now
          SuccessTime :=
            if (2 : migration.Phase) = exampleTable.SUCCESS then now
            else exampleMigration.statusDoc.SuccessTime
          EndTime :=
            if exampleTable.IsTerminal 2 = true then now
            else exampleMigration.statusDoc.EndTime } ∧
      ({ C := migrationsStatusC, Id := exampleMigration.statusDoc.Id,
         Update := some (.set fields),
         Assert := .query [.field "phase" (.eq (.str exampleMigration.statusDoc.Phase))] }
          : Op) ∈ setPhaseOps exampleTable exampleMigration 2 now ∧
      fields =
        [("phase", Value.str (exampleTable.PhaseString 2)),
          ("phase-changed-time", Value.int now)]
        ++ (if (2 : migration.Phase) = exampleTable.SUCCESS then
              [("success-time", Value.int now)] else [])
        ++ (if exampleTable.IsTerminal 2 = true then [("end-time", Value.int now)] else []) ∧
      Doc.setAll exampleMigration.statusDoc.toDoc fields =
        ((exampleMigration.SetPhase exampleTable 2).exec Store.handle
          migrationStore).val.2.statusDoc.toDoc :=
  ⟨by decide, by decide,
    setPhase_stamps exampleTable Store.handle migrationStore exampleMigration 2
      (by decide) (by decide)⟩

/-! ## C15: SetPhase is single-shot -/

/-- C15: whatever the behaviour of the store, SetPhase submits at most one op set,
which holds the update of the status document under the assertion that the stored phase
field is the phase string of the handle; when the store rejects it with txn.ErrAborted,
SetPhase returns the error "phase already changed" with the receiver unchanged, and
that one submission was its last call. -/
theorem setPhase_single_shot {σ : Type} (P : migration.Table)
    (h : (r : Req) → σ → Req.Resp r × σ) (s : σ) (mig : modelMigration)
    (next : migration.Phase) :
    (submitted ((mig.SetPhase P next).exec h s).log).length ≤ 1 ∧
    (∀ ops ∈ submitted ((mig.SetPhase P next).exec h s).log,
      ∃ fields,
        ({ C := migrationsStatusC, Id := mig.statusDoc.Id, Update := some (.set fields),
           Assert := .query [.field "phase" (.eq (.str mig.statusDoc.Phase))] } : Op)
          ∈ ops) ∧
    (some .ErrAborted ∈ runResults ((mig.SetPhase P next).exec h s).log →
      ((mig.SetPhase P next).exec h s).val = (some (.New "phase already changed"), mig) ∧
      ∃ now ops, ((mig.SetPhase P next).exec h s).log =
        [.Now now, .Run ops (some .ErrAborted)]) := by
  have hrun := Prog.always_exec h _ _ (SetPhase_runs P mig next) s
  generalize ((mig.SetPhase P next).exec h s).log = log at hrun
  generalize ((mig.SetPhase P next).exec h s).val = val at hrun
  cases hrun with
  | invalid now err _ => simp [submitted, runResults]
  | same now _ _ => simp [submitted, runResults]
  | illegal now _ _ _ => simp [submitted, runResults]
  | changed now _ _ _ =>
    refine ⟨by simp [submitted], ?_, by simp [runResults]⟩
    intro ops hops
    simp only [submitted, List.mem_singleton] at hops
    subst hops
    exact ⟨_, setPhaseOps_status_mem P mig next now⟩
  | aborted now _ _ _ =>
    refine ⟨by simp [submitted], ?_, fun _ => ⟨rfl, now, _, rfl⟩⟩
    intro ops hops
    simp only [submitted, List.mem_singleton] at hops
    subst hops
    exact ⟨_, setPhaseOps_status_mem P mig next now⟩
  | failed now err _ _ _ hne =>
    refine ⟨by simp [submitted], ?_, ?_⟩
    · intro ops hops
      simp only [submitted, List.mem_singleton] at hops
      subst hops
      exact ⟨_, setPhaseOps_status_mem P mig next now⟩
    · intro hab
      simp only [runResults, List.mem_singleton, Option.some.injEq] at hab
      exact absurd hab.symm hne

/-- C15 (witness): SetPhase of the example migration from QUIESCE to SUCCESS against a
store that rejects every op set, and the theorem at this run. -/
theorem setPhase_single_shot_witness :
    some Error.ErrAborted ∈
      runResults ((exampleMigration.SetPhase exampleTable 2).exec Store.handleContended
        migrationStore).log ∧
    ((submitted ((exampleMigration.SetPhase exampleTable 2).exec Store.handleContended
        migrationStore).log).length ≤ 1 ∧
    (∀ ops ∈ submitted ((exampleMigration.SetPhase exampleTable 2).exec
        Store.handleContended migrationStore).log,
      ∃ fields,
        ({ C := migrationsStatusC, Id := exampleMigration.statusDoc.Id,
           Update := some (.set fields),
           Assert := .query [.field "phase" (.eq (.str exampleMigration.statusDoc.Phase))] }
            : Op) ∈ ops) ∧
    (some .ErrAborted ∈ runResults ((exampleMigration.SetPhase exampleTable 2).exec
        Store.handleContended migrationStore).log →
      ((exampleMigration.SetPhase exampleTable 2).exec Store.handleContended
        migrationStore).val = (some (.New "phase already changed"), exampleMigration) ∧
      ∃ now ops, ((exampleMigration.SetPhase exampleTable 2).exec Store.handleContended
        migrationStore).log = [.Now now, .Run ops (some .ErrAborted)])) :=
  ⟨by decide,
    setPhase_single_shot exampleTable Store.handleContended migrationStore
      exampleMigration 2⟩

/-! ## C16: creation end to end -/

/-- C16 (amended): on the document store, for a state that is not of the controller
model, a valid spec whose target is not the controller the model is attached to, a model
that is Alive and has no active migration, and a fresh number of the sequence,
CreateModelMigration returns a migration whose TargetInfo() is the TargetInfo of the
spec (given that the auth tag is parsed back from its string), whose Phase() is QUIESCE
(given that the name of QUIESCE is parsed back), after which IsModelMigrationActive is
true; the descriptor and the status document stored under the id of the migration are
the ones of the migration returned, and are read back as they are; and GetModelMigration
right afterwards returns that same migration, whenever the id of the new migration is
above the ids of the descriptors of the model already in the store, in the order of
strings in which the find of GetModelMigration is sorted; it is so when the number of
the new attempt is at most 9 and the descriptors of the model in the store bear the
numbers of earlier attempts, from 0 up to below the new number. -/
theorem create_keeps_what_was_asked (L : Lib) (P : migration.Table) (st : State)
    (spec : ModelMigrationSpec) (s : Store) (d : Doc) (current : Model) (seq : Int)
    (hc : st.IsController = false) (hv : spec.Validate L = none)
    (hcur : (Store.handle .StControllerModel s).1 = .ok current)
    (htarget : spec.TargetInfo.ControllerTag ≠ current.ModelTag)
    (hattempts : 0 < st.attempts)
    (hmodel : s.find modelsC st.ModelUUID = some d) (hid : d.getStr "_id" = st.ModelUUID)
    (hlife : d.get "life" = some (.int Life.Alive.toInt))
    (hmarker : s.find migrationsActiveC st.ModelUUID = none)
    (hseq : (Store.handle (.Sequence st.ModelUUID "modelmigration") s).1 = .ok seq)
    (hfresh : s.find migrationsC (st.ModelUUID ++ ":" ++ toString seq) = none)
    (hfreshStatus : s.find migrationsStatusC (st.ModelUUID ++ ":" ++ toString seq) = none)
    (htag : L.ParseUserTag (L.UserTagString spec.TargetInfo.AuthTag)
      = .ok spec.TargetInfo.AuthTag)
    (hphase : P.ParsePhase (P.PhaseString P.QUIESCE) = (P.QUIESCE, true)) :
    ∃ mig : modelMigration,
      ((st.CreateModelMigration L P spec).exec Store.handle s).val = (some mig, none) ∧
      mig.TargetInfo L = .ok spec.TargetInfo ∧
      mig.Phase P = (P.QUIESCE, none) ∧
      (st.IsModelMigrationActive.exec Store.handle
        ((st.CreateModelMigration L P spec).exec Store.handle s).store).val = (true, none) ∧
      ((st.CreateModelMigration L P spec).exec Store.handle s).store.find migrationsC
        mig.doc.Id = some mig.doc.toDoc ∧
      ((st.CreateModelMigration L P spec).exec Store.handle s).store.find migrationsStatusC
        mig.doc.Id = some mig.statusDoc.toDoc ∧
      modelMigDoc.ofDoc mig.doc.toDoc = mig.doc ∧
      modelMigStatusDoc.ofDoc mig.statusDoc.toDoc = mig.statusDoc ∧
      ((∀ e ∈ s.docs, e.C = migrationsC →
          D.holds [.field "model-uuid" (.eq (.str st.ModelUUID))] e.doc = true →
          charsLt e.Id.data mig.doc.Id.data = true) →
        (st.GetModelMigration.exec Store.handle
          ((st.CreateModelMigration L P spec).exec Store.handle s).store).val
          = (some mig, none)) ∧
      (seq ≤ 9 →
        (∀ e ∈ s.docs, e.C = migrationsC →
          D.holds [.field "model-uuid" (.eq (.str st.ModelUUID))] e.doc = true →
          ∃ k : Int, 0 ≤ k ∧ k < seq ∧ e.Id = st.ModelUUID ++ ":" ++ toString k) →
        (st.GetModelMigration.exec Store.handle
          ((st.CreateModelMigration L P spec).exec Store.handle s).store).val
          = (some mig, none)) := by
  obtain ⟨hval, hf1, hf2, hf3⟩ := CreateModelMigration_fresh L P st spec s d current seq
    hc hv hcur htarget hattempts hmodel hid hlife hmarker hseq hfresh hfreshStatus
  refine ⟨_, hval, ?_, ?_, ?_, hf1, hf2, modelMigDoc.read_back _,
    modelMigStatusDoc.status_read_back _,
    fun hlast => GetModelMigration_after_create L P st spec s d current seq
      hc hv hcur htarget hattempts hmodel hid hlife hmarker hseq hfresh hfreshStatus hlast,
    fun h9 hearlier => GetModelMigration_after_create L P st spec s d current seq
      hc hv hcur htarget hattempts hmodel hid hlife hmarker hseq hfresh hfreshStatus
      (fun e he hC hq => by
        obtain ⟨k, hk0, hk, hek⟩ := hearlier e he hC hq
        rw [hek]
        exact charsLt_attempt st.ModelUUID k seq hk0 hk h9)⟩
  · simp only [modelMigration.TargetInfo, createDocs, htag, names.NewModelTag,
      names.ModelTag.Id]
  · simp only [modelMigration.Phase, createDocs, hphase, Bool.not_true, Bool.false_eq_true,
      if_false]
  · rw [(IsModelMigrationActive_on_store st _).1, hf3]
    rfl

/-- C16 (witness): the theorem at the example request for the model "uuid", Alive,
attached to the controller "ctrl", after nine earlier attempts, all ended: the
migration "uuid:9" to the controller "target" is created, and GetModelMigration right
afterwards returns it. -/
theorem create_keeps_what_was_asked_witness :
    ∃ mig : modelMigration,
      ((exampleState.CreateModelMigration exampleLib exampleTable exampleSpec).exec
        Store.handle (historyStore 9)).val = (some mig, none) ∧
      mig.TargetInfo exampleLib = .ok exampleSpec.TargetInfo ∧
      mig.Phase exampleTable = (exampleTable.QUIESCE, none) ∧
      (exampleState.IsModelMigrationActive.exec Store.handle
        ((exampleState.CreateModelMigration exampleLib exampleTable exampleSpec).exec
          Store.handle (historyStore 9)).store).val = (true, none) ∧
      ((exampleState.CreateModelMigration exampleLib exampleTable exampleSpec).exec
        Store.handle (historyStore 9)).store.find migrationsC "uuid:9"
          = some mig.doc.toDoc ∧
      (exampleState.GetModelMigration.exec Store.handle
        ((exampleState.CreateModelMigration exampleLib exampleTable exampleSpec).exec
          Store.handle (historyStore 9)).store).val = (some mig, none) := by
  obtain ⟨mig, h1, h2, h3, h4, h5, _, _, _, h9, _⟩ :=
    create_keeps_what_was_asked exampleLib exampleTable exampleState exampleSpec
      (historyStore 9) (modelEntry "uuid" .Alive).doc ⟨"ctrl", .Alive⟩ 9
      (by decide) (by decide) rfl (by decide) (by decide) (by decide) (by decide) (by decide)
      (by decide) rfl (by decide) (by decide) rfl (by decide)
  have hid : mig.doc.Id = "uuid:9" := by
    have h0 : ((exampleState.CreateModelMigration exampleLib exampleTable exampleSpec).exec
        Store.handle (historyStore 9)).val.1.map (fun m => m.doc.Id) = some "uuid:9" := by
      decide
    rw [h1] at h0
    simpa using h0
  rw [hid] at h5 h9
  exact ⟨mig, h1, h2, h3, h4, h5, h9 (by decide)⟩

/-- C16 (counterexample): the model "uuid" is not the controller model, is Alive and has
no active migration, and the request is valid, but its target is the controller "ctrl"
the model is attached to: CreateModelMigration returns no migration, and
IsModelMigrationActive is false afterwards. -/
theorem create_refuses_current_controller :
    exampleState.IsController = false ∧
    sameControllerSpec.Validate exampleLib = none ∧
    (exampleState.IsModelMigrationActive.exec Store.handle (modelStore .Alive)).val
      = (false, none) ∧
    ((exampleState.CreateModelMigration exampleLib exampleTable sameControllerSpec).exec
      Store.handle (modelStore .Alive)).val =
        (none, some (.Trace (.New "model already attached to target controller"))) ∧
    (exampleState.IsModelMigrationActive.exec Store.handle
      ((exampleState.CreateModelMigration exampleLib exampleTable sameControllerSpec).exec
        Store.handle (modelStore .Alive)).store).val = (false, none) := by
  decide

/-! ## C17: one active migration per model -/

/-- C17 (amended): whatever the behaviour of the store, every op set
CreateModelMigration submits holds an op on the marker of the model that asserts that
the marker is missing.  On the document store, while the marker of the model exists,
CreateModelMigration returns no migration and an error, submits no op set and leaves the
store as it was, so that no descriptor, status or marker document is inserted; the
error is "already in progress", annotated "failed to create migration", when the checks
made before the marker is looked at pass: the state is not of the controller model, the
spec is valid, the target is not the current controller, st.run makes an attempt, and
the model is read and is Alive. -/
theorem create_refused_while_active {σ : Type} (L : Lib) (P : migration.Table)
    (h : (r : Req) → σ → Req.Resp r × σ) (s : σ) (store : Store) (st : State)
    (spec : ModelMigrationSpec) :
    (∀ ops ∈ submitted ((st.CreateModelMigration L P spec).exec h s).log,
      ∃ op ∈ ops, op.C = migrationsActiveC ∧ op.Id = st.ModelUUID ∧
        op.Assert = .DocMissing) ∧
    ((store.find migrationsActiveC st.ModelUUID).isSome = true →
      ((st.CreateModelMigration L P spec).exec Store.handle store).val.1 = none ∧
      ((st.CreateModelMigration L P spec).exec Store.handle store).val.2 ≠ none ∧
      ((st.CreateModelMigration L P spec).exec Store.handle store).store = store ∧
      submitted ((st.CreateModelMigration L P spec).exec Store.handle store).log = [] ∧
      (st.IsController = false → spec.Validate L = none → 0 < st.attempts →
        ∀ current model, (Store.handle .StControllerModel store).1 = .ok current →
          spec.TargetInfo.ControllerTag ≠ current.ModelTag →
          (Store.handle (.StModel st.ModelUUID) store).1 = .ok model →
          model.Life = .Alive →
          ((st.CreateModelMigration L P spec).exec Store.handle store).val.2 =
            some (.Annotate (.New "already in progress") "failed to create migration"))) := by
  refine ⟨?_, CreateModelMigration_while_active L P st spec store⟩
  intro ops hops
  obtain ⟨now, model, seq, rfl⟩ :=
    Prog.always_exec h _ _ (CreateModelMigration_runs L P st spec) s ops hops
  refine ⟨{ C := migrationsActiveC, Id := st.ModelUUID, Assert := .DocMissing,
            Insert := some [("id", .str (createDocs L P st spec now seq).1.Id)] }, ?_,
    rfl, rfl, rfl⟩
  simp [createOps]

/-- C17 (witness): the theorem at the example request for the model "uuid" on a store in
which a migration of the model is under way: the call fails with "already in progress"
and the store is as it was. -/
theorem create_refused_while_active_witness :
    (migrationStore.find migrationsActiveC exampleState.ModelUUID).isSome = true ∧
    ((exampleState.CreateModelMigration exampleLib exampleTable exampleSpec).exec
      Store.handle migrationStore).val.2 =
        some (.Annotate (.New "already in progress") "failed to create migration") ∧
    ((exampleState.CreateModelMigration exampleLib exampleTable exampleSpec).exec
      Store.handle migrationStore).store = migrationStore :=
  have hrun := (create_refused_while_active exampleLib exampleTable Store.handle
    migrationStore migrationStore exampleState exampleSpec).2 (by decide)
  ⟨by decide,
    hrun.2.2.2.2 (by decide) (by decide) (by decide) ⟨"ctrl", .Alive⟩ ⟨"uuid", .Alive⟩
      rfl (by decide) rfl (by decide),
    hrun.2.2.1⟩

/-- C17 (counterexample): the marker of the model "uuid" exists, and
CreateModelMigration fails with another error than "already in progress": for a request
that names no initiating user the error is that InitiatedBy is not valid, and when the
model is Dying the error is "model is not alive". -/
theorem create_while_active_fails_otherwise :
    (migrationStore.find migrationsActiveC exampleState.ModelUUID).isSome = true ∧
    ((exampleState.CreateModelMigration exampleLib exampleTable anonymousSpec).exec
      Store.handle migrationStore).val =
        (none, some (.Trace (.NotValidf "InitiatedBy" []))) ∧
    (dyingMigrationStore.find migrationsActiveC exampleState.ModelUUID).isSome = true ∧
    ((exampleState.CreateModelMigration exampleLib exampleTable exampleSpec).exec
      Store.handle dyingMigrationStore).val =
        (none, some (.Annotate (.New "model is not alive") "failed to create migration")) := by
  decide

/-! ## C18: GetModelMigration -/

/-- C18 (the code at the failing input): the model "uuid" has had the eleven attempts
"uuid:0" to "uuid:10"; GetModelMigration returns the attempt 9, not the attempt 10, the
most recent one, whose documents are in the store: the ids are sorted as strings, and
"uuid:9" is greater than "uuid:10".  In the same way, after the ten attempts 0 to 9,
CreateModelMigration creates the attempt "uuid:10" and GetModelMigration right after it
returns the attempt 9, ended in ABORT, to the old target.  With the ten attempts 0 to 9
alone it returns the attempt 9, and with no attempt the error that the migration is not
found. -/
theorem getModelMigration_after_eleven_attempts :
    ((exampleState.GetModelMigration.exec Store.handle (historyStore 11)).val.1.map
      (fun mig => (mig.doc.Id, mig.Attempt))) = some ("uuid:9", (9, none)) ∧
    ((historyStore 11).find migrationsC "uuid:10").isSome = true ∧
    ((historyStore 11).find migrationsStatusC "uuid:10").isSome = true ∧
    (((exampleState.CreateModelMigration exampleLib exampleTable exampleSpec).exec
      Store.handle (historyStore 10)).val.1.map (fun mig => mig.doc.Id)) = some "uuid:10" ∧
    ((exampleState.GetModelMigration.exec Store.handle
      ((exampleState.CreateModelMigration exampleLib exampleTable exampleSpec).exec
        Store.handle (historyStore 10)).store).val.1.map
      (fun mig => (mig.doc.Id, mig.doc.TargetController, mig.statusDoc.Phase)))
        = some ("uuid:9", "old-target", "ABORT") ∧
    ((exampleState.GetModelMigration.exec Store.handle (historyStore 10)).val.1.map
      (fun mig => (mig.doc.Id, mig.Attempt))) = some ("uuid:9", (9, none)) ∧
    (exampleState.GetModelMigration.exec Store.handle (modelStore .Alive)).val
      = (none, some (.NotFoundf "migration" [])) := by
  decide

/-! ## C19: the descriptor of a migration -/

/-- C19: SetPhase, SetStatusMessage and Refresh never change the descriptor.  Whatever
the behaviour of the store, the receiver after each of them has the descriptor document
(mig.doc) it had before, so that only its status document can differ; no op they submit
is on the collection of descriptors: each is on the status document of the migration
or, in a SetPhase to a terminal phase, on the marker of the active migration.  On the
document store every document of the collection of descriptors is after the call what
it was before. -/
theorem descriptor_is_never_changed {σ : Type} (P : migration.Table)
    (h : (r : Req) → σ → Req.Resp r × σ) (s : σ) (store : Store)
    (mig : modelMigration) (next : migration.Phase) (text : String) :
    ∀ p ∈ [mig.SetPhase P next, mig.SetStatusMessage text, mig.Refresh],
      (p.exec h s).val.2.doc = mig.doc ∧
      (p.exec h s).val.2 = { mig with statusDoc := (p.exec h s).val.2.statusDoc } ∧
      (∀ ops ∈ submitted (p.exec h s).log, ∀ op ∈ ops,
        op.C ≠ migrationsC ∧
        ((op.C = migrationsStatusC ∧ op.Id = mig.statusDoc.Id) ∨
         (op.C = migrationsActiveC ∧ op.Id = mig.doc.ModelUUID ∧
           P.IsTerminal next = true))) ∧
      (∀ id, (p.exec Store.handle store).store.find migrationsC id =
        store.find migrationsC id) := by
  have key : ∀ p : Prog (Option Error × modelMigration),
      p.Always (fun log val => val.2.doc = mig.doc ∧
        ∀ ops ∈ submitted log, ∀ op ∈ ops,
          (op.C = migrationsStatusC ∧ op.Id = mig.statusDoc.Id) ∨
          (op.C = migrationsActiveC ∧ op.Id = mig.doc.ModelUUID ∧
            P.IsTerminal next = true)) →
      (p.exec h s).val.2.doc = mig.doc ∧
      (p.exec h s).val.2 = { mig with statusDoc := (p.exec h s).val.2.statusDoc } ∧
      (∀ ops ∈ submitted (p.exec h s).log, ∀ op ∈ ops,
        op.C ≠ migrationsC ∧
        ((op.C = migrationsStatusC ∧ op.Id = mig.statusDoc.Id) ∨
         (op.C = migrationsActiveC ∧ op.Id = mig.doc.ModelUUID ∧
           P.IsTerminal next = true))) ∧
      (∀ id, (p.exec Store.handle store).store.find migrationsC id =
        store.find migrationsC id) := by
    intro p hp
    have hneq : ∀ op : Op,
        ((op.C = migrationsStatusC ∧ op.Id = mig.statusDoc.Id) ∨
         (op.C = migrationsActiveC ∧ op.Id = mig.doc.ModelUUID ∧
           P.IsTerminal next = true)) → op.C ≠ migrationsC := by
      intro op hop hC
      rcases hop with ⟨h1, _⟩ | ⟨h1, _⟩
      · rw [h1] at hC
        exact absurd hC (by decide)
      · rw [h1] at hC
        exact absurd hC (by decide)
    have h1 := Prog.always_exec h p _ hp s
    have h2 := Prog.always_exec Store.handle p _ hp store
    refine ⟨h1.1, ?_, fun ops hops op hop => ⟨hneq op (h1.2 ops hops op hop),
      h1.2 ops hops op hop⟩, fun id => ?_⟩
    · have hdoc := h1.1
      generalize (p.exec h s).val.2 = after at hdoc ⊢
      cases after
      simp only at hdoc
      rw [hdoc]
    · exact Store.exec_find_other p migrationsC id (by decide) store
        (fun ops hops op hop hh => hneq op (h2.2 ops hops op hop) hh.1)
  intro p hp
  simp only [List.mem_cons, List.mem_singleton, List.not_mem_nil, or_false] at hp
  rcases hp with rfl | rfl | rfl
  · exact key _ (Prog.always_mono _ _ _ (fun log val hrun => ⟨hrun.doc_eq, hrun.ops_about⟩)
      (SetPhase_runs P mig next))
  · refine key _ (Prog.always_mono _ _ _ ?_ (SetStatusMessage_runs mig text))
    intro log val hrun
    refine ⟨hrun.one_op_set.2, ?_⟩
    rw [hrun.one_op_set.1]
    intro ops hops op hop
    rw [List.mem_singleton] at hops
    subst hops
    rw [setStatusMessageOps, List.mem_singleton] at hop
    subst hop
    exact Or.inl ⟨rfl, rfl⟩
  · refine key _ (Prog.always_mono _ _ _ ?_ (Refresh_runs mig))
    intro log val hrun
    refine ⟨hrun.submits_nothing.2, ?_⟩
    rw [hrun.submits_nothing.1]
    intro ops hops
    exact absurd hops (List.not_mem_nil _)

/-- C19 (witness): the theorem at a Refresh of the example migration on a store in which
it is under way: the status document is read again, the descriptor is the one the
migration had, and the stored descriptor "uuid:0" is what it was. -/
theorem descriptor_is_never_changed_witness :
    (exampleMigration.Refresh.exec Store.handle migrationStore).val.1 = none ∧
    (exampleMigration.Refresh.exec Store.handle migrationStore).val.2.doc
      = exampleMigration.doc ∧
    (exampleMigration.Refresh.exec Store.handle migrationStore).store.find migrationsC
      "uuid:0" = migrationStore.find migrationsC "uuid:0" :=
  have hmem : exampleMigration.Refresh ∈
      [exampleMigration.SetPhase exampleTable 2, exampleMigration.SetStatusMessage "halfway",
       exampleMigration.Refresh] :=
    List.mem_cons_of_mem _ (List.mem_cons_of_mem _ (List.mem_singleton.2 rfl))
  ⟨by decide,
    (descriptor_is_never_changed exampleTable Store.handle migrationStore migrationStore
      exampleMigration 2 "halfway" _ hmem).1,
    (descriptor_is_never_changed exampleTable Store.handle migrationStore migrationStore
      exampleMigration 2 "halfway" _ hmem).2.2.2 "uuid:0"⟩

/-! ## C20: SetStatusMessage -/

/-- C20: SetStatusMessage is an unconditional update of the status message.  Whatever
the behaviour of the store and whatever the phase of the migration, it submits one op
set, of one op: the update of the status document that sets the field status-message
only, under the assertion that the document exists, with no check of the phase.  On the
document store it succeeds whenever the status document exists, and the stored document
is then the one before with that field set.  The update of SetPhase never sets
status-message, and on a document that has the field status-message the update of
SetStatusMessage and the update of SetPhase give the same document in either order. -/
theorem status_message_update_is_unconditional {σ : Type} (P : migration.Table)
    (h : (r : Req) → σ → Req.Resp r × σ) (s : σ) (store : Store)
    (mig : modelMigration) (text : String) (next : migration.Phase) (now : Int) :
    submitted ((mig.SetStatusMessage text).exec h s).log =
      [[{ C := migrationsStatusC, Id := mig.statusDoc.Id,
          Update := some (.set [("status-message", .str text)]),
          Assert := .DocExists }]] ∧
    (∀ cur, store.find migrationsStatusC mig.statusDoc.Id = some cur →
      ((mig.SetStatusMessage text).exec Store.handle store).val =
        (none, { mig with statusDoc := { mig.statusDoc with StatusMessage := text } }) ∧
      ((mig.SetStatusMessage text).exec Store.handle store).store.find migrationsStatusC
        mig.statusDoc.Id = some (cur.setAll [("status-message", .str text)])) ∧
    (∀ kv ∈ (setPhaseNext P mig next now).2, kv.1 ≠ "status-message") ∧
    (∀ d : Doc, d.get "status-message" ≠ none →
      (d.setAll (setPhaseNext P mig next now).2).setAll [("status-message", .str text)] =
      (d.setAll [("status-message", .str text)]).setAll (setPhaseNext P mig next now).2) := by
  refine ⟨?_, ?_, setPhaseNext_no_message P mig next now, ?_⟩
  · exact (Prog.always_exec h _ _ (SetStatusMessage_runs mig text) s).one_op_set.1
  · intro cur hcur
    have happ : store.applyAtomic (setStatusMessageOps mig text) =
        some ⟨putEntry migrationsStatusC mig.statusDoc.Id
          (cur.setAll [("status-message", .str text)]) store.docs, store.clock⟩ := by
      simp [Store.applyAtomic, setStatusMessageOps, Op.check, Assert.holds, Op.apply, hcur]
    constructor
    · simp [modelMigration.SetStatusMessage, Prog.exec, Store.handle, happ]
    · simp only [modelMigration.SetStatusMessage, Prog.exec, Store.handle, happ]
      exact findEntry_putEntry_same _ _ _ _
  · intro d hd
    exact Doc.setAll_set_comm _ "status-message" (.str text)
      (setPhaseNext_no_message P mig next now) d hd

/-- C20 (witness): the theorem at the example migration on a store in which it is under
way: the message "halfway" is set, and on the stored status document the update of the
message and the update of a SetPhase to SUCCESS (2) at the time 7 commute. -/
theorem status_message_update_is_unconditional_witness :
    migrationStore.find migrationsStatusC exampleMigration.statusDoc.Id
      = some exampleMigration.statusDoc.toDoc ∧
    ((exampleMigration.SetStatusMessage "halfway").exec Store.handle migrationStore).val.1
      = none ∧
    exampleMigration.statusDoc.toDoc.get "status-message" ≠ none ∧
    (exampleMigration.statusDoc.toDoc.setAll
        (setPhaseNext exampleTable exampleMigration 2 7).2).setAll
        [("status-message", .str "halfway")] =
      (exampleMigration.statusDoc.toDoc.setAll [("status-message", .str "halfway")]).setAll
        (setPhaseNext exampleTable exampleMigration 2 7).2 :=
  ⟨by decide,
    congrArg Prod.fst
      ((status_message_update_is_unconditional exampleTable Store.handle migrationStore
        migrationStore exampleMigration "halfway" 2 7).2.1
        exampleMigration.statusDoc.toDoc (by decide)).1,
    by decide,
    (status_message_update_is_unconditional exampleTable Store.handle migrationStore
      migrationStore exampleMigration "halfway" 2 7).2.2.2
      exampleMigration.statusDoc.toDoc (by decide)⟩

/-! ## C21: unset times -/

/-- C21 (amended): for every value `i` of an int64, unixNanoToTime0(i) is the zero
time.Time if and only if `i` is 0, and for `i` other than 0 it is the instant `i`
nanoseconds after the Unix epoch.  StartTime, SuccessTime, EndTime and PhaseChangedTime
are unixNanoToTime0 of the stored field, and the documents CreateModelMigration makes
hold 0 as success-time and end-time.  So, for a migration returned by
CreateModelMigration and changed by calls of SetPhase and SetStatusMessage that
returned nil, whatever the behaviour of the store: a time never stamped is reported as
the zero time; a time last stamped with the clock reading `t` is reported as
unixNanoToTime0(t), which for `t` other than 0 is not the zero time but the instant `t`
nanoseconds after the Unix epoch; and a time is reported as the zero time exactly when
it was never stamped or was last stamped with the clock reading 0. -/
theorem unset_times_are_zero (i : Int) (hi : isInt64 i) (L : Lib) (P : migration.Table)
    (mig : modelMigration) (stamps : Stamps) (hist : Stamped L P mig stamps)
    (f : TimeField) :
    ((unixNanoToTime0 i).IsZero = true ↔ i = 0) ∧
    (unixNanoToTime0 i = time.Time.zero ↔ i = 0) ∧
    (i ≠ 0 → (unixNanoToTime0 i).UnixNano = i ∧
      0 ≤ (unixNanoToTime0 i).nsec ∧ (unixNanoToTime0 i).nsec < 1000000000) ∧
    (∀ any : modelMigration,
      any.StartTime = unixNanoToTime0 any.statusDoc.StartTime ∧
      any.SuccessTime = unixNanoToTime0 any.statusDoc.SuccessTime ∧
      any.EndTime = unixNanoToTime0 any.statusDoc.EndTime ∧
      any.PhaseChangedTime = unixNanoToTime0 any.statusDoc.PhaseChangedTime) ∧
    (∀ (st : State) (spec : ModelMigrationSpec) (now seq : Int),
      (createDocs L P st spec now seq).2.SuccessTime = 0 ∧
      (createDocs L P st spec now seq).2.EndTime = 0 ∧
      (createDocs L P st spec now seq).2.StartTime = now ∧
      (createDocs L P st spec now seq).2.PhaseChangedTime = now) ∧
    (stamps f = none → f.read mig = time.Time.zero) ∧
    (∀ t, stamps f = some t → isInt64 t ∧ f.read mig = unixNanoToTime0 t) ∧
    (∀ t, stamps f = some t → t ≠ 0 →
      (f.read mig).IsZero = false ∧ (f.read mig).UnixNano = t) ∧
    ((f.read mig).IsZero = true ↔ stamps f = none ∨ stamps f = some 0) := by
  have hzero := unixNanoToTime0_isZero i hi
  have hread : f.read mig = unixNanoToTime0 (f.stored mig.statusDoc) := by
    cases f <;> rfl
  obtain ⟨hstored, hint⟩ := hist.stored_eq f
  have hnone : stamps f = none → f.read mig = time.Time.zero := by
    intro hn
    rw [hread, hstored, hn]
    rfl
  have hsome : ∀ t, stamps f = some t → isInt64 t ∧ f.read mig = unixNanoToTime0 t := by
    intro t ht
    refine ⟨hint t ht, ?_⟩
    rw [hread, hstored, ht]
    rfl
  refine ⟨hzero, ?_, ?_, fun _ => ⟨rfl, rfl, rfl, rfl⟩, fun _ _ _ _ => ⟨rfl, rfl, rfl, rfl⟩,
    hnone, hsome, ?_, ?_⟩
  · constructor
    · intro hz
      exact hzero.1 (by rw [hz]; rfl)
    · intro h0
      rw [h0]
      rfl
  · intro hne
    simp only [unixNanoToTime0, hne, if_false]
    have := time.Unix_spec 0 i
    exact ⟨by rw [this.1]; omega, this.2.1, this.2.2⟩
  · intro t ht hne
    obtain ⟨hti, hrt⟩ := hsome t ht
    rw [hrt]
    constructor
    · cases hz : (unixNanoToTime0 t).IsZero with
      | false => rfl
      | true => exact absurd ((unixNanoToTime0_isZero t hti).1 hz) hne
    · simp only [unixNanoToTime0, hne, if_false]
      rw [(time.Unix_spec 0 t).1]
      omega
  · constructor
    · intro hz
      cases hs : stamps f with
      | none => exact Or.inl rfl
      | some t =>
        obtain ⟨hti, hrt⟩ := hsome t hs
        rw [hrt] at hz
        exact Or.inr (by rw [(unixNanoToTime0_isZero t hti).1 hz])
    · intro hs
      rcases hs with hs | hs
      · rw [hnone hs]
        rfl
      · rw [(hsome 0 hs).2]
        rfl

/-- C21 (witness): the theorem at the stored value 7 and at the migration the example
request creates when the clock reads 100, before and after SetPhase to SUCCESS at the
same reading: the start is the instant 100 nanoseconds after the epoch, the time of
success is the zero time before the call and the instant 100 after it. -/
theorem unset_times_are_zero_witness :
    isInt64 7 ∧ (unixNanoToTime0 7).UnixNano = 7 ∧
    Stamped exampleLib exampleTable createdMigration
      (fun f => if f = .start ∨ f = .phaseChanged then some 100 else none) ∧
    createdMigration.StartTime.UnixNano = 100 ∧
    createdMigration.SuccessTime = time.Time.zero ∧
    (((createdMigration.SetPhase exampleTable 2).exec Store.handle
      migrationStore).val.2.SuccessTime).UnixNano = 100 :=
  have hcreated : Stamped exampleLib exampleTable createdMigration
      (fun f => if f = .start ∨ f = .phaseChanged then some 100 else none) :=
    Stamped.created Store.handle (modelStore .Alive) exampleState exampleSpec
      createdMigration 100 (by decide) (by decide) (by decide)
  ⟨by decide,
    ((unset_times_are_zero 7 (by decide) exampleLib exampleTable createdMigration _ hcreated
      .start).2.2.1 (by decide)).1,
    hcreated,
    ((unset_times_are_zero 7 (by decide) exampleLib exampleTable createdMigration _ hcreated
      .start).2.2.2.2.2.2.2.1 100 rfl (by decide)).2,
    (unset_times_are_zero 7 (by decide) exampleLib exampleTable createdMigration _ hcreated
      .success).2.2.2.2.2.1 rfl,
    ((unset_times_are_zero 7 (by decide) exampleLib exampleTable _ _
      (Stamped.phase Store.handle migrationStore createdMigration _ 2 hcreated (by decide)
        (by decide)) .success).2.2.2.2.2.2.2.1 100 rfl (by decide)).2⟩

/-- C21 (counterexample): SetPhase from QUIESCE to SUCCESS on the example migration, on
the document store at the instant its clock reads 0: the call returns nil, its op set
sets success-time, end-time and phase-changed-time, to the reading 0, and SuccessTime,
EndTime and PhaseChangedTime of the receiver are the zero time afterwards: the three
times are reported as unset though they were stamped, and PhaseChangedTime, set before
the call, is unset after it. -/
theorem setPhase_at_the_epoch :
    ((exampleMigration.SetPhase exampleTable 2).exec Store.handle epochStore).val.1 = none ∧
    runResults ((exampleMigration.SetPhase exampleTable 2).exec Store.handle epochStore).log
      = [none] ∧
    stampIn "success-time"
      ((exampleMigration.SetPhase exampleTable 2).exec Store.handle epochStore).log = some 0 ∧
    stampIn "end-time"
      ((exampleMigration.SetPhase exampleTable 2).exec Store.handle epochStore).log = some 0 ∧
    stampIn "phase-changed-time"
      ((exampleMigration.SetPhase exampleTable 2).exec Store.handle epochStore).log = some 0 ∧
    ((exampleMigration.SetPhase exampleTable 2).exec Store.handle
      epochStore).val.2.SuccessTime.IsZero = true ∧
    ((exampleMigration.SetPhase exampleTable 2).exec Store.handle
      epochStore).val.2.EndTime.IsZero = true ∧
    ((exampleMigration.SetPhase exampleTable 2).exec Store.handle
      epochStore).val.2.PhaseChangedTime.IsZero = true ∧
    exampleMigration.PhaseChangedTime.IsZero = false := by
  decide

/-! ## C22: an attempt of the source of payload transactions -/

/-- C22: for every implementation of payloadsTransaction and every attempt, the source
newTxnSource makes first calls checkAssertsAndUpdate; when that returns an error, the
attempt returns no ops and that error, traced, and ops is not called; otherwise it
calls ops next, once, and returns exactly the ops this call built, with no error. -/
theorem source_reconciles_then_builds {σ : Type} (o : (c : PtxnCall) → σ → c.Resp × σ)
    (s : σ) (attempt : Nat) :
    (∀ e, (o .checkAssertsAndUpdate s).1 = some e →
      ((newTxnSource attempt).exec o s).val = ([], some (.Trace e)) ∧
      ((newTxnSource attempt).exec o s).calls = [.checkAssertsAndUpdate (some e)] ∧
      ((newTxnSource attempt).exec o s).state = (o .checkAssertsAndUpdate s).2) ∧
    ((o .checkAssertsAndUpdate s).1 = none →
      ((newTxnSource attempt).exec o s).val =
        ((o .ops (o .checkAssertsAndUpdate s).2).1, none) ∧
      ((newTxnSource attempt).exec o s).calls =
        [.checkAssertsAndUpdate none, .ops (o .ops (o .checkAssertsAndUpdate s).2).1] ∧
      ((newTxnSource attempt).exec o s).state =
        (o .ops (o .checkAssertsAndUpdate s).2).2) := by
  constructor
  · intro e he
    simp [newTxnSource, PtxnProg.exec, he, PtxnEvent.of]
  · intro hn
    simp [newTxnSource, PtxnProg.exec, hn, PtxnEvent.of]

/-- C22 (witness): the theorem at an upsertPayloadTxn that holds `exists` true from an
earlier attempt, on a store without payloads: the attempt finds no payload, and the ops
it returns are those built after that, the insert alone. -/
theorem source_reconciles_then_builds_witness :
    (upsertPayloadTxn.impl.onStore .checkAssertsAndUpdate
      (emptyStore, { payload := examplePayload, exist := true })).1 = none ∧
    ((newTxnSource 1).exec upsertPayloadTxn.impl.onStore
      (emptyStore, { payload := examplePayload, exist := true })).val =
        ([{ C := payloadsC, Id := payloadID "wordpress/0" "db", Assert := .DocMissing,
            Insert := some (newPayloadDoc examplePayload) }], none) :=
  ⟨rfl,
    ((source_reconciles_then_builds upsertPayloadTxn.impl.onStore
      (emptyStore, { payload := examplePayload, exist := true }) 1).2 rfl).1.trans rfl⟩

/-! ## C23: a transaction with nothing to do -/

/-- C23 (amended): whatever the behaviour of the store, when checkAssertsAndUpdate of a
transaction returns an error at the first attempt, run makes no call but those of
checkAssertsAndUpdate, so it applies no ops, and returns that error, traced.  For
removePayloadTxn and setPayloadStatusTxn on a payload that is not found, this error is
the not-found error of the payload package under the name of the payload, and no op set
is submitted: run reports the error, not success. -/
theorem reconcile_error_is_returned {σ τ : Type} (T : payloadsTransaction τ)
    (h : (r : Req) → σ → Req.Resp r × σ) (s : σ) (ptxn : τ) (n : Nat)
    (rtxn : removePayloadTxn) (stxn : setPayloadStatusTxn) :
    (∀ e, ((T.checkAssertsAndUpdate ptxn).exec h s).val.1 = some e →
      ((payloadsTransactions.run (n + 1) T ptxn).exec h s).val.1
        = some (.Trace (.Trace e)) ∧
      ((payloadsTransactions.run (n + 1) T ptxn).exec h s).log =
        ((T.checkAssertsAndUpdate ptxn).exec h s).log) ∧
    ((h (.FindId payloadsC (payloadID rtxn.unit rtxn.name)) s).1 = .error .ErrNotFound →
      ((payloadsTransactions.run (n + 1) removePayloadTxn.impl rtxn).exec h s).val.1 =
        some (.Trace (.Trace (.Annotate payload.ErrNotFound ("(" ++ rtxn.name ++ ")")))) ∧
      submitted ((payloadsTransactions.run (n + 1) removePayloadTxn.impl rtxn).exec h s).log
        = []) ∧
    ((h (.FindId payloadsC (payloadID stxn.unit stxn.name)) s).1 = .error .ErrNotFound →
      ((payloadsTransactions.run (n + 1) setPayloadStatusTxn.impl stxn).exec h s).val.1 =
        some (.Trace (.Trace (.Annotate payload.ErrNotFound ("(" ++ stxn.name ++ ")")))) ∧
      submitted ((payloadsTransactions.run (n + 1) setPayloadStatusTxn.impl stxn).exec
        h s).log = []) := by
  refine ⟨fun e he => ?_, fun hgone => ?_, fun hgone => ?_⟩
  · obtain ⟨h1, h2, _⟩ := payloadsTransactions.run_check_error T h s ptxn n e he
    exact ⟨h1, h2⟩
  · obtain ⟨hv, hsub⟩ := removePayloadTxn.check_missing h s rtxn hgone
    obtain ⟨h1, h2, _⟩ :=
      payloadsTransactions.run_check_error removePayloadTxn.impl h s rtxn n _ hv
    refine ⟨h1, ?_⟩
    rw [h2]
    exact hsub
  · obtain ⟨hv, hsub⟩ := setPayloadStatusTxn.check_not_found h s stxn hgone
    obtain ⟨h1, h2, _⟩ :=
      payloadsTransactions.run_check_error setPayloadStatusTxn.impl h s stxn n _ hv
    refine ⟨h1, ?_⟩
    rw [h2]
    exact hsub

/-- C23 (witness): the theorem at the removal of the payload "db" of the unit
"wordpress/0" on a store without payloads, with a runner of three attempts. -/
theorem reconcile_error_is_returned_witness :
    (Store.handle (.FindId payloadsC (payloadID "wordpress/0" "db")) emptyStore).1
      = .error .ErrNotFound ∧
    ((payloadsTransactions.run 3 removePayloadTxn.impl ⟨"wordpress/0", "db"⟩).exec
      Store.handle emptyStore).val.1 =
        some (.Trace (.Trace (.Annotate payload.ErrNotFound "(db)"))) ∧
    submitted ((payloadsTransactions.run 3 removePayloadTxn.impl ⟨"wordpress/0", "db"⟩).exec
      Store.handle emptyStore).log = [] :=
  ⟨rfl,
    (reconcile_error_is_returned removePayloadTxn.impl Store.handle emptyStore
      ⟨"wordpress/0", "db"⟩ 2 ⟨"wordpress/0", "db"⟩ ⟨"wordpress/0", "db", "running"⟩).2.1
      rfl⟩

/-- C23 (counterexample): the payload "db" of the unit "wordpress/0" is already removed;
run on its removePayloadTxn, with a runner of three attempts on the document store,
submits nothing and returns an error, the not-found error under the name of the payload,
not success. -/
theorem remove_of_missing_payload_is_an_error :
    ((payloadsTransactions.run 3 removePayloadTxn.impl ⟨"wordpress/0", "db"⟩).exec
      Store.handle emptyStore).val.1 =
        some (.Trace (.Trace (.Annotate (.NotFoundf "payload" []) "(db)"))) ∧
    ((payloadsTransactions.run 3 removePayloadTxn.impl ⟨"wordpress/0", "db"⟩).exec
      Store.handle emptyStore).val.1 ≠ none ∧
    submitted ((payloadsTransactions.run 3 removePayloadTxn.impl ⟨"wordpress/0", "db"⟩).exec
      Store.handle emptyStore).log = [] := by
  decide

/-! ## C24: Remove -/

/-- C24: whatever the behaviour of the store, Remove on a machine whose life in memory
is not Dead makes no call and returns the error "machine is not dead", in the context
"cannot remove machine"; on a machine that is Dead it submits one op set and nothing
else: the removal of the machine document under the assertion that it exists, the ops
that remove its status and its constraints, made for the global key "m#" and the
machine id, the removal, without assertion, of the document with that key in the
collection of annotations, and the ops on the record of its containers; it returns
success when the op set is applied and also when it is rejected, and the error of the
store in the same context otherwise; the receiver is not changed.  On the document
store, Remove on a Dead machine whose document is gone returns success and changes
nothing, and when the op set is applied, the machine document is gone afterwards if no
other op of the set is on it, and the annotation document is gone afterwards if no op
on the record of the containers is on it. -/
theorem remove_only_from_dead {σ κ : Type} (H : StateOps κ)
    (h : (r : Req) → σ → Req.Resp r × σ) (s : σ) (store : Store) (m : Machine) :
    (m.doc.Life ≠ .Dead →
      ((m.Remove H).exec h s).log = [] ∧
      ((m.Remove H).exec h s).val =
        (some (.ErrorContextf "cannot remove machine %s" [m.doc.Id]
          (.Errorf "machine is not dead" [])), m)) ∧
    (m.doc.Life = .Dead →
      ∃ r, ((m.Remove H).exec h s).log =
          [.Run ([{ C := machinesC, Id := m.doc.Id, Assert := .DocExists, Insert := none,
                    Update := none, Remove := true },
                  H.removeStatusOp ("m#" ++ m.doc.Id),
                  H.removeConstraintsOp ("m#" ++ m.doc.Id),
                  { C := annotationsC, Id := "m#" ++ m.doc.Id, Assert := .nothing,
                    Insert := none, Update := none, Remove := true }]
                ++ H.removeContainerRefOps m.doc.Id) r] ∧
        ((m.Remove H).exec h s).val.2 = m ∧
        ((r = none ∨ r = some .ErrAborted) → ((m.Remove H).exec h s).val.1 = none) ∧
        (∀ e, r = some e → e ≠ .ErrAborted →
          ((m.Remove H).exec h s).val.1 =
            some (.ErrorContextf "cannot remove machine %s" [m.doc.Id] e))) ∧
    (m.doc.Life = .Dead → store.find machinesC m.doc.Id = none →
      ((m.Remove H).exec Store.handle store).val.1 = none ∧
      ((m.Remove H).exec Store.handle store).store = store) ∧
    (m.doc.Life = .Dead → ∀ after, store.applyAtomic (removeOps H m) = some after →
      ((m.Remove H).exec Store.handle store).val.1 = none ∧
      ((m.Remove H).exec Store.handle store).store = after ∧
      ((∀ op ∈ (removeOps H m).tail, ¬ (op.C = machinesC ∧ op.Id = m.doc.Id)) →
        after.find machinesC m.doc.Id = none) ∧
      ((∀ op ∈ H.removeContainerRefOps m.doc.Id,
          ¬ (op.C = annotationsC ∧ op.Id = "m#" ++ m.doc.Id)) →
        after.find annotationsC ("m#" ++ m.doc.Id) = none)) := by
  refine ⟨?_, ?_, ?_, ?_⟩
  · intro hlife
    simp [Machine.Remove, hlife, Prog.exec, ErrorContextf]
  · intro hlife
    refine ⟨(h (.Run (removeOps H m)) s).1, ?_, ?_, ?_, ?_⟩
    · simp [Machine.Remove, hlife, Prog.exec, Event.of, removeOps, annotationRemoveOp,
        Machine.globalKey, machineGlobalKey, Machine.Id]
    · simp [Machine.Remove, hlife, Prog.exec]
    · intro hr
      simp only [Machine.Remove, hlife, ne_eq, not_true_eq_false, if_false, Prog.exec]
      rcases hr with hr | hr <;> rw [hr] <;> simp [onAbort, ErrorContextf]
    · intro e hr hne
      simp only [Machine.Remove, hlife, ne_eq, not_true_eq_false, if_false, Prog.exec]
      rw [hr]
      simp [onAbort, ErrorContextf, hne]
  · intro hlife hgone
    have hrej : store.applyAtomic (removeOps H m) = none :=
      Store.applyAtomic_rejected store _ _ (by simp [Op.check, Assert.holds, hgone])
    simp [Machine.Remove, hlife, Prog.exec, Store.handle, hrej, onAbort, ErrorContextf]
  · intro hlife after happ
    refine ⟨?_, ?_, fun hother => ?_, fun hother => ?_⟩
    · simp [Machine.Remove, hlife, Prog.exec, Store.handle, happ, onAbort, ErrorContextf]
    · simp [Machine.Remove, hlife, Prog.exec, Store.handle, happ]
    · have hcheck := Store.applyAtomic_check happ
        { C := machinesC, Id := m.doc.Id, Assert := .DocExists, Remove := true }
        (by simp [removeOps])
      have hsome : (store.find machinesC m.doc.Id).isSome = true := by
        simpa [Op.check, Assert.holds] using hcheck
      obtain ⟨cur, hcur⟩ := Option.isSome_iff_exists.1 hsome
      rw [Store.applyAtomic_eq happ]
      have htail : removeOps H m =
          { C := machinesC, Id := m.doc.Id, Assert := .DocExists, Remove := true } ::
            (removeOps H m).tail := by
        simp [removeOps]
      rw [htail, List.foldl_cons, foldl_apply_find_other _ _ _ hother]
      simp only [Op.apply, hcur, if_true]
      exact findEntry_removeEntry_same _ _ _
    · rw [Store.applyAtomic_eq happ]
      have hsplit : removeOps H m =
          [{ C := machinesC, Id := m.doc.Id, Assert := .DocExists, Remove := true },
           H.removeStatusOp ("m#" ++ m.doc.Id), H.removeConstraintsOp ("m#" ++ m.doc.Id)]
          ++ ({ C := annotationsC, Id := "m#" ++ m.doc.Id, Remove := true } ::
            H.removeContainerRefOps m.doc.Id) := by
        simp [removeOps, annotationRemoveOp, Machine.globalKey, machineGlobalKey, Machine.Id]
      rw [hsplit, List.foldl_append, List.foldl_cons, foldl_apply_find_other _ _ _ hother]
      exact Op.apply_remove_gone _ _ _

/-- C24 (witness): the theorem at the machine "0", Dead, on a store that holds its
document and its dependent documents: the op set is applied, and the machine document
and the annotation document "m#0", there before, are gone; a second Remove, on the store
the first left, returns success and changes nothing. -/
theorem remove_only_from_dead_witness :
    deadHost.Life = .Dead ∧
    removalStore.find machinesC "0" ≠ none ∧
    removalStore.find annotationsC "m#0" ≠ none ∧
    (((newMachine deadHost).Remove exampleOps).exec Store.handle removalStore).val.1 = none ∧
    (((newMachine deadHost).Remove exampleOps).exec Store.handle removalStore).store.docs
      = [] ∧
    (((newMachine deadHost).Remove exampleOps).exec Store.handle
      (((newMachine deadHost).Remove exampleOps).exec Store.handle removalStore).store).val.1
      = none :=
  ⟨by decide, by decide, by decide, by decide, by decide,
    ((remove_only_from_dead exampleOps Store.handle removalStore
      (((newMachine deadHost).Remove exampleOps).exec Store.handle removalStore).store
      (newMachine deadHost)).2.2.1 (by decide) (by decide)).1⟩

/-! ## C25: SetConstraints -/

/-- C25 (amended): whatever the behaviour of the store, SetConstraints on a machine
that is not Alive or has an instance id in memory makes no call and returns an error;
every op set it submits is the same: the assertion that the persisted machine is Alive
with an empty instance id, and the op that sets the constraints; it submits at most 3
op sets; when three op sets were rejected, each rejection was followed by a refetch, and
it returns ErrExcessiveContention, in the context "cannot set constraints", when the
third refetch succeeded, and the error of that refetch, in the same context, when it
failed; the receiver is not changed.  On the document store, while the persisted
machine is gone or does not meet the assertion (it is not Alive, or it has an instance
id), SetConstraints returns an error and everything persisted is what it was. -/
theorem setConstraints_guarded {σ κ : Type} (H : StateOps κ)
    (h : (r : Req) → σ → Req.Resp r × σ) (s : σ) (store : Store) (m : Machine) (cons : κ) :
    ((m.doc.Life ≠ .Alive ∨ m.doc.InstanceId ≠ "") →
      ((m.SetConstraints H cons).exec h s).log = [] ∧
      ((m.SetConstraints H cons).exec h s).val.1 ≠ none) ∧
    (∀ ops ∈ submitted ((m.SetConstraints H cons).exec h s).log,
      ops = [{ C := machinesC, Id := m.doc.Id,
               Assert := .query (isAliveDoc ++ [.field "instanceid" (.eq (.str ""))]) },
             H.setConstraintsOp m.globalKey cons]) ∧
    (submitted ((m.SetConstraints H cons).exec h s).log).length ≤ 3 ∧
    (runResults ((m.SetConstraints H cons).exec h s).log =
        [some .ErrAborted, some .ErrAborted, some .ErrAborted] →
      (refetches ((m.SetConstraints H cons).exec h s).log).length = 3 ∧
      ((∀ last, (refetches ((m.SetConstraints H cons).exec h s).log).getLast? = some last →
          ∃ copy, last = .ok copy) →
        ((m.SetConstraints H cons).exec h s).val.1 =
          some (.ErrorContextf "cannot set constraints" [] .ErrExcessiveContention)) ∧
      (∀ e, (refetches ((m.SetConstraints H cons).exec h s).log).getLast?
          = some (.error e) →
        ((m.SetConstraints H cons).exec h s).val.1 =
          some (.ErrorContextf "cannot set constraints" [] e))) ∧
    ((m.SetConstraints H cons).exec h s).val.2 = m ∧
    ((∀ d, store.find machinesC m.doc.Id = some d →
        D.holds (isAliveDoc ++ [.field "instanceid" (.eq (.str ""))]) d = false) →
      ((m.SetConstraints H cons).exec Store.handle store).val.1 ≠ none ∧
      ((m.SetConstraints H cons).exec Store.handle store).store = store) := by
  have hshape : ∀ {τ : Type} (g : (r : Req) → τ → Req.Resp r × τ) (u : τ),
      ((m.SetConstraints H cons).exec g u).val =
        (ErrorContextf ((setConstraintsLoop (setConstraintsOps H m cons) 3 m).exec g u).val
          "cannot set constraints" [], m) ∧
      ((m.SetConstraints H cons).exec g u).log =
        ((setConstraintsLoop (setConstraintsOps H m cons) 3 m).exec g u).log ∧
      ((m.SetConstraints H cons).exec g u).store =
        ((setConstraintsLoop (setConstraintsOps H m cons) 3 m).exec g u).store := by
    intro τ g u
    unfold Machine.SetConstraints
    rw [Prog.exec_bind]
    exact ⟨rfl, by simp [Prog.exec], rfl⟩
  have hctx : ∀ r : Option Error, r ≠ none → ErrorContextf r "cannot set constraints" [] ≠ none := by
    intro r hr
    cases r with
    | none => exact absurd rfl hr
    | some e => simp [ErrorContextf]
  have hrun := Prog.always_exec h _ _
    (setConstraintsLoop_runs (setConstraintsOps H m cons) 3 m) s
  rw [(hshape h s).1, (hshape h s).2.1, (hshape Store.handle store).1,
    (hshape Store.handle store).2.2]
  refine ⟨fun hbad => ?_, fun ops hops => ?_, hrun.facts.2.1, fun hres => ?_, rfl,
    fun hrej => ?_⟩
  · obtain ⟨hlog, hr⟩ := hrun.facts.2.2 hbad (by decide)
    exact ⟨hlog, hctx _ hr⟩
  · rw [hrun.facts.1 ops hops]
    rfl
  · obtain ⟨h1, h2, h3⟩ := hrun.all_rejected hres
    refine ⟨h1, fun hlast => ?_, fun e he => ?_⟩
    · show ErrorContextf _ _ _ = _
      rw [h2 hlast]
      rfl
    · show ErrorContextf _ _ _ = _
      rw [h3 e he]
      rfl
  · have happ : store.applyAtomic (setConstraintsOps H m cons) = none := by
      refine Store.applyAtomic_rejected store _ _ ?_
      cases hf : store.find machinesC m.doc.Id with
      | none => simp [Op.check, Assert.holds, hf]
      | some d =>
        have := hrej d hf
        simpa [Op.check, Assert.holds, hf, notProvisioned] using this
    obtain ⟨hv, hs⟩ := setConstraintsLoop_rejected _ store happ 3 m
    exact ⟨hctx _ hv, hs⟩

/-- C25 (witness): the theorem at the machine "0", Alive and not provisioned in memory,
on a store that holds it as provisioned: the op set is rejected, the refetch shows the
instance id, an error is returned and the store is what it was. -/
theorem setConstraints_guarded_witness :
    (((newMachine exampleDoc).SetConstraints exampleOps "mem=4G").exec Store.handle
      (constraintsStore provisionedHost)).val.1 =
        some (.ErrorContextf "cannot set constraints" []
          (.Errorf "machine is already provisioned" [])) ∧
    (((newMachine exampleDoc).SetConstraints exampleOps "mem=4G").exec Store.handle
      (constraintsStore provisionedHost)).store = constraintsStore provisionedHost :=
  ⟨by decide,
    ((setConstraints_guarded exampleOps Store.handle (constraintsStore provisionedHost)
      (constraintsStore provisionedHost) (newMachine exampleDoc) "mem=4G").2.2.2.2.2
      (by decide)).2⟩

/-- C25 (counterexample): the machine "0" is Alive and not provisioned; every op set is
rejected and the machine is gone at the third refetch: three op sets are submitted and
all three are rejected, and SetConstraints returns the error of the refetch, that the
machine is not found, not ErrExcessiveContention. -/
theorem setConstraints_rejected_then_gone :
    runResults (((newMachine exampleDoc).SetConstraints exampleOps "mem=4G").exec
      Store.handleVanishing (0, constraintsStore exampleDoc)).log =
        [some .ErrAborted, some .ErrAborted, some .ErrAborted] ∧
    (((newMachine exampleDoc).SetConstraints exampleOps "mem=4G").exec
      Store.handleVanishing (0, constraintsStore exampleDoc)).val.1 =
        some (.ErrorContextf "cannot set constraints" []
          (.NotFoundf "machine %s" ["0"])) := by
  decide

/-! ## C26: WaitAgentAlive -/

/-- C26: WaitAgentAlive as a function of the events its selects receive.  It receives
at most two events.  It returns nil as soon as a change with Alive true is received,
as the first event or after one change with Alive false; when the timeout fires first,
or after one change with Alive false, it returns the error "still not alive after
timeout"; when the watcher dies first, or after one change with Alive false, it returns
what the watcher gives as its error; the errors come in the context "waiting for agent
of machine".  After two changes with Alive false it panics and returns nothing. -/
theorem waitAgentAlive_two_observations (m : Machine) (rest : List Observed)
    (events : List Observed) (err : Option Error) :
    (m.WaitAgentAlive events).received ≤ 2 ∧
    (m.WaitAgentAlive (.change true :: rest)).outcome = some (.returned none) ∧
    (m.WaitAgentAlive (.change false :: .change true :: rest)).outcome
      = some (.returned none) ∧
    (m.WaitAgentAlive (.timeout :: rest)).outcome =
      some (.returned (some (.ErrorContextf "waiting for agent of machine %v" [m.string]
        (.Errorf "still not alive after timeout" [])))) ∧
    (m.WaitAgentAlive (.change false :: .timeout :: rest)).outcome =
      some (.returned (some (.ErrorContextf "waiting for agent of machine %v" [m.string]
        (.Errorf "still not alive after timeout" [])))) ∧
    (m.WaitAgentAlive (.dead err :: rest)).outcome =
      some (.returned (ErrorContextf err "waiting for agent of machine %v" [m.string])) ∧
    (m.WaitAgentAlive (.change false :: .dead err :: rest)).outcome =
      some (.returned (ErrorContextf err "waiting for agent of machine %v" [m.string])) ∧
    (m.WaitAgentAlive (.change false :: .change false :: rest)).outcome =
      some (.panicked (.Errorf "presence reported dead status twice in a row for machine %v"
        [m.string])) ∧
    (m.WaitAgentAlive (.change false :: .change false :: rest)).received = 2 ∧
    (m.WaitAgentAlive []).outcome = none ∧
    (m.WaitAgentAlive [.change false]).outcome = none := by
  refine ⟨?_, rfl, rfl, rfl, rfl, rfl, rfl, rfl, rfl, rfl, rfl⟩
  have hloop : ∀ (n : Nat) (l : List Observed), (waitLoop m n l).received ≤ n := by
    intro n
    induction n with
    | zero => intro l; simp [waitLoop]
    | succ n ih =>
      intro l
      cases l with
      | nil => simp [waitLoop]
      | cons e l =>
        cases e with
        | change alive =>
          cases alive with
          | true => simp [waitLoop]
          | false =>
            simp only [waitLoop, Bool.false_eq_true, if_false]
            exact Nat.succ_le_succ (ih l)
        | timeout => simp [waitLoop]
        | dead err => simp [waitLoop]
  exact hloop 2 events

/-! ## C27: two calls of advanceLifecycle at once -/

/-- C27: two calls of advanceLifecycle(Dying) run at once on the document store, each
call of theirs answered as a whole and in whatever order the schedule gives, on two
handles that show the machine Alive with no manager job and no principals, while the
store holds it so and records no containers.  Both return success and both receivers
end at least Dying; exactly one has its op set applied, at its only submission and with
no refetch; the other has its first submission rejected, refetches the machine once,
finds its life at least Dying and submits nothing more; the machine is Dying in the
store. -/
theorem two_calls_one_write (id : String) (a b : Machine) (ha : freeHandle id a)
    (hb : freeHandle id b) (s : Store) (hs : freeStore id s) (sched : List Bool) :
    (Prog.par Store.handle sched (a.advanceLifecycle .Dying)
      (b.advanceLifecycle .Dying) s).left.1 = .returned none ∧
    (Prog.par Store.handle sched (a.advanceLifecycle .Dying)
      (b.advanceLifecycle .Dying) s).right.1 = .returned none ∧
    Life.Dying ≤ (Prog.par Store.handle sched (a.advanceLifecycle .Dying)
      (b.advanceLifecycle .Dying) s).left.2.doc.Life ∧
    Life.Dying ≤ (Prog.par Store.handle sched (a.advanceLifecycle .Dying)
      (b.advanceLifecycle .Dying) s).right.2.doc.Life ∧
    ((runResults (Prog.par Store.handle sched (a.advanceLifecycle .Dying)
          (b.advanceLifecycle .Dying) s).leftLog = [none] ∧
        refetches (Prog.par Store.handle sched (a.advanceLifecycle .Dying)
          (b.advanceLifecycle .Dying) s).leftLog = [] ∧
        runResults (Prog.par Store.handle sched (a.advanceLifecycle .Dying)
          (b.advanceLifecycle .Dying) s).rightLog = [some .ErrAborted] ∧
        ∃ copy, refetches (Prog.par Store.handle sched (a.advanceLifecycle .Dying)
          (b.advanceLifecycle .Dying) s).rightLog = [.ok copy] ∧
          Life.Dying ≤ copy.doc.Life) ∨
      (runResults (Prog.par Store.handle sched (a.advanceLifecycle .Dying)
          (b.advanceLifecycle .Dying) s).rightLog = [none] ∧
        refetches (Prog.par Store.handle sched (a.advanceLifecycle .Dying)
          (b.advanceLifecycle .Dying) s).rightLog = [] ∧
        runResults (Prog.par Store.handle sched (a.advanceLifecycle .Dying)
          (b.advanceLifecycle .Dying) s).leftLog = [some .ErrAborted] ∧
        ∃ copy, refetches (Prog.par Store.handle sched (a.advanceLifecycle .Dying)
          (b.advanceLifecycle .Dying) s).leftLog = [.ok copy] ∧
          Life.Dying ≤ copy.doc.Life)) ∧
    (∃ pd, (Prog.par Store.handle sched (a.advanceLifecycle .Dying)
        (b.advanceLifecycle .Dying) s).store.find machinesC id = some pd ∧
      pd.get "life" = some (.int Life.Dying.toInt)) := by
  obtain ⟨hl, hr, hone, hstore⟩ := par_both_at_start id a b ha hb s hs sched
  have hd : ∀ m : Machine, Life.Dying ≤ m.dying.doc.Life := fun _ => by
    show Life.Dying ≤ Life.Dying
    decide
  refine ⟨by rw [hl], by rw [hr], by rw [hl]; exact hd a, by rw [hr]; exact hd b, ?_,
    hstore.2⟩
  rcases hone with ⟨h1, h2, h3, copy, h4, h5⟩ | ⟨h1, h2, h3, copy, h4, h5⟩
  · exact Or.inl ⟨h1, h2, h3, copy, h4, by rw [h5]; decide⟩
  · exact Or.inr ⟨h1, h2, h3, copy, h4, by rw [h5]; decide⟩

/-- C27 (witness): the theorem at two handles on the machine "0", Alive and free to
die, on a store that holds it so, under a schedule in which the right call reads the
containers first and the left call submits first. -/
theorem two_calls_one_write_witness :
    freeHandle "0" (newMachine exampleDoc) ∧ freeStore "0" (exampleStore exampleDoc []) ∧
    runResults (Prog.par Store.handle [false, true, true]
      ((newMachine exampleDoc).advanceLifecycle .Dying)
      ((newMachine exampleDoc).advanceLifecycle .Dying)
      (exampleStore exampleDoc [])).leftLog = [none] ∧
    (Prog.par Store.handle [false, true, true]
      ((newMachine exampleDoc).advanceLifecycle .Dying)
      ((newMachine exampleDoc).advanceLifecycle .Dying)
      (exampleStore exampleDoc [])).right.1 = .returned none :=
  have ha : freeHandle "0" (newMachine exampleDoc) := ⟨rfl, rfl, by decide, rfl⟩
  have hs : freeStore "0" (exampleStore exampleDoc []) :=
    ⟨⟨(machineContainers.mk "0" []).toDoc, by decide, by decide⟩,
      exampleDoc.toDoc, by decide, by decide⟩
  ⟨ha, hs, by decide,
    (two_calls_one_write "0" (newMachine exampleDoc) (newMachine exampleDoc) ha ha
      (exampleStore exampleDoc []) hs [false, true, true]).2.1⟩

/-! ## C28: what advanceLifecycle changes in the receiver -/

/-- C28: whatever the behaviour of the store, when advanceLifecycle returns an error
the receiver is after the call what it was before, and when it returns success the
receiver differs from what it was at most in the field Life of its document: nothing
of the copies fetched in the retries is written into it. -/
theorem advance_sets_only_life {σ : Type} (h : (r : Req) → σ → Req.Resp r × σ) (s : σ)
    (original : Machine) (life : Life) :
    (∀ e, ((original.advanceLifecycle life).exec h s).val.1 = .returned (some e) →
      ((original.advanceLifecycle life).exec h s).val.2 = original) ∧
    (((original.advanceLifecycle life).exec h s).val.1 = .returned none →
      ((original.advanceLifecycle life).exec h s).val.2 =
        { original with doc := { original.doc with
            Life := ((original.advanceLifecycle life).exec h s).val.2.doc.Life } }) := by
  have hrun := Prog.always_exec h _ _ (advanceLifecycle_runs original life) s
  generalize ((original.advanceLifecycle life).exec h s).log = log at hrun
  generalize ((original.advanceLifecycle life).exec h s).val = val at hrun
  cases hrun with
  | readFailed err => exact ⟨fun _ _ => rfl, fun hh => by simp at hh⟩
  | hosting mc _ => exact ⟨fun _ _ => rfl, fun hh => by simp at hh⟩
  | looped mc rest x _ hloop =>
    constructor
    · intro e he
      have hx : x.err = some e := by
        unfold Exit.outcome at he
        cases hp : x.panicking with
        | some v => rw [hp] at he; simp at he
        | none => rw [hp] at he; simpa using he
      simp [advanceDeferred, hx]
    · intro hok
      have hx : x.err = none := by
        unfold Exit.outcome at hok
        cases hp : x.panicking with
        | some v => rw [hp] at hok; simp at hok
        | none => rw [hp] at hok; simpa using hok
      simp [advanceDeferred, hx]

/-- C28 (witness): the theorem at the machine "0" with two units assigned, which
Destroy refuses, and at the same machine without units, which Destroy moves to Dying
with nothing else changed. -/
theorem advance_sets_only_life_witness :
    (((newMachine hostWithUnits).advanceLifecycle .Dying).exec Store.handle
      (exampleStore hostWithUnits [])).val.2 = newMachine hostWithUnits ∧
    (((newMachine exampleDoc).advanceLifecycle .Dying).exec Store.handle
      (exampleStore exampleDoc [])).val.2 =
        { newMachine exampleDoc with doc := { exampleDoc with Life := .Dying } } :=
  ⟨(advance_sets_only_life Store.handle (exampleStore hostWithUnits [])
      (newMachine hostWithUnits) .Dying).1
      (.HasAssignedUnitsError "0" ["wordpress/0", "mysql/0"]) (by decide),
    (advance_sets_only_life Store.handle (exampleStore exampleDoc [])
      (newMachine exampleDoc) .Dying).2 (by decide)⟩

/-! ## C29: the life of the receiver after a success -/

/-- C29: whatever the behaviour of the store, when advanceLifecycle returns success the
life of the receiver is Dead if the last refetch found the machine gone, and otherwise
the greater of the target and the life of the last copy examined (the receiver itself
when there was no refetch); so it is at least the target and at least the life the
receiver had before the call. -/
theorem advance_success_life {σ : Type} (h : (r : Req) → σ → Req.Resp r × σ) (s : σ)
    (original : Machine) (life : Life)
    (hok : ((original.advanceLifecycle life).exec h s).val.1 = .returned none) :
    ((original.advanceLifecycle life).exec h s).val.2.doc.Life =
      (match lastExamined original ((original.advanceLifecycle life).exec h s).log with
        | none => Life.Dead
        | some m => if m.doc.Life > life then m.doc.Life else life) ∧
    life ≤ ((original.advanceLifecycle life).exec h s).val.2.doc.Life ∧
    original.doc.Life ≤ ((original.advanceLifecycle life).exec h s).val.2.doc.Life := by
  have hrun := Prog.always_exec h _ _ (advanceLifecycle_runs original life) s
  generalize ((original.advanceLifecycle life).exec h s).log = log at hrun
  generalize ((original.advanceLifecycle life).exec h s).val = val at hrun hok
  cases hrun with
  | readFailed err => simp at hok
  | hosting mc _ => simp at hok
  | looped mc rest x _ hloop =>
    have hx : x.err = none := by
      unfold Exit.outcome at hok
      cases hp : x.panicking with
      | some v => rw [hp] at hok; simp at hok
      | none => rw [hp] at hok; simpa using hok
    have hm : lastExamined original
        (Event.FindId containerRefsC original.doc.Id (.ok mc) :: rest) = x.m := by
      rw [hloop.exit_m]
      rfl
    rw [hm]
    have hfirst := hloop.exit_m_first
    have hval : (advanceDeferred original life x).doc.Life =
        (match x.m with
          | none => Life.Dead
          | some m => if m.doc.Life > life then m.doc.Life else life) := by
      simp [advanceDeferred, hx]
    show (advanceDeferred original life x).doc.Life = _ ∧
      life ≤ (advanceDeferred original life x).doc.Life ∧
      original.doc.Life ≤ (advanceDeferred original life x).doc.Life
    rw [hval]
    refine ⟨rfl, ?_, ?_⟩
    · cases hxm : x.m with
      | none =>
        show life ≤ Life.Dead
        cases life <;> decide
      | some cur =>
        show life ≤ (if cur.doc.Life > life then cur.doc.Life else life)
        cases cur.doc.Life <;> cases life <;> decide
    · cases hxm : x.m with
      | none =>
        show original.doc.Life ≤ Life.Dead
        cases original.doc.Life <;> decide
      | some cur =>
        show original.doc.Life ≤ (if cur.doc.Life > life then cur.doc.Life else life)
        rcases hfirst with hsame | hlt
        · rw [hxm] at hsame
          cases hsame
          cases original.doc.Life <;> cases life <;> decide
        · revert hlt
          cases original.doc.Life <;> cases cur.doc.Life <;> cases life <;> decide

/-- C29 (witness): the theorem at the machine "0", Alive in memory, asked to be Dying
while the store, which rejects every op set, holds it as Dead: the refetch shows Dead
and the receiver ends Dead. -/
theorem advance_success_life_witness :
    (((newMachine exampleDoc).advanceLifecycle .Dying).exec Store.handleContended
      (exampleStore deadHost [])).val.1 = .returned none ∧
    (((newMachine exampleDoc).advanceLifecycle .Dying).exec Store.handleContended
      (exampleStore deadHost [])).val.2.doc.Life = .Dead :=
  ⟨by decide,
    ((advance_success_life Store.handleContended (exampleStore deadHost [])
      (newMachine exampleDoc) .Dying (by decide)).1).trans (by decide)⟩

/-! ## C30: the HasAssignedUnitsError of advanceLifecycle -/

/-- C30: whatever the behaviour of the store, a HasAssignedUnitsError that
advanceLifecycle returns, and that is not an error the store answered, has a list of
unit names that is not empty: it names the machine id and the principals of the last
copy examined.  So Error() on it does not index out of range, and its message is made
of the machine id and the first unit name. -/
theorem assigned_units_error_has_a_unit {σ : Type} (h : (r : Req) → σ → Req.Resp r × σ)
    (s : σ) (original : Machine) (life : Life) (id : String) (units : List String)
    (herr : ((original.advanceLifecycle life).exec h s).val.1 =
      .returned (some (.HasAssignedUnitsError id units)))
    (hown : ∀ e ∈ answeredErrors ((original.advanceLifecycle life).exec h s).log,
      IsHasAssignedUnitsError (some e) = false) :
    units ≠ [] ∧
    (∃ cur, lastExamined original ((original.advanceLifecycle life).exec h s).log = some cur ∧
      id = cur.doc.Id ∧ units = cur.doc.Principals) ∧
    (∃ first, units.head? = some first ∧
      HasAssignedUnitsError.error id units =
        some ("machine %s has unit %q assigned", [id, first])) := by
  have hrun := Prog.always_exec h _ _ (advanceLifecycle_runs original life) s
  generalize ((original.advanceLifecycle life).exec h s).log = log at hrun hown
  generalize ((original.advanceLifecycle life).exec h s).val = val at hrun herr
  have key : units ≠ [] ∧ ∃ cur, lastExamined original log = some cur ∧
      id = cur.doc.Id ∧ units = cur.doc.Principals := by
    cases hrun with
    | readFailed err =>
      have hmem := hown err (by simp [answeredErrors])
      by_cases hnf : err = .ErrNotFound
      · simp [hnf] at herr
      · simp only [hnf, if_false, Outcome.returned.injEq, Option.some.injEq] at herr
        subst herr
        simp [IsHasAssignedUnitsError] at hmem
    | hosting mc _ => simp at herr
    | looped mc rest x _ hloop =>
      have hx : x.err = some (.HasAssignedUnitsError id units) := by
        unfold Exit.outcome at herr
        cases hp : x.panicking with
        | some v => rw [hp] at herr; simp at herr
        | none => rw [hp] at herr; simpa using herr
      rcases hloop.assigned_units id units hx with ⟨hne, cur, hcur, hid, hunits⟩ | hmem
      · refine ⟨hne, cur, ?_, hid, hunits⟩
        rw [← hcur, hloop.exit_m]
        rfl
      · have := hown _ (by simpa [answeredErrors] using hmem)
        simp [IsHasAssignedUnitsError] at this
  refine ⟨key.1, key.2, ?_⟩
  cases units with
  | nil => exact absurd rfl key.1
  | cons first rest => exact ⟨first, rfl, rfl⟩

/-- C30 (witness): the theorem at the machine "0" with the units "wordpress/0" and
"mysql/0" assigned: Destroy returns the error that names both, and its message names
the machine "0" and the unit "wordpress/0". -/
theorem assigned_units_error_has_a_unit_witness :
    (((newMachine hostWithUnits).advanceLifecycle .Dying).exec Store.handle
      (exampleStore hostWithUnits [])).val.1 =
        .returned (some (.HasAssignedUnitsError "0" ["wordpress/0", "mysql/0"])) ∧
    HasAssignedUnitsError.error "0" ["wordpress/0", "mysql/0"] =
      some ("machine %s has unit %q assigned", ["0", "wordpress/0"]) ∧
    ["wordpress/0", "mysql/0"] ≠ ([] : List String) :=
  ⟨by decide, by decide,
    (assigned_units_error_has_a_unit Store.handle (exampleStore hostWithUnits [])
      (newMachine hostWithUnits) .Dying "0" ["wordpress/0", "mysql/0"] (by decide)
      (by decide)).1⟩

end Juju
